import Mathlib

/-!
LibreCAL coefficient transfer (`caldevice.cpp`)

A shallow embedding of `CalDevice` from
`Software/PC_Application/LibreVNA-GUI/Calibration/LibreCAL/caldevice.cpp`
and the properties of it that the specification states.

Conventions of the embedding:

* C++ `int` values are mathematical integers (`Int`): the port count of a LibreCAL is tiny and
  every `int` computed from a port count `N` is bounded by `N * (N - 1) / 2`.  The two
  `unsigned long` counters of the progress computation wrap modulo `2 ^ 64`.
* `double` is an abstract type `D`; Qt's numeric conversions are the fields of `QtNumeric D`.
  Where an example needs the text of a number, `D` is the type of the rational numbers and
  `QString::number(double)` and `QString::toDouble()` follow Qt's documentation (`qtDoubles`).
* `QString` is `String`; the Qt string functions used by the code are defined in `QString`.
* The USB channel (`USBDevice`) is an arbitrary deterministic state machine over a state `σ`.
* `Coefficient*` is an address into a heap of coefficients, because the code shares pointers.
* A worker thread is run to its end as one sequential computation; the write of
  `abortLoading = true` by the other thread lands before one of the worker's reads of the flag.
-/

/-! ## Qt strings -/

namespace QString

/-- `QString::startsWith`. -/
def startsWith (s p : String) : Bool := p.data.isPrefixOf s.data

/-- `QString::endsWith`. -/
def endsWith (s p : String) : Bool := p.data.isSuffixOf s.data

/-- The tokens of `cs` between occurrences of `sep`; `cur` is the token being read, reversed. -/
def splitAux (sep : Char) : List Char → List Char → List (List Char)
  | [], cur => [cur.reverse]
  | c :: cs, cur =>
    if c = sep then cur.reverse :: splitAux sep cs [] else splitAux sep cs (c :: cur)

/-- `QString::split(sep)` for a one-character separator (empty parts are kept, so the result
is never empty). -/
def split (s : String) (sep : Char) : List String :=
  (splitAux sep s.data []).map String.mk

/-- `QString::number(int)`. -/
def number (i : Int) : String := toString i

/-! ### Numbers as text

`QString::number(double)` and `QString::toDouble()` as Qt documents them. A `double` is taken as
the rational number that it stands for; the binary rounding of the machine number, a relative
error of `2 ^ (-53)`, is left out. -/

/-- The number of decimal digits of `n`. -/
def numDigits (n : Nat) : Nat := (toString n).length

/-- The quotient `p / q` rounded to the nearest whole number, a tie to the even one. -/
def roundHalfEven (p q : Nat) : Nat :=
  if 2 * (p % q) > q ∨ (2 * (p % q) = q ∧ (p / q) % 2 = 1) then p / q + 1 else p / q

/-- Whether `10 ^ e ≤ n / d`. -/
def atLeastPow10 (n d : Nat) (e : Int) : Bool :=
  if 0 ≤ e then decide (d * 10 ^ e.toNat ≤ n) else decide (d ≤ n * 10 ^ (-e).toNat)

/-- The decimal exponent of the positive number `n / d`: the `e` with
`10 ^ e ≤ n / d < 10 ^ (e + 1)`. -/
def decimalExponent (n d : Nat) : Int :=
  if atLeastPow10 n d ((numDigits n : Int) - (numDigits d : Int)) then
    (numDigits n : Int) - (numDigits d : Int)
  else (numDigits n : Int) - (numDigits d : Int) - 1

/-- The first six significant digits of `n / d`, whose decimal exponent is `e`, as a whole
number: `n / d * 10 ^ (5 - e)`, rounded. -/
def mantissa (n d : Nat) (e : Int) : Nat :=
  if 0 ≤ 5 - e then roundHalfEven (n * 10 ^ (5 - e).toNat) d
  else roundHalfEven n (d * 10 ^ (e - 5).toNat)

/-- The digits `ds` without the zeros at their end. -/
def stripZeros (ds : List Char) : List Char :=
  (ds.reverse.dropWhile (fun c => c == '0')).reverse

/-- The decimal point and the digits `ds` after it, without the zeros at their end; nothing
when no digit is left. -/
def fraction (ds : List Char) : String :=
  if stripZeros ds = [] then "" else "." ++ String.mk (stripZeros ds)

/-- The format `g` of `printf` with the precision 6 for the number `m * 10 ^ (e - 5)`, where
`m` has six digits: scientific notation with an exponent of at least two digits when `e < -4`
or `6 ≤ e`, fixed notation otherwise; the zeros at the end of the fraction are left out. -/
def formatG (m : Nat) (e : Int) : String :=
  if e < -4 ∨ 6 ≤ e then
    String.mk ((toString m).data.take 1) ++ fraction ((toString m).data.drop 1) ++ "e"
      ++ (if e < 0 then "-" else "+")
      ++ (if e.natAbs < 10 then "0" else "") ++ toString e.natAbs
  else if 0 ≤ e then
    String.mk ((toString m).data.take (e.toNat + 1))
      ++ fraction ((toString m).data.drop (e.toNat + 1))
  else
    "0." ++ String.mk (List.replicate ((-e).toNat - 1) '0')
      ++ String.mk (stripZeros (toString m).data)

/-- `QString::number(double n, char format = 'g', int precision = 6)`: the text of `n` with at
most six significant digits. -/
def numberDouble (x : ℚ) : String :=
  if x = 0 then "0"
  else
    (if x.num < 0 then "-" else "") ++
      (if mantissa x.num.natAbs x.den (decimalExponent x.num.natAbs x.den) = 1000000 then
        formatG 100000 (decimalExponent x.num.natAbs x.den + 1)
      else
        formatG (mantissa x.num.natAbs x.den (decimalExponent x.num.natAbs x.den))
          (decimalExponent x.num.natAbs x.den))

/-- The value of the decimal digits `cs`. -/
def digitsValue (cs : List Char) : Nat := cs.foldl (fun acc c => acc * 10 + (c.toNat - 48)) 0

/-- The text `cs` without a sign in front. -/
def unsigned (cs : List Char) : List Char :=
  if cs.head? = some '-' ∨ cs.head? = some '+' then cs.tail else cs

/-- The value of a decimal number without sign: the digits `ip` before the decimal point, the
digits `fp` after it, and the exponent `ex` (empty when there is none). -/
def decimalOf (ip fp ex : List Char) : ℚ :=
  if ex.head? = some '-' then
    mkRat (digitsValue (ip ++ fp)) (10 ^ (fp.length + digitsValue (unsigned ex)))
  else mkRat (digitsValue (ip ++ fp) * 10 ^ digitsValue (unsigned ex)) (10 ^ fp.length)

/-- Whether the parts of a text form a decimal number: digits before and after the point, at
least one of them, and either no exponent part `rest` or the letter `e` with a whole number. -/
def isDecimal (ip fp rest : List Char) : Bool :=
  ip.all Char.isDigit && fp.all Char.isDigit && !(ip ++ fp).isEmpty &&
    (rest.isEmpty ||
      ((unsigned rest.tail).all Char.isDigit && !(unsigned rest.tail).isEmpty))

/-- The value of the text `body` of a decimal number without sign, `0` when it is no number. -/
def unsignedValue (body : List Char) : ℚ :=
  if isDecimal
      ((body.takeWhile (fun c => c != 'e' && c != 'E')).takeWhile (fun c => c != '.'))
      (((body.takeWhile (fun c => c != 'e' && c != 'E')).dropWhile (fun c => c != '.')).tail)
      (body.dropWhile (fun c => c != 'e' && c != 'E')) then
    decimalOf
      ((body.takeWhile (fun c => c != 'e' && c != 'E')).takeWhile (fun c => c != '.'))
      (((body.takeWhile (fun c => c != 'e' && c != 'E')).dropWhile (fun c => c != '.')).tail)
      ((body.dropWhile (fun c => c != 'e' && c != 'E')).tail)
  else 0

/-- `QString::toDouble()`: the value of a decimal number with an optional sign, fraction and
exponent, white space around it ignored; `0` for any other text, as a failed conversion
gives. -/
def toDouble (s : String) : ℚ :=
  if s.trim.data.head? = some '-' then -unsignedValue s.trim.data.tail
  else unsignedValue (unsigned s.trim.data)

end QString

/-- The numeric conversions of Qt and the `double` operations that the transfer code applies;
`D` stands for `double`. -/
structure QtNumeric (D : Type) where
  /-- `QString::toInt()` -/
  toInt : String → Int
  /-- `QString::toDouble()` -/
  toDouble : String → D
  /-- `x * 1e9` -/
  timesGiga : D → D
  /-- `x / 1000000000.0` -/
  overGiga : D → D
  /-- `QString::number(double)` -/
  numberDouble : D → String

/-! ## Touchstone data -/

namespace Touchstone

/-- Modelled from the spec: a frequency sample of `Touchstone` (its source is not part of the
sources at hand): a frequency and a parameter vector of complex values, each a pair
(real, imaginary). -/
structure Datapoint (D : Type) where
  frequency : D
  S : List (D × D)
deriving DecidableEq, Repr

end Touchstone

/-- Modelled from the spec: the class `Touchstone` (the spec's ComplexFrequencyResponse; its
source is not part of the sources at hand): the samples of an n-port, kept as inserted, and a
file name. -/
structure Touchstone (D : Type) where
  ports : Nat
  datapoints : List (Touchstone.Datapoint D)
  filename : String
deriving DecidableEq, Repr

namespace Touchstone

variable {D : Type}

/-- Modelled from the spec: the constructor `Touchstone(ports)`, which is absent from the
sources. An empty response. -/
def new (ports : Nat) : Touchstone D := { ports := ports, datapoints := [], filename := "" }

/-- Modelled from the spec: `Touchstone::AddDatapoint`, which is absent from the sources. All
samples of one response have the same parameter-vector length, 1 for a one-port and 4 for a
two-port, so a sample of another length is refused (`none`: the C++ call throws); any other
sample is appended. -/
def AddDatapoint (t : Touchstone D) (p : Datapoint D) : Option (Touchstone D) :=
  if p.S.length = t.ports * t.ports then some { t with datapoints := t.datapoints ++ [p] }
  else none

/-- Modelled from the spec: `Touchstone::points`, the number of samples. -/
def points (t : Touchstone D) : Nat := t.datapoints.length

/-- Modelled from the spec: `Touchstone::setFilename`. -/
def setFilename (t : Touchstone D) (name : String) : Touchstone D := { t with filename := name }

end Touchstone

/-! ## The state of a `CalDevice` and of its channel -/

/-- A `Coefficient*`: the address of a coefficient on the heap. -/
abbrev Ptr := Nat

/-- Modelled from the spec: `CalDevice::CoefficientSet::Coefficient` (declared in the header,
which is absent from the sources): a response and its dirty flag. -/
structure CalDevice.CoefficientSet.Coefficient (D : Type) where
  t : Touchstone D
  modified : Bool
deriving DecidableEq, Repr

/-- Modelled from the spec: `CalDevice::CoefficientSet` (declared in the header, which is absent
from the sources): a name, a port count and four vectors of `Coefficient*`. -/
structure CalDevice.CoefficientSet where
  name : String
  ports : Int
  opens : List Ptr
  shorts : List Ptr
  loads : List Ptr
  throughs : List Ptr
deriving DecidableEq, Repr

/-- One operation on the USB channel. -/
inductive ChannelOp where
  | query (cmd : String)
  | cmd (cmd : String)
  | send (cmd : String)
  | receive
deriving DecidableEq, Repr

/-- A Qt signal emitted by `CalDevice`. -/
inductive Signal where
  | updateCoefficientsDone (success : Bool)
  | updateCoefficientsPercent (percent : Int)
deriving DecidableEq, Repr

/-- The class `USBDevice` (absent from the sources), taken as a parameter: a deterministic
state machine over `σ`. `Query` sends a command and returns the response line, `Cmd` sends a
command and returns whether it was acknowledged, `send` only sends, and `receive` returns the
next line or `none` when the timeout expires. -/
structure USBDevice (σ : Type) where
  Query : String → σ → String × σ
  Cmd : String → σ → Bool × σ
  send : String → σ → σ
  receive : σ → Option String × σ

/-- The members of `CalDevice` that the coefficient transfer uses, together with what the
properties observe: the state of the channel, the operations issued on it (oldest first), the
signals emitted (oldest first), the heap of `Coefficient` objects, and `abortRequest`: the
number of reads of `abortLoading` that the worker still performs before the write
`abortLoading = true` of `abortCoefficientLoading` lands (`none`: no abort is requested). -/
structure CalDevice (σ D : Type) where
  usb : σ
  numPorts : Int
  coeffSets : List CalDevice.CoefficientSet
  abortLoading : Bool
  heap : List (CalDevice.CoefficientSet.Coefficient D)
  io : List ChannelOp
  signals : List Signal
  abortRequest : Option Nat

namespace CalDevice

open QString

variable {σ D : Type}

/-! ## Outcomes and the worker computation -/

/-- What stops a thread in the middle of its code. -/
inductive Fault where
  /-- integer division by zero -/
  | divisionByZero
  /-- an exception that nothing catches -/
  | uncaughtException
  /-- `std::vector::operator[]` outside the vector -/
  | outOfBounds
  /-- access through a null pointer or through an address that holds no object -/
  | badPointer
deriving DecidableEq, Repr

/-- How a thread function ends other than by reaching its last statement. -/
inductive Exit where
  /-- a `return;` statement -/
  | returned
  /-- a fault -/
  | crashed (f : Fault)
  /-- a `while(true)` loop of the embedding was cut off by its step bound -/
  | diverged
deriving DecidableEq, Repr

/-- The result of running a piece of code: a value and the state after it, or the state at which
the thread function was left. -/
inductive Res (σ D α : Type) where
  | ok (a : α) (w : CalDevice σ D)
  | exit (e : Exit) (w : CalDevice σ D)

/-- The state in which a run ended. -/
def Res.state {α : Type} : Res σ D α → CalDevice σ D
  | .ok _ w => w
  | .exit _ w => w

/-- The way a run ended: `none` when it reached the end of the code. -/
def Res.exit? {α : Type} : Res σ D α → Option Exit
  | .ok _ _ => none
  | .exit e _ => some e

/-- The value that a run returned, when it reached the end of the code. -/
def Res.value? {α : Type} : Res σ D α → Option α
  | .ok a _ => some a
  | .exit _ _ => none

/-- Code that runs on a `CalDevice`. -/
def M (σ D α : Type) : Type := CalDevice σ D → Res σ D α

/-- Sequencing. -/
def M.bind {α β : Type} (m : M σ D α) (f : α → M σ D β) : M σ D β := fun w =>
  match m w with
  | .ok a w1 => f a w1
  | .exit e w1 => .exit e w1

/-- A value. -/
def M.pure {α : Type} (a : α) : M σ D α := fun w => .ok a w

instance : Monad (M σ D) where
  pure := M.pure
  bind := M.bind

/-- Leave the thread function. -/
def leave {α : Type} (e : Exit) : M σ D α := fun w => .exit e w

/-- The statement `emit s`. -/
def emit (s : Signal) : M σ D Unit := fun w => .ok () { w with signals := w.signals ++ [s] }

/-- The call `usb->Query(cmd)`. -/
def Query (dev : USBDevice σ) (cmd : String) : M σ D String := fun w =>
  .ok (dev.Query cmd w.usb).1 { w with usb := (dev.Query cmd w.usb).2, io := w.io ++ [.query cmd] }

/-- The call `usb->Cmd(cmd)`. -/
def Cmd (dev : USBDevice σ) (cmd : String) : M σ D Bool := fun w =>
  .ok (dev.Cmd cmd w.usb).1 { w with usb := (dev.Cmd cmd w.usb).2, io := w.io ++ [.cmd cmd] }

/-- The call `usb->send(cmd)`. -/
def send (dev : USBDevice σ) (cmd : String) : M σ D Unit := fun w =>
  .ok () { w with usb := dev.send cmd w.usb, io := w.io ++ [.send cmd] }

/-- The call `usb->receive(&line, 100)`. -/
def receive (dev : USBDevice σ) : M σ D (Option String) := fun w =>
  .ok (dev.receive w.usb).1 { w with usb := (dev.receive w.usb).2, io := w.io ++ [.receive] }

/-- A read of the member `abortLoading` by the worker. -/
def readAbortLoading : M σ D Bool := fun w =>
  if w.abortLoading then .ok true w
  else match w.abortRequest with
    | none => .ok false w
    | some 0 => .ok true { w with abortLoading := true }
    | some (k + 1) => .ok false { w with abortRequest := some k }

/-- A read of the member `numPorts`. -/
def readNumPorts : M σ D Int := fun w => .ok w.numPorts w

/-- The expression `new CoefficientSet::Coefficient(...)`: the object is placed at the next
free address. -/
def alloc (c : CoefficientSet.Coefficient D) : M σ D Ptr := fun w =>
  .ok w.heap.length { w with heap := w.heap ++ [c] }

/-- The statement `coeffSets.push_back(set)`. -/
def pushCoeffSet (set : CoefficientSet) : M σ D Unit := fun w =>
  .ok () { w with coeffSets := w.coeffSets ++ [set] }

/-- The integers `lo, lo + 1, ..., hi`: the values of `i` in `for(int i=lo;i<=hi;i++)`. -/
def intRange (lo hi : Int) : List Int :=
  (List.range (hi + 1 - lo).toNat).map (fun (k : Nat) => lo + (k : Int))

/-- The value of an `unsigned long` after `x += n` for an `int` n. -/
def addULong (x : Nat) (n : Int) : Nat := (((x : Int) + n) % 2 ^ 64).toNat

/-- The conversion of an `unsigned long` to `int`. -/
def toInt32 (x : Nat) : Int :=
  if x % 2 ^ 32 < 2 ^ 31 then ((x % 2 ^ 32 : Nat) : Int) else ((x % 2 ^ 32 : Nat) : Int) - 2 ^ 32

/-! ## `CoefficientSet::getThrough` -/

/-- The loop `while(port1 > 1) { index += ports - port1 + 1; port1--; }` of
`CoefficientSet::getThrough`; the result is the final value of `index`. -/
def getThroughLoop (ports : Int) (port1 index : Int) : Int :=
  if port1 > 1 then getThroughLoop ports (port1 - 1) (index + (ports - port1 + 1)) else index
termination_by (port1 - 1).toNat
decreasing_by omega

/-- The index into `throughs` that `CoefficientSet::getThrough(port1, port2)` computes, for a
set with `ports` ports: `none` when the guard
`port1 > ports || port2 > ports || port1 >= port2` returns `nullptr`. -/
def getThroughIndex (ports : Int) (port1 port2 : Int) : Option Int :=
  if port1 > ports ∨ port2 > ports ∨ port1 ≥ port2 then none
  else some (getThroughLoop ports port1 (port2 - port1 - 1))

/-- `CoefficientSet::getThrough(port1, port2)`: `nullptr` is `none`, and `throughs[index]`
outside the vector is a fault. -/
def CoefficientSet.getThrough (set : CoefficientSet) (port1 port2 : Int) :
    Except Fault (Option Ptr) :=
  match getThroughIndex set.ports port1 port2 with
  | none => .ok none
  | some index =>
    if 0 ≤ index then
      match set.throughs[index.toNat]? with
      | some c => .ok (some c)
      | none => .error .outOfBounds
    else .error .outOfBounds

/-- The cumulative offset of row `i`: the number of through slots of the rows `1 .. i-1`. -/
def rowOffset (N i : Int) : Int := ∑ k in Finset.Icc 1 (i - 1), (N - k)

/-! ## Parsing a sample -/

/-- The statement `if(p.S.size() == 4) swap(p.S[1], p.S[2]);`. -/
def swapMiddle {α : Type} : List α → List α
  | [a, b, c, d] => [a, c, b, d]
  | l => l

/-- The sample that both load threads build from the fields `values` of a response line:
```
p.frequency = values[0].toDouble() * 1e9;
for(int j = 0;j<(values.size()-1)/2;j++) {
    double real = values[1+j*2].toDouble();
    double imag = values[2+j*2].toDouble();
    p.S.push_back(complex<double>(real, imag));
}
if(p.S.size() == 4) swap(p.S[1], p.S[2]);
```
All the indices are inside `values`, which has at least one element. -/
def parseDatapoint (qt : QtNumeric D) (values : List String) : Touchstone.Datapoint D :=
  { frequency := qt.timesGiga (qt.toDouble (values.getD 0 ""))
    S := swapMiddle ((List.range ((values.length - 1) / 2)).map (fun j =>
      (qt.toDouble (values.getD (1 + j * 2) ""), qt.toDouble (values.getD (2 + j * 2) "")))) }

/-! ## `getCoefficientSetNames` and the validation of the requested names -/

/-- `CalDevice::getCoefficientSetNames`. -/
def getCoefficientSetNames (dev : USBDevice σ) : M σ D (List String) := do
  let resp ← Query dev ":COEFF:LIST?"
  if !(startsWith resp "FACTORY") then
    return []
  else
    return split resp ','

/-- The identifiers of the coefficients of port `i` in the order in which both load threads
visit them: open, short, load, then the throughs to the ports `i+1 .. numPorts`. -/
def portCoeffNames (numPorts i : Int) : List String :=
  ["P" ++ number i ++ "_OPEN", "P" ++ number i ++ "_SHORT", "P" ++ number i ++ "_LOAD"]
    ++ (intRange (i + 1) numPorts).map (fun j => "P" ++ number i ++ number j ++ "_THROUGH")

/-! ## `loadCoefficientSetsThreadSlow` -/

/-- The locals `readPoints` and `lastPercentage` of `loadCoefficientSetsThreadSlow`. -/
structure SlowProgress where
  readPoints : Nat
  lastPercentage : Int
deriving DecidableEq, Repr

/-- The pass of `loadCoefficientSetsThreadSlow` over one port `i` of one set that adds up
`totalPoints`: the throughs `j` of the inner loop. -/
def loadCoefficientSetsThreadSlow.totalThroughs (dev : USBDevice σ) (qt : QtNumeric D)
    (name : String) (i : Int) : List Int → Nat → M σ D Nat
  | [], totalPoints => pure totalPoints
  | j :: js, totalPoints => do
    let n ← Query dev (":COEFF:NUM? " ++ name ++ " P" ++ number i ++ number j ++ "_THROUGH")
    totalThroughs dev qt name i js (addULong totalPoints (qt.toInt n))

/-- The loop over the ports `i` of the pass that adds up `totalPoints`. -/
def loadCoefficientSetsThreadSlow.totalPorts (dev : USBDevice σ) (qt : QtNumeric D)
    (numPorts : Int) (name : String) : List Int → Nat → M σ D Nat
  | [], totalPoints => pure totalPoints
  | i :: is, totalPoints => do
    if (← readAbortLoading) then
      leave .returned
    else
      let n1 ← Query dev (":COEFF:NUM? " ++ name ++ " P" ++ number i ++ "_OPEN")
      let totalPoints := addULong totalPoints (qt.toInt n1)
      let n2 ← Query dev (":COEFF:NUM? " ++ name ++ " P" ++ number i ++ "_SHORT")
      let totalPoints := addULong totalPoints (qt.toInt n2)
      let n3 ← Query dev (":COEFF:NUM? " ++ name ++ " P" ++ number i ++ "_LOAD")
      let totalPoints := addULong totalPoints (qt.toInt n3)
      let totalPoints ← totalThroughs dev qt name i (intRange (i + 1) numPorts) totalPoints
      totalPorts dev qt numPorts name is totalPoints

/-- The loop over the names of the pass that adds up `totalPoints`. -/
def loadCoefficientSetsThreadSlow.totalSets (dev : USBDevice σ) (qt : QtNumeric D)
    (numPorts : Int) : List String → Nat → M σ D Nat
  | [], totalPoints => pure totalPoints
  | name :: names, totalPoints => do
    let totalPoints ← totalPorts dev qt numPorts name (intRange 1 numPorts) totalPoints
    totalSets dev qt numPorts names totalPoints

/-- The loop `for(int i=0;i<points;i++)` of the lambda `createCoefficient` of
`loadCoefficientSetsThreadSlow`, with `n` iterations left, the next being `i`. -/
def loadCoefficientSetsThreadSlow.readSamples (dev : USBDevice σ) (qt : QtNumeric D)
    (totalPoints : Nat) (setName paramName : String) :
    Nat → Int → Touchstone D → SlowProgress → M σ D (Touchstone D × SlowProgress)
  | 0, _, t, pr => pure (t, pr)
  | n + 1, i, t, pr => do
    if (← readAbortLoading) then
      -- break
      return (t, pr)
    else
      let pString ← Query dev (":COEFF:GET? " ++ setName ++ " " ++ paramName ++ " " ++ number i)
      match t.AddDatapoint (parseDatapoint qt (split pString ',')) with
      | none => leave (.crashed .uncaughtException)
      | some t1 =>
        let readPoints := (pr.readPoints + 1) % 2 ^ 64
        if totalPoints = 0 then
          leave (.crashed .divisionByZero)
        else
          let newPercentage := toInt32 ((readPoints * 100) % 2 ^ 64 / totalPoints)
          if newPercentage ≠ pr.lastPercentage then
            emit (.updateCoefficientsPercent newPercentage)
            readSamples dev qt totalPoints setName paramName n (i + 1) t1
              { readPoints := readPoints, lastPercentage := newPercentage }
          else
            readSamples dev qt totalPoints setName paramName n (i + 1) t1
              { readPoints := readPoints, lastPercentage := pr.lastPercentage }

/-- The lambda `createCoefficient` of `loadCoefficientSetsThreadSlow`. The object is written
only through `c` until the lambda returns, so it is placed on the heap when it is complete. -/
def loadCoefficientSetsThreadSlow.createCoefficient (dev : USBDevice σ) (qt : QtNumeric D)
    (totalPoints : Nat) (setName paramName : String) (pr : SlowProgress) :
    M σ D (Ptr × SlowProgress) := do
  let n ← Query dev (":COEFF:NUM? " ++ setName ++ " " ++ paramName)
  let points := qt.toInt n
  let t0 : Touchstone D :=
    if endsWith paramName "THROUGH" then Touchstone.new 2 else Touchstone.new 1
  let r ← readSamples dev qt totalPoints setName paramName points.toNat 0 t0 pr
  let c ← alloc { t := r.1.setFilename ("LibreCAL/" ++ paramName), modified := false }
  return (c, r.2)

/-- The loop `for(int j=i+1;j<=numPorts;j++)` that reads the throughs of port `i`. -/
def loadCoefficientSetsThreadSlow.readThroughs (dev : USBDevice σ) (qt : QtNumeric D)
    (totalPoints : Nat) (name : String) (i : Int) :
    List Int → CoefficientSet → SlowProgress → M σ D (CoefficientSet × SlowProgress)
  | [], set, pr => pure (set, pr)
  | j :: js, set, pr => do
    let r ← createCoefficient dev qt totalPoints name
      ("P" ++ number i ++ number j ++ "_THROUGH") pr
    readThroughs dev qt totalPoints name i js { set with throughs := set.throughs ++ [r.1] } r.2

/-- The loop `for(int i=1;i<=numPorts;i++)` that reads one coefficient set. -/
def loadCoefficientSetsThreadSlow.readPorts (dev : USBDevice σ) (qt : QtNumeric D)
    (totalPoints : Nat) (numPorts : Int) (name : String) :
    List Int → CoefficientSet → SlowProgress → M σ D (CoefficientSet × SlowProgress)
  | [], set, pr => pure (set, pr)
  | i :: is, set, pr => do
    let r1 ← createCoefficient dev qt totalPoints name ("P" ++ number i ++ "_OPEN") pr
    let set := { set with opens := set.opens ++ [r1.1] }
    let r2 ← createCoefficient dev qt totalPoints name ("P" ++ number i ++ "_SHORT") r1.2
    let set := { set with shorts := set.shorts ++ [r2.1] }
    let r3 ← createCoefficient dev qt totalPoints name ("P" ++ number i ++ "_LOAD") r2.2
    let set := { set with loads := set.loads ++ [r3.1] }
    let r4 ← readThroughs dev qt totalPoints name i (intRange (i + 1) numPorts) set r3.2
    if (← readAbortLoading) then
      leave .returned
    else
      readPorts dev qt totalPoints numPorts name is r4.1 r4.2

/-- The second loop `for(auto name : coeffList)` of `loadCoefficientSetsThreadSlow`. -/
def loadCoefficientSetsThreadSlow.readSets (dev : USBDevice σ) (qt : QtNumeric D)
    (totalPoints : Nat) (numPorts : Int) : List String → SlowProgress → M σ D Unit
  | [], _ => pure ()
  | name :: names, pr => do
    let set : CoefficientSet :=
      { name := name, ports := numPorts, opens := [], shorts := [], loads := [], throughs := [] }
    let r ← readPorts dev qt totalPoints numPorts name (intRange 1 numPorts) set pr
    pushCoeffSet r.1
    readSets dev qt totalPoints numPorts names r.2

/-- `CalDevice::loadCoefficientSetsThreadSlow(names)`. The loop that checks the requested names
leaves at the first name that `coeffList` does not contain, and does nothing else. -/
def loadCoefficientSetsThreadSlow (dev : USBDevice σ) (qt : QtNumeric D) (names : List String) :
    M σ D Unit := do
  let coeffList ← getCoefficientSetNames dev
  if coeffList.isEmpty then
    emit (.updateCoefficientsDone false)
    leave .returned
  else if names.length > 0 ∧ ¬ names.all (fun n => coeffList.contains n) then
    emit (.updateCoefficientsDone false)
    leave .returned
  else
    let coeffList := if names.length > 0 then names else coeffList
    let numPorts ← readNumPorts
    let totalPoints ← loadCoefficientSetsThreadSlow.totalSets dev qt numPorts coeffList 0
    loadCoefficientSetsThreadSlow.readSets dev qt totalPoints numPorts coeffList
      { readPoints := 0, lastPercentage := 0 }
    emit (.updateCoefficientsDone true)

/-! ## `loadCoefficientSetsThreadFast` -/

/-- The list `coeffNames` that `loadCoefficientSetsThreadFast` builds. -/
def loadCoefficientSetsThreadFast.coeffNames (numPorts : Int) : List String :=
  (intRange 1 numPorts).flatMap (portCoeffNames numPorts)

/-- The loop `while(true)` of the lambda `createCoefficient` of `loadCoefficientSetsThreadFast`;
`t` is `c->t`. The loop has no bound in the code; here it reads at most `fuel` lines and the
run is `diverged` when that does not end it. -/
def loadCoefficientSetsThreadFast.receiveLines (dev : USBDevice σ) (qt : QtNumeric D) :
    Nat → Touchstone D → M σ D (Touchstone D)
  | 0, _ => leave .diverged
  | fuel + 1, t => do
    match (← receive dev) with
    | none =>
      -- failed to receive something, abort
      return t
    | some line =>
      if startsWith line "ERROR" then
        return t
      else if startsWith line "START" || startsWith line "!" || startsWith line "#" then
        receiveLines dev qt fuel t
      else if startsWith line "END" then
        return t
      else
        match t.AddDatapoint (parseDatapoint qt (split line ' ')) with
        | none =>
          -- catch (...)
          return t
        | some t1 => receiveLines dev qt fuel t1

/-- The lambda `createCoefficient` of `loadCoefficientSetsThreadFast`. The object is written
only through `c` until the lambda returns, so it is placed on the heap when it is complete. -/
def loadCoefficientSetsThreadFast.createCoefficient (dev : USBDevice σ) (qt : QtNumeric D)
    (fuel : Nat) (setName paramName : String) : M σ D Ptr := do
  send dev (":COEFF:GET? " ++ setName ++ " " ++ paramName)
  let t0 : Touchstone D :=
    if endsWith paramName "THROUGH" then Touchstone.new 2 else Touchstone.new 1
  let t ← receiveLines dev qt fuel (t0.setFilename ("LibreCAL/" ++ paramName))
  alloc { t := t, modified := false }

/-- The statement that files the coefficient `c` of identifier `coeff` in the set. -/
def loadCoefficientSetsThreadFast.store (set : CoefficientSet) (coeff : String) (c : Ptr) :
    CoefficientSet :=
  if endsWith coeff "_OPEN" then { set with opens := set.opens ++ [c] }
  else if endsWith coeff "_SHORT" then { set with shorts := set.shorts ++ [c] }
  else if endsWith coeff "_LOAD" then { set with loads := set.loads ++ [c] }
  else if endsWith coeff "_THROUGH" then { set with throughs := set.throughs ++ [c] }
  else set

/-- The loop `for(auto coeff : coeffNames)` of `loadCoefficientSetsThreadFast`. -/
def loadCoefficientSetsThreadFast.readCoeffs (dev : USBDevice σ) (qt : QtNumeric D)
    (fuel : Nat) (total_coeffs : Int) (name : String) :
    List String → CoefficientSet → Int → M σ D (CoefficientSet × Int)
  | [], set, read_coeffs => pure (set, read_coeffs)
  | coeff :: coeffs, set, read_coeffs => do
    let c ← createCoefficient dev qt fuel name coeff
    if (← readAbortLoading) then
      leave .returned
    else
      let set := store set coeff c
      let read_coeffs := read_coeffs + 1
      if total_coeffs = 0 then
        leave (.crashed .divisionByZero)
      else
        emit (.updateCoefficientsPercent ((read_coeffs * 100).tdiv total_coeffs))
        readCoeffs dev qt fuel total_coeffs name coeffs set read_coeffs

/-- The loop `for(auto name : coeffList)` of `loadCoefficientSetsThreadFast`. -/
def loadCoefficientSetsThreadFast.readSets (dev : USBDevice σ) (qt : QtNumeric D)
    (fuel : Nat) (total_coeffs : Int) (numPorts : Int) (coeffNames : List String) :
    List String → Int → M σ D Unit
  | [], _ => pure ()
  | name :: names, read_coeffs => do
    let set : CoefficientSet :=
      { name := name, ports := numPorts, opens := [], shorts := [], loads := [], throughs := [] }
    let r ← readCoeffs dev qt fuel total_coeffs name coeffNames set read_coeffs
    pushCoeffSet r.1
    readSets dev qt fuel total_coeffs numPorts coeffNames names r.2

/-- `CalDevice::loadCoefficientSetsThreadFast(names)`; every `while(true)` loop reads at most
`fuel` lines. Note `total_coeffs = coeffNames.size() * names.size()`: the size of the requested
list, not of `coeffList`. -/
def loadCoefficientSetsThreadFast (dev : USBDevice σ) (qt : QtNumeric D) (fuel : Nat)
    (names : List String) : M σ D Unit := do
  let coeffList ← getCoefficientSetNames dev
  if coeffList.isEmpty then
    emit (.updateCoefficientsDone false)
    leave .returned
  else if names.length > 0 ∧ ¬ names.all (fun n => coeffList.contains n) then
    emit (.updateCoefficientsDone false)
    leave .returned
  else
    let coeffList := if names.length > 0 then names else coeffList
    let numPorts ← readNumPorts
    let coeffNames := loadCoefficientSetsThreadFast.coeffNames numPorts
    let total_coeffs : Int := (coeffNames.length : Int) * (names.length : Int)
    loadCoefficientSetsThreadFast.readSets dev qt fuel total_coeffs numPorts coeffNames
      coeffList 0
    emit (.updateCoefficientsDone true)

/-- `CalDevice::loadCoefficientSets(names, fast)`, with the worker thread run to its end. -/
def loadCoefficientSets (dev : USBDevice σ) (qt : QtNumeric D) (fuel : Nat)
    (names : List String) (fast : Bool) : M σ D Unit := fun w =>
  let w1 := { w with coeffSets := [], abortLoading := false }
  if fast then loadCoefficientSetsThreadFast dev qt fuel names w1
  else loadCoefficientSetsThreadSlow dev qt names w1

/-! ## Persistence: `hasModifiedCoefficients`, `saveCoefficientSets` -/

/-- The expression `c->modified` for an address `c` stored in a set. The code never deletes a
`Coefficient`, so the addresses stored in the sets always hold an object; an address that
holds none counts as not modified. -/
def slotModified (heap : List (CoefficientSet.Coefficient D)) (c : Ptr) : Bool :=
  match heap[c]? with
  | some co => co.modified
  | none => false

/-- `CalDevice::hasModifiedCoefficients`: the nested loops return `true` at the first slot
whose `modified` is set, in the order opens, shorts, loads, throughs of each set. -/
def hasModifiedCoefficients (w : CalDevice σ D) : Bool :=
  w.coeffSets.any (fun set =>
    set.opens.any (slotModified w.heap) || set.shorts.any (slotModified w.heap)
      || set.loads.any (slotModified w.heap) || set.throughs.any (slotModified w.heap))

/-- The access `*c`. -/
def deref (c : Ptr) : M σ D (CoefficientSet.Coefficient D) := fun w =>
  match w.heap[c]? with
  | some co => .ok co w
  | none => .exit (.crashed .badPointer) w

/-- The assignment `c->modified = b`. -/
def setModified (c : Ptr) (b : Bool) : M σ D Unit := fun w =>
  match w.heap[c]? with
  | some co => .ok () { w with heap := w.heap.set c { co with modified := b } }
  | none => .exit (.crashed .badPointer) w

/-- The access `v[i]` of a `std::vector<Coefficient*>`. -/
def vectorAt (v : List Ptr) (i : Int) : M σ D Ptr := fun w =>
  if 0 ≤ i then
    match v[i.toNat]? with
    | some c => .ok c w
    | none => .exit (.crashed .outOfBounds) w
  else .exit (.crashed .outOfBounds) w

/-- A read of the member `coeffSets`. -/
def readCoeffSets : M σ D (List CoefficientSet) := fun w => .ok w.coeffSets w

/-- The locals `transferredPoints` and `lastPercentage` of `saveCoefficientSetsThread`. -/
structure SaveProgress where
  transferredPoints : Nat
  lastPercentage : Int
deriving DecidableEq, Repr

/-- One of the four loops `for(auto c : set.opens) { if(c->modified) totalPoints += ... }` of
`saveCoefficientSetsThread`. -/
def saveCoefficientSetsThread.totalOf : List Ptr → Nat → M σ D Nat
  | [], totalPoints => pure totalPoints
  | c :: cs, totalPoints => do
    let co ← deref c
    if co.modified then
      totalOf cs ((totalPoints + co.t.points) % 2 ^ 64)
    else
      totalOf cs totalPoints

/-- The first loop `for(auto set : coeffSets)` of `saveCoefficientSetsThread`. -/
def saveCoefficientSetsThread.totalSets : List CoefficientSet → Nat → M σ D Nat
  | [], totalPoints => pure totalPoints
  | set :: sets, totalPoints => do
    let totalPoints ← totalOf set.opens totalPoints
    let totalPoints ← totalOf set.shorts totalPoints
    let totalPoints ← totalOf set.loads totalPoints
    let totalPoints ← totalOf set.throughs totalPoints
    totalSets sets totalPoints

/-- The text of the command `:COEFF:ADD` for one sample, whose two-port parameters are put
back in wire order. -/
def saveCoefficientSetsThread.addCommand (qt : QtNumeric D) (point : Touchstone.Datapoint D) :
    String :=
  (swapMiddle point.S).foldl
    (fun cmd s => cmd ++ " " ++ qt.numberDouble s.1 ++ " " ++ qt.numberDouble s.2)
    (":COEFF:ADD " ++ qt.numberDouble (qt.overGiga point.frequency))

/-- The loop `for(int i=0;i<points;i++)` of the lambda `createCoefficient` of
`saveCoefficientSetsThread`, over the samples still to be sent. The flag of the result is
`false` when the lambda returns `false` inside the loop. -/
def saveCoefficientSetsThread.addPoints (dev : USBDevice σ) (qt : QtNumeric D)
    (totalPoints : Nat) :
    List (Touchstone.Datapoint D) → SaveProgress → M σ D (Bool × SaveProgress)
  | [], pr => pure (true, pr)
  | point :: points, pr => do
    if !(← Cmd dev (addCommand qt point)) then
      return (false, pr)
    else
      let transferredPoints := (pr.transferredPoints + 1) % 2 ^ 64
      if totalPoints = 0 then
        leave (.crashed .divisionByZero)
      else
        let newPercentage := toInt32 ((transferredPoints * 100) % 2 ^ 64 / totalPoints)
        if newPercentage ≠ pr.lastPercentage then
          emit (.updateCoefficientsPercent newPercentage)
          addPoints dev qt totalPoints points
            { transferredPoints := transferredPoints, lastPercentage := newPercentage }
        else
          addPoints dev qt totalPoints points
            { transferredPoints := transferredPoints, lastPercentage := pr.lastPercentage }

/-- The lambda `createCoefficient` of `saveCoefficientSetsThread`, applied to the object at
`c` (the code passes `c->t` and `c->modified` by reference). -/
def saveCoefficientSetsThread.createCoefficient (dev : USBDevice σ) (qt : QtNumeric D)
    (totalPoints : Nat) (setName paramName : String) (c : Ptr) (pr : SaveProgress) :
    M σ D (Bool × SaveProgress) := do
  let co ← deref c
  if !co.modified then
    -- no changes, nothing to do
    return (true, pr)
  else if co.t.points > 0 then
    if !(← Cmd dev (":COEFF:CREATE " ++ setName ++ " " ++ paramName)) then
      return (false, pr)
    else
      let r ← addPoints dev qt totalPoints co.t.datapoints pr
      if !r.1 then
        return (false, r.2)
      else if !(← Cmd dev ":COEFF:FIN") then
        return (false, r.2)
      else
        setModified c false
        return (true, r.2)
  else
    if !(← Cmd dev (":COEFF:DEL " ++ setName ++ " " ++ paramName)) then
      return (false, pr)
    else
      setModified c false
      return (true, pr)

/-- The loop `for(int j=i+1;j<=numPorts;j++)` of `saveCoefficientSetsThread`; the flag is the
local `success`. -/
def saveCoefficientSetsThread.saveThroughs (dev : USBDevice σ) (qt : QtNumeric D)
    (totalPoints : Nat) (set : CoefficientSet) (i : Int) :
    List Int → Bool → SaveProgress → M σ D (Bool × SaveProgress)
  | [], success, pr => pure (success, pr)
  | j :: js, success, pr => do
    match set.getThrough i j with
    | .error f => leave (.crashed f)
    | .ok none => leave (.crashed .badPointer)
    | .ok (some c) =>
      let r ← createCoefficient dev qt totalPoints set.name
        ("P" ++ number i ++ number j ++ "_THROUGH") c pr
      saveThroughs dev qt totalPoints set i js (success && r.1) r.2

/-- The loop `for(int i=1;i<=numPorts;i++)` of `saveCoefficientSetsThread`. -/
def saveCoefficientSetsThread.savePorts (dev : USBDevice σ) (qt : QtNumeric D)
    (totalPoints : Nat) (numPorts : Int) (set : CoefficientSet) :
    List Int → Bool → SaveProgress → M σ D (Bool × SaveProgress)
  | [], success, pr => pure (success, pr)
  | i :: is, success, pr => do
    let c1 ← vectorAt set.opens (i - 1)
    let r1 ← createCoefficient dev qt totalPoints set.name ("P" ++ number i ++ "_OPEN") c1 pr
    let c2 ← vectorAt set.shorts (i - 1)
    let r2 ← createCoefficient dev qt totalPoints set.name ("P" ++ number i ++ "_SHORT") c2 r1.2
    let c3 ← vectorAt set.loads (i - 1)
    let r3 ← createCoefficient dev qt totalPoints set.name ("P" ++ number i ++ "_LOAD") c3 r2.2
    let r4 ← saveThroughs dev qt totalPoints set i (intRange (i + 1) numPorts)
      (((success && r1.1) && r2.1) && r3.1) r3.2
    savePorts dev qt totalPoints numPorts set is r4.1 r4.2

/-- The second loop `for(auto set : coeffSets)` of `saveCoefficientSetsThread`. -/
def saveCoefficientSetsThread.saveSets (dev : USBDevice σ) (qt : QtNumeric D)
    (totalPoints : Nat) (numPorts : Int) :
    List CoefficientSet → Bool → SaveProgress → M σ D (Bool × SaveProgress)
  | [], success, pr => pure (success, pr)
  | set :: sets, success, pr => do
    let r ← savePorts dev qt totalPoints numPorts set (intRange 1 numPorts) success pr
    saveSets dev qt totalPoints numPorts sets r.1 r.2

/-- `CalDevice::saveCoefficientSetsThread`. -/
def saveCoefficientSetsThread (dev : USBDevice σ) (qt : QtNumeric D) : M σ D Unit := do
  let sets ← readCoeffSets
  let totalPoints ← saveCoefficientSetsThread.totalSets sets 0
  let numPorts ← readNumPorts
  let r ← saveCoefficientSetsThread.saveSets dev qt totalPoints numPorts sets true
    { transferredPoints := 0, lastPercentage := 0 }
  emit (.updateCoefficientsDone r.1)

/-- `CalDevice::saveCoefficientSets`, with the worker thread run to its end. -/
def saveCoefficientSets (dev : USBDevice σ) (qt : QtNumeric D) : M σ D Unit := fun w =>
  if !hasModifiedCoefficients w then
    -- nothing to do, already done
    emit (.updateCoefficientsDone true) w
  else
    saveCoefficientSetsThread dev qt w

/-! ## Concrete channels and numbers for the examples -/

/-- The value of a string of decimal digits, `none` when another character occurs. -/
def decimalValue : List Char → Nat → Option Nat
  | [], acc => some acc
  | c :: cs, acc => if c.isDigit then decimalValue cs (acc * 10 + (c.toNat - 48)) else none

/-- A decimal integer with an optional minus sign; `0` for any other text, as `toInt` gives. -/
def decimalInt (s : String) : Int :=
  match s.data with
  | [] => 0
  | '-' :: cs => if cs = [] then 0 else -(((decimalValue cs 0).getD 0 : Nat) : Int)
  | cs => (((decimalValue cs 0).getD 0 : Nat) : Int)

/-- The numeric functions restricted to whole numbers: a `double` that is a whole number is
an `Int`. -/
def wholeNumbers : QtNumeric Int where
  toInt := decimalInt
  toDouble := decimalInt
  timesGiga x := x * 1000000000
  overGiga x := x / 1000000000
  numberDouble x := toString x

/-- A channel whose answers depend on the command only: `answer` gives the response line of a
query, `ack` whether a command is acknowledged, and `stream` the lines that follow a sent
command; the state is the list of lines not yet received. -/
def tableChannel (answer : String → String) (ack : String → Bool)
    (stream : String → List String) : USBDevice (List String) where
  Query cmd s := (answer cmd, s)
  Cmd cmd s := (ack cmd, s)
  send cmd _ := stream cmd
  receive s :=
    match s with
    | [] => (none, [])
    | line :: lines => (some line, lines)

/-- A `CalDevice` right after construction on a channel in state `usb`, with `numPorts` ports
and an abort request that lands after `abortRequest` reads of the flag. -/
def fresh (usb : σ) (numPorts : Int) (abortRequest : Option Nat) : CalDevice σ D :=
  { usb := usb, numPorts := numPorts, coeffSets := [], abortLoading := false, heap := [],
    io := [], signals := [], abortRequest := abortRequest }

/-- The listing, the sample count and the samples of the example device: the sets `FACTORY` and
`USER1`, three samples for the open of port 1 of `FACTORY` and none for any other coefficient. -/
def exampleAnswer (cmd : String) : String :=
  if cmd = ":COEFF:LIST?" then "FACTORY,USER1"
  else if cmd = ":COEFF:NUM? FACTORY P1_OPEN" then "3"
  else if startsWith cmd ":COEFF:GET? FACTORY P1_OPEN " then "1,5,-7"
  else "0"

/-- An example device: it answers queries by `exampleAnswer`, acknowledges every command, and
streams one sample for every coefficient. -/
def exampleDevice : USBDevice (List String) :=
  tableChannel exampleAnswer (fun _ => true) (fun _ => ["START", "1 5 -7", "END"])

/-- A `CalDevice` with two ports that already holds one coefficient set. -/
def loadedDevice : CalDevice (List String) Int :=
  { usb := [], numPorts := 2,
    coeffSets := [{ name := "USER1", ports := 2, opens := [0, 1], shorts := [2, 3],
                    loads := [4, 5], throughs := [6] }],
    abortLoading := false,
    heap := List.replicate 7 { t := Touchstone.new 1, modified := false },
    io := [], signals := [], abortRequest := none }

/-! ## Notions used by the properties -/

/-- No abort is requested and none was seen. -/
def Calm (w : CalDevice σ D) : Prop := w.abortLoading = false ∧ w.abortRequest = none

/-- The states `w` and `w1` differ at most in the channel: its state and the operations on it. -/
def SameButChannel (w w1 : CalDevice σ D) : Prop :=
  w1.numPorts = w.numPorts ∧ w1.coeffSets = w.coeffSets ∧ w1.abortLoading = w.abortLoading ∧
  w1.heap = w.heap ∧ w1.signals = w.signals ∧ w1.abortRequest = w.abortRequest

/-- The streams of the device end: after any command was sent, the loop that reads the lines of
the answer ends within `fuel` lines. -/
def StreamsEnd (dev : USBDevice σ) (qt : QtNumeric D) (fuel : Nat) : Prop :=
  ∀ (w : CalDevice σ D) (cmd : String) (t : Touchstone D),
    ((send dev cmd >>= fun _ => loadCoefficientSetsThreadFast.receiveLines dev qt fuel t) w).exit?
      = none

/-- The number of samples of the object at the address `c`. -/
def pointsAt (heap : List (CoefficientSet.Coefficient D)) (c : Ptr) : Option Nat :=
  heap[c]?.map (fun co => co.t.points)

/-- The device holds `count name coeff` well-formed samples for the coefficient `coeff` of the
set `name`: in every state of the channel it answers `COEFF:NUM?` with that number and
`COEFF:GET?` for every index below it with a line that has as many parameters as the
coefficient takes; and `totalPoints` is not zero when there is a sample. -/
def CoeffOK (dev : USBDevice σ) (qt : QtNumeric D) (count : String → String → Nat)
    (totalPoints : Nat) (name coeff : String) : Prop :=
  (∀ s, qt.toInt (dev.Query (":COEFF:NUM? " ++ name ++ " " ++ coeff) s).1
      = (count name coeff : Int)) ∧
  (∀ s (i : Int), 0 ≤ i → i < count name coeff →
    (parseDatapoint qt (split
      (dev.Query (":COEFF:GET? " ++ name ++ " " ++ coeff ++ " " ++ number i) s).1 ',')).S.length
      = if endsWith coeff "THROUGH" then 4 else 1) ∧
  (count name coeff = 0 ∨ totalPoints ≠ 0)

/-- The slots `opens`, `shorts`, `loads`, `throughs` read for the ports `ports` of the set
`name` of a device with `numPorts` ports hold as many samples as `count` tells: the opens,
shorts and loads port by port, the throughs pair by pair in the order (i, i+1), ...,
(i, numPorts) for each port `i` in turn. -/
def SlotsLoaded (heap : List (CoefficientSet.Coefficient D)) (count : String → String → Nat)
    (name : String) (numPorts : Int) (ports : List Int) (opens shorts loads throughs : List Ptr) :
    Prop :=
  opens.map (pointsAt heap) = ports.map (fun i => some (count name ("P" ++ number i ++ "_OPEN"))) ∧
  shorts.map (pointsAt heap)
    = ports.map (fun i => some (count name ("P" ++ number i ++ "_SHORT"))) ∧
  loads.map (pointsAt heap) = ports.map (fun i => some (count name ("P" ++ number i ++ "_LOAD"))) ∧
  throughs.map (pointsAt heap) = ports.flatMap (fun i => (intRange (i + 1) numPorts).map
    (fun j => some (count name ("P" ++ number i ++ number j ++ "_THROUGH"))))

/-- The set `set` of a device with `numPorts` ports has a slot for every coefficient, and every
slot holds as many samples as `count` tells for its coefficient. -/
def SetLoaded (heap : List (CoefficientSet.Coefficient D)) (count : String → String → Nat)
    (numPorts : Int) (set : CoefficientSet) : Prop :=
  set.ports = numPorts ∧
  SlotsLoaded heap count set.name numPorts (intRange 1 numPorts) set.opens set.shorts set.loads
    set.throughs

/-- The number of samples that `count` tells for all coefficients of the sets `names` of a
device with `numPorts` ports. -/
def totalCount (count : String → String → Nat) (numPorts : Int) (names : List String) : Nat :=
  (names.map (fun name => ((intRange 1 numPorts).map (fun i =>
    ((portCoeffNames numPorts i).map (count name)).sum)).sum)).sum

/-- The addresses stored in a set. -/
def CoefficientSet.slots (set : CoefficientSet) : List Ptr :=
  set.opens ++ set.shorts ++ set.loads ++ set.throughs

/-- All addresses stored in `set` are below `n`. -/
def SetValid (n : Nat) (set : CoefficientSet) : Prop := ∀ c ∈ set.slots, c < n

/-- All addresses stored in the collection hold an object. -/
def Valid (w : CalDevice σ D) : Prop := ∀ set ∈ w.coeffSets, SetValid w.heap.length set

/-- The same state when no abort is requested. -/
def unrequested (w : CalDevice σ D) : CalDevice σ D := { w with abortRequest := none }

/-- The same result when no abort is requested. -/
def Res.unrequested {α : Type} : Res σ D α → Res σ D α
  | .ok a w => .ok a w.unrequested
  | .exit e w => .exit e w.unrequested

/-- The state `v` extends `u`: its collection and its heap start with those of `u`. -/
def Extends (u v : CalDevice σ D) : Prop := u.coeffSets <+: v.coeffSets ∧ u.heap <+: v.heap

/-- Code that only appends to the collection and to the heap. -/
def Mono {α : Type} (m : M σ D α) : Prop := ∀ w, Extends w (m w).state

/-- Code that leaves the collection as it is and only appends to the heap. -/
def Inner {α : Type} (m : M σ D α) : Prop :=
  ∀ w, (m w).state.coeffSets = w.coeffSets ∧ w.heap <+: (m w).state.heap

/-- The ways in which code may end once the worker has seen the abort flag: by `return;`, or,
when `strict` is false, also by reaching its end. -/
def EndsQuietly (strict : Bool) (e : Option Exit) : Prop :=
  e = some .returned ∨ (strict = false ∧ e = none)

/-- Code that, once the worker has seen the abort flag, ends quietly and leaves the collection
as it is. -/
def Frozen {α : Type} (strict : Bool) (m : M σ D α) : Prop :=
  ∀ w, w.abortLoading = true →
    (m w).state.abortLoading = true ∧ EndsQuietly strict (m w).exit? ∧
    (m w).state.coeffSets = w.coeffSets

/-- The run that ended in `v` has seen the abort flag at a state with the heap `h0`, and from
there on it left the collection as it was, while the run without an abort request, which ended
in `v1`, went on from the same state. -/
def Observed (strict : Bool) (e : Option Exit) (v v1 : CalDevice σ D) : Prop :=
  v.abortLoading = true ∧ EndsQuietly strict e ∧ v.coeffSets <+: v1.coeffSets ∧
  ∃ h0 : List (CoefficientSet.Coefficient D), h0 <+: v.heap ∧ h0 <+: v1.heap ∧
    ∀ set ∈ v.coeffSets, SetValid h0.length set

/-- The code `m` run with and without an abort request, from a valid state in which the flag
was not seen and whose heap size satisfies `P`: either both runs end in the same way and in the
same state (up to the request), the flag still not seen and `Q` established for the value and
the heap size, or the first run has seen the flag. -/
def Sim {α : Type} (strict : Bool) (P : Nat → Prop) (m : M σ D α) (Q : α → Nat → Prop) : Prop :=
  ∀ w, w.abortLoading = false → Valid w → P w.heap.length →
    (m w.unrequested = (m w).unrequested ∧ (m w).state.abortLoading = false ∧
      Valid (m w).state ∧ ∀ a w1, m w = .ok a w1 → Q a w1.heap.length) ∨
    Observed strict (m w).exit? (m w).state (m w.unrequested).state

/-- The code `m` only appends, and its runs with and without an abort request are related by
`Sim`. -/
def SimM {α : Type} (strict : Bool) (P : Nat → Prop) (m : M σ D α) (Q : α → Nat → Prop) : Prop :=
  Mono m ∧ Sim strict P m Q

/-- The sets that a load retrieves: the requested names, or the whole listing when no name is
requested. -/
def requestedSets (names listing : List String) : List String :=
  if names.length > 0 then names else listing

/-- The names of the sets that the run `R` retained are the first of the names `sets`, in
their order, and not all of them unless the run reached the end of the code. -/
def NamesOK {α : Type} (sets : List String) (R : Res σ D α) : Prop :=
  R.state.coeffSets.map (fun s => s.name) <+: sets ∧
  (R.exit? ≠ none → R.state.coeffSets.length < sets.length)

/-- The sample counts of the example device. -/
def exampleCount (name coeff : String) : Nat :=
  if name = "FACTORY" ∧ coeff = "P1_OPEN" then 3 else 0

/-- The commands that were sent with `usb->send`, oldest first. -/
def sentCommands (io : List ChannelOp) : List String :=
  io.filterMap (fun op => match op with
    | .send cmd => some cmd
    | _ => none)

/-- A device with the one set `FACTORY` that holds one sample for every coefficient of a
one-port: a query of a sample count is answered `1`, a query of a sample `1,5,-7`, and the
stream of a coefficient is that sample between `START` and `END`. -/
def oneSampleDevice : USBDevice (List String) :=
  tableChannel
    (fun cmd => if cmd = ":COEFF:LIST?" then "FACTORY"
      else if startsWith cmd ":COEFF:NUM? " then "1" else "1,5,-7")
    (fun _ => true) (fun _ => ["START", "1 5 -7", "END"])

/-- The streams of `errorDevice`: the stream of the short of port 1 is cut off by an error line
after one sample. -/
def errorStream (cmd : String) : List String :=
  if cmd = ":COEFF:GET? FACTORY P1_SHORT" then ["START", "1 5 -7", "ERROR"]
  else ["START", "1 5 -7", "2 6 -8", "END"]

/-- A device with the one set `FACTORY` whose stream for the short of port 1 ends in an error
line. -/
def errorDevice : USBDevice (List String) :=
  tableChannel (fun cmd => if cmd = ":COEFF:LIST?" then "FACTORY" else "0") (fun _ => true)
    errorStream

/-- A device with the three sets `FACTORY`, `USER1` and `USER2`, each with one sample for
every coefficient of a one-port. -/
def threeSetDevice : USBDevice (List String) :=
  tableChannel
    (fun cmd => if cmd = ":COEFF:LIST?" then "FACTORY,USER1,USER2"
      else if startsWith cmd ":COEFF:NUM? " then "1" else "1,5,-7")
    (fun _ => true) (fun _ => ["START", "1 5 -7", "END"])

/-- A device whose listing starts with `FACTORY2`. -/
def factory2Device : USBDevice (List String) :=
  tableChannel (fun _ => "FACTORY2,USER1") (fun _ => true) (fun _ => [])

/-- The line that carries the fields `fields` separated by the character `sep`. -/
def joinFields (sep : Char) (fields : List String) : String :=
  String.mk (List.intercalate [sep] (fields.map String.data))

/-- A coefficient set of a two-port device with all its slots: the addresses `0 .. 6`. -/
def twoPortSet : CoefficientSet :=
  { name := "USER1", ports := 2, opens := [0, 1], shorts := [2, 3], loads := [4, 5],
    throughs := [6] }

/-- The commands that write the response `t` to the coefficient `paramName` of the set
`setName`: a delete command for a response without samples, otherwise a create command, one add
command for each sample in sample order and a finalize command. -/
def slotCommands (qt : QtNumeric D) (setName paramName : String) (t : Touchstone D) :
    List String :=
  if t.points > 0 then
    [":COEFF:CREATE " ++ setName ++ " " ++ paramName]
      ++ t.datapoints.map (saveCoefficientSetsThread.addCommand qt) ++ [":COEFF:FIN"]
  else [":COEFF:DEL " ++ setName ++ " " ++ paramName]

/-- The commands `cmds` issued in order on a channel in the state `s`, up to and including the
first that the device rejects: every command issued with its acknowledgement, and the state of
the channel after the last of them. -/
def sendUntilRejected (dev : USBDevice σ) : List String → σ → List (String × Bool) × σ
  | [], s => ([], s)
  | c :: cs, s =>
    if (dev.Cmd c s).1 then
      ((c, true) :: (sendUntilRejected dev cs (dev.Cmd c s).2).1,
        (sendUntilRejected dev cs (dev.Cmd c s).2).2)
    else ([(c, false)], (dev.Cmd c s).2)

/-- The state `w1` differs from `w` at most in the channel, in the heap and in progress signals
that were emitted. -/
def SaveFrame (w w1 : CalDevice σ D) : Prop :=
  w1.numPorts = w.numPorts ∧ w1.coeffSets = w.coeffSets ∧ w1.abortLoading = w.abortLoading ∧
  w1.abortRequest = w.abortRequest ∧
  ∃ ps : List Int, w1.signals = w.signals ++ ps.map Signal.updateCoefficientsPercent

/-- The heap of `dirtyDevice`: the open of port 1 holds two samples and the through one
two-port sample, both dirty; the open of port 2 is dirty and holds no sample; the other four
slots are clean. -/
def dirtyHeap : List (CoefficientSet.Coefficient Int) :=
  [{ t := { ports := 1, filename := "LibreCAL/P1_OPEN",
            datapoints := [{ frequency := 1000000000, S := [(5, -7)] },
                           { frequency := 2000000000, S := [(6, -8)] }] },
     modified := true },
   { t := { ports := 1, filename := "LibreCAL/P2_OPEN", datapoints := [] }, modified := true },
   { t := { ports := 1, filename := "LibreCAL/P1_SHORT", datapoints := [] }, modified := false },
   { t := { ports := 1, filename := "LibreCAL/P2_SHORT", datapoints := [] }, modified := false },
   { t := { ports := 1, filename := "LibreCAL/P1_LOAD", datapoints := [] }, modified := false },
   { t := { ports := 1, filename := "LibreCAL/P2_LOAD", datapoints := [] }, modified := false },
   { t := { ports := 2, filename := "LibreCAL/P12_THROUGH",
            datapoints := [{ frequency := 3000000000, S := [(1, 2), (3, 4), (5, 6), (7, 8)] }] },
     modified := true }]

/-- A `CalDevice` with two ports that holds the set `twoPortSet`, three of whose slots are
dirty. -/
def dirtyDevice : CalDevice (List String) Int :=
  { usb := [], numPorts := 2, coeffSets := [twoPortSet], abortLoading := false,
    heap := dirtyHeap, io := [], signals := [], abortRequest := none }

/-- The slot-count invariant of a coefficient set of a device with `N` ports: `ports` is `N`,
and the set holds `N` open, `N` short and `N` load slots and `N * (N - 1) / 2` through slots. -/
def HasAllSlots (N : Int) (set : CoefficientSet) : Prop :=
  set.ports = N ∧ (set.opens.length : Int) = N ∧ (set.shorts.length : Int) = N ∧
  (set.loads.length : Int) = N ∧ (set.throughs.length : Int) = N * (N - 1) / 2

/-- The address that `getThrough(i, j)` yields (address 0 when it yields none; the sets
considered have all their slots). -/
def CoefficientSet.throughAt (set : CoefficientSet) (i j : Int) : Ptr :=
  match set.getThrough i j with
  | .ok (some c) => c
  | _ => 0

/-- The slots that the save thread visits for port `i` of a set, in its order, each with the
identifier of its coefficient: `opens[i-1]`, `shorts[i-1]`, `loads[i-1]` and `getThrough(i, j)`
for `j = i+1 .. numPorts` (an index outside a vector reads as address 0; the sets considered
have all their slots). -/
def savePortOrder (numPorts : Int) (set : CoefficientSet) (i : Int) : List (String × Ptr) :=
  [("P" ++ number i ++ "_OPEN", set.opens.getD (i - 1).toNat 0),
   ("P" ++ number i ++ "_SHORT", set.shorts.getD (i - 1).toNat 0),
   ("P" ++ number i ++ "_LOAD", set.loads.getD (i - 1).toNat 0)]
  ++ (intRange (i + 1) numPorts).map
    (fun j => ("P" ++ number i ++ number j ++ "_THROUGH", set.throughAt i j))

/-- The slots of the collection in the order in which the save thread visits them, each with the
name of its set, the identifier of its coefficient and its address. -/
def saveOrder (numPorts : Int) (sets : List CoefficientSet) : List (String × String × Ptr) :=
  sets.flatMap (fun set => ((intRange 1 numPorts).flatMap (savePortOrder numPorts set)).map
    (fun x => (set.name, x.1, x.2)))

/-- The calls of the lambda `createCoefficient` of the save thread for the slots `slots`, one
after the other; the flag is the local `success`. -/
def saveSlots (dev : USBDevice σ) (qt : QtNumeric D) (totalPoints : Nat) :
    List (String × String × Ptr) → Bool → SaveProgress → M σ D (Bool × SaveProgress)
  | [], success, pr => pure (success, pr)
  | slot :: rest, success, pr => do
    let r ← saveCoefficientSetsThread.createCoefficient dev qt totalPoints slot.1 slot.2.1
      slot.2.2 pr
    saveSlots dev qt totalPoints rest (success && r.1) r.2

/-- The commands that write each of the slots `slots`: those of `slotCommands` for a slot that
is dirty in `heap`, none for a slot that is clean. -/
def slotWrites (qt : QtNumeric D) (heap : List (CoefficientSet.Coefficient D))
    (slots : List (String × String × Ptr)) : List (List String) :=
  slots.map (fun slot =>
    match heap[slot.2.2]? with
    | some co => if co.modified then slotCommands qt slot.1 slot.2.1 co.t else []
    | none => [])

/-- The writes `writes` done one after the other on a channel in the state `s`, each up to and
including the first command that the device rejects, whatever became of the writes before it:
for every write the commands issued with their acknowledgements, and the state of the channel
after the last write. -/
def writeAll (dev : USBDevice σ) : List (List String) → σ → List (List (String × Bool)) × σ
  | [], s => ([], s)
  | cmds :: rest, s =>
    ((sendUntilRejected dev cmds s).1 :: (writeAll dev rest (sendUntilRejected dev cmds s).2).1,
      (writeAll dev rest (sendUntilRejected dev cmds s).2).2)

/-- The number of samples that the slot at `c` adds to `totalPoints` of the save thread. -/
def dirtyPointsAt (heap : List (CoefficientSet.Coefficient D)) (c : Ptr) : Nat :=
  match heap[c]? with
  | some co => if co.modified then co.t.points else 0
  | none => 0

/-- The number of samples of all dirty slots of the collection. -/
def dirtyPoints (heap : List (CoefficientSet.Coefficient D)) (sets : List CoefficientSet) : Nat :=
  ((sets.flatMap CoefficientSet.slots).map (dirtyPointsAt heap)).sum

/-- The response of the object at the address `c`. -/
def responseAt (heap : List (CoefficientSet.Coefficient D)) (c : Ptr) : Option (Touchstone D) :=
  heap[c]?.map (fun co => co.t)

/-- The commands `entry`, issued with their acknowledgements, are a write of the commands
`cmds` that stops at the first rejection: they are the first of `cmds`, at least one of them
when there is any, every command but the last was acknowledged, and when the last was
acknowledged too they are all of `cmds`. -/
def WrittenUntilRejected (cmds : List String) (entry : List (String × Bool)) : Prop :=
  entry.map (fun x => x.1) <+: cmds ∧ (cmds ≠ [] → entry ≠ []) ∧
  (∀ x ∈ entry.dropLast, x.2 = true) ∧
  (entry.all (fun x => x.2) = true → entry.map (fun x => x.1) = cmds)

/-- A device that rejects the command that adds the sample `2 6 -8` and acknowledges every
other command. -/
def pickyDevice : USBDevice (List String) :=
  tableChannel (fun _ => "") (fun cmd => cmd != ":COEFF:ADD 2 6 -8") (fun _ => [])

/-- The file name and the port count of the response of the object at the address `c`. -/
def tagAt (heap : List (CoefficientSet.Coefficient D)) (c : Ptr) : Option (String × Nat) :=
  heap[c]?.map (fun co => (co.t.filename, co.t.ports))

/-- The states of the channel that a load can reach from the state `s0`: a load thread issues
queries, sends commands and receives lines, and it never issues `Cmd`. -/
inductive Reach (dev : USBDevice σ) (s0 : σ) : σ → Prop where
  | refl : Reach dev s0 s0
  | query {s : σ} (cmd : String) : Reach dev s0 s → Reach dev s0 (dev.Query cmd s).2
  | send {s : σ} (cmd : String) : Reach dev s0 s → Reach dev s0 (dev.send cmd s)
  | receive {s : σ} : Reach dev s0 s → Reach dev s0 (dev.receive s).2

/-- Code that moves the channel only by queries, sent commands and receives. -/
def Walks (dev : USBDevice σ) {α : Type} (m : M σ D α) : Prop :=
  ∀ s0 w, Reach dev s0 w.usb → Reach dev s0 (m w).state.usb

/-- The object at the address `c` of `heap` is one that the lambda `createCoefficient` of a load
thread returned for the set `setName` and the identifier `paramName`: a call of the lambda with
these two arguments (of the streaming strategy when `fast` holds, of the polling strategy
otherwise), made in a state of the channel that the load reaches from `s0`, returned the address
`c`, and the object at `c` is as that call left it. For the polling strategy the worker had not
seen the abort flag when the call returned, so its sample loop was not cut short. -/
def Retrieved (dev : USBDevice σ) (qt : QtNumeric D) (fuel : Nat) (fast : Bool) (s0 : σ)
    (setName paramName : String) (heap : List (CoefficientSet.Coefficient D)) (c : Ptr) : Prop :=
  ∃ co, heap[c]? = some co ∧
    if fast then
      ∃ w w1, Reach dev s0 w.usb ∧
        loadCoefficientSetsThreadFast.createCoefficient dev qt fuel setName paramName w
          = .ok c w1 ∧ w1.heap[c]? = some co
    else
      ∃ totalPoints pr pr1 w w1, Reach dev s0 w.usb ∧
        loadCoefficientSetsThreadSlow.createCoefficient dev qt totalPoints setName paramName pr w
          = .ok (c, pr1) w1 ∧ w1.abortLoading = false ∧ w1.heap[c]? = some co

/-- The slots `opens`, `shorts`, `loads`, `throughs` hold, for the ports `ports` of a device with
`numPorts` ports, objects that stand in the relation `R` to the identifiers `P<i>_OPEN`,
`P<i>_SHORT`, `P<i>_LOAD` and `P<i><j>_THROUGH`. The opens, shorts and loads come port by port,
the throughs pair by pair in the order (i, i+1), ..., (i, numPorts) for each port `i` in turn. -/
def SlotsFilled (R : String → Ptr → Prop) (numPorts : Int) (ports : List Int)
    (opens shorts loads throughs : List Ptr) : Prop :=
  List.Forall₂ R (ports.map (fun i => "P" ++ number i ++ "_OPEN")) opens ∧
  List.Forall₂ R (ports.map (fun i => "P" ++ number i ++ "_SHORT")) shorts ∧
  List.Forall₂ R (ports.map (fun i => "P" ++ number i ++ "_LOAD")) loads ∧
  List.Forall₂ R (ports.flatMap (fun i => (intRange (i + 1) numPorts).map
    (fun j => "P" ++ number i ++ number j ++ "_THROUGH"))) throughs

/-- The set `set` of a device with `numPorts` ports holds, slot by slot, the objects that the
lambda `createCoefficient` returned for the name of the set and the identifiers of its
coefficients. -/
def SetFilled (dev : USBDevice σ) (qt : QtNumeric D) (fuel : Nat) (fast : Bool) (s0 : σ)
    (heap : List (CoefficientSet.Coefficient D)) (numPorts : Int) (set : CoefficientSet) : Prop :=
  set.ports = numPorts ∧
  SlotsFilled (fun paramName c => Retrieved dev qt fuel fast s0 set.name paramName heap c) numPorts
    (intRange 1 numPorts) set.opens set.shorts set.loads set.throughs

/-- The call `v.resize(n, c)` on an empty `std::vector<Coefficient*>`: `n` copies of `c`. A
negative `int` converts to a size beyond `max_size()`, for which `resize` throws
`std::length_error`. -/
def resize (n : Int) (c : Ptr) : M σ D (List Ptr) :=
  if n < 0 then leave (.crashed .uncaughtException) else pure (List.replicate n.toNat c)

/-- `CalDevice::addCoefficientSet(name)`. Every `resize(n, new CoefficientSet::Coefficient())`
creates one object and fills the vector with `n` copies of its address. `init` is the value of a
default-constructed `Coefficient` (the constructor is in the header, which is absent from the
sources). -/
def addCoefficientSet (init : CoefficientSet.Coefficient D) (name : String) : M σ D Unit := do
  let numPorts ← readNumPorts
  let c1 ← alloc init
  let loads ← resize numPorts c1
  let c2 ← alloc init
  let shorts ← resize numPorts c2
  let c3 ← alloc init
  let opens ← resize numPorts c3
  let c4 ← alloc init
  let throughs ← resize ((numPorts * (numPorts - 1)).tdiv 2) c4
  pushCoeffSet { name := name, ports := numPorts, opens := opens, shorts := shorts,
                 loads := loads, throughs := throughs }

/-- The channel is in a state that a load reaches from `s0`, and every set of the collection
holds, slot by slot, the objects that the lambda `createCoefficient` returned for its name and
the identifiers of its coefficients on a device with `N` ports. -/
def Filled (dev : USBDevice σ) (qt : QtNumeric D) (fuel : Nat) (fast : Bool) (s0 : σ) (N : Int)
    (w : CalDevice σ D) : Prop :=
  Reach dev s0 w.usb ∧ ∀ set ∈ w.coeffSets, SetFilled dev qt fuel fast s0 w.heap N set

/-- Code that leaves the collection and the port count as they are. -/
def Keeps {α : Type} (m : M σ D α) : Prop :=
  ∀ w, (m w).state.coeffSets = w.coeffSets ∧ (m w).state.numPorts = w.numPorts

/-- Code that emits progress signals only, and that leaves the thread function by `return;`
only after the worker has seen the abort flag. -/
def Silent {α : Type} (m : M σ D α) : Prop :=
  ∀ w, (∃ ps : List Int,
      (m w).state.signals = w.signals ++ ps.map Signal.updateCoefficientsPercent) ∧
    ((m w).exit? = some .returned → (m w).state.abortLoading = true)

/-- Code of a load thread that, when it reaches its end, has emitted progress signals and then
the completion signal with success, once, and that leaves by `return;` only after the worker
has seen the abort flag, with nothing but progress signals emitted. -/
def Completes (m : M σ D Unit) : Prop :=
  ∀ w, (∀ w1, m w = .ok () w1 → ∃ ps : List Int,
      w1.signals = w.signals ++ ps.map Signal.updateCoefficientsPercent
        ++ [.updateCoefficientsDone true]) ∧
    (∀ w1, m w = .exit .returned w1 → w1.abortLoading = true ∧ ∃ ps : List Int,
      w1.signals = w.signals ++ ps.map Signal.updateCoefficientsPercent)

/-! ## The lines of a stream -/

/-- The results of the first `n` calls `usb->receive(&line, 100)` on a channel in the state `s`:
a line, or `none` for a timeout. -/
def received (dev : USBDevice σ) : Nat → σ → List (Option String)
  | 0, _ => []
  | n + 1, s => (dev.receive s).1 :: received dev n (dev.receive s).2

/-- The state of the channel after `n` calls of `receive`. -/
def afterReceives (dev : USBDevice σ) : Nat → σ → σ
  | 0, s => s
  | n + 1, s => afterReceives dev n (dev.receive s).2

/-- A line that the streaming strategy ignores: the start marker, a comment or an option
line. -/
def skipsLine (line : String) : Bool :=
  startsWith line "START" || startsWith line "!" || startsWith line "#"

/-- The sample of the data line `line` has the number of parameters that a response with
`ports` ports takes. -/
def fitsResponse (qt : QtNumeric D) (ports : Nat) (line : String) : Bool :=
  decide ((parseDatapoint qt (split line ' ')).S.length = ports * ports)

/-- The result of a receive that ends the retrieval of a coefficient whose response has `ports`
ports: a timeout, a line that starts with `ERROR`, and, among the lines that are not ignored, a
line that starts with `END` and a data line whose sample the response refuses. -/
def endsRetrieval (qt : QtNumeric D) (ports : Nat) : Option String → Bool
  | none => true
  | some line =>
    startsWith line "ERROR" ||
      (!skipsLine line && (startsWith line "END" || !fitsResponse qt ports line))

/-- The samples of the data lines among the received results `rs`, in their order: the results
that are ignored lines are left out, every other line is parsed. -/
def samplesOfLines (qt : QtNumeric D) (rs : List (Option String)) :
    List (Touchstone.Datapoint D) :=
  ((rs.filterMap id).filter (fun line => !skipsLine line)).map
    (fun line => parseDatapoint qt (split line ' '))

/-- The results of the first `fuel` receives on a channel in the state `s`, up to the first that
ends the retrieval of a coefficient with `ports` ports. -/
def linesBeforeEnd (dev : USBDevice σ) (qt : QtNumeric D) (fuel : Nat) (ports : Nat) (s : σ) :
    List (Option String) :=
  (received dev fuel s).takeWhile (fun r => !endsRetrieval qt ports r)

/-- The device delivers the samples `samples` for the coefficient `paramName` of the set
`setName` whenever it is asked in a state of the channel that a load reaches from `s0`. To the
polling strategy: it answers `COEFF:NUM?` with the number of the samples, and `COEFF:GET?` with
the index `k` with a line whose fields, separated by `,`, are those of the sample `k`. To the
streaming strategy: the lines that follow the request `COEFF:GET?`, up to the first result that
ends the retrieval, are data lines of the samples, in their order, and lines that are ignored. -/
def Delivers (dev : USBDevice σ) (qt : QtNumeric D) (fuel : Nat) (fast : Bool) (s0 : σ)
    (setName paramName : String) (samples : List (Touchstone.Datapoint D)) : Prop :=
  ∀ s, Reach dev s0 s →
    if fast then
      samplesOfLines qt (linesBeforeEnd dev qt fuel (if endsWith paramName "THROUGH" then 2 else 1)
        (dev.send (":COEFF:GET? " ++ setName ++ " " ++ paramName) s)) = samples
    else
      qt.toInt (dev.Query (":COEFF:NUM? " ++ setName ++ " " ++ paramName) s).1
        = (samples.length : Int) ∧
      ∀ k : Nat, k < samples.length →
        samples[k]? = some (parseDatapoint qt (split
          (dev.Query (":COEFF:GET? " ++ setName ++ " " ++ paramName ++ " " ++ number (k : Int))
            s).1 ','))

/-- The object at the address `c` is the coefficient `paramName` as a load thread builds it from
the samples `samples`: a response with these samples, with the file name `LibreCAL/<paramName>`
and with two ports for a through and one port otherwise, not modified. -/
def HoldsSamples (heap : List (CoefficientSet.Coefficient D)) (c : Ptr) (paramName : String)
    (samples : List (Touchstone.Datapoint D)) : Prop :=
  heap[c]? = some
    { t := { ports := if endsWith paramName "THROUGH" then 2 else 1
             datapoints := samples
             filename := "LibreCAL/" ++ paramName }
      modified := false }

/-- The samples that the example device delivers to the polling strategy: three times the
sample `1,5,-7` for the open of port 1 of `FACTORY`, none for any other coefficient. -/
def examplePolled (name coeff : String) : List (Touchstone.Datapoint Int) :=
  if name = "FACTORY" ∧ coeff = "P1_OPEN" then
    List.replicate 3 { frequency := 1000000000, S := [(5, -7)] }
  else []

/-- The samples that the example device delivers to the streaming strategy: the sample `1 5 -7`
for every coefficient of one port, and none for a through, whose response refuses that sample. -/
def exampleStreamed (_name coeff : String) : List (Touchstone.Datapoint Int) :=
  if endsWith coeff "THROUGH" then [] else [{ frequency := 1000000000, S := [(5, -7)] }]

/-- A device whose stream for every coefficient holds an error line between two samples. -/
def brokenStreamDevice : USBDevice (List String) :=
  tableChannel (fun _ => "FACTORY") (fun _ => true)
    (fun _ => ["START", "1 5 -7", "ERROR", "2 6 -8", "END"])

/-! ## Progress notifications -/

/-- The percentage `floor(100 * r / T)` of `r` samples read out of `T`. -/
def percentOf (T r : Nat) : Int := ((r * 100 / T : Nat) : Int)

/-- The percentages that the polling strategy notifies for the samples `r + 1, ..., r + k` of
`T`, when `last` is the value notified last (0 at the start): after each sample the percentage
of the samples read so far is notified exactly when it differs from the value notified last. -/
def notifications (T : Nat) : Nat → Int → Nat → List Int
  | _, _, 0 => []
  | r, last, k + 1 =>
    if percentOf T (r + 1) ≠ last then
      percentOf T (r + 1) :: notifications T (r + 1) (percentOf T (r + 1)) k
    else notifications T (r + 1) last k

/-- The code `m` of the polling strategy, which starts with the progress `pr` and is to read
`c` samples of `T`: it reads some `k` of them and notifies the percentages of `notifications`
for them; it does not divide by zero; it does not clear the abort flag; and when it reaches its
end, the progress counts the `k` samples, `lastPercentage` is the percentage of the samples
read, and all `c` samples were read unless the worker has seen the abort flag. -/
def Progresses {α : Type} (T c : Nat) (pr : SlowProgress) (m : M σ D (α × SlowProgress)) : Prop :=
  ∀ w, ∃ k, k ≤ c ∧
    (m w).state.signals = w.signals
      ++ (notifications T pr.readPoints pr.lastPercentage k).map Signal.updateCoefficientsPercent ∧
    (m w).exit? ≠ some (.crashed .divisionByZero) ∧
    (w.abortLoading = true → (m w).state.abortLoading = true) ∧
    ∀ a w1, m w = .ok a w1 →
      a.2 = { readPoints := pr.readPoints + k,
              lastPercentage := if k = 0 then pr.lastPercentage
                else percentOf T (pr.readPoints + k) } ∧
      (k = c ∨ w1.abortLoading = true)

/-- The code `m` of the polling strategy, which starts with the progress `pr` and is to read
`c` samples of `T`: it notifies the percentages of `notifications` for the samples that it
reads, it does not divide by zero, and when it reaches its end it has read all `c` samples. -/
def Ends {α : Type} (T c : Nat) (pr : SlowProgress) (m : M σ D (α × SlowProgress)) : Prop :=
  ∀ w, ∃ k, k ≤ c ∧
    (m w).state.signals = w.signals
      ++ (notifications T pr.readPoints pr.lastPercentage k).map Signal.updateCoefficientsPercent ∧
    (m w).exit? ≠ some (.crashed .divisionByZero) ∧
    ∀ a w1, m w = .ok a w1 →
      k = c ∧
      a.2 = { readPoints := pr.readPoints + c,
              lastPercentage := if c = 0 then pr.lastPercentage
                else percentOf T (pr.readPoints + c) }

/-- As `Ends`, for code that reaches its end only when the worker had not seen the abort flag
at its start. -/
def Checks {α : Type} (T c : Nat) (pr : SlowProgress) (m : M σ D (α × SlowProgress)) : Prop :=
  ∀ w, ∃ k, k ≤ c ∧
    (m w).state.signals = w.signals
      ++ (notifications T pr.readPoints pr.lastPercentage k).map Signal.updateCoefficientsPercent ∧
    (m w).exit? ≠ some (.crashed .divisionByZero) ∧
    ∀ a w1, m w = .ok a w1 →
      w.abortLoading = false ∧ k = c ∧
      a.2 = { readPoints := pr.readPoints + c,
              lastPercentage := if c = 0 then pr.lastPercentage
                else percentOf T (pr.readPoints + c) }

/-- Code that emits no signal, reaches its end, and does not clear the abort flag. -/
def Quiet {α : Type} (m : M σ D α) : Prop :=
  ∀ w, ∃ a w1, m w = .ok a w1 ∧ w1.signals = w.signals ∧
    (w.abortLoading = true → w1.abortLoading = true)

/-- The progress signals of the streaming strategy for the `n` coefficients that follow the
first `read_coeffs`: the values of `read_coeffs * 100 / total_coeffs` after each increment of
`read_coeffs`. -/
def fastPercents (total_coeffs read_coeffs : Int) (n : Nat) : List Signal :=
  (List.range n).map (fun (k : Nat) =>
    Signal.updateCoefficientsPercent (((read_coeffs + k + 1) * 100).tdiv total_coeffs))

/-- The progress signals that carry `floor(100 * k / T)` for `k = 1, ..., K`. -/
def percentsUpTo (T : Int) (K : Nat) : List Signal :=
  (List.range K).map (fun (k : Nat) => Signal.updateCoefficientsPercent (100 * ((k : Int) + 1) / T))

/-- The completion signal of a load thread that ended as `e` tells after its validation has
passed: `updateCoefficientsDone(true)` when the thread reached its end, and nothing when it was
left before. -/
def doneSignal (e : Option Exit) : List Signal :=
  match e with
  | none => [.updateCoefficientsDone true]
  | some _ => []

/-! ## Slots of a set that `addCoefficientSet` creates -/

/-- The assignment `c->t = t`, by which client code replaces the response of a slot. -/
def setResponse (c : Ptr) (t : Touchstone D) : M σ D Unit := fun w =>
  match w.heap[c]? with
  | some co => .ok () { w with heap := w.heap.set c { co with t := t } }
  | none => .exit (.crashed .badPointer) w

/-- What is written through the slot `i` of the vector `v` shows through its slot `j`: in the
state `w1` the object of slot `j` has the flag and the response of `init`, and after
`v[i]->modified = b` the flag of the object of slot `j` is `b`, and after `v[i]->t = t` the
response of the object of slot `j` is `t`. -/
def SlotsShareObject (init : CoefficientSet.Coefficient D) (w1 : CalDevice σ D) (v : List Ptr)
    (i j : Nat) : Prop :=
  ∃ ci cj, v[i]? = some ci ∧ v[j]? = some cj ∧
    slotModified w1.heap cj = init.modified ∧ responseAt w1.heap cj = some init.t ∧
    (∀ b, ∃ w2, setModified ci b w1 = .ok () w2 ∧ slotModified w2.heap cj = b) ∧
    (∀ t, ∃ w2, setResponse ci t w1 = .ok () w2 ∧ responseAt w2.heap cj = some t)

/-! ## `Standard` and its text -/

/-- Modelled from the spec: the enumeration `CalDevice::Standard::Type` (declared in the header,
which is absent from the sources), with the five values that `StandardToString` switches on. -/
inductive StandardType where
  | Open
  | Short
  | Load
  | Through
  | None
deriving DecidableEq, Repr

/-- Modelled from the spec: the class `CalDevice::Standard` (declared in the header, which is
absent from the sources): the members `type` and `throughDest` that `StandardToString` reads. -/
structure Standard where
  type : StandardType
  throughDest : Int
deriving DecidableEq, Repr

/-- Modelled from the spec: the constructor `Standard(Standard::Type type)`. The value that it
gives to `throughDest` is not in the sources; it is the parameter `dest`. -/
def Standard.ofType (dest : Int) (type : StandardType) : Standard :=
  { type := type, throughDest := dest }

/-- Modelled from the spec: the constructor `Standard(int throughDest)`, a through to the port
`throughDest`. -/
def Standard.ofThrough (throughDest : Int) : Standard :=
  { type := .Through, throughDest := throughDest }

/-- `CalDevice::StandardToString`. Every value of the enumeration has a case, so the final
`return "Invalid"` is not reached. -/
def StandardToString (s : Standard) : String :=
  match s.type with
  | .Open => "OPEN"
  | .Short => "SHORT"
  | .Load => "LOAD"
  | .Through => "THROUGH " ++ number s.throughDest
  | .None => "NONE"

/-- `CalDevice::availableStandards`. -/
def availableStandards (dest : Int) : List Standard :=
  [Standard.ofType dest .None, Standard.ofType dest .Open, Standard.ofType dest .Short,
   Standard.ofType dest .Load, Standard.ofThrough 1, Standard.ofThrough 2, Standard.ofThrough 3,
   Standard.ofThrough 4]

/-- `CalDevice::StandardFromString`: the first of the available standards whose text is `s`,
and `Standard(Standard::Type::None)` when there is none. -/
def StandardFromString (dest : Int) (s : String) : Standard :=
  match (availableStandards dest).find? (fun standard => s == StandardToString standard) with
  | some standard => standard
  | none => Standard.ofType dest .None

/-- A device with the one set `FACTORY` that counts one sample for every coefficient and answers
the query of a sample with the text `ERROR`. -/
def malformedDevice : USBDevice (List String) :=
  tableChannel
    (fun cmd => if cmd = ":COEFF:LIST?" then "FACTORY"
      else if startsWith cmd ":COEFF:NUM? " then "1" else "ERROR")
    (fun _ => true) (fun _ => [])

/-! ## A set whose slots share their objects -/

/-- A device that rejects the command `rejected` and acknowledges every other command. -/
def rejectingDevice (rejected : String) : USBDevice (List String) :=
  tableChannel (fun _ => "") (fun cmd => cmd != rejected) (fun _ => [])

/-- Client code on a device with two ports: it adds the set `USER1` with `addCoefficientSet`
(whose opens are both the object at the address 2 and whose shorts are both the object at the
address 1), and then, through `opens[0]` and through `shorts[0]`, it replaces the response by
one sample and sets the dirty flag. -/
def editNewSet : M σ Int Unit := do
  addCoefficientSet { t := Touchstone.new 1, modified := false } "USER1"
  setResponse 2
    { ports := 1, datapoints := [{ frequency := 1000000000, S := [(5, -7)] }], filename := "" }
  setModified 2 true
  setResponse 1
    { ports := 1, datapoints := [{ frequency := 2000000000, S := [(6, -8)] }], filename := "" }
  setModified 1 true

/-! ## A save followed by a load -/

/-- The numeric conversions of Qt on `double`, a `double` taken as the rational number that it
stands for: `QString::number(double)` writes at most six significant digits. -/
def qtDoubles : QtNumeric ℚ where
  toInt := decimalInt
  toDouble := QString.toDouble
  timesGiga x := x * 1000000000
  overGiga x := x / 1000000000
  numberDouble := QString.numberDouble

/-- The fields of the command `:COEFF:ADD` of the save thread for the sample `point`: the text
of the frequency in GHz, then the texts of the real and the imaginary part of every parameter,
the parameters of a two-port in wire order. -/
def addFields (qt : QtNumeric D) (point : Touchstone.Datapoint D) : List String :=
  qt.numberDouble (qt.overGiga point.frequency) ::
    (swapMiddle point.S).flatMap (fun s => [qt.numberDouble s.1, qt.numberDouble s.2])

/-- The text of the command `:COEFF:ADD` for the sample `point` after the name of the command:
the fields of the sample separated by blanks. -/
def addLine (qt : QtNumeric D) (point : Touchstone.Datapoint D) : String :=
  joinFields ' ' (addFields qt point)

/-- The sample `point` as it comes back from its text: the frequency is written in GHz with
`QString::number`, read with `toDouble` and scaled by `1e9`, every part of every parameter is
written with `QString::number` and read with `toDouble`; the parameters keep their order. -/
def throughText (qt : QtNumeric D) (point : Touchstone.Datapoint D) : Touchstone.Datapoint D :=
  { frequency := qt.timesGiga (qt.toDouble (qt.numberDouble (qt.overGiga point.frequency)))
    S := point.S.map (fun s =>
      (qt.toDouble (qt.numberDouble s.1), qt.toDouble (qt.numberDouble s.2))) }

/-- The sample `point` fits a response with `ports` ports, and the line of its command can be
read back: no field contains a blank, and the line does not start like an error line, a line
that the streaming strategy ignores, or the end marker. -/
def TextOK (qt : QtNumeric D) (ports : Nat) (point : Touchstone.Datapoint D) : Prop :=
  point.S.length = ports * ports ∧ (∀ f ∈ addFields qt point, ' ' ∉ f.data) ∧
  startsWith (addLine qt point) "ERROR" = false ∧ skipsLine (addLine qt point) = false ∧
  startsWith (addLine qt point) "END" = false

instance (qt : QtNumeric D) (ports : Nat) (point : Touchstone.Datapoint D) :
    Decidable (TextOK qt ports point) := by
  unfold TextOK
  infer_instance

/-- Modelled from the spec: the calibration module as a device that stores what it is sent (its
firmware is outside the sources; the spec gives its commands). What the device holds: for the
coefficients, each named `<set> <coefficient>`, the lines stored (an entry further to the front
replaces one behind it), the name of the coefficient that is being written, and the lines of
the stream that were not received yet. -/
structure Store where
  coeffs : List (String × List String)
  current : Option String
  out : List String
deriving DecidableEq, Repr

/-- The lines stored for the coefficient `key`; none when nothing is stored for it. -/
def storedLines (coeffs : List (String × List String)) (key : String) : List String :=
  match coeffs.find? (fun e => e.1 == key) with
  | some e => e.2
  | none => []

/-- The text `cmd` without its first `n` characters. -/
def textAfter (n : Nat) (cmd : String) : String := String.mk (cmd.data.drop n)

/-- Modelled from the spec: a device that stores what it is sent takes the command `cmd`.
`:COEFF:CREATE <key>` starts the coefficient `key` with no line, `:COEFF:ADD <line>` appends
the line to the coefficient that is being written and is rejected when there is none,
`:COEFF:FIN` ends the writing of the coefficient, `:COEFF:DEL <key>` leaves no line for the
coefficient `key`, and any other command is rejected. -/
def storeCommand (cmd : String) (s : Store) : Bool × Store :=
  if startsWith cmd ":COEFF:CREATE " then
    (true, { coeffs := (textAfter 14 cmd, []) :: s.coeffs
             current := some (textAfter 14 cmd)
             out := s.out })
  else if startsWith cmd ":COEFF:ADD " then
    match s.current with
    | some key =>
      (true, { coeffs := (key, storedLines s.coeffs key ++ [textAfter 11 cmd]) :: s.coeffs
               current := s.current
               out := s.out })
    | none => (false, s)
  else if cmd = ":COEFF:FIN" then
    (s.current.isSome, { coeffs := s.coeffs, current := none, out := s.out })
  else if startsWith cmd ":COEFF:DEL " then
    (true, { coeffs := (textAfter 11 cmd, []) :: s.coeffs
             current := s.current
             out := s.out })
  else (false, s)

/-- The commands that were issued with `usb->Cmd`, oldest first. -/
def commandsOf (io : List ChannelOp) : List String :=
  io.filterMap (fun op => match op with
    | .cmd cmd => some cmd
    | _ => none)

/-- What a device that stores what it is sent holds after the commands `cmds`, taken one after
the other by a device that held nothing. -/
def storeOf (cmds : List String) : Store :=
  cmds.foldl (fun s cmd => (storeCommand cmd s).2) { coeffs := [], current := none, out := [] }

/-- The device gives back the lines `lines` for the coefficient `paramName` of the set `setName`
whenever it is asked in a state of the channel that a load reaches from `s0`. To the polling
strategy: it answers `COEFF:NUM?` with the number of the lines, and `COEFF:GET?` with the index
`k` with the fields of the line `k`, separated by commas. To the streaming strategy: after the
request `COEFF:GET?` it sends the start marker, the lines in their order and the end marker. -/
def GivesBack (dev : USBDevice σ) (qt : QtNumeric D) (fuel : Nat) (fast : Bool) (s0 : σ)
    (setName paramName : String) (lines : List String) : Prop :=
  ∀ s, Reach dev s0 s →
    if fast then
      (received dev fuel (dev.send (":COEFF:GET? " ++ setName ++ " " ++ paramName) s)).take
          (lines.length + 2)
        = some "START" :: lines.map some ++ [some "END"]
    else
      qt.toInt (dev.Query (":COEFF:NUM? " ++ setName ++ " " ++ paramName) s).1
        = (lines.length : Int) ∧
      ∀ k : Nat, k < lines.length →
        lines[k]?.map (fun line => split line ' ')
          = some (split
              (dev.Query (":COEFF:GET? " ++ setName ++ " " ++ paramName ++ " " ++ number (k : Int))
                s).1 ',')

/-- The device `dev` on the states of its channel that a load reaches from `s0`, and on no
other: a state comes with the operations that lead to it. `Cmd`, which a load never issues,
is rejected there. -/
def reachDevice (dev : USBDevice σ) (s0 : σ) : USBDevice { s : σ // Reach dev s0 s } where
  Query cmd s := ((dev.Query cmd s.1).1, ⟨(dev.Query cmd s.1).2, Reach.query cmd s.2⟩)
  Cmd _ s := (false, s)
  send cmd s := ⟨dev.send cmd s.1, Reach.send cmd s.2⟩
  receive s := ((dev.receive s.1).1, ⟨(dev.receive s.1).2, Reach.receive s.2⟩)

/-- The state of a `CalDevice` on `reachDevice dev s0`, as a state of a `CalDevice` on `dev`. -/
def forget {dev : USBDevice σ} {s0 : σ} (w : CalDevice { s : σ // Reach dev s0 s } D) :
    CalDevice σ D :=
  { usb := w.usb.1, numPorts := w.numPorts, coeffSets := w.coeffSets,
    abortLoading := w.abortLoading, heap := w.heap, io := w.io, signals := w.signals,
    abortRequest := w.abortRequest }

/-- The outcome of a run on `reachDevice dev s0`, as an outcome of a run on `dev`. -/
def Res.forget {dev : USBDevice σ} {s0 : σ} {α : Type} :
    Res { s : σ // Reach dev s0 s } D α → Res σ D α
  | .ok a w => .ok a (CalDevice.forget w)
  | .exit e w => .exit e (CalDevice.forget w)

/-- The code `m1` on `reachDevice dev s0` does what the code `m` does on `dev`. -/
def Lowers {dev : USBDevice σ} {s0 : σ} {α : Type} (m1 : M { s : σ // Reach dev s0 s } D α)
    (m : M σ D α) : Prop :=
  ∀ w, (m1 w).forget = m (CalDevice.forget w)

/-- The device stores what it is sent, as far as a load of the sets `names` that starts in the
state `w` sees it: its listing starts with `FACTORY` and holds the names; for every coefficient
of every set to retrieve it gives back, whenever the load asks, the lines that the commands
issued to it so far stored (`storeOf`); each of these lines holds a sample that fits the
coefficient; and these lines are fewer than `2 ^ 64` in all. -/
def Stores (dev : USBDevice σ) (qt : QtNumeric D) (fuel : Nat) (names : List String)
    (fast : Bool) (w : CalDevice σ D) : Prop :=
  startsWith (dev.Query ":COEFF:LIST?" w.usb).1 "FACTORY" = true ∧
  (∀ n ∈ names, n ∈ split (dev.Query ":COEFF:LIST?" w.usb).1 ',') ∧
  (∀ name ∈ requestedSets names (split (dev.Query ":COEFF:LIST?" w.usb).1 ','),
    ∀ coeff ∈ loadCoefficientSetsThreadFast.coeffNames w.numPorts,
      GivesBack dev qt fuel fast w.usb name coeff
        (storedLines (storeOf (commandsOf w.io)).coeffs (name ++ " " ++ coeff)) ∧
      ∀ line ∈ storedLines (storeOf (commandsOf w.io)).coeffs (name ++ " " ++ coeff),
        fitsResponse qt (if endsWith coeff "THROUGH" then 2 else 1) line = true) ∧
  totalCount (fun name coeff =>
      (storedLines (storeOf (commandsOf w.io)).coeffs (name ++ " " ++ coeff)).length)
    w.numPorts (requestedSets names (split (dev.Query ":COEFF:LIST?" w.usb).1 ',')) < 2 ^ 64

/-- The object at the address `c` of the heap `heap1` holds what was written from the object at
the address `old` of the heap `heap`, when that object was modified: the coefficient
`paramName` with the samples of that object, each as it comes back from its text, in their
order. -/
def ReadBack (qt : QtNumeric D) (heap heap1 : List (CoefficientSet.Coefficient D)) (old c : Ptr)
    (paramName : String) : Prop :=
  ∀ co, heap[old]? = some co → co.modified = true →
    HoldsSamples heap1 c paramName (co.t.datapoints.map (throughText qt))

/-- Modelled from the spec: the answer of the storing device to a query. `COEFF:LIST?` gives the
listing `listing` of its sets, `COEFF:NUM? <key>` the number of the lines stored for the
coefficient, and `COEFF:GET? <key> <index>` the line with that index, its fields separated by
commas. -/
def storingAnswer (listing : String) (coeffs : List (String × List String)) (cmd : String) :
    String :=
  if cmd = ":COEFF:LIST?" then listing
  else if startsWith cmd ":COEFF:NUM? " then
    number ((storedLines coeffs (textAfter 12 cmd)).length : Int)
  else if startsWith cmd ":COEFF:GET? " then
    match (storedLines coeffs (joinFields ' ' (split (textAfter 12 cmd) ' ').dropLast))[
        (decimalInt ((split (textAfter 12 cmd) ' ').getLast?.getD "")).toNat]? with
    | some line => joinFields ',' (split line ' ')
    | none => ""
  else ""

/-- Modelled from the spec: the lines that the storing device streams after a sent command, for
`:COEFF:GET? <key>` the start marker, the lines stored for the coefficient and the end
marker. -/
def storingStream (coeffs : List (String × List String)) (cmd : String) : List String :=
  if startsWith cmd ":COEFF:GET? " then
    ["START"] ++ storedLines coeffs (textAfter 12 cmd) ++ ["END"]
  else []

/-- Modelled from the spec: a device that stores what it is sent, with the listing `listing` of
its sets. It takes commands by `storeCommand`, and it answers a load from what it holds. -/
def storingDevice (listing : String) : USBDevice Store where
  Query cmd s := (storingAnswer listing s.coeffs cmd, s)
  Cmd := storeCommand
  send cmd s := { coeffs := s.coeffs, current := s.current, out := storingStream s.coeffs cmd }
  receive s :=
    match s.out with
    | [] => (none, s)
    | line :: lines => (some line, { coeffs := s.coeffs, current := s.current, out := lines })

/-- The set `USER1` of a device with two ports as a load into an empty heap builds it: the
objects are created in the order of the retrieval. -/
def loadedUser1 : CoefficientSet :=
  { name := "USER1", ports := 2, opens := [0, 4], shorts := [1, 5], loads := [2, 6],
    throughs := [3] }

/-- Client code on a storing device: it loads the set `USER1`, for which the device holds
nothing yet, and then, through the slots of the loaded set, it replaces the response of the open
of port 1 by one sample at the frequency `f` and the response of the through by two two-port
samples, and sets the dirty flag of both and of the load of port 2, which holds no sample. -/
def measure (f : ℚ) : M Store ℚ Unit := do
  loadCoefficientSets (storingDevice "FACTORY,USER1") qtDoubles 100 ["USER1"] true
  setResponse 0
    { ports := 1, datapoints := [{ frequency := f, S := [(1 / 2, -1 / 4)] }], filename := "" }
  setModified 0 true
  setResponse 3
    { ports := 2
      datapoints := [{ frequency := 1000000000, S := [(1, 2), (3, 4), (5, 6), (7, 8)] },
                     { frequency := 2500000000,
                       S := [(-1, 0), (1 / 8, 100), (0, 1 / 1000), (12345, -3 / 2)] }]
      filename := "" }
  setModified 3 true
  setModified 6 true

/-- A `CalDevice` with two ports on a storing device that holds nothing yet, after the client
code `measure`: its collection is the set `USER1` as the load built it, three of whose slots
are dirty. -/
def measuredDevice (f : ℚ) : CalDevice Store ℚ :=
  (measure f (fresh { coeffs := [], current := none, out := [] } 2 none)).state

/-- A save of the collection and, once it has ended, a load of the sets `names`. -/
def saveThenLoad (dev : USBDevice σ) (qt : QtNumeric D) (fuel : Nat) (names : List String)
    (fast : Bool) : M σ D Unit := do
  saveCoefficientSets dev qt
  loadCoefficientSets dev qt fuel names fast

/-- Client code on a device with two ports: it loads the set `USER1` twice in one request, so
that the collection holds two sets of that name, each with objects of its own, and then,
through the open of port 1 of either set, it replaces the response by one sample and sets the
dirty flag. -/
def editSameName : M Store Int Unit := do
  loadCoefficientSets (storingDevice "FACTORY,USER1") wholeNumbers 100 ["USER1", "USER1"] true
  setResponse 0
    { ports := 1, datapoints := [{ frequency := 1000000000, S := [(5, -7)] }], filename := "" }
  setModified 0 true
  setResponse 7
    { ports := 1, datapoints := [{ frequency := 2000000000, S := [(6, -8)] }], filename := "" }
  setModified 7 true

/-! ## The invariant of the collection -/

/-- The addresses `cs` are pairwise distinct, and each of them holds an object of a heap of `n`
objects. -/
def Distinct (cs : List Ptr) (n : Nat) : Prop := cs.Nodup ∧ ∀ c ∈ cs, c < n

/-- No two slots of the collection hold the same address, and every slot holds the address of an
object. -/
def SlotsDistinct (w : CalDevice σ D) : Prop :=
  Distinct (w.coeffSets.flatMap CoefficientSet.slots) w.heap.length

/-- Code that leaves the port count as it is. -/
def SamePorts {α : Type} (m : M σ D α) : Prop := ∀ w, (m w).state.numPorts = w.numPorts

/-- Code that creates no object: the heap keeps its size. -/
def SameSize {α : Type} (m : M σ D α) : Prop := ∀ w, (m w).state.heap.length = w.heap.length

/-- The invariant of the collection: the port count is not negative, every set of the collection
has all its slots, and every slot holds the address of an object. -/
def WellFormed (w : CalDevice σ D) : Prop :=
  0 ≤ w.numPorts ∧ (∀ set ∈ w.coeffSets, HasAllSlots w.numPorts set) ∧ Valid w

end CalDevice

/-! ## The date and time sent to the device -/

namespace QString

/-- `QString::arg(int a, int fieldWidth, 10, QChar('0'))` of Qt: the decimal text of `a`, with
zeros in front of its digits until the text has `fieldWidth` characters; the sign of a negative
number stays in front. -/
def argInt (a : Int) (fieldWidth : Nat) : String :=
  if a < 0 then
    "-" ++ "".pushn '0' (fieldWidth - 1 - (toString a.natAbs).length) ++ toString a.natAbs
  else "".pushn '0' (fieldWidth - (toString a.natAbs).length) ++ toString a.natAbs

end QString

/-- The value of `QDateTime::currentDateTime()`, as far as `getLocalDateTimeWithUtcOffset`
reads it: the fields of the local date and time, and `offsetFromUtc()`, the offset of the local
time from UTC in seconds. -/
structure QDateTime where
  year : Int
  month : Int
  day : Int
  hour : Int
  minute : Int
  second : Int
  offsetFromUtc : Int
deriving DecidableEq, Repr

/-- The texts that `getLocalDateTimeWithUtcOffset` puts in the place of `%7`, `%8` and `%9` for
the offset `offsetFromUtc`: the sign, the hours and the minutes.
```
int utcOffset = currentDateTime.offsetFromUtc() / 3600;
int utcOffsetMinute = (currentDateTime.offsetFromUtc() % 3600) / 60;
.arg(utcOffset > 0 ? "+" : "-")
.arg(qAbs(utcOffset), 2, 10, QChar('0'))
.arg(utcOffsetMinute, 2, 10, QChar('0'))
```
The division and the remainder of C++ truncate towards zero. -/
def utcOffsetArgs (offsetFromUtc : Int) : String × String × String :=
  let utcOffset := offsetFromUtc.tdiv 3600
  let utcOffsetMinute := (offsetFromUtc.tmod 3600).tdiv 60
  (if utcOffset > 0 then "+" else "-", QString.argInt (utcOffset.natAbs : Int) 2,
    QString.argInt utcOffsetMinute 2)

/-- The function `getLocalDateTimeWithUtcOffset` of `caldevice.cpp`, for the current date and
time `currentDateTime`: the pattern `"%1/%2/%3 %4:%5:%6 UTC%7%8:%9"` with its nine arguments
(none of which contains a place marker). -/
def getLocalDateTimeWithUtcOffset (currentDateTime : QDateTime) : String :=
  QString.argInt currentDateTime.year 4 ++ "/" ++ QString.argInt currentDateTime.month 2 ++ "/"
    ++ QString.argInt currentDateTime.day 2 ++ " " ++ QString.argInt currentDateTime.hour 2 ++ ":"
    ++ QString.argInt currentDateTime.minute 2 ++ ":" ++ QString.argInt currentDateTime.second 2
    ++ " UTC" ++ (utcOffsetArgs currentDateTime.offsetFromUtc).1
    ++ (utcOffsetArgs currentDateTime.offsetFromUtc).2.1 ++ ":"
    ++ (utcOffsetArgs currentDateTime.offsetFromUtc).2.2

/-! # Properties -/

namespace CalDevice

open QString

variable {σ D : Type}

/-! ## Triangular addressing of the through slots -/

theorem getThroughLoop_le_one (N p idx : Int) (h : p ≤ 1) : getThroughLoop N p idx = idx := by
  rw [getThroughLoop, if_neg (by omega)]

theorem getThroughLoop_step (N p idx : Int) (h : 1 < p) :
    getThroughLoop N p idx = getThroughLoop N (p - 1) (idx + (N - p + 1)) := by
  rw [getThroughLoop, if_pos h]

theorem rowOffset_one (N : Int) : rowOffset N 1 = 0 := by
  simp [rowOffset]

theorem rowOffset_succ (N i : Int) (h : 1 ≤ i) : rowOffset N (i + 1) = rowOffset N i + (N - i) := by
  unfold rowOffset
  have e : Finset.Icc 1 (i + 1 - 1) = insert i (Finset.Icc 1 (i - 1)) := by
    ext k
    simp only [Finset.mem_Icc, Finset.mem_insert]
    omega
  rw [e, Finset.sum_insert (by simp)]
  ring

/-- Twice the cumulative offset of row `i`, in closed form. -/
theorem two_mul_rowOffset (N i : Int) (h : 1 ≤ i) : 2 * rowOffset N i = (i - 1) * (2 * N - i) := by
  obtain ⟨k, rfl⟩ : ∃ k : Nat, i = (k : Int) + 1 := ⟨(i - 1).toNat, by omega⟩
  clear h
  induction k with
  | zero => simp [rowOffset_one]
  | succ k ih =>
    rw [Nat.cast_succ, rowOffset_succ N (k + 1) (by omega), mul_add, ih]
    ring

/-- The loop adds the cumulative offset of row `p` to the start value. -/
theorem getThroughLoop_eq (N p idx : Int) (h : 1 ≤ p) :
    getThroughLoop N p idx = idx + rowOffset N p := by
  obtain ⟨k, rfl⟩ : ∃ k : Nat, p = (k : Int) + 1 := ⟨(p - 1).toNat, by omega⟩
  clear h
  induction k generalizing idx with
  | zero => simp [getThroughLoop_le_one, rowOffset_one]
  | succ k ih =>
    rw [Nat.cast_succ, getThroughLoop_step N _ idx (by omega), add_sub_cancel_right, ih,
      rowOffset_succ N (k + 1) (by omega)]
    ring

theorem getThroughIndex_eq (N i j : Int) (hi : 1 ≤ i) (hij : i < j) (hj : j ≤ N) :
    getThroughIndex N i j = some (rowOffset N i + (j - i - 1)) := by
  unfold getThroughIndex
  rw [if_neg (by omega), getThroughLoop_eq N i _ hi]
  congr 1
  ring

theorem rowOffset_nonneg (N i : Int) (hi : 1 ≤ i) (hN : i ≤ N) : 0 ≤ rowOffset N i := by
  have h := two_mul_rowOffset N i hi
  have : 0 ≤ (i - 1) * (2 * N - i) := mul_nonneg (by omega) (by omega)
  omega

/-- The offsets of the rows grow: row `i'` starts after the last slot of every earlier row. -/
theorem rowOffset_succ_le (N i i' : Int) (hi : 1 ≤ i) (hii : i < i') (hN : i' ≤ N) :
    rowOffset N i + (N - i) ≤ rowOffset N i' := by
  have h1 := two_mul_rowOffset N i hi
  have h2 := two_mul_rowOffset N i' (by omega)
  have h3 : 0 ≤ (i' - i - 1) * (2 * N - i' - i) := mul_nonneg (by omega) (by omega)
  nlinarith

theorem getThroughIndex_row_lt (N i j i' j' : Int) (hi : 1 ≤ i) (hij : i < j) (hj : j ≤ N)
    (hii : i < i') (hij' : i' < j') (hj' : j' ≤ N) :
    getThroughIndex N i j ≠ getThroughIndex N i' j' := by
  rw [getThroughIndex_eq N i j hi hij hj, getThroughIndex_eq N i' j' (by omega) hij' hj']
  have := rowOffset_succ_le N i i' hi hii (by omega)
  intro h
  have h' := Option.some.inj h
  omega

/-- C1: for a set with `N` ports and a pair `1 <= i < j <= N`, `getThrough(i, j)` selects the
through slot at the index (sum over k = 1..i-1 of (N - k)) + (j - i - 1), the cumulative offset
of row `i` plus `j - i - 1`; for `N = 4` the pairs (1,2), (1,3), (1,4), (2,3), (2,4), (3,4) get
the indices 0, 1, 2, 3, 4, 5. -/
theorem getThrough_triangular_index :
    (∀ N i j : Int, 1 ≤ i → i < j → j ≤ N →
      getThroughIndex N i j = some ((∑ k in Finset.Icc 1 (i - 1), (N - k)) + (j - i - 1))) ∧
    (∀ (set : CoefficientSet) (i j : Int), 1 ≤ i → i < j → j ≤ set.ports →
      set.getThrough i j =
        match set.throughs[((∑ k in Finset.Icc 1 (i - 1), (set.ports - k)) + (j - i - 1)).toNat]? with
        | some c => .ok (some c)
        | none => .error .outOfBounds) ∧
    getThroughIndex 4 1 2 = some 0 ∧ getThroughIndex 4 1 3 = some 1 ∧
    getThroughIndex 4 1 4 = some 2 ∧ getThroughIndex 4 2 3 = some 3 ∧
    getThroughIndex 4 2 4 = some 4 ∧ getThroughIndex 4 3 4 = some 5 := by
  refine ⟨fun N i j hi hij hj => getThroughIndex_eq N i j hi hij hj, ?_, ?_⟩
  · intro set i j hi hij hj
    have h0 := rowOffset_nonneg set.ports i hi (by omega)
    unfold CoefficientSet.getThrough
    rw [getThroughIndex_eq set.ports i j hi hij hj]
    simp only
    rw [if_pos (by omega)]
    rfl
  · simp [getThroughIndex, getThroughLoop]

/-- C2: for every port count `N`, the index of `getThrough` maps the pairs `1 <= i < j <= N`
one-to-one onto `0 .. N*(N-1)/2 - 1`: every index lies inside the vector of `N*(N-1)/2` through
slots, two different pairs never get the same index, and every slot is the slot of some pair. -/
theorem getThrough_index_bijective (N : Nat) :
    (∀ i j : Int, 1 ≤ i → i < j → j ≤ N →
      ∃ m : Int, getThroughIndex N i j = some m ∧ 0 ≤ m ∧ m < (N : Int) * (N - 1) / 2) ∧
    (∀ i j i' j' : Int, 1 ≤ i → i < j → j ≤ N → 1 ≤ i' → i' < j' → j' ≤ N →
      getThroughIndex N i j = getThroughIndex N i' j' → i = i' ∧ j = j') ∧
    (∀ m : Int, 0 ≤ m → m < (N : Int) * (N - 1) / 2 →
      ∃ i j : Int, 1 ≤ i ∧ i < j ∧ j ≤ N ∧ getThroughIndex N i j = some m) := by
  refine ⟨?_, ?_, ?_⟩
  · intro i j hi hij hj
    refine ⟨_, getThroughIndex_eq N i j hi hij hj, ?_, ?_⟩
    · have := rowOffset_nonneg N i hi (by omega)
      omega
    · have h1 := two_mul_rowOffset N i hi
      have h3 : 0 ≤ ((N : Int) - i) * (N - i - 1) := mul_nonneg (by omega) (by omega)
      have h2 : (N : Int) * (N - 1) / 2 * 2 = (N : Int) * (N - 1) :=
        Int.ediv_mul_cancel (Int.even_mul_pred_self _).two_dvd
      nlinarith
  · intro i j i' j' hi hij hj hi' hij' hj' h
    rcases lt_trichotomy i i' with hlt | heq | hgt
    · exact absurd h (getThroughIndex_row_lt N i j i' j' hi hij hj hlt hij' hj')
    · subst heq
      rw [getThroughIndex_eq N i j hi hij hj, getThroughIndex_eq N i j' hi hij' hj'] at h
      have h' := Option.some.inj h
      exact ⟨rfl, by omega⟩
    · exact absurd h.symm (getThroughIndex_row_lt N i' j' i j hi' hij' hj' hgt hij hj)
  · intro m hm0 hm
    -- rows are searched from the last one downwards
    have key : ∀ r : Nat, (r : Int) + 1 ≤ N → m < rowOffset N (r + 1) →
        ∃ i j : Int, 1 ≤ i ∧ i < j ∧ j ≤ N ∧ getThroughIndex N i j = some m := by
      intro r
      induction r with
      | zero =>
        intro _ h
        rw [Nat.cast_zero, zero_add, rowOffset_one] at h
        omega
      | succ r ih =>
        intro hr h
        rw [Nat.cast_succ] at hr h
        by_cases hlow : m < rowOffset N (r + 1)
        · exact ih (by omega) hlow
        · rw [rowOffset_succ N (r + 1) (by omega)] at h
          refine ⟨r + 1, m - rowOffset N (r + 1) + (r + 1) + 1, by omega, by omega, by omega, ?_⟩
          rw [getThroughIndex_eq N _ _ (by omega) (by omega) (by omega)]
          congr 1
          ring
    have hN : (1 : Int) ≤ N := by
      by_contra hcon
      have : (N : Int) = 0 := by omega
      rw [this] at hm
      norm_num at hm
      omega
    obtain ⟨n, rfl⟩ : ∃ n : Nat, N = n + 1 := ⟨N - 1, by omega⟩
    apply key n (by push_cast; omega)
    have h1 := two_mul_rowOffset ((n + 1 : Nat) : Int) (n + 1) (by omega)
    have h2 : ((n + 1 : Nat) : Int) * (((n + 1 : Nat) : Int) - 1) / 2 * 2
        = ((n + 1 : Nat) : Int) * (((n + 1 : Nat) : Int) - 1) :=
      Int.ediv_mul_cancel (Int.even_mul_pred_self _).two_dvd
    push_cast at h1 h2 hm ⊢
    nlinarith

end CalDevice

namespace CalDevice

open QString

variable {σ D : Type}

/-! ## Running code step by step -/

theorem bind_apply {α β : Type} (m : M σ D α) (f : α → M σ D β) (w : CalDevice σ D) :
    (m >>= f) w = match m w with
      | .ok a w1 => f a w1
      | .exit e w1 => .exit e w1 := rfl

theorem pure_apply {α : Type} (a : α) (w : CalDevice σ D) : (pure a : M σ D α) w = .ok a w := rfl

theorem bind_ok {α β : Type} {m : M σ D α} {f : α → M σ D β} {w w1 : CalDevice σ D} {a : α}
    (h : m w = .ok a w1) : (m >>= f) w = f a w1 := by
  rw [bind_apply, h]

theorem bind_exit {α β : Type} {m : M σ D α} {f : α → M σ D β} {w w1 : CalDevice σ D} {e : Exit}
    (h : m w = .exit e w1) : (m >>= f) w = .exit e w1 := by
  rw [bind_apply, h]

/-! ## Validation of the listing and of the requested names -/

theorem getCoefficientSetNames_apply (dev : USBDevice σ) (w : CalDevice σ D) :
    getCoefficientSetNames dev w =
      .ok (if startsWith (dev.Query ":COEFF:LIST?" w.usb).1 "FACTORY"
            then split (dev.Query ":COEFF:LIST?" w.usb).1 ',' else [])
        { w with usb := (dev.Query ":COEFF:LIST?" w.usb).2, io := w.io ++ [.query ":COEFF:LIST?"] } := by
  unfold getCoefficientSetNames
  rw [bind_ok (show Query dev ":COEFF:LIST?" w = _ from rfl)]
  by_cases h : startsWith (dev.Query ":COEFF:LIST?" w.usb).1 "FACTORY" = true
  · simp [h, pure_apply]
  · simp [h, pure_apply]

/-- The state in which both load threads leave when the validation fails. -/
theorem loadCoefficientSets_of_invalid (dev : USBDevice σ) (qt : QtNumeric D) (fuel : Nat)
    (names : List String) (fast : Bool) (w : CalDevice σ D)
    (h : startsWith (dev.Query ":COEFF:LIST?" w.usb).1 "FACTORY" = false ∨
      (names ≠ [] ∧ ∃ n ∈ names, n ∉ split (dev.Query ":COEFF:LIST?" w.usb).1 ',')) :
    loadCoefficientSets dev qt fuel names fast w =
      .exit .returned
        { w with usb := (dev.Query ":COEFF:LIST?" w.usb).2, coeffSets := [], abortLoading := false,
                 io := w.io ++ [.query ":COEFF:LIST?"],
                 signals := w.signals ++ [.updateCoefficientsDone false] } := by
  have key : ∀ (rest : List String → M σ D Unit),
      (do
        let coeffList ← getCoefficientSetNames dev
        if coeffList.isEmpty then
          emit (.updateCoefficientsDone false)
          leave .returned
        else if names.length > 0 ∧ ¬ names.all (fun n => coeffList.contains n) then
          emit (.updateCoefficientsDone false)
          leave .returned
        else rest coeffList : M σ D Unit) { w with coeffSets := [], abortLoading := false } =
      .exit .returned
        { w with usb := (dev.Query ":COEFF:LIST?" w.usb).2, coeffSets := [], abortLoading := false,
                 io := w.io ++ [.query ":COEFF:LIST?"],
                 signals := w.signals ++ [.updateCoefficientsDone false] } := by
    intro rest
    rw [bind_ok (getCoefficientSetNames_apply dev _)]
    rcases h with h | ⟨hne, n, hn, hnot⟩
    · simp [h, emit, leave, bind_apply]
    · by_cases hs : startsWith (dev.Query ":COEFF:LIST?" w.usb).1 "FACTORY" = true
      · have hlen : names.length > 0 := List.length_pos.mpr hne
        have hall : ¬ names.all (fun n => (split (dev.Query ":COEFF:LIST?" w.usb).1 ',').contains n) = true := by
          simp only [List.all_eq_true, not_forall]
          exact ⟨n, hn, by simpa using hnot⟩
        by_cases he : (split (dev.Query ":COEFF:LIST?" w.usb).1 ',').isEmpty = true
        · simp [hs, he, emit, leave, bind_apply]
        · simp only [hs, if_true, he, hlen, hall, not_false_eq_true, and_self]
          simp [emit, leave, bind_apply]
      · simp [hs, emit, leave, bind_apply]
  unfold loadCoefficientSets
  cases fast
  · simp only [Bool.false_eq_true, if_false]
    exact key _
  · simp only [if_true]
    exact key _

end CalDevice

namespace CalDevice

open QString

variable {σ D : Type}

/-- C3: for both retrieval strategies, when the list of requested names is not empty and one of
the names is absent from the answer to `COEFF:LIST?`, the load reports failure
(`updateCoefficientsDone(false)` and the thread returns), the collection of coefficient sets is
empty, and the only operation on the channel is the one query `COEFF:LIST?`. -/
theorem load_unknown_name_fails (dev : USBDevice σ) (qt : QtNumeric D) (fuel : Nat)
    (names : List String) (fast : Bool) (w : CalDevice σ D) (hne : names ≠ [])
    (habsent : ∃ n ∈ names, n ∉ split (dev.Query ":COEFF:LIST?" w.usb).1 ',') :
    (loadCoefficientSets dev qt fuel names fast w).exit? = some .returned ∧
    (loadCoefficientSets dev qt fuel names fast w).state.signals
      = w.signals ++ [.updateCoefficientsDone false] ∧
    (loadCoefficientSets dev qt fuel names fast w).state.coeffSets = [] ∧
    (loadCoefficientSets dev qt fuel names fast w).state.io = w.io ++ [.query ":COEFF:LIST?"] := by
  rw [loadCoefficientSets_of_invalid dev qt fuel names fast w (Or.inr ⟨hne, habsent⟩)]
  exact ⟨rfl, rfl, rfl, rfl⟩

/-- The load of the unknown set `MISSING` from the example device, by the streaming strategy. -/
theorem load_unknown_name_fails_witness :
    (loadCoefficientSets exampleDevice wholeNumbers 8 ["MISSING"] true
        (fresh [] 2 none)).exit? = some .returned ∧
    (loadCoefficientSets exampleDevice wholeNumbers 8 ["MISSING"] true
        (fresh [] 2 none)).state.signals = [] ++ [.updateCoefficientsDone false] ∧
    (loadCoefficientSets exampleDevice wholeNumbers 8 ["MISSING"] true
        (fresh [] 2 none)).state.coeffSets = [] ∧
    (loadCoefficientSets exampleDevice wholeNumbers 8 ["MISSING"] true
        (fresh [] 2 none)).state.io = [] ++ [.query ":COEFF:LIST?"] :=
  load_unknown_name_fails exampleDevice wholeNumbers 8 ["MISSING"] true (fresh [] 2 none)
    (by decide) ⟨"MISSING", by decide, by decide⟩

/-- C4, as stated, fails: a device that holds the set `USER1` is asked to load the unknown set
`MISSING` by the polling strategy; the load fails the validation, and afterwards the collection
is empty, not the collection held before the call. -/
theorem failed_load_changes_collection :
    (loadCoefficientSets exampleDevice wholeNumbers 8 ["MISSING"] false loadedDevice).state.signals
      = [.updateCoefficientsDone false] ∧
    (loadCoefficientSets exampleDevice wholeNumbers 8 ["MISSING"] false loadedDevice).state.coeffSets
      ≠ loadedDevice.coeffSets := by
  decide!

/-- C4, amended: a load that fails the validation because a requested name is unknown leaves
the collection empty whatever it held before, because `loadCoefficientSets` clears it before the
thread starts; the coefficient objects and the port count are as before the call. -/
theorem failed_load_clears_collection (dev : USBDevice σ) (qt : QtNumeric D) (fuel : Nat)
    (names : List String) (fast : Bool) (w : CalDevice σ D) (hne : names ≠ [])
    (habsent : ∃ n ∈ names, n ∉ split (dev.Query ":COEFF:LIST?" w.usb).1 ',') :
    (loadCoefficientSets dev qt fuel names fast w).state.coeffSets = [] ∧
    (loadCoefficientSets dev qt fuel names fast w).state.heap = w.heap ∧
    (loadCoefficientSets dev qt fuel names fast w).state.numPorts = w.numPorts := by
  rw [loadCoefficientSets_of_invalid dev qt fuel names fast w (Or.inr ⟨hne, habsent⟩)]
  exact ⟨rfl, rfl, rfl⟩

/-- The failed load of `MISSING` into the device that holds `USER1`. -/
theorem failed_load_clears_collection_witness :
    (loadCoefficientSets exampleDevice wholeNumbers 8 ["MISSING"] false loadedDevice).state.coeffSets
      = [] ∧
    (loadCoefficientSets exampleDevice wholeNumbers 8 ["MISSING"] false loadedDevice).state.heap
      = loadedDevice.heap ∧
    (loadCoefficientSets exampleDevice wholeNumbers 8 ["MISSING"] false loadedDevice).state.numPorts
      = loadedDevice.numPorts :=
  failed_load_clears_collection exampleDevice wholeNumbers 8 ["MISSING"] false loadedDevice
    (by decide) ⟨"MISSING", by decide, by decide⟩

/-! ## The sentinel of the listing -/

theorem splitAux_head (sep : Char) (cs cur : List Char) :
    (splitAux sep cs cur).head? = some (cur.reverse ++ cs.takeWhile (fun c => c != sep)) := by
  induction cs generalizing cur with
  | nil => simp [splitAux]
  | cons c cs ih =>
    unfold splitAux
    by_cases h : c = sep
    · simp [h]
    · simp [h, ih]

theorem splitAux_ne_nil (sep : Char) (cs cur : List Char) : splitAux sep cs cur ≠ [] := by
  induction cs generalizing cur with
  | nil => simp [splitAux]
  | cons c cs ih =>
    unfold splitAux
    split
    · simp
    · exact ih _

theorem split_ne_nil (s : String) (sep : Char) : split s sep ≠ [] := by
  simp [split, splitAux_ne_nil]

/-- A response whose first token is `p` starts with `p`. -/
theorem startsWith_of_head_split (s p : String) (sep : Char)
    (h : (split s sep).head? = some p) : startsWith s p = true := by
  unfold split at h
  rw [List.head?_map, splitAux_head] at h
  simp only [List.reverse_nil, List.nil_append, Option.map_some', Option.some.injEq] at h
  unfold startsWith
  rw [← h]
  have e : s.data.takeWhile (fun c => c != sep) <+: s.data :=
    ⟨_, List.takeWhile_append_dropWhile _ _⟩
  simpa using e

/-- C5, as stated, fails: the listing `FACTORY2,USER1` has the first token `FACTORY2`, which is
not the sentinel `FACTORY`, and `getCoefficientSetNames` accepts it and returns its two names. -/
theorem listing_with_longer_first_token_accepted :
    (split "FACTORY2,USER1" ',').head? ≠ some "FACTORY" ∧
    (getCoefficientSetNames factory2Device (fresh [] 2 none : CalDevice (List String) Int)).value?
      = some ["FACTORY2", "USER1"] := by
  decide!

/-- C5, amended: `getCoefficientSetNames` accepts the answer to `COEFF:LIST?`, and returns its
comma-separated names, of which there is at least one, exactly when the answer starts with
the characters `FACTORY`; an answer whose first token equals `FACTORY` is such an answer. For
every other answer it returns the empty list, and then a load by either strategy fails. -/
theorem getCoefficientSetNames_accepts_iff (dev : USBDevice σ) (w : CalDevice σ D) :
    (startsWith (dev.Query ":COEFF:LIST?" w.usb).1 "FACTORY" = true →
      (getCoefficientSetNames dev w).value? = some (split (dev.Query ":COEFF:LIST?" w.usb).1 ',') ∧
      split (dev.Query ":COEFF:LIST?" w.usb).1 ',' ≠ []) ∧
    (startsWith (dev.Query ":COEFF:LIST?" w.usb).1 "FACTORY" = false →
      (getCoefficientSetNames dev w).value? = some [] ∧
      ∀ (qt : QtNumeric D) (fuel : Nat) (names : List String) (fast : Bool),
        (loadCoefficientSets dev qt fuel names fast w).exit? = some .returned ∧
        (loadCoefficientSets dev qt fuel names fast w).state.signals
          = w.signals ++ [.updateCoefficientsDone false]) ∧
    ((split (dev.Query ":COEFF:LIST?" w.usb).1 ',').head? = some "FACTORY" →
      startsWith (dev.Query ":COEFF:LIST?" w.usb).1 "FACTORY" = true) := by
  refine ⟨?_, ?_, startsWith_of_head_split _ _ _⟩
  · intro h
    rw [getCoefficientSetNames_apply, if_pos h]
    exact ⟨rfl, split_ne_nil _ _⟩
  · intro h
    rw [getCoefficientSetNames_apply, h]
    refine ⟨rfl, ?_⟩
    intro qt fuel names fast
    rw [loadCoefficientSets_of_invalid dev qt fuel names fast w (Or.inl h)]
    exact ⟨rfl, rfl⟩

/-! ## The fast path of the persistence -/

theorem slotModified_eq_true (heap : List (CoefficientSet.Coefficient D)) (c : Ptr) :
    slotModified heap c = true ↔ ∃ co, heap[c]? = some co ∧ co.modified = true := by
  unfold slotModified
  cases heap[c]? <;> simp

/-- C10: when no slot of any set is modified, `saveCoefficientSets` emits
`updateCoefficientsDone(true)` at once and issues no operation on the channel (nothing but the
list of emitted signals changes); and `hasModifiedCoefficients`, which guards this path, is
true exactly when some open, short, load or through slot of some set has `modified` set. -/
theorem save_without_modified_slots :
    (∀ (dev : USBDevice σ) (qt : QtNumeric D) (w : CalDevice σ D),
      hasModifiedCoefficients w = false →
        saveCoefficientSets dev qt w
          = .ok () { w with signals := w.signals ++ [.updateCoefficientsDone true] } ∧
        (saveCoefficientSets dev qt w).state.io = w.io ∧
        (saveCoefficientSets dev qt w).state.usb = w.usb) ∧
    (∀ w : CalDevice σ D, hasModifiedCoefficients w = true ↔
      ∃ set ∈ w.coeffSets, ∃ c ∈ set.opens ++ set.shorts ++ set.loads ++ set.throughs,
        ∃ co, w.heap[c]? = some co ∧ co.modified = true) := by
  constructor
  · intro dev qt w h
    have e : saveCoefficientSets dev qt w
        = .ok () { w with signals := w.signals ++ [.updateCoefficientsDone true] } := by
      unfold saveCoefficientSets
      simp [h, emit]
    rw [e]
    exact ⟨rfl, rfl, rfl⟩
  · intro w
    unfold hasModifiedCoefficients
    simp only [List.any_eq_true, Bool.or_eq_true, slotModified_eq_true, List.mem_append]
    constructor
    · rintro ⟨set, hset, h⟩
      refine ⟨set, hset, ?_⟩
      rcases h with ((⟨c, hc, h⟩ | ⟨c, hc, h⟩) | ⟨c, hc, h⟩) | ⟨c, hc, h⟩
      · exact ⟨c, Or.inl (Or.inl (Or.inl hc)), h⟩
      · exact ⟨c, Or.inl (Or.inl (Or.inr hc)), h⟩
      · exact ⟨c, Or.inl (Or.inr hc), h⟩
      · exact ⟨c, Or.inr hc, h⟩
    · rintro ⟨set, hset, c, hc, h⟩
      refine ⟨set, hset, ?_⟩
      rcases hc with ((hc | hc) | hc) | hc
      · exact Or.inl (Or.inl (Or.inl ⟨c, hc, h⟩))
      · exact Or.inl (Or.inl (Or.inr ⟨c, hc, h⟩))
      · exact Or.inl (Or.inr ⟨c, hc, h⟩)
      · exact Or.inr ⟨c, hc, h⟩

end CalDevice

namespace CalDevice

open QString

variable {σ D : Type}

/-! ## The streaming strategy without cancellation -/

theorem readAbortLoading_calm {w : CalDevice σ D} (h : Calm w) :
    readAbortLoading w = .ok false w := by
  unfold readAbortLoading
  simp [h.1, h.2]

theorem sentCommands_append (a b : List ChannelOp) :
    sentCommands (a ++ b) = sentCommands a ++ sentCommands b := by
  simp [sentCommands]

/-- The loop that reads the lines of a stream changes nothing but the channel, sends nothing,
and ends either with the response built so far or by exhausting the step bound. -/
theorem receiveLines_frame (dev : USBDevice σ) (qt : QtNumeric D) (fuel : Nat) (t : Touchstone D)
    (w : CalDevice σ D) :
    (∃ t1 w1, loadCoefficientSetsThreadFast.receiveLines dev qt fuel t w = .ok t1 w1 ∧
      SameButChannel w w1 ∧ sentCommands w1.io = sentCommands w.io) ∨
    (∃ w1, loadCoefficientSetsThreadFast.receiveLines dev qt fuel t w = .exit .diverged w1) := by
  induction fuel generalizing t w with
  | zero => exact Or.inr ⟨w, rfl⟩
  | succ fuel ih =>
    unfold loadCoefficientSetsThreadFast.receiveLines
    rw [bind_ok (show receive dev w = _ from rfl)]
    have hframe : SameButChannel w
        { w with usb := (dev.receive w.usb).2, io := w.io ++ [.receive] } :=
      ⟨rfl, rfl, rfl, rfl, rfl, rfl⟩
    have hsent : sentCommands (w.io ++ [.receive]) = sentCommands w.io := by
      simp [sentCommands]
    have step : ∀ t2 : Touchstone D,
        (∃ t1 w1, loadCoefficientSetsThreadFast.receiveLines dev qt fuel t2
            { w with usb := (dev.receive w.usb).2, io := w.io ++ [.receive] } = .ok t1 w1 ∧
          SameButChannel w w1 ∧ sentCommands w1.io = sentCommands w.io) ∨
        (∃ w1, loadCoefficientSetsThreadFast.receiveLines dev qt fuel t2
            { w with usb := (dev.receive w.usb).2, io := w.io ++ [.receive] }
              = .exit .diverged w1) := by
      intro t2
      rcases ih t2 { w with usb := (dev.receive w.usb).2, io := w.io ++ [.receive] } with
        ⟨t1, w1, h, hf, hs⟩ | ⟨w1, h⟩
      · exact Or.inl ⟨t1, w1, h, hf, hs.trans hsent⟩
      · exact Or.inr ⟨w1, h⟩
    cases hr : (dev.receive w.usb).1 with
    | none => exact Or.inl ⟨t, _, rfl, hframe, hsent⟩
    | some line =>
      simp only
      split
      · exact Or.inl ⟨t, _, rfl, hframe, hsent⟩
      · split
        · exact step t
        · split
          · exact Or.inl ⟨t, _, rfl, hframe, hsent⟩
          · cases t.AddDatapoint (parseDatapoint qt (split line ' ')) with
            | none => exact Or.inl ⟨t, _, rfl, hframe, hsent⟩
            | some t2 => exact step t2

/-- The lambda of the streaming strategy sends one command for its coefficient and returns an
object, whatever lines the device answers, when the streams of the device end. -/
theorem createCoefficientFast_spec (dev : USBDevice σ) (qt : QtNumeric D) (fuel : Nat)
    (hstream : StreamsEnd dev qt fuel) (setName paramName : String) (w : CalDevice σ D) :
    ∃ c w1, loadCoefficientSetsThreadFast.createCoefficient dev qt fuel setName paramName w
        = .ok c w1 ∧
      w1.numPorts = w.numPorts ∧ w1.coeffSets = w.coeffSets ∧ w1.abortLoading = w.abortLoading ∧
      w1.abortRequest = w.abortRequest ∧ w1.signals = w.signals ∧
      sentCommands w1.io
        = sentCommands w.io ++ [":COEFF:GET? " ++ setName ++ " " ++ paramName] := by
  unfold loadCoefficientSetsThreadFast.createCoefficient
  have hs := hstream w (":COEFF:GET? " ++ setName ++ " " ++ paramName)
    ((if endsWith paramName "THROUGH" then Touchstone.new 2 else Touchstone.new 1).setFilename
      ("LibreCAL/" ++ paramName))
  rw [bind_ok (show send dev _ w = _ from rfl)] at hs ⊢
  rcases receiveLines_frame dev qt fuel
    ((if endsWith paramName "THROUGH" then Touchstone.new 2 else Touchstone.new 1).setFilename
      ("LibreCAL/" ++ paramName))
    { w with usb := dev.send (":COEFF:GET? " ++ setName ++ " " ++ paramName) w.usb,
             io := w.io ++ [.send (":COEFF:GET? " ++ setName ++ " " ++ paramName)] } with
    ⟨t1, w1, h, hf, hsent⟩ | ⟨w1, h⟩
  · rw [bind_ok h]
    refine ⟨w1.heap.length, _, rfl, hf.1, hf.2.1, hf.2.2.1, hf.2.2.2.2.2, hf.2.2.2.2.1, ?_⟩
    rw [show ({ w1 with heap := w1.heap ++ [{ t := t1, modified := false }] } : CalDevice σ D).io
      = w1.io from rfl, hsent, sentCommands_append]
    rfl
  · rw [h] at hs
    exact absurd hs (by simp [Res.exit?])

end CalDevice

namespace CalDevice

open QString

variable {σ D : Type}

theorem store_name (set : CoefficientSet) (coeff : String) (c : Ptr) :
    (loadCoefficientSetsThreadFast.store set coeff c).name = set.name := by
  unfold loadCoefficientSetsThreadFast.store
  split_ifs <;> rfl

/-- Without cancellation, the loop over the coefficients of one set requests every coefficient
in turn. -/
theorem readCoeffsFast_spec (dev : USBDevice σ) (qt : QtNumeric D) (fuel : Nat)
    (hstream : StreamsEnd dev qt fuel) (total_coeffs : Int) (name : String)
    (coeffs : List String) (set : CoefficientSet) (read_coeffs : Int) (w : CalDevice σ D)
    (hcalm : Calm w) (htotal : coeffs = [] ∨ total_coeffs ≠ 0) :
    ∃ r w1, loadCoefficientSetsThreadFast.readCoeffs dev qt fuel total_coeffs name coeffs set
        read_coeffs w = .ok r w1 ∧
      Calm w1 ∧ w1.coeffSets = w.coeffSets ∧ w1.numPorts = w.numPorts ∧ r.1.name = set.name ∧
      sentCommands w1.io
        = sentCommands w.io ++ coeffs.map (fun c => ":COEFF:GET? " ++ name ++ " " ++ c) := by
  induction coeffs generalizing set read_coeffs w with
  | nil => exact ⟨(set, read_coeffs), w, rfl, hcalm, rfl, rfl, rfl, by simp⟩
  | cons coeff coeffs ih =>
    have ht : total_coeffs ≠ 0 := by
      rcases htotal with h | h
      · exact absurd h (by simp)
      · exact h
    obtain ⟨c, w1, hc, hn1, hs1, ha1, hr1, -, hio1⟩ :=
      createCoefficientFast_spec dev qt fuel hstream name coeff w
    have hcalm1 : Calm w1 := ⟨ha1.trans hcalm.1, hr1.trans hcalm.2⟩
    have hemit : ∀ s : Signal, Calm ({ w1 with signals := w1.signals ++ [s] } : CalDevice σ D) :=
      fun _ => hcalm1
    obtain ⟨r, w2, hrest, hcalm2, hs2, hn2, hname2, hio2⟩ :=
      ih (loadCoefficientSetsThreadFast.store set coeff c) (read_coeffs + 1)
        { w1 with signals := w1.signals ++
          [.updateCoefficientsPercent (((read_coeffs + 1) * 100).tdiv total_coeffs)] }
        (hemit _) (Or.inr ht)
    refine ⟨r, w2, ?_, hcalm2, hs2.trans hs1, hn2.trans hn1, hname2.trans (store_name _ _ _), ?_⟩
    · unfold loadCoefficientSetsThreadFast.readCoeffs
      rw [bind_ok hc, bind_ok (readAbortLoading_calm hcalm1)]
      simp only [Bool.false_eq_true, if_false, ht]
      rw [bind_ok (show emit _ w1 = _ from rfl)]
      exact hrest
    · rw [hio2]
      show sentCommands w1.io ++ _ = _
      rw [hio1]
      simp

/-- Without cancellation, the loop over the sets requests every coefficient of every set and
appends a set for every name. -/
theorem readSetsFast_spec (dev : USBDevice σ) (qt : QtNumeric D) (fuel : Nat)
    (hstream : StreamsEnd dev qt fuel) (total_coeffs : Int) (numPorts : Int)
    (coeffNames : List String) (htotal : coeffNames = [] ∨ total_coeffs ≠ 0)
    (names : List String) (read_coeffs : Int) (w : CalDevice σ D) (hcalm : Calm w) :
    ∃ w1, loadCoefficientSetsThreadFast.readSets dev qt fuel total_coeffs numPorts coeffNames
        names read_coeffs w = .ok () w1 ∧
      Calm w1 ∧ w1.coeffSets.map (fun s => s.name) = w.coeffSets.map (fun s => s.name) ++ names ∧
      sentCommands w1.io = sentCommands w.io ++ names.flatMap (fun name =>
        coeffNames.map (fun c => ":COEFF:GET? " ++ name ++ " " ++ c)) := by
  induction names generalizing read_coeffs w with
  | nil => exact ⟨w, rfl, hcalm, by simp, by simp⟩
  | cons name names ih =>
    obtain ⟨r, w1, hr, hcalm1, hs1, -, hname1, hio1⟩ :=
      readCoeffsFast_spec dev qt fuel hstream total_coeffs name coeffNames
        { name := name, ports := numPorts, opens := [], shorts := [], loads := [], throughs := [] }
        read_coeffs w hcalm htotal
    obtain ⟨w2, hrest, hcalm2, hs2, hio2⟩ :=
      ih r.2 { w1 with coeffSets := w1.coeffSets ++ [r.1] } hcalm1
    refine ⟨w2, ?_, hcalm2, ?_, ?_⟩
    · unfold loadCoefficientSetsThreadFast.readSets
      rw [bind_ok hr, bind_ok (show pushCoeffSet r.1 w1 = _ from rfl)]
      exact hrest
    · rw [hs2]
      show (w1.coeffSets ++ [r.1]).map _ ++ _ = _
      rw [hs1]
      simp only [List.map_append, List.map_cons, List.map_nil, hname1, List.append_assoc,
        List.singleton_append]
    · rw [hio2]
      show sentCommands w1.io ++ _ = _
      rw [hio1]
      simp

/-- Without cancellation, a streaming load of requested names that the listing contains ends
with `updateCoefficientsDone(true)`, has requested every coefficient of every requested set, and
has appended a set for every requested name. -/
theorem loadFast_spec (dev : USBDevice σ) (qt : QtNumeric D) (fuel : Nat)
    (hstream : StreamsEnd dev qt fuel) (names : List String) (w : CalDevice σ D)
    (hlist : startsWith (dev.Query ":COEFF:LIST?" w.usb).1 "FACTORY" = true)
    (hne : names ≠ []) (hnames : ∀ n ∈ names, n ∈ split (dev.Query ":COEFF:LIST?" w.usb).1 ',')
    (hno : w.abortRequest = none) :
    ∃ w1, loadCoefficientSets dev qt fuel names true w = .ok () w1 ∧
      w1.signals.getLast? = some (.updateCoefficientsDone true) ∧
      w1.coeffSets.map (fun s => s.name) = names ∧
      sentCommands w1.io = sentCommands w.io ++ names.flatMap (fun name =>
        (loadCoefficientSetsThreadFast.coeffNames w.numPorts).map
          (fun c => ":COEFF:GET? " ++ name ++ " " ++ c)) := by
  have hlen : names.length > 0 := List.length_pos.mpr hne
  have hall : names.all (fun n => (split (dev.Query ":COEFF:LIST?" w.usb).1 ',').contains n)
      = true := by
    simp only [List.all_eq_true]
    intro n hn
    simpa using hnames n hn
  have hnonempty : (split (dev.Query ":COEFF:LIST?" w.usb).1 ',').isEmpty = false := by
    have := split_ne_nil (dev.Query ":COEFF:LIST?" w.usb).1 ','
    cases h : split (dev.Query ":COEFF:LIST?" w.usb).1 ',' with
    | nil => exact absurd h this
    | cons a l => rfl
  have htotal : loadCoefficientSetsThreadFast.coeffNames w.numPorts = [] ∨
      ((loadCoefficientSetsThreadFast.coeffNames w.numPorts).length : Int) * (names.length : Int)
        ≠ 0 := by
    cases h : loadCoefficientSetsThreadFast.coeffNames w.numPorts with
    | nil => exact Or.inl rfl
    | cons a l =>
      right
      have h1 : (0 : Int) < (names.length : Int) := by exact_mod_cast hlen
      have h2 : (0 : Int) < ((a :: l).length : Int) := by
        rw [List.length_cons]
        omega
      exact (mul_pos h2 h1).ne'
  obtain ⟨w1, hsets, -, hnm, hio⟩ := readSetsFast_spec dev qt fuel hstream
    (((loadCoefficientSetsThreadFast.coeffNames w.numPorts).length : Int) * (names.length : Int))
    w.numPorts (loadCoefficientSetsThreadFast.coeffNames w.numPorts) htotal names 0
    { w with usb := (dev.Query ":COEFF:LIST?" w.usb).2, coeffSets := [], abortLoading := false,
             io := w.io ++ [.query ":COEFF:LIST?"] }
    ⟨rfl, hno⟩
  refine ⟨{ w1 with signals := w1.signals ++ [.updateCoefficientsDone true] }, ?_, ?_, ?_, ?_⟩
  · unfold loadCoefficientSets
    simp only [if_true]
    unfold loadCoefficientSetsThreadFast
    rw [bind_ok (getCoefficientSetNames_apply dev _)]
    simp only [hlist, if_true, hnonempty, Bool.false_eq_true, if_false, hlen, hall,
      not_true_eq_false, and_false]
    rw [bind_ok (show readNumPorts _ = _ from rfl)]
    simp only
    rw [bind_ok hsets]
    rfl
  · simp
  · simpa using hnm
  · rw [show ({ w1 with signals := w1.signals ++ [.updateCoefficientsDone true] }
      : CalDevice σ D).io = w1.io from rfl, hio]
    simp [sentCommands_append, sentCommands]

/-- A device error or a timeout ends the loop of one coefficient with the response built so
far, as a normal return of the lambda. -/
theorem receiveLines_error_or_timeout (dev : USBDevice σ) (qt : QtNumeric D) (fuel : Nat)
    (t : Touchstone D) (w : CalDevice σ D)
    (h : (dev.receive w.usb).1 = none ∨
      ∃ line, (dev.receive w.usb).1 = some line ∧ startsWith line "ERROR" = true) :
    loadCoefficientSetsThreadFast.receiveLines dev qt (fuel + 1) t w
      = .ok t { w with usb := (dev.receive w.usb).2, io := w.io ++ [.receive] } := by
  unfold loadCoefficientSetsThreadFast.receiveLines
  rw [bind_ok (show receive dev w = _ from rfl)]
  rcases h with h | ⟨line, h, herr⟩
  · rw [h]
    rfl
  · rw [h]
    simp only [herr, if_true]
    rfl

/-- On a `tableChannel`, the loop that reads the lines of a stream ends when the step bound
exceeds the number of lines that wait. -/
theorem receiveLines_tableChannel (answer : String → String) (ack : String → Bool)
    (stream : String → List String) (qt : QtNumeric D) (fuel : Nat) (t : Touchstone D)
    (w : CalDevice (List String) D) (h : w.usb.length < fuel) :
    (loadCoefficientSetsThreadFast.receiveLines (tableChannel answer ack stream) qt fuel t w).exit?
      = none := by
  induction fuel generalizing t w with
  | zero => omega
  | succ fuel ih =>
    unfold loadCoefficientSetsThreadFast.receiveLines
    rw [bind_ok (show receive (tableChannel answer ack stream) w = _ from rfl)]
    cases hq : w.usb with
    | nil => simp [tableChannel, pure_apply, Res.exit?]
    | cons line lines =>
      have hl : lines.length < fuel := by
        rw [hq] at h
        simp at h
        omega
      simp only [tableChannel]
      split
      · rfl
      · split
        · exact ih t _ hl
        · split
          · rfl
          · cases t.AddDatapoint (parseDatapoint qt (split line ' ')) with
            | none => rfl
            | some t2 => exact ih t2 _ hl

/-- The streams of a `tableChannel` end when all its streams are shorter than the step bound. -/
theorem streamsEnd_tableChannel (answer : String → String) (ack : String → Bool)
    (stream : String → List String) (qt : QtNumeric D) (fuel : Nat)
    (h : ∀ cmd, (stream cmd).length < fuel) :
    StreamsEnd (D := D) (tableChannel answer ack stream) qt fuel := by
  intro w cmd t
  rw [bind_ok (show send (tableChannel answer ack stream) cmd w = _ from rfl)]
  exact receiveLines_tableChannel answer ack stream qt fuel t _ (h cmd)

end CalDevice

namespace CalDevice

open QString

variable {σ D : Type}

/-- C7 fails on the code when all available sets are requested with the empty list:
`oneSampleDevice` holds the same one sample for every coefficient in both strategies, and for
the request `["FACTORY"]` both strategies build the same set and the same objects; for the
empty request the polling strategy builds that set again, while the streaming strategy divides
by `total_coeffs = coeffNames.size() * names.size() = 0` after the first coefficient and never
appends a set. -/
theorem streaming_load_of_all_sets_divides_by_zero :
    (loadCoefficientSets oneSampleDevice wholeNumbers 8 ["FACTORY"] true (fresh [] 1 none)).state.coeffSets
      = (loadCoefficientSets oneSampleDevice wholeNumbers 8 ["FACTORY"] false
          (fresh [] 1 none)).state.coeffSets ∧
    (loadCoefficientSets oneSampleDevice wholeNumbers 8 ["FACTORY"] true (fresh [] 1 none)).state.heap
      = (loadCoefficientSets oneSampleDevice wholeNumbers 8 ["FACTORY"] false
          (fresh [] 1 none)).state.heap ∧
    (loadCoefficientSets oneSampleDevice wholeNumbers 8 [] false (fresh [] 1 none)).exit? = none ∧
    (loadCoefficientSets oneSampleDevice wholeNumbers 8 [] false (fresh [] 1 none)).state.coeffSets
      = [{ name := "FACTORY", ports := 1, opens := [0], shorts := [1], loads := [2],
           throughs := [] }] ∧
    (loadCoefficientSets oneSampleDevice wholeNumbers 8 [] true (fresh [] 1 none)).exit?
      = some (.crashed .divisionByZero) ∧
    (loadCoefficientSets oneSampleDevice wholeNumbers 8 [] true (fresh [] 1 none)).state.coeffSets
      = [] := by
  decide!

end CalDevice

namespace CalDevice

open QString

variable {σ D : Type}

/-! ## The polling strategy without cancellation -/

theorem AddDatapoint_of_length (t : Touchstone D) (p : Touchstone.Datapoint D)
    (h : p.S.length = t.ports * t.ports) :
    t.AddDatapoint p = some { t with datapoints := t.datapoints ++ [p] } := by
  unfold Touchstone.AddDatapoint
  rw [if_pos h]

/-- Without cancellation and with well-formed answers, the sample loop of the polling strategy
appends one sample for every index. -/
theorem readSamples_spec (dev : USBDevice σ) (qt : QtNumeric D) (totalPoints : Nat)
    (setName paramName : String) (n : Nat) (i : Int) (t : Touchstone D) (pr : SlowProgress)
    (w : CalDevice σ D) (hcalm : Calm w)
    (hget : ∀ s (k : Int), i ≤ k → k < i + n →
      (parseDatapoint qt (split
        (dev.Query (":COEFF:GET? " ++ setName ++ " " ++ paramName ++ " " ++ number k) s).1
          ',')).S.length = t.ports * t.ports)
    (htotal : n = 0 ∨ totalPoints ≠ 0) :
    ∃ r w1, loadCoefficientSetsThreadSlow.readSamples dev qt totalPoints setName paramName n i t
        pr w = .ok r w1 ∧
      Calm w1 ∧ w1.coeffSets = w.coeffSets ∧ w1.heap = w.heap ∧ w1.numPorts = w.numPorts ∧
      r.1.points = t.points + n ∧ r.1.ports = t.ports := by
  induction n generalizing i t pr w with
  | zero => exact ⟨(t, pr), w, rfl, hcalm, rfl, rfl, rfl, rfl, rfl⟩
  | succ n ih =>
    have ht : totalPoints ≠ 0 := by
      rcases htotal with h | h
      · exact absurd h (by simp)
      · exact h
    have hlen := hget w.usb i le_rfl (by push_cast; omega)
    have hadd := AddDatapoint_of_length t _ hlen
    have hcalm1 : Calm ({ w with
        usb := (dev.Query (":COEFF:GET? " ++ setName ++ " " ++ paramName ++ " " ++ number i)
          w.usb).2,
        io := w.io ++ [.query (":COEFF:GET? " ++ setName ++ " " ++ paramName ++ " " ++ number i)] }
        : CalDevice σ D) := hcalm
    have hrec : ∀ (pr1 : SlowProgress) (w1 : CalDevice σ D), Calm w1 →
        w1.coeffSets = w.coeffSets → w1.heap = w.heap → w1.numPorts = w.numPorts →
        ∃ r w2, loadCoefficientSetsThreadSlow.readSamples dev qt totalPoints setName paramName n
            (i + 1) { t with datapoints := t.datapoints ++ [parseDatapoint qt (split
              (dev.Query (":COEFF:GET? " ++ setName ++ " " ++ paramName ++ " " ++ number i)
                w.usb).1 ',')] } pr1 w1 = .ok r w2 ∧
          Calm w2 ∧ w2.coeffSets = w.coeffSets ∧ w2.heap = w.heap ∧ w2.numPorts = w.numPorts ∧
          r.1.points = t.points + (n + 1) ∧ r.1.ports = t.ports := by
      intro pr1 w1 hc1 hs1 hh1 hn1
      obtain ⟨r, w2, hr, hc2, hs2, hh2, hn2, hp2, hq2⟩ := ih (i + 1)
        { t with datapoints := t.datapoints ++ [parseDatapoint qt (split
          (dev.Query (":COEFF:GET? " ++ setName ++ " " ++ paramName ++ " " ++ number i)
            w.usb).1 ',')] } pr1 w1 hc1
        (fun s k hk1 hk2 => hget s k (by omega) (by push_cast; omega)) (Or.inr ht)
      refine ⟨r, w2, hr, hc2, hs2.trans hs1, hh2.trans hh1, hn2.trans hn1, ?_, hq2⟩
      rw [hp2]
      simp [Touchstone.points]
      omega
    unfold loadCoefficientSetsThreadSlow.readSamples
    rw [bind_ok (readAbortLoading_calm hcalm)]
    simp only [Bool.false_eq_true, if_false]
    rw [bind_ok (show Query dev _ w = _ from rfl)]
    simp only [hadd, ht, if_false]
    split
    · rw [bind_ok (show emit _ _ = _ from rfl)]
      exact hrec _ _ hcalm1 rfl rfl rfl
    · exact hrec _ _ hcalm1 rfl rfl rfl

theorem pointsAt_append_length (heap : List (CoefficientSet.Coefficient D))
    (co : CoefficientSet.Coefficient D) :
    pointsAt (heap ++ [co]) heap.length = some co.t.points := by
  simp [pointsAt]

/-- Without cancellation, the lambda of the polling strategy creates an object with as many
samples as the device counts for the coefficient. -/
theorem createCoefficientSlow_spec (dev : USBDevice σ) (qt : QtNumeric D)
    (count : String → String → Nat) (totalPoints : Nat) (setName paramName : String)
    (hok : CoeffOK dev qt count totalPoints setName paramName) (pr : SlowProgress)
    (w : CalDevice σ D) (hcalm : Calm w) :
    ∃ r w1, loadCoefficientSetsThreadSlow.createCoefficient dev qt totalPoints setName paramName
        pr w = .ok r w1 ∧
      Calm w1 ∧ w1.coeffSets = w.coeffSets ∧ w1.numPorts = w.numPorts ∧
      (∃ co, w1.heap = w.heap ++ [co]) ∧
      pointsAt w1.heap r.1 = some (count setName paramName) := by
  obtain ⟨hnum, hget, htot⟩ := hok
  have hcalm1 : Calm ({ w with
      usb := (dev.Query (":COEFF:NUM? " ++ setName ++ " " ++ paramName) w.usb).2,
      io := w.io ++ [.query (":COEFF:NUM? " ++ setName ++ " " ++ paramName)] }
      : CalDevice σ D) := hcalm
  have hports : ((if endsWith paramName "THROUGH" then Touchstone.new 2 else Touchstone.new 1
      : Touchstone D).ports * (if endsWith paramName "THROUGH" then Touchstone.new 2
        else Touchstone.new 1 : Touchstone D).ports)
      = if endsWith paramName "THROUGH" then 4 else 1 := by
    split <;> rfl
  have hpoints : (if endsWith paramName "THROUGH" then Touchstone.new 2 else Touchstone.new 1
      : Touchstone D).points = 0 := by
    split <;> rfl
  obtain ⟨r, w1, hr, hc1, hs1, hh1, hn1, hp1, -⟩ := readSamples_spec dev qt totalPoints setName
    paramName (count setName paramName) 0
    (if endsWith paramName "THROUGH" then Touchstone.new 2 else Touchstone.new 1) pr _ hcalm1
    (fun s k hk1 hk2 => by
      rw [hports]
      exact hget s k hk1 (by omega))
    htot
  refine ⟨(w1.heap.length, r.2),
    { w1 with heap := w1.heap ++ [{ t := r.1.setFilename ("LibreCAL/" ++ paramName),
                                    modified := false }] }, ?_, hc1, hs1, hn1, ?_, ?_⟩
  · unfold loadCoefficientSetsThreadSlow.createCoefficient
    rw [bind_ok (show Query dev _ w = _ from rfl)]
    simp only [hnum w.usb, Int.toNat_ofNat]
    rw [bind_ok hr]
    rfl
  · exact ⟨_, by rw [show w1.heap = w.heap from hh1]⟩
  · rw [pointsAt_append_length]
    show some (r.1.setFilename ("LibreCAL/" ++ paramName)).points = _
    rw [show (r.1.setFilename ("LibreCAL/" ++ paramName)).points = r.1.points from rfl, hp1,
      hpoints, Nat.zero_add]

end CalDevice

namespace CalDevice

open QString

variable {σ D : Type}

theorem pointsAt_of_isPrefix {h h1 : List (CoefficientSet.Coefficient D)} (hp : h <+: h1)
    {c : Ptr} {n : Nat} (hc : pointsAt h c = some n) : pointsAt h1 c = some n := by
  obtain ⟨l, rfl⟩ := hp
  unfold pointsAt at hc ⊢
  cases hq : h[c]? with
  | none => simp [hq] at hc
  | some co =>
    have hlt : c < h.length := (List.getElem?_eq_some.mp hq).1
    rw [List.getElem?_append_left hlt, ← hc, hq]

theorem map_pointsAt_of_isPrefix {h h1 : List (CoefficientSet.Coefficient D)} (hp : h <+: h1)
    (cs : List Ptr) (l : List (Option Nat)) (hall : ∀ x ∈ l, x ≠ none)
    (hc : cs.map (pointsAt h) = l) : cs.map (pointsAt h1) = l := by
  induction cs generalizing l with
  | nil => simpa using hc
  | cons c cs ih =>
    cases l with
    | nil => simp at hc
    | cons x l =>
      simp only [List.map_cons, List.cons.injEq] at hc ⊢
      refine ⟨?_, ih l (fun y hy => hall y (List.mem_cons_of_mem _ hy)) hc.2⟩
      cases x with
      | none => exact absurd rfl (hall none (List.mem_cons_self _ _))
      | some n => exact pointsAt_of_isPrefix hp hc.1

theorem SlotsLoaded.of_isPrefix {h h1 : List (CoefficientSet.Coefficient D)} (hp : h <+: h1)
    {count : String → String → Nat} {name : String} {numPorts : Int} {ports : List Int}
    {opens shorts loads throughs : List Ptr}
    (hl : SlotsLoaded h count name numPorts ports opens shorts loads throughs) :
    SlotsLoaded h1 count name numPorts ports opens shorts loads throughs := by
  obtain ⟨h1o, h1s, h1l, h1t⟩ := hl
  refine ⟨map_pointsAt_of_isPrefix hp _ _ ?_ h1o, map_pointsAt_of_isPrefix hp _ _ ?_ h1s,
    map_pointsAt_of_isPrefix hp _ _ ?_ h1l, map_pointsAt_of_isPrefix hp _ _ ?_ h1t⟩
  · intro x hx
    obtain ⟨i, -, rfl⟩ := List.mem_map.mp hx
    simp
  · intro x hx
    obtain ⟨i, -, rfl⟩ := List.mem_map.mp hx
    simp
  · intro x hx
    obtain ⟨i, -, rfl⟩ := List.mem_map.mp hx
    simp
  · intro x hx
    obtain ⟨i, -, hx⟩ := List.mem_flatMap.mp hx
    obtain ⟨j, -, rfl⟩ := List.mem_map.mp hx
    simp

/-- Without cancellation, the loop over the throughs of port `i` appends a slot with the
counted samples for every other port `j`. -/
theorem readThroughs_spec (dev : USBDevice σ) (qt : QtNumeric D)
    (count : String → String → Nat) (totalPoints : Nat) (name : String) (i : Int)
    (js : List Int) (set : CoefficientSet) (pr : SlowProgress) (w : CalDevice σ D)
    (hok : ∀ j ∈ js, CoeffOK dev qt count totalPoints name
      ("P" ++ number i ++ number j ++ "_THROUGH"))
    (hcalm : Calm w) :
    ∃ r w1, loadCoefficientSetsThreadSlow.readThroughs dev qt totalPoints name i js set pr w
        = .ok r w1 ∧
      Calm w1 ∧ w1.coeffSets = w.coeffSets ∧ w1.numPorts = w.numPorts ∧ w.heap <+: w1.heap ∧
      r.1.name = set.name ∧ r.1.ports = set.ports ∧ r.1.opens = set.opens ∧
      r.1.shorts = set.shorts ∧ r.1.loads = set.loads ∧
      ∃ new, r.1.throughs = set.throughs ++ new ∧
        new.map (pointsAt w1.heap)
          = js.map (fun j => some (count name ("P" ++ number i ++ number j ++ "_THROUGH"))) := by
  induction js generalizing set pr w with
  | nil =>
    exact ⟨(set, pr), w, rfl, hcalm, rfl, rfl, List.prefix_refl _, rfl, rfl, rfl, rfl, rfl, [],
      by simp, rfl⟩
  | cons j js ih =>
    obtain ⟨r1, w1, hr1, hc1, hs1, hn1, ⟨co, hh1⟩, hp1⟩ := createCoefficientSlow_spec dev qt count
      totalPoints name _ (hok j (List.mem_cons_self _ _)) pr w hcalm
    obtain ⟨r, w2, hr, hc2, hs2, hn2, hh2, hname, hports, ho, hsh, hl, new, hnew, hpts⟩ :=
      ih { set with throughs := set.throughs ++ [r1.1] } r1.2 w1
        (fun j hj => hok j (List.mem_cons_of_mem _ hj)) hc1
    have hw : w.heap <+: w1.heap := ⟨[co], hh1.symm⟩
    refine ⟨r, w2, ?_, hc2, hs2.trans hs1, hn2.trans hn1, hw.trans hh2, hname, hports, ho, hsh,
      hl, r1.1 :: new, ?_, ?_⟩
    · unfold loadCoefficientSetsThreadSlow.readThroughs
      rw [bind_ok hr1]
      exact hr
    · rw [hnew]
      simp
    · rw [List.map_cons, List.map_cons, hpts, pointsAt_of_isPrefix hh2 hp1]

end CalDevice

namespace CalDevice

open QString

variable {σ D : Type}

theorem mem_portCoeffNames_open (numPorts i : Int) :
    "P" ++ number i ++ "_OPEN" ∈ portCoeffNames numPorts i := by
  simp [portCoeffNames]

theorem mem_portCoeffNames_short (numPorts i : Int) :
    "P" ++ number i ++ "_SHORT" ∈ portCoeffNames numPorts i := by
  simp [portCoeffNames]

theorem mem_portCoeffNames_load (numPorts i : Int) :
    "P" ++ number i ++ "_LOAD" ∈ portCoeffNames numPorts i := by
  simp [portCoeffNames]

theorem mem_portCoeffNames_through (numPorts i j : Int) (hj : j ∈ intRange (i + 1) numPorts) :
    "P" ++ number i ++ number j ++ "_THROUGH" ∈ portCoeffNames numPorts i := by
  unfold portCoeffNames
  exact List.mem_append_right _ (List.mem_map.mpr ⟨j, hj, rfl⟩)

/-- Without cancellation, the loop over the ports of one set appends the slots of every port,
each with the counted samples. -/
theorem readPorts_spec (dev : USBDevice σ) (qt : QtNumeric D)
    (count : String → String → Nat) (totalPoints : Nat) (numPorts : Int) (name : String)
    (ports : List Int) (set : CoefficientSet) (pr : SlowProgress) (w : CalDevice σ D)
    (hok : ∀ i ∈ ports, ∀ coeff ∈ portCoeffNames numPorts i,
      CoeffOK dev qt count totalPoints name coeff)
    (hcalm : Calm w) :
    ∃ r w1, loadCoefficientSetsThreadSlow.readPorts dev qt totalPoints numPorts name ports set
        pr w = .ok r w1 ∧
      Calm w1 ∧ w1.coeffSets = w.coeffSets ∧ w1.numPorts = w.numPorts ∧ w.heap <+: w1.heap ∧
      r.1.name = set.name ∧ r.1.ports = set.ports ∧
      ∃ no ns nl nt, r.1.opens = set.opens ++ no ∧ r.1.shorts = set.shorts ++ ns ∧
        r.1.loads = set.loads ++ nl ∧ r.1.throughs = set.throughs ++ nt ∧
        SlotsLoaded w1.heap count name numPorts ports no ns nl nt := by
  induction ports generalizing set pr w with
  | nil =>
    exact ⟨(set, pr), w, rfl, hcalm, rfl, rfl, List.prefix_refl _, rfl, rfl, [], [], [], [],
      by simp, by simp, by simp, by simp, rfl, rfl, rfl, rfl⟩
  | cons i ports ih =>
    have hi := hok i (List.mem_cons_self _ _)
    obtain ⟨r1, w1, hr1, hc1, hs1, hn1, ⟨co1, hh1⟩, hp1⟩ := createCoefficientSlow_spec dev qt
      count totalPoints name _ (hi _ (mem_portCoeffNames_open numPorts i)) pr w hcalm
    obtain ⟨r2, w2, hr2, hc2, hs2, hn2, ⟨co2, hh2⟩, hp2⟩ := createCoefficientSlow_spec dev qt
      count totalPoints name _ (hi _ (mem_portCoeffNames_short numPorts i)) r1.2 w1 hc1
    obtain ⟨r3, w3, hr3, hc3, hs3, hn3, ⟨co3, hh3⟩, hp3⟩ := createCoefficientSlow_spec dev qt
      count totalPoints name _ (hi _ (mem_portCoeffNames_load numPorts i)) r2.2 w2 hc2
    obtain ⟨r4, w4, hr4, hc4, hs4, hn4, hh4, hname4, hports4, ho4, hsh4, hl4, nt4, hnt4, hpt4⟩ :=
      readThroughs_spec dev qt count totalPoints name i (intRange (i + 1) numPorts)
        { set with opens := set.opens ++ [r1.1], shorts := set.shorts ++ [r2.1],
                   loads := set.loads ++ [r3.1] } r3.2 w3
        (fun j hj => hi _ (mem_portCoeffNames_through numPorts i j hj)) hc3
    obtain ⟨r, w5, hr, hc5, hs5, hn5, hh5, hname5, hports5, no, ns, nl, nt, hno, hns, hnl, hnt,
        hload⟩ :=
      ih r4.1 r4.2 w4 (fun i' hi' => hok i' (List.mem_cons_of_mem _ hi')) hc4
    have e1 : w.heap <+: w1.heap := ⟨[co1], hh1.symm⟩
    have e2 : w1.heap <+: w2.heap := ⟨[co2], hh2.symm⟩
    have e3 : w2.heap <+: w3.heap := ⟨[co3], hh3.symm⟩
    refine ⟨r, w5, ?_, hc5, ?_, ?_, (((e1.trans e2).trans e3).trans hh4).trans hh5,
      hname5.trans hname4, hports5.trans hports4, r1.1 :: no, r2.1 :: ns, r3.1 :: nl, nt4 ++ nt,
      ?_, ?_, ?_, ?_, ?_, ?_, ?_, ?_⟩
    · unfold loadCoefficientSetsThreadSlow.readPorts
      rw [bind_ok hr1, bind_ok hr2, bind_ok hr3, bind_ok hr4,
        bind_ok (readAbortLoading_calm hc4)]
      simp only [Bool.false_eq_true, if_false]
      exact hr
    · rw [hs5, hs4, hs3, hs2, hs1]
    · rw [hn5, hn4, hn3, hn2, hn1]
    · rw [hno, ho4]
      simp
    · rw [hns, hsh4]
      simp
    · rw [hnl, hl4]
      simp
    · rw [hnt, hnt4]
      simp
    · rw [List.map_cons, List.map_cons, hload.1,
        pointsAt_of_isPrefix (((e2.trans e3).trans hh4).trans hh5) hp1]
    · rw [List.map_cons, List.map_cons, hload.2.1,
        pointsAt_of_isPrefix ((e3.trans hh4).trans hh5) hp2]
    · rw [List.map_cons, List.map_cons, hload.2.2.1,
        pointsAt_of_isPrefix (hh4.trans hh5) hp3]
    · rw [List.map_append, List.flatMap_cons, hload.2.2.2]
      congr 1
      exact map_pointsAt_of_isPrefix hh5 _ _ (by
        intro x hx
        obtain ⟨j, -, rfl⟩ := List.mem_map.mp hx
        simp) hpt4

/-- Without cancellation, the loop over the sets of the polling strategy appends a loaded set
for every name. -/
theorem readSetsSlow_spec (dev : USBDevice σ) (qt : QtNumeric D)
    (count : String → String → Nat) (totalPoints : Nat) (numPorts : Int)
    (names : List String) (pr : SlowProgress) (w : CalDevice σ D)
    (hok : ∀ name ∈ names, ∀ i ∈ intRange 1 numPorts, ∀ coeff ∈ portCoeffNames numPorts i,
      CoeffOK dev qt count totalPoints name coeff)
    (hcalm : Calm w) :
    ∃ w1, loadCoefficientSetsThreadSlow.readSets dev qt totalPoints numPorts names pr w
        = .ok () w1 ∧
      Calm w1 ∧ w.heap <+: w1.heap ∧
      ∃ new, w1.coeffSets = w.coeffSets ++ new ∧ new.map (fun s => s.name) = names ∧
        ∀ set ∈ new, SetLoaded w1.heap count numPorts set := by
  induction names generalizing pr w with
  | nil => exact ⟨w, rfl, hcalm, List.prefix_refl _, [], by simp, rfl, by simp⟩
  | cons name names ih =>
    obtain ⟨r, w1, hr, hc1, hs1, -, hh1, hname1, hports1, no, ns, nl, nt, hno, hns, hnl, hnt,
        hload⟩ :=
      readPorts_spec dev qt count totalPoints numPorts name (intRange 1 numPorts)
        { name := name, ports := numPorts, opens := [], shorts := [], loads := [],
          throughs := [] } pr w (hok name (List.mem_cons_self _ _)) hcalm
    obtain ⟨w2, hrest, hc2, hh2, new, hnew, hnames, hsets⟩ :=
      ih r.2 { w1 with coeffSets := w1.coeffSets ++ [r.1] }
        (fun n hn => hok n (List.mem_cons_of_mem _ hn)) hc1
    refine ⟨w2, ?_, hc2, hh1.trans hh2, r.1 :: new, ?_, ?_, ?_⟩
    · unfold loadCoefficientSetsThreadSlow.readSets
      rw [bind_ok hr, bind_ok (show pushCoeffSet r.1 w1 = _ from rfl)]
      exact hrest
    · rw [hnew]
      show (w1.coeffSets ++ [r.1]) ++ new = _
      rw [hs1]
      simp
    · rw [List.map_cons, hnames, hname1]
    · intro set hset
      rcases List.mem_cons.mp hset with rfl | hset
      · refine ⟨hports1, ?_⟩
        rw [hname1]
        simp only [List.nil_append] at hno hns hnl hnt
        rw [hno, hns, hnl, hnt]
        exact hload.of_isPrefix hh2
      · exact hsets set hset

end CalDevice

namespace CalDevice

open QString

variable {σ D : Type}

/-! ### The pass that adds up `totalPoints` -/

theorem numCmd_eq (name x y : String) :
    ":COEFF:NUM? " ++ name ++ " P" ++ x ++ y = ":COEFF:NUM? " ++ name ++ " " ++ ("P" ++ x ++ y) := by
  simp only [String.append_assoc]
  rfl

theorem numCmd_eq_through (name x y z : String) :
    ":COEFF:NUM? " ++ name ++ " P" ++ x ++ y ++ z
      = ":COEFF:NUM? " ++ name ++ " " ++ ("P" ++ x ++ y ++ z) := by
  simp only [String.append_assoc]
  rfl

theorem addULong_natCast (x c : Nat) : addULong x (c : Int) = (x + c) % 2 ^ 64 := by
  unfold addULong
  omega

theorem totalThroughs_spec (dev : USBDevice σ) (qt : QtNumeric D)
    (count : String → String → Nat) (name : String) (i : Int) (js : List Int)
    (totalPoints : Nat) (w : CalDevice σ D)
    (hnum : ∀ j ∈ js, ∀ s, qt.toInt (dev.Query (":COEFF:NUM? " ++ name ++ " "
      ++ ("P" ++ number i ++ number j ++ "_THROUGH")) s).1
        = (count name ("P" ++ number i ++ number j ++ "_THROUGH") : Int))
    (hlt : totalPoints < 2 ^ 64) :
    ∃ w1, loadCoefficientSetsThreadSlow.totalThroughs dev qt name i js totalPoints w
        = .ok ((totalPoints + (js.map (fun j =>
            count name ("P" ++ number i ++ number j ++ "_THROUGH"))).sum) % 2 ^ 64) w1 ∧
      SameButChannel w w1 := by
  induction js generalizing totalPoints w with
  | nil =>
    refine ⟨w, ?_, rfl, rfl, rfl, rfl, rfl, rfl⟩
    simp only [List.map_nil, List.sum_nil, Nat.add_zero, Nat.mod_eq_of_lt hlt]
    rfl
  | cons j js ih =>
    obtain ⟨w1, h1, hf⟩ := ih
      ((totalPoints + count name ("P" ++ number i ++ number j ++ "_THROUGH")) % 2 ^ 64)
      { w with usb := (dev.Query (":COEFF:NUM? " ++ name ++ " P" ++ number i ++ number j
                  ++ "_THROUGH") w.usb).2,
               io := w.io ++ [.query (":COEFF:NUM? " ++ name ++ " P" ++ number i ++ number j
                  ++ "_THROUGH")] }
      (fun j hj => hnum j (List.mem_cons_of_mem _ hj)) (Nat.mod_lt _ (by norm_num))
    refine ⟨w1, ?_, hf⟩
    unfold loadCoefficientSetsThreadSlow.totalThroughs
    rw [bind_ok (show Query dev _ w = _ from rfl)]
    rw [numCmd_eq_through, hnum j (List.mem_cons_self _ _) w.usb, addULong_natCast,
      ← numCmd_eq_through, h1]
    congr 1
    simp only [List.map_cons, List.sum_cons]
    omega

theorem totalPorts_spec (dev : USBDevice σ) (qt : QtNumeric D)
    (count : String → String → Nat) (numPorts : Int) (name : String) (ports : List Int)
    (totalPoints : Nat) (w : CalDevice σ D)
    (hnum : ∀ i ∈ ports, ∀ coeff ∈ portCoeffNames numPorts i, ∀ s,
      qt.toInt (dev.Query (":COEFF:NUM? " ++ name ++ " " ++ coeff) s).1
        = (count name coeff : Int))
    (hlt : totalPoints < 2 ^ 64) (hcalm : Calm w) :
    ∃ w1, loadCoefficientSetsThreadSlow.totalPorts dev qt numPorts name ports totalPoints w
        = .ok ((totalPoints + (ports.map (fun i =>
            ((portCoeffNames numPorts i).map (count name)).sum)).sum) % 2 ^ 64) w1 ∧
      SameButChannel w w1 := by
  induction ports generalizing totalPoints w with
  | nil =>
    refine ⟨w, ?_, rfl, rfl, rfl, rfl, rfl, rfl⟩
    simp only [List.map_nil, List.sum_nil, Nat.add_zero, Nat.mod_eq_of_lt hlt]
    rfl
  | cons i ports ih =>
    have hi := hnum i (List.mem_cons_self _ _)
    have step : ∀ (cmd : String) (w0 : CalDevice σ D), Calm w0 →
        Calm ({ w0 with usb := (dev.Query cmd w0.usb).2, io := w0.io ++ [.query cmd] }
          : CalDevice σ D) := fun _ _ h => h
    have frame : ∀ (cmd : String) (w0 : CalDevice σ D), SameButChannel w0
        ({ w0 with usb := (dev.Query cmd w0.usb).2, io := w0.io ++ [.query cmd] }
          : CalDevice σ D) := fun _ _ => ⟨rfl, rfl, rfl, rfl, rfl, rfl⟩
    obtain ⟨w4, h4, hf4⟩ := totalThroughs_spec dev qt count name i (intRange (i + 1) numPorts)
      ((((totalPoints + count name ("P" ++ number i ++ "_OPEN")) % 2 ^ 64
        + count name ("P" ++ number i ++ "_SHORT")) % 2 ^ 64
        + count name ("P" ++ number i ++ "_LOAD")) % 2 ^ 64)
      { usb := (dev.Query (":COEFF:NUM? " ++ name ++ " P" ++ number i ++ "_LOAD")
          (dev.Query (":COEFF:NUM? " ++ name ++ " P" ++ number i ++ "_SHORT")
            (dev.Query (":COEFF:NUM? " ++ name ++ " P" ++ number i ++ "_OPEN") w.usb).2).2).2,
        numPorts := w.numPorts, coeffSets := w.coeffSets, abortLoading := w.abortLoading,
        heap := w.heap,
        io := w.io ++ [.query (":COEFF:NUM? " ++ name ++ " P" ++ number i ++ "_OPEN")]
          ++ [.query (":COEFF:NUM? " ++ name ++ " P" ++ number i ++ "_SHORT")]
          ++ [.query (":COEFF:NUM? " ++ name ++ " P" ++ number i ++ "_LOAD")],
        signals := w.signals, abortRequest := w.abortRequest }
      (fun j hj => hi _ (mem_portCoeffNames_through numPorts i j hj))
      (Nat.mod_lt _ (by norm_num))
    have hc4 : Calm w4 := ⟨hf4.2.2.1.trans hcalm.1, hf4.2.2.2.2.2.trans hcalm.2⟩
    obtain ⟨w5, h5, hf5⟩ := ih _ w4 (fun i' hi' => hnum i' (List.mem_cons_of_mem _ hi'))
      (Nat.mod_lt _ (by norm_num)) hc4
    refine ⟨w5, ?_, ?_⟩
    · unfold loadCoefficientSetsThreadSlow.totalPorts
      rw [bind_ok (readAbortLoading_calm hcalm)]
      simp only [Bool.false_eq_true, if_false]
      rw [bind_ok (show Query dev _ w = _ from rfl), bind_ok (show Query dev _ _ = _ from rfl),
        bind_ok (show Query dev _ _ = _ from rfl)]
      simp only
      rw [numCmd_eq, hi _ (mem_portCoeffNames_open numPorts i) w.usb, addULong_natCast,
        numCmd_eq name (number i) "_SHORT", hi _ (mem_portCoeffNames_short numPorts i),
        addULong_natCast, numCmd_eq name (number i) "_LOAD",
        hi _ (mem_portCoeffNames_load numPorts i), addULong_natCast]
      simp only [← numCmd_eq]
      rw [bind_ok h4, h5]
      congr 1
      simp only [List.map_cons, List.sum_cons, portCoeffNames, List.cons_append, List.nil_append,
        List.map_map, Function.comp_def]
      omega
    · obtain ⟨a1, a2, a3, a4, a5, a6⟩ := hf4
      obtain ⟨b1, b2, b3, b4, b5, b6⟩ := hf5
      exact ⟨b1.trans a1, b2.trans a2, b3.trans a3, b4.trans a4, b5.trans a5, b6.trans a6⟩

theorem totalSets_spec (dev : USBDevice σ) (qt : QtNumeric D)
    (count : String → String → Nat) (numPorts : Int) (names : List String)
    (totalPoints : Nat) (w : CalDevice σ D)
    (hnum : ∀ name ∈ names, ∀ i ∈ intRange 1 numPorts, ∀ coeff ∈ portCoeffNames numPorts i, ∀ s,
      qt.toInt (dev.Query (":COEFF:NUM? " ++ name ++ " " ++ coeff) s).1
        = (count name coeff : Int))
    (hlt : totalPoints < 2 ^ 64) (hcalm : Calm w) :
    ∃ w1, loadCoefficientSetsThreadSlow.totalSets dev qt numPorts names totalPoints w
        = .ok ((totalPoints + totalCount count numPorts names) % 2 ^ 64) w1 ∧
      SameButChannel w w1 := by
  induction names generalizing totalPoints w with
  | nil =>
    refine ⟨w, ?_, rfl, rfl, rfl, rfl, rfl, rfl⟩
    simp only [totalCount, List.map_nil, List.sum_nil, Nat.add_zero, Nat.mod_eq_of_lt hlt]
    rfl
  | cons name names ih =>
    obtain ⟨w1, h1, hf1⟩ := totalPorts_spec dev qt count numPorts name (intRange 1 numPorts)
      totalPoints w (hnum name (List.mem_cons_self _ _)) hlt hcalm
    have hc1 : Calm w1 := ⟨hf1.2.2.1.trans hcalm.1, hf1.2.2.2.2.2.trans hcalm.2⟩
    obtain ⟨w2, h2, hf2⟩ := ih _ w1 (fun n hn => hnum n (List.mem_cons_of_mem _ hn))
      (Nat.mod_lt _ (by norm_num)) hc1
    refine ⟨w2, ?_, ?_⟩
    · unfold loadCoefficientSetsThreadSlow.totalSets
      rw [bind_ok h1, h2]
      congr 1
      simp only [totalCount, List.map_cons, List.sum_cons]
      omega
    · obtain ⟨a1, a2, a3, a4, a5, a6⟩ := hf1
      obtain ⟨b1, b2, b3, b4, b5, b6⟩ := hf2
      exact ⟨b1.trans a1, b2.trans a2, b3.trans a3, b4.trans a4, b5.trans a5, b6.trans a6⟩

theorem count_le_totalCount (count : String → String → Nat) (numPorts : Int)
    (names : List String) (name : String) (hname : name ∈ names) (i : Int)
    (hi : i ∈ intRange 1 numPorts) (coeff : String) (hc : coeff ∈ portCoeffNames numPorts i) :
    count name coeff ≤ totalCount count numPorts names := by
  have h1 : count name coeff ≤ ((portCoeffNames numPorts i).map (count name)).sum :=
    List.le_sum_of_mem (List.mem_map.mpr ⟨coeff, hc, rfl⟩)
  have h2 : ((portCoeffNames numPorts i).map (count name)).sum
      ≤ ((intRange 1 numPorts).map (fun i => ((portCoeffNames numPorts i).map (count name)).sum)).sum :=
    List.le_sum_of_mem (List.mem_map.mpr ⟨i, hi, rfl⟩)
  have h3 : ((intRange 1 numPorts).map (fun i =>
      ((portCoeffNames numPorts i).map (count name)).sum)).sum ≤ totalCount count numPorts names :=
    List.le_sum_of_mem (List.mem_map.mpr ⟨name, hname, rfl⟩)
  exact h1.trans (h2.trans h3)

end CalDevice

namespace CalDevice

open QString

variable {σ D : Type}

theorem mem_coeffNames {numPorts i : Int} (hi : i ∈ intRange 1 numPorts) {coeff : String}
    (hc : coeff ∈ portCoeffNames numPorts i) :
    coeff ∈ loadCoefficientSetsThreadFast.coeffNames numPorts :=
  List.mem_flatMap.mpr ⟨i, hi, hc⟩

/-- C6: polling strategy, no cancellation. Suppose the device answers `COEFF:NUM? <set> <coeffId>`
with the number `count set coeffId` for every retrieved set and every coefficient of it, and
answers `COEFF:GET?` for the indices below that number with lines that have the number of
parameters of the coefficient (the counts add up to less than `2 ^ 64`). Then the load succeeds
with `updateCoefficientsDone(true)`, retains a set for every retrieved name in order, and every
slot of every set holds exactly `count set coeffId` samples. -/
theorem polling_load_sample_counts (dev : USBDevice σ) (qt : QtNumeric D) (fuel : Nat)
    (count : String → String → Nat) (names : List String) (w : CalDevice σ D)
    (hno : w.abortRequest = none)
    (hlist : startsWith (dev.Query ":COEFF:LIST?" w.usb).1 "FACTORY" = true)
    (hnames : ∀ n ∈ names, n ∈ split (dev.Query ":COEFF:LIST?" w.usb).1 ',')
    (hnum : ∀ name ∈ requestedSets names (split (dev.Query ":COEFF:LIST?" w.usb).1 ','),
      ∀ coeff ∈ loadCoefficientSetsThreadFast.coeffNames w.numPorts, ∀ s,
        qt.toInt (dev.Query (":COEFF:NUM? " ++ name ++ " " ++ coeff) s).1
          = (count name coeff : Int))
    (hget : ∀ name ∈ requestedSets names (split (dev.Query ":COEFF:LIST?" w.usb).1 ','),
      ∀ coeff ∈ loadCoefficientSetsThreadFast.coeffNames w.numPorts, ∀ s, ∀ i : Int,
        0 ≤ i → i < count name coeff →
        (parseDatapoint qt (split (dev.Query
          (":COEFF:GET? " ++ name ++ " " ++ coeff ++ " " ++ number i) s).1 ',')).S.length
          = if endsWith coeff "THROUGH" then 4 else 1)
    (hsum : totalCount count w.numPorts
      (requestedSets names (split (dev.Query ":COEFF:LIST?" w.usb).1 ',')) < 2 ^ 64) :
    ∃ w1, loadCoefficientSets dev qt fuel names false w = .ok () w1 ∧
      w1.signals.getLast? = some (.updateCoefficientsDone true) ∧
      w1.coeffSets.map (fun s => s.name)
        = requestedSets names (split (dev.Query ":COEFF:LIST?" w.usb).1 ',') ∧
      ∀ set ∈ w1.coeffSets, SetLoaded w1.heap count w.numPorts set := by
  have hall : names.all (fun n => (split (dev.Query ":COEFF:LIST?" w.usb).1 ',').contains n)
      = true := by
    simp only [List.all_eq_true]
    intro n hn
    simpa using hnames n hn
  have hnonempty : (split (dev.Query ":COEFF:LIST?" w.usb).1 ',').isEmpty = false := by
    have := split_ne_nil (dev.Query ":COEFF:LIST?" w.usb).1 ','
    cases h : split (dev.Query ":COEFF:LIST?" w.usb).1 ',' with
    | nil => exact absurd h this
    | cons a l => rfl
  generalize hsets : requestedSets names (split (dev.Query ":COEFF:LIST?" w.usb).1 ',') = sets
    at hnum hget hsum ⊢
  have hcalm0 : Calm ({ w with usb := (dev.Query ":COEFF:LIST?" w.usb).2, coeffSets := [],
                               abortLoading := false, io := w.io ++ [.query ":COEFF:LIST?"] }
      : CalDevice σ D) :=
    ⟨rfl, hno⟩
  obtain ⟨w1, h1, hf1⟩ := totalSets_spec dev qt count w.numPorts sets 0 _
    (fun name hn i hi coeff hc s => hnum name hn coeff (mem_coeffNames hi hc) s)
    (by norm_num) hcalm0
  have htot : (0 + totalCount count w.numPorts sets) % 2 ^ 64 = totalCount count w.numPorts sets := by
    rw [Nat.zero_add, Nat.mod_eq_of_lt hsum]
  rw [htot] at h1
  have hc1 : Calm w1 := ⟨hf1.2.2.1.trans hcalm0.1, hf1.2.2.2.2.2.trans hcalm0.2⟩
  obtain ⟨w2, h2, -, -, new, hnew, hnm, hloaded⟩ := readSetsSlow_spec dev qt count
    (totalCount count w.numPorts sets) w.numPorts sets { readPoints := 0, lastPercentage := 0 } w1
    (fun name hn i hi coeff hc =>
      ⟨hnum name hn coeff (mem_coeffNames hi hc), hget name hn coeff (mem_coeffNames hi hc), by
        have hle := count_le_totalCount count w.numPorts sets name hn i hi coeff hc
        omega⟩)
    hc1
  refine ⟨{ w2 with signals := w2.signals ++ [.updateCoefficientsDone true] }, ?_, ?_, ?_, ?_⟩
  · unfold loadCoefficientSets
    simp only [Bool.false_eq_true, if_false]
    unfold loadCoefficientSetsThreadSlow
    rw [bind_ok (getCoefficientSetNames_apply dev _)]
    simp only [hlist, if_true, hnonempty, Bool.false_eq_true, if_false, hall,
      not_true_eq_false, and_false]
    rw [bind_ok (show readNumPorts _ = _ from rfl)]
    have e : (if names.length > 0 then names else split (dev.Query ":COEFF:LIST?" w.usb).1 ',')
        = sets := hsets
    simp only [e]
    rw [bind_ok h1, bind_ok h2]
    rfl
  · simp
  · show w2.coeffSets.map _ = _
    rw [hnew, hf1.2.1]
    simpa using hnm
  · intro set hset
    have hset2 : set ∈ w2.coeffSets := hset
    rw [hnew, hf1.2.1] at hset2
    exact hloaded set (by simpa using hset2)

end CalDevice

namespace CalDevice

open QString

variable {σ D : Type}

theorem mem_intRange (lo hi i : Int) : i ∈ intRange lo hi ↔ lo ≤ i ∧ i ≤ hi := by
  unfold intRange
  simp only [List.mem_map, List.mem_range]
  constructor
  · rintro ⟨k, hk, rfl⟩
    omega
  · rintro ⟨h1, h2⟩
    exact ⟨(i - lo).toNat, by omega, by omega⟩

theorem exampleDevice_counts :
    ∀ name ∈ requestedSets ["FACTORY"] (split (exampleAnswer ":COEFF:LIST?") ','),
      ∀ coeff ∈ loadCoefficientSetsThreadFast.coeffNames 2,
        decimalInt (exampleAnswer (":COEFF:NUM? " ++ name ++ " " ++ coeff))
          = (exampleCount name coeff : Int) := by
  decide!

theorem exampleDevice_samples :
    ∀ name ∈ requestedSets ["FACTORY"] (split (exampleAnswer ":COEFF:LIST?") ','),
      ∀ coeff ∈ loadCoefficientSetsThreadFast.coeffNames 2,
        ∀ i ∈ intRange 0 ((exampleCount name coeff : Int) - 1),
          (parseDatapoint wholeNumbers (split (exampleAnswer
            (":COEFF:GET? " ++ name ++ " " ++ coeff ++ " " ++ number i)) ',')).S.length
            = if endsWith coeff "THROUGH" then 4 else 1 := by
  decide!

/-- The scenario of the specification: the listing `FACTORY,USER1`, two ports, the request
`["FACTORY"]`, and three samples for the open of port 1. -/
theorem polling_load_sample_counts_witness :
    ∃ w1, loadCoefficientSets exampleDevice wholeNumbers 8 ["FACTORY"] false
        (fresh [] 2 none : CalDevice (List String) Int) = .ok () w1 ∧
      w1.signals.getLast? = some (.updateCoefficientsDone true) ∧
      w1.coeffSets.map (fun s => s.name)
        = requestedSets ["FACTORY"] (split (exampleDevice.Query ":COEFF:LIST?"
            (fresh [] 2 none : CalDevice (List String) Int).usb).1 ',') ∧
      (∀ set ∈ w1.coeffSets, SetLoaded w1.heap exampleCount
        (fresh [] 2 none : CalDevice (List String) Int).numPorts set) ∧
      w1.coeffSets.map (fun s => (s.name, s.opens.map (pointsAt w1.heap)))
        = [("FACTORY", [some 3, some 0])] := by
  obtain ⟨w1, h1, h2, h3, h4⟩ :=
    polling_load_sample_counts exampleDevice wholeNumbers 8 exampleCount ["FACTORY"]
      (fresh [] 2 none) rfl (by decide) (by decide)
      (fun name hn coeff hc _ => exampleDevice_counts name hn coeff hc)
      (fun name hn coeff hc _ i h0 h1 =>
        exampleDevice_samples name hn coeff hc i ((mem_intRange _ _ _).mpr ⟨h0, by omega⟩))
      (by decide!)
  refine ⟨w1, h1, h2, h3, h4, ?_⟩
  have e : w1 = (loadCoefficientSets exampleDevice wholeNumbers 8 ["FACTORY"] false
      (fresh [] 2 none : CalDevice (List String) Int)).state := by
    rw [h1]
    rfl
  rw [e]
  decide!

end CalDevice

namespace CalDevice

open QString

variable {σ D : Type}

/-! ## Cancellation: runs with and without an abort request -/

theorem Extends.refl (w : CalDevice σ D) : Extends w w := ⟨List.prefix_refl _, List.prefix_refl _⟩

theorem Extends.trans {u v w : CalDevice σ D} (h1 : Extends u v) (h2 : Extends v w) :
    Extends u w := ⟨h1.1.trans h2.1, h1.2.trans h2.2⟩

theorem Inner.toMono {α : Type} {m : M σ D α} (h : Inner m) : Mono m := fun w =>
  ⟨by rw [(h w).1], (h w).2⟩

/-- The state after `m >>= f` extends the state after `m`. -/
theorem bind_extends {α β : Type} (m : M σ D α) {f : α → M σ D β} (hf : ∀ a, Mono (f a))
    (w : CalDevice σ D) : Extends (m w).state ((m >>= f) w).state := by
  cases h : m w with
  | ok a w1 =>
    rw [bind_ok h]
    exact hf a w1
  | exit e w1 =>
    rw [bind_exit h]
    exact Extends.refl _

theorem mono_bind {α β : Type} {m : M σ D α} {f : α → M σ D β} (hm : Mono m)
    (hf : ∀ a, Mono (f a)) : Mono (m >>= f) := fun w =>
  (hm w).trans (bind_extends m hf w)

theorem inner_bind {α β : Type} {m : M σ D α} {f : α → M σ D β} (hm : Inner m)
    (hf : ∀ a, Inner (f a)) : Inner (m >>= f) := by
  intro w
  cases h : m w with
  | ok a w1 =>
    rw [bind_ok h]
    have h1 := hm w
    rw [h] at h1
    exact ⟨((hf a w1).1).trans h1.1, h1.2.trans (hf a w1).2⟩
  | exit e w1 =>
    rw [bind_exit h]
    have h1 := hm w
    rw [h] at h1
    exact h1

theorem inner_pure {α : Type} (a : α) : Inner (pure a : M σ D α) := fun _ =>
  ⟨rfl, List.prefix_refl _⟩

theorem inner_leave {α : Type} (e : Exit) : Inner (leave e : M σ D α) := fun _ =>
  ⟨rfl, List.prefix_refl _⟩

theorem inner_emit (s : Signal) : Inner (emit s : M σ D Unit) := fun _ =>
  ⟨rfl, List.prefix_refl _⟩

theorem inner_Query (dev : USBDevice σ) (cmd : String) : Inner (Query dev cmd : M σ D String) :=
  fun _ => ⟨rfl, List.prefix_refl _⟩

theorem inner_send (dev : USBDevice σ) (cmd : String) : Inner (send dev cmd : M σ D Unit) :=
  fun _ => ⟨rfl, List.prefix_refl _⟩

theorem inner_receive (dev : USBDevice σ) : Inner (receive dev : M σ D (Option String)) :=
  fun _ => ⟨rfl, List.prefix_refl _⟩

theorem inner_readNumPorts : Inner (readNumPorts : M σ D Int) := fun _ =>
  ⟨rfl, List.prefix_refl _⟩

theorem inner_alloc (c : CoefficientSet.Coefficient D) : Inner (alloc c : M σ D Ptr) := fun _ =>
  ⟨rfl, List.prefix_append _ _⟩

theorem inner_readAbortLoading : Inner (readAbortLoading : M σ D Bool) := by
  intro w
  unfold readAbortLoading
  split
  · exact ⟨rfl, List.prefix_refl _⟩
  · split <;> exact ⟨rfl, List.prefix_refl _⟩

theorem mono_pushCoeffSet (set : CoefficientSet) : Mono (pushCoeffSet set : M σ D Unit) :=
  fun _ => ⟨List.prefix_append _ _, List.prefix_refl _⟩

theorem mono_pure {α : Type} (a : α) : Mono (pure a : M σ D α) := (inner_pure a).toMono

/-! ### Once the flag was seen -/

theorem frozen_bind {α β : Type} {strict : Bool} {m : M σ D α} {f : α → M σ D β}
    (hm : Frozen false m) (hf : ∀ a, Frozen strict (f a)) : Frozen strict (m >>= f) := by
  intro w hw
  obtain ⟨h1, h2, h3⟩ := hm w hw
  cases h : m w with
  | ok a w1 =>
    rw [h] at h1 h3
    rw [bind_ok h]
    obtain ⟨g1, g2, g3⟩ := hf a w1 h1
    exact ⟨g1, g2, g3.trans h3⟩
  | exit e w1 =>
    rw [h] at h1 h2 h3
    rw [bind_exit h]
    refine ⟨h1, ?_, h3⟩
    rcases h2 with h2 | ⟨-, h2⟩
    · exact Or.inl h2
    · exact absurd h2 (by simp [Res.exit?])

theorem frozen_pure {α : Type} (a : α) : Frozen false (pure a : M σ D α) := fun _ hw =>
  ⟨hw, Or.inr ⟨rfl, rfl⟩, rfl⟩

theorem frozen_leave {α : Type} (strict : Bool) : Frozen strict (leave .returned : M σ D α) :=
  fun _ hw => ⟨hw, Or.inl rfl, rfl⟩

theorem frozen_Query (dev : USBDevice σ) (cmd : String) :
    Frozen false (Query dev cmd : M σ D String) := fun _ hw => ⟨hw, Or.inr ⟨rfl, rfl⟩, rfl⟩

theorem frozen_alloc (c : CoefficientSet.Coefficient D) : Frozen false (alloc c : M σ D Ptr) :=
  fun _ hw => ⟨hw, Or.inr ⟨rfl, rfl⟩, rfl⟩

theorem readAbortLoading_seen {w : CalDevice σ D} (h : w.abortLoading = true) :
    readAbortLoading w = .ok true w := by
  unfold readAbortLoading
  rw [if_pos h]

/-- The statement `if(abortLoading) { ... }` once the flag was seen: only the branch `x` of a
set flag counts. -/
theorem frozen_ifAbort {α : Type} {strict : Bool} {x y : M σ D α} (hx : Frozen strict x) :
    Frozen strict (readAbortLoading >>= fun b => if b = true then x else y) := by
  intro w hw
  rw [bind_ok (readAbortLoading_seen hw)]
  simpa using hx w hw

end CalDevice

namespace CalDevice

open QString

variable {σ D : Type}

/-! ### Both runs side by side -/

theorem EndsQuietly.of_ok {strict : Bool} (h : EndsQuietly strict none) : strict = false := by
  rcases h with h | ⟨h, -⟩
  · exact absurd h (by simp)
  · exact h

theorem EndsQuietly.of_exit {strict : Bool} {e : Exit} (h : EndsQuietly strict (some e)) :
    e = .returned := by
  rcases h with h | ⟨-, h⟩
  · exact (Option.some.inj h)
  · exact absurd h (by simp)

theorem sim_bind {α β : Type} {s1 s2 : Bool} {P : Nat → Prop} {m : M σ D α}
    {Q : α → Nat → Prop} {f : α → M σ D β} {Q1 : β → Nat → Prop}
    (hm : Sim s1 P m Q) (hf : ∀ a, Sim s2 (Q a) (f a) Q1) (hfm : ∀ a, Mono (f a))
    (hfz : s1 = false → ∀ a, Frozen s2 (f a)) : Sim s2 P (m >>= f) Q1 := by
  intro w hw hv hp
  rcases hm w hw hv hp with ⟨heq, hfl, hval, hq⟩ | ⟨hab, hend, hpre, h0, hh1, hh2, hsv⟩
  · cases h : m w with
    | ok a w1 =>
      rw [h] at heq hfl hval
      rw [bind_ok h, bind_ok (show m w.unrequested = .ok a w1.unrequested from heq)]
      exact hf a w1 hfl hval (hq a w1 h)
    | exit e w1 =>
      rw [h] at heq hfl hval
      rw [bind_exit h, bind_exit (show m w.unrequested = .exit e w1.unrequested from heq)]
      exact Or.inl ⟨rfl, hfl, hval, fun a w2 h2 => by cases h2⟩
  · have hext := bind_extends m hfm w.unrequested
    right
    cases h : m w with
    | ok a w1 =>
      rw [h] at hab hend hpre hh1 hsv
      obtain ⟨g1, g2, g3⟩ := hfz hend.of_ok a w1 hab
      rw [bind_ok h]
      refine ⟨g1, g2, ?_, h0, hh1.trans (hfm a w1).2, hh2.trans hext.2, ?_⟩
      · rw [g3]
        exact hpre.trans hext.1
      · rw [g3]
        exact hsv
    | exit e w1 =>
      rw [h] at hab hend hpre hh1 hsv
      rw [bind_exit h]
      have he : e = .returned := hend.of_exit
      subst he
      exact ⟨hab, Or.inl rfl, hpre.trans hext.1, h0, hh1, hh2.trans hext.2, hsv⟩

/-- Code that does not read the abort flag behaves in the same way with and without a
request. -/
theorem sim_of_same {α : Type} {strict : Bool} {P : Nat → Prop} {m : M σ D α}
    {Q : α → Nat → Prop}
    (h : ∀ w, w.abortLoading = false → Valid w → P w.heap.length →
      m w.unrequested = (m w).unrequested ∧ (m w).state.abortLoading = false ∧
        Valid (m w).state ∧ ∀ a w1, m w = .ok a w1 → Q a w1.heap.length) :
    Sim strict P m Q := fun w h1 h2 h3 => Or.inl (h w h1 h2 h3)

theorem sim_conseq {α : Type} {strict : Bool} {P P1 : Nat → Prop} {m : M σ D α}
    {Q Q1 : α → Nat → Prop} (hm : Sim strict P m Q) (hp : ∀ n, P1 n → P n)
    (hq : ∀ a n, Q a n → Q1 a n) : Sim strict P1 m Q1 := by
  intro w h1 h2 h3
  rcases hm w h1 h2 (hp _ h3) with ⟨a1, a2, a3, a4⟩ | h
  · exact Or.inl ⟨a1, a2, a3, fun a w1 e => hq a _ (a4 a w1 e)⟩
  · exact Or.inr h

/-- The statement `if(abortLoading) x else y`, where the flag was not seen before. -/
theorem sim_ifAbort {α : Type} {strict : Bool} {P : Nat → Prop} {x y : M σ D α}
    {Q : α → Nat → Prop} (hy : Sim strict P y Q) (hx : Frozen strict x) (hxm : Mono x)
    (hym : Mono y) :
    Sim strict P (readAbortLoading >>= fun b => if b = true then x else y) Q := by
  intro w hw hv hp
  have hfree : readAbortLoading w.unrequested = .ok false w.unrequested := by
    unfold readAbortLoading
    rw [if_neg (by simpa [unrequested] using hw)]
    rfl
  rw [bind_ok hfree]
  simp only [Bool.false_eq_true, if_false]
  cases hreq : w.abortRequest with
  | none =>
    have h1 : readAbortLoading w = .ok false w := readAbortLoading_calm ⟨hw, hreq⟩
    rw [bind_ok h1]
    simp only [Bool.false_eq_true, if_false]
    exact hy w hw hv hp
  | some k =>
    cases k with
    | zero =>
      have h1 : readAbortLoading w = .ok true { w with abortLoading := true } := by
        unfold readAbortLoading
        rw [if_neg (by simpa using hw), hreq]
      rw [bind_ok h1]
      simp only [if_true]
      obtain ⟨g1, g2, g3⟩ := hx { w with abortLoading := true } rfl
      have e1 := hxm { w with abortLoading := true }
      have e2 := hym w.unrequested
      refine Or.inr ⟨g1, g2, ?_, w.heap, e1.2, e2.2, ?_⟩
      · rw [g3]
        exact e2.1
      · rw [g3]
        exact hv
    | succ k =>
      have h1 : readAbortLoading w = .ok false { w with abortRequest := some k } := by
        unfold readAbortLoading
        rw [if_neg (by simpa using hw), hreq]
      rw [bind_ok h1]
      simp only [Bool.false_eq_true, if_false]
      exact hy { w with abortRequest := some k } hw hv hp

end CalDevice

namespace CalDevice

open QString

variable {σ D : Type}

/-! ### The code of the load threads only appends -/

theorem inner_ite {α : Type} {c : Prop} [Decidable c] {x y : M σ D α} (hx : Inner x)
    (hy : Inner y) : Inner (if c then x else y) := by
  split
  · exact hx
  · exact hy

theorem mono_ite {α : Type} {c : Prop} [Decidable c] {x y : M σ D α} (hx : Mono x)
    (hy : Mono y) : Mono (if c then x else y) := by
  split
  · exact hx
  · exact hy

theorem inner_readSamples (dev : USBDevice σ) (qt : QtNumeric D) (totalPoints : Nat)
    (setName paramName : String) (n : Nat) (i : Int) (t : Touchstone D) (pr : SlowProgress) :
    Inner (loadCoefficientSetsThreadSlow.readSamples dev qt totalPoints setName paramName n i t
      pr) := by
  induction n generalizing i t pr with
  | zero => exact inner_pure _
  | succ n ih =>
    unfold loadCoefficientSetsThreadSlow.readSamples
    refine inner_bind inner_readAbortLoading (fun b => inner_ite (inner_pure _) ?_)
    refine inner_bind (inner_Query _ _) (fun pString => ?_)
    cases t.AddDatapoint (parseDatapoint qt (split pString ',')) with
    | none => exact inner_leave _
    | some t1 =>
      exact inner_ite (inner_leave _)
        (inner_ite (inner_bind (inner_emit _) (fun _ => ih _ _ _)) (ih _ _ _))

theorem frozen_readSamples (dev : USBDevice σ) (qt : QtNumeric D) (totalPoints : Nat)
    (setName paramName : String) (n : Nat) (i : Int) (t : Touchstone D) (pr : SlowProgress) :
    Frozen false (loadCoefficientSetsThreadSlow.readSamples dev qt totalPoints setName paramName
      n i t pr) := by
  cases n with
  | zero => exact frozen_pure _
  | succ n =>
    unfold loadCoefficientSetsThreadSlow.readSamples
    exact frozen_ifAbort (frozen_pure _)

theorem inner_createCoefficientSlow (dev : USBDevice σ) (qt : QtNumeric D) (totalPoints : Nat)
    (setName paramName : String) (pr : SlowProgress) :
    Inner (loadCoefficientSetsThreadSlow.createCoefficient dev qt totalPoints setName paramName
      pr) := by
  unfold loadCoefficientSetsThreadSlow.createCoefficient
  exact inner_bind (inner_Query _ _) (fun _ =>
    inner_bind (inner_readSamples _ _ _ _ _ _ _ _ _) (fun _ =>
      inner_bind (inner_alloc _) (fun _ => inner_pure _)))

theorem frozen_createCoefficientSlow (dev : USBDevice σ) (qt : QtNumeric D) (totalPoints : Nat)
    (setName paramName : String) (pr : SlowProgress) :
    Frozen false (loadCoefficientSetsThreadSlow.createCoefficient dev qt totalPoints setName
      paramName pr) := by
  unfold loadCoefficientSetsThreadSlow.createCoefficient
  exact frozen_bind (frozen_Query _ _) (fun _ =>
    frozen_bind (frozen_readSamples _ _ _ _ _ _ _ _ _) (fun _ =>
      frozen_bind (frozen_alloc _) (fun _ => frozen_pure _)))

theorem inner_readThroughs (dev : USBDevice σ) (qt : QtNumeric D) (totalPoints : Nat)
    (name : String) (i : Int) (js : List Int) (set : CoefficientSet) (pr : SlowProgress) :
    Inner (loadCoefficientSetsThreadSlow.readThroughs dev qt totalPoints name i js set pr) := by
  induction js generalizing set pr with
  | nil => exact inner_pure _
  | cons j js ih =>
    unfold loadCoefficientSetsThreadSlow.readThroughs
    exact inner_bind (inner_createCoefficientSlow _ _ _ _ _ _) (fun _ => ih _ _)

theorem frozen_readThroughs (dev : USBDevice σ) (qt : QtNumeric D) (totalPoints : Nat)
    (name : String) (i : Int) (js : List Int) (set : CoefficientSet) (pr : SlowProgress) :
    Frozen false (loadCoefficientSetsThreadSlow.readThroughs dev qt totalPoints name i js set
      pr) := by
  induction js generalizing set pr with
  | nil => exact frozen_pure _
  | cons j js ih =>
    unfold loadCoefficientSetsThreadSlow.readThroughs
    exact frozen_bind (frozen_createCoefficientSlow _ _ _ _ _ _) (fun _ => ih _ _)

theorem inner_readPorts (dev : USBDevice σ) (qt : QtNumeric D) (totalPoints : Nat)
    (numPorts : Int) (name : String) (ports : List Int) (set : CoefficientSet)
    (pr : SlowProgress) :
    Inner (loadCoefficientSetsThreadSlow.readPorts dev qt totalPoints numPorts name ports set
      pr) := by
  induction ports generalizing set pr with
  | nil => exact inner_pure _
  | cons i ports ih =>
    unfold loadCoefficientSetsThreadSlow.readPorts
    exact inner_bind (inner_createCoefficientSlow _ _ _ _ _ _) (fun _ =>
      inner_bind (inner_createCoefficientSlow _ _ _ _ _ _) (fun _ =>
        inner_bind (inner_createCoefficientSlow _ _ _ _ _ _) (fun _ =>
          inner_bind (inner_readThroughs _ _ _ _ _ _ _ _) (fun _ =>
            inner_bind inner_readAbortLoading (fun _ =>
              inner_ite (inner_leave _) (ih _ _))))))

theorem mono_readSetsSlow (dev : USBDevice σ) (qt : QtNumeric D) (totalPoints : Nat)
    (numPorts : Int) (names : List String) (pr : SlowProgress) :
    Mono (loadCoefficientSetsThreadSlow.readSets dev qt totalPoints numPorts names pr) := by
  induction names generalizing pr with
  | nil => exact mono_pure _
  | cons name names ih =>
    unfold loadCoefficientSetsThreadSlow.readSets
    exact mono_bind (inner_readPorts _ _ _ _ _ _ _ _).toMono (fun _ =>
      mono_bind (mono_pushCoeffSet _) (fun _ => ih _))

theorem inner_totalThroughs (dev : USBDevice σ) (qt : QtNumeric D) (name : String) (i : Int)
    (js : List Int) (totalPoints : Nat) :
    Inner (loadCoefficientSetsThreadSlow.totalThroughs dev qt name i js totalPoints) := by
  induction js generalizing totalPoints with
  | nil => exact inner_pure _
  | cons j js ih =>
    unfold loadCoefficientSetsThreadSlow.totalThroughs
    exact inner_bind (inner_Query _ _) (fun _ => ih _)

theorem inner_totalPorts (dev : USBDevice σ) (qt : QtNumeric D) (numPorts : Int) (name : String)
    (ports : List Int) (totalPoints : Nat) :
    Inner (loadCoefficientSetsThreadSlow.totalPorts dev qt numPorts name ports totalPoints) := by
  induction ports generalizing totalPoints with
  | nil => exact inner_pure _
  | cons i ports ih =>
    unfold loadCoefficientSetsThreadSlow.totalPorts
    exact inner_bind inner_readAbortLoading (fun _ => inner_ite (inner_leave _)
      (inner_bind (inner_Query _ _) (fun _ => inner_bind (inner_Query _ _) (fun _ =>
        inner_bind (inner_Query _ _) (fun _ =>
          inner_bind (inner_totalThroughs _ _ _ _ _ _) (fun _ => ih _))))))

theorem inner_totalSets (dev : USBDevice σ) (qt : QtNumeric D) (numPorts : Int)
    (names : List String) (totalPoints : Nat) :
    Inner (loadCoefficientSetsThreadSlow.totalSets dev qt numPorts names totalPoints) := by
  induction names generalizing totalPoints with
  | nil => exact inner_pure _
  | cons name names ih =>
    unfold loadCoefficientSetsThreadSlow.totalSets
    exact inner_bind (inner_totalPorts _ _ _ _ _ _) (fun _ => ih _)

theorem inner_receiveLines (dev : USBDevice σ) (qt : QtNumeric D) (fuel : Nat)
    (t : Touchstone D) : Inner (loadCoefficientSetsThreadFast.receiveLines dev qt fuel t) := by
  induction fuel generalizing t with
  | zero => exact inner_leave _
  | succ fuel ih =>
    unfold loadCoefficientSetsThreadFast.receiveLines
    refine inner_bind (inner_receive _) (fun r => ?_)
    cases r with
    | none => exact inner_pure _
    | some line =>
      refine inner_ite (inner_pure _) (inner_ite (ih _) (inner_ite (inner_pure _) ?_))
      cases t.AddDatapoint (parseDatapoint qt (split line ' ')) with
      | none => exact inner_pure _
      | some t1 => exact ih _

theorem inner_createCoefficientFast (dev : USBDevice σ) (qt : QtNumeric D) (fuel : Nat)
    (setName paramName : String) :
    Inner (loadCoefficientSetsThreadFast.createCoefficient dev qt fuel setName paramName) := by
  unfold loadCoefficientSetsThreadFast.createCoefficient
  exact inner_bind (inner_send _ _) (fun _ =>
    inner_bind (inner_receiveLines _ _ _ _) (fun _ => inner_alloc _))

theorem inner_readCoeffs (dev : USBDevice σ) (qt : QtNumeric D) (fuel : Nat)
    (total_coeffs : Int) (name : String) (coeffs : List String) (set : CoefficientSet)
    (read_coeffs : Int) :
    Inner (loadCoefficientSetsThreadFast.readCoeffs dev qt fuel total_coeffs name coeffs set
      read_coeffs) := by
  induction coeffs generalizing set read_coeffs with
  | nil => exact inner_pure _
  | cons coeff coeffs ih =>
    unfold loadCoefficientSetsThreadFast.readCoeffs
    exact inner_bind (inner_createCoefficientFast _ _ _ _ _) (fun _ =>
      inner_bind inner_readAbortLoading (fun _ => inner_ite (inner_leave _)
        (inner_ite (inner_leave _) (inner_bind (inner_emit _) (fun _ => ih _ _)))))

theorem mono_readSetsFast (dev : USBDevice σ) (qt : QtNumeric D) (fuel : Nat)
    (total_coeffs : Int) (numPorts : Int) (coeffNames : List String) (names : List String)
    (read_coeffs : Int) :
    Mono (loadCoefficientSetsThreadFast.readSets dev qt fuel total_coeffs numPorts coeffNames
      names read_coeffs) := by
  induction names generalizing read_coeffs with
  | nil => exact mono_pure _
  | cons name names ih =>
    unfold loadCoefficientSetsThreadFast.readSets
    exact mono_bind (inner_readCoeffs _ _ _ _ _ _ _ _).toMono (fun _ =>
      mono_bind (mono_pushCoeffSet _) (fun _ => ih _))

end CalDevice

namespace CalDevice

open QString

variable {σ D : Type}

theorem simM_bind {α β : Type} {strict : Bool} {P : Nat → Prop} {m : M σ D α}
    {Q : α → Nat → Prop} {f : α → M σ D β} {Q1 : β → Nat → Prop}
    (hm : SimM true P m Q) (hf : ∀ a, SimM strict (Q a) (f a) Q1) :
    SimM strict P (m >>= f) Q1 :=
  ⟨mono_bind hm.1 (fun a => (hf a).1),
    sim_bind hm.2 (fun a => (hf a).2) (fun a => (hf a).1) (fun h => absurd h (by simp))⟩

theorem simM_bind_lenient {α β : Type} {strict : Bool} {P : Nat → Prop} {m : M σ D α}
    {Q : α → Nat → Prop} {f : α → M σ D β} {Q1 : β → Nat → Prop}
    (hm : SimM false P m Q) (hf : ∀ a, SimM strict (Q a) (f a) Q1)
    (hfz : ∀ a, Frozen strict (f a)) : SimM strict P (m >>= f) Q1 :=
  ⟨mono_bind hm.1 (fun a => (hf a).1),
    sim_bind hm.2 (fun a => (hf a).2) (fun a => (hf a).1) (fun _ => hfz)⟩

theorem simM_ifAbort {α : Type} {strict : Bool} {P : Nat → Prop} {x y : M σ D α}
    {Q : α → Nat → Prop} (hy : SimM strict P y Q) (hx : Frozen strict x) (hxm : Mono x) :
    SimM strict P (readAbortLoading >>= fun b => if b = true then x else y) Q :=
  ⟨mono_bind inner_readAbortLoading.toMono (fun _ => mono_ite hxm hy.1),
    sim_ifAbort hy.2 hx hxm hy.1⟩

theorem simM_ite {α : Type} {strict : Bool} {P : Nat → Prop} {c : Prop} [Decidable c]
    {x y : M σ D α} {Q : α → Nat → Prop} (hx : SimM strict P x Q) (hy : SimM strict P y Q) :
    SimM strict P (if c then x else y) Q := by
  split
  · exact hx
  · exact hy

theorem simM_conseq {α : Type} {strict : Bool} {P P1 : Nat → Prop} {m : M σ D α}
    {Q Q1 : α → Nat → Prop} (hm : SimM strict P m Q) (hp : ∀ n, P1 n → P n)
    (hq : ∀ a n, Q a n → Q1 a n) : SimM strict P1 m Q1 :=
  ⟨hm.1, sim_conseq hm.2 hp hq⟩

theorem simM_pure {α : Type} {strict : Bool} {P : Nat → Prop} {Q : α → Nat → Prop} (a : α)
    (h : ∀ n, P n → Q a n) : SimM strict P (pure a : M σ D α) Q :=
  ⟨mono_pure a, sim_of_same (fun w hw hv hp =>
    ⟨rfl, hw, hv, fun b w1 e => by
      cases e
      exact h _ hp⟩)⟩

theorem simM_leave {α : Type} {strict : Bool} {P : Nat → Prop} {Q : α → Nat → Prop} (e : Exit) :
    SimM strict P (leave e : M σ D α) Q :=
  ⟨(inner_leave e).toMono, sim_of_same (fun w hw hv _ =>
    ⟨rfl, hw, hv, fun b w1 h => by cases h⟩)⟩

theorem simM_emit {strict : Bool} {P : Nat → Prop} (s : Signal) :
    SimM strict P (emit s : M σ D Unit) (fun _ n => P n) :=
  ⟨(inner_emit s).toMono, sim_of_same (fun w hw hv hp =>
    ⟨rfl, hw, hv, fun b w1 e => by
      cases e
      exact hp⟩)⟩

theorem simM_Query {strict : Bool} {P : Nat → Prop} (dev : USBDevice σ) (cmd : String) :
    SimM strict P (Query dev cmd : M σ D String) (fun _ n => P n) :=
  ⟨(inner_Query dev cmd).toMono, sim_of_same (fun w hw hv hp =>
    ⟨rfl, hw, hv, fun b w1 e => by
      cases e
      exact hp⟩)⟩

theorem simM_send {strict : Bool} {P : Nat → Prop} (dev : USBDevice σ) (cmd : String) :
    SimM strict P (send dev cmd : M σ D Unit) (fun _ n => P n) :=
  ⟨(inner_send dev cmd).toMono, sim_of_same (fun w hw hv hp =>
    ⟨rfl, hw, hv, fun b w1 e => by
      cases e
      exact hp⟩)⟩

theorem simM_receive {strict : Bool} {P : Nat → Prop} (dev : USBDevice σ) :
    SimM strict P (receive dev : M σ D (Option String)) (fun _ n => P n) :=
  ⟨(inner_receive dev).toMono, sim_of_same (fun w hw hv hp =>
    ⟨rfl, hw, hv, fun b w1 e => by
      cases e
      exact hp⟩)⟩

theorem simM_readNumPorts {strict : Bool} {P : Nat → Prop} :
    SimM strict P (readNumPorts : M σ D Int) (fun _ n => P n) :=
  ⟨inner_readNumPorts.toMono, sim_of_same (fun w hw hv hp =>
    ⟨rfl, hw, hv, fun b w1 e => by
      cases e
      exact hp⟩)⟩

theorem SetValid.of_le {n n1 : Nat} {set : CoefficientSet} (h : SetValid n set) (hn : n ≤ n1) :
    SetValid n1 set := fun c hc => lt_of_lt_of_le (h c hc) hn

theorem simM_alloc {strict : Bool} {P : Nat → Prop} (c : CoefficientSet.Coefficient D) :
    SimM strict P (alloc c : M σ D Ptr) (fun p n => n = p + 1 ∧ P p) :=
  ⟨(inner_alloc c).toMono, sim_of_same (fun w hw hv hp =>
    ⟨rfl, hw, fun set hset => (hv set hset).of_le (by simp [alloc, Res.state]),
      fun b w1 e => by
        cases e
        exact ⟨by simp, hp⟩⟩)⟩

theorem simM_pushCoeffSet {strict : Bool} (set : CoefficientSet) :
    SimM strict (fun n => SetValid n set) (pushCoeffSet set : M σ D Unit) (fun _ _ => True) :=
  ⟨mono_pushCoeffSet set, sim_of_same (fun w hw hv hp =>
    ⟨rfl, hw, fun s hs => by
      rcases List.mem_append.mp hs with h | h
      · exact hv s h
      · rw [List.mem_singleton.mp h]
        exact hp,
      fun _ _ _ => trivial⟩)⟩

end CalDevice

namespace CalDevice

open QString

variable {σ D : Type}

/-! ### Addresses stored in the set under construction -/

theorem SetValid.opens {n : Nat} {set : CoefficientSet} {c : Ptr} (h : SetValid n set)
    (hc : c < n) : SetValid n { set with opens := set.opens ++ [c] } := by
  intro x hx
  simp only [CoefficientSet.slots, List.mem_append, List.mem_singleton] at hx
  rcases hx with ((((hx | rfl) | hx) | hx) | hx)
  · exact h x (by simp [CoefficientSet.slots, hx])
  · exact hc
  · exact h x (by simp [CoefficientSet.slots, hx])
  · exact h x (by simp [CoefficientSet.slots, hx])
  · exact h x (by simp [CoefficientSet.slots, hx])

theorem SetValid.shorts {n : Nat} {set : CoefficientSet} {c : Ptr} (h : SetValid n set)
    (hc : c < n) : SetValid n { set with shorts := set.shorts ++ [c] } := by
  intro x hx
  simp only [CoefficientSet.slots, List.mem_append, List.mem_singleton] at hx
  rcases hx with (((hx | (hx | rfl)) | hx) | hx)
  · exact h x (by simp [CoefficientSet.slots, hx])
  · exact h x (by simp [CoefficientSet.slots, hx])
  · exact hc
  · exact h x (by simp [CoefficientSet.slots, hx])
  · exact h x (by simp [CoefficientSet.slots, hx])

theorem SetValid.loads {n : Nat} {set : CoefficientSet} {c : Ptr} (h : SetValid n set)
    (hc : c < n) : SetValid n { set with loads := set.loads ++ [c] } := by
  intro x hx
  simp only [CoefficientSet.slots, List.mem_append, List.mem_singleton] at hx
  rcases hx with (((hx | hx) | (hx | rfl)) | hx)
  · exact h x (by simp [CoefficientSet.slots, hx])
  · exact h x (by simp [CoefficientSet.slots, hx])
  · exact h x (by simp [CoefficientSet.slots, hx])
  · exact hc
  · exact h x (by simp [CoefficientSet.slots, hx])

theorem SetValid.throughs {n : Nat} {set : CoefficientSet} {c : Ptr} (h : SetValid n set)
    (hc : c < n) : SetValid n { set with throughs := set.throughs ++ [c] } := by
  intro x hx
  simp only [CoefficientSet.slots, List.mem_append, List.mem_singleton] at hx
  rcases hx with (((hx | hx) | hx) | (hx | rfl))
  · exact h x (by simp [CoefficientSet.slots, hx])
  · exact h x (by simp [CoefficientSet.slots, hx])
  · exact h x (by simp [CoefficientSet.slots, hx])
  · exact h x (by simp [CoefficientSet.slots, hx])
  · exact hc

theorem SetValid.store {n : Nat} {set : CoefficientSet} {c : Ptr} (coeff : String)
    (h : SetValid n set) (hc : c < n) :
    SetValid n (loadCoefficientSetsThreadFast.store set coeff c) := by
  unfold loadCoefficientSetsThreadFast.store
  split_ifs
  · exact h.opens hc
  · exact h.shorts hc
  · exact h.loads hc
  · exact h.throughs hc
  · exact h

theorem SetValid.empty (n : Nat) (name : String) (ports : Int) :
    SetValid n { name := name, ports := ports, opens := [], shorts := [], loads := [],
                 throughs := [] } := by
  intro x hx
  simp [CoefficientSet.slots] at hx

/-! ### The polling strategy with and without an abort request -/

theorem simM_readSamples (P : Nat → Prop) (dev : USBDevice σ) (qt : QtNumeric D)
    (totalPoints : Nat) (setName paramName : String) (n : Nat) (i : Int) (t : Touchstone D)
    (pr : SlowProgress) :
    SimM false P (loadCoefficientSetsThreadSlow.readSamples dev qt totalPoints setName paramName
      n i t pr) (fun _ k => P k) := by
  induction n generalizing i t pr with
  | zero => exact simM_pure _ (fun _ h => h)
  | succ n ih =>
    unfold loadCoefficientSetsThreadSlow.readSamples
    refine simM_ifAbort ?_ (frozen_pure _) (mono_pure _)
    refine simM_bind (simM_Query _ _) (fun pString => ?_)
    cases t.AddDatapoint (parseDatapoint qt (split pString ',')) with
    | none => exact simM_leave _
    | some t1 =>
      exact simM_ite (simM_leave _)
        (simM_ite (simM_bind (simM_emit _) (fun _ => ih _ _ _)) (ih _ _ _))

theorem simM_createCoefficientSlow (P : Nat → Prop) (hP : ∀ n k, n ≤ k → P n → P k)
    (dev : USBDevice σ) (qt : QtNumeric D) (totalPoints : Nat) (setName paramName : String)
    (pr : SlowProgress) :
    SimM false P (loadCoefficientSetsThreadSlow.createCoefficient dev qt totalPoints setName
      paramName pr) (fun r k => r.1 < k ∧ P k) := by
  unfold loadCoefficientSetsThreadSlow.createCoefficient
  refine simM_bind (simM_Query _ _) (fun _ => ?_)
  refine simM_bind_lenient (simM_readSamples P _ _ _ _ _ _ _ _ _) (fun r => ?_)
    (fun r => frozen_bind (frozen_alloc _) (fun _ => frozen_pure _))
  refine simM_bind (simM_alloc _) (fun c => simM_pure _ ?_)
  rintro k ⟨rfl, hc⟩
  exact ⟨Nat.lt_succ_self c, hP _ _ (Nat.le_succ c) hc⟩

theorem simM_readThroughs (dev : USBDevice σ) (qt : QtNumeric D) (totalPoints : Nat)
    (name : String) (i : Int) (js : List Int) (set : CoefficientSet) (pr : SlowProgress) :
    SimM false (fun k => SetValid k set)
      (loadCoefficientSetsThreadSlow.readThroughs dev qt totalPoints name i js set pr)
      (fun r k => SetValid k r.1) := by
  induction js generalizing set pr with
  | nil => exact simM_pure _ (fun _ h => h)
  | cons j js ih =>
    unfold loadCoefficientSetsThreadSlow.readThroughs
    refine simM_bind_lenient
      (simM_createCoefficientSlow (fun k => SetValid k set) (fun _ _ hk h => h.of_le hk) _ _ _ _
        _ _)
      (fun r1 => simM_conseq (ih _ _) (fun k h => h.2.throughs h.1) (fun _ _ h => h))
      (fun r1 => frozen_readThroughs _ _ _ _ _ _ _ _)

theorem simM_readPorts (dev : USBDevice σ) (qt : QtNumeric D) (totalPoints : Nat)
    (numPorts : Int) (name : String) (ports : List Int) (set : CoefficientSet)
    (pr : SlowProgress) :
    SimM true (fun k => SetValid k set)
      (loadCoefficientSetsThreadSlow.readPorts dev qt totalPoints numPorts name ports set pr)
      (fun r k => SetValid k r.1) := by
  induction ports generalizing set pr with
  | nil => exact simM_pure _ (fun _ h => h)
  | cons i ports ih =>
    unfold loadCoefficientSetsThreadSlow.readPorts
    refine simM_bind_lenient
      (simM_createCoefficientSlow (fun k => SetValid k set) (fun _ _ hk h => h.of_le hk) _ _ _ _
        _ _)
      (fun r1 => ?_)
      (fun r1 => frozen_bind (frozen_createCoefficientSlow _ _ _ _ _ _) (fun _ =>
        frozen_bind (frozen_createCoefficientSlow _ _ _ _ _ _) (fun _ =>
          frozen_bind (frozen_readThroughs _ _ _ _ _ _ _ _) (fun _ =>
            frozen_ifAbort (frozen_leave true)))))
    refine simM_bind_lenient
      (simM_createCoefficientSlow (fun k => r1.1 < k ∧ SetValid k set)
        (fun _ _ hk h => ⟨lt_of_lt_of_le h.1 hk, h.2.of_le hk⟩) _ _ _ _ _ _)
      (fun r2 => ?_)
      (fun r2 => frozen_bind (frozen_createCoefficientSlow _ _ _ _ _ _) (fun _ =>
        frozen_bind (frozen_readThroughs _ _ _ _ _ _ _ _) (fun _ =>
          frozen_ifAbort (frozen_leave true))))
    refine simM_bind_lenient
      (simM_createCoefficientSlow (fun k => r2.1 < k ∧ r1.1 < k ∧ SetValid k set)
        (fun _ _ hk h => ⟨lt_of_lt_of_le h.1 hk, lt_of_lt_of_le h.2.1 hk, h.2.2.of_le hk⟩)
        _ _ _ _ _ _)
      (fun r3 => ?_)
      (fun r3 => frozen_bind (frozen_readThroughs _ _ _ _ _ _ _ _) (fun _ =>
        frozen_ifAbort (frozen_leave true)))
    refine simM_bind_lenient
      (simM_conseq (simM_readThroughs _ _ _ _ _ _ _ _)
        (fun k h => ((h.2.2.2.opens h.2.2.1).shorts h.2.1).loads h.1) (fun _ _ h => h))
      (fun r4 => ?_)
      (fun r4 => frozen_ifAbort (frozen_leave true))
    exact simM_ifAbort (ih _ _) (frozen_leave true) (inner_leave _).toMono

theorem simM_readSetsSlow (dev : USBDevice σ) (qt : QtNumeric D) (totalPoints : Nat)
    (numPorts : Int) (names : List String) (pr : SlowProgress) :
    SimM true (fun _ => True)
      (loadCoefficientSetsThreadSlow.readSets dev qt totalPoints numPorts names pr)
      (fun _ _ => True) := by
  induction names generalizing pr with
  | nil => exact simM_pure _ (fun _ h => h)
  | cons name names ih =>
    unfold loadCoefficientSetsThreadSlow.readSets
    refine simM_bind
      (simM_conseq (simM_readPorts _ _ _ _ _ _ _ _) (fun k _ => SetValid.empty k name numPorts)
        (fun _ _ h => h))
      (fun r => simM_bind (simM_pushCoeffSet r.1) (fun _ => ih _))

theorem simM_totalThroughs (P : Nat → Prop) (dev : USBDevice σ) (qt : QtNumeric D)
    (name : String) (i : Int) (js : List Int) (totalPoints : Nat) :
    SimM true P (loadCoefficientSetsThreadSlow.totalThroughs dev qt name i js totalPoints)
      (fun _ k => P k) := by
  induction js generalizing totalPoints with
  | nil => exact simM_pure _ (fun _ h => h)
  | cons j js ih =>
    unfold loadCoefficientSetsThreadSlow.totalThroughs
    exact simM_bind (simM_Query _ _) (fun _ => ih _)

theorem simM_totalPorts (P : Nat → Prop) (dev : USBDevice σ) (qt : QtNumeric D)
    (numPorts : Int) (name : String) (ports : List Int) (totalPoints : Nat) :
    SimM true P (loadCoefficientSetsThreadSlow.totalPorts dev qt numPorts name ports totalPoints)
      (fun _ k => P k) := by
  induction ports generalizing totalPoints with
  | nil => exact simM_pure _ (fun _ h => h)
  | cons i ports ih =>
    unfold loadCoefficientSetsThreadSlow.totalPorts
    refine simM_ifAbort ?_ (frozen_leave true) (inner_leave _).toMono
    exact simM_bind (simM_Query _ _) (fun _ => simM_bind (simM_Query _ _) (fun _ =>
      simM_bind (simM_Query _ _) (fun _ =>
        simM_bind (simM_totalThroughs P _ _ _ _ _ _) (fun _ => ih _))))

theorem simM_totalSets (P : Nat → Prop) (dev : USBDevice σ) (qt : QtNumeric D)
    (numPorts : Int) (names : List String) (totalPoints : Nat) :
    SimM true P (loadCoefficientSetsThreadSlow.totalSets dev qt numPorts names totalPoints)
      (fun _ k => P k) := by
  induction names generalizing totalPoints with
  | nil => exact simM_pure _ (fun _ h => h)
  | cons name names ih =>
    unfold loadCoefficientSetsThreadSlow.totalSets
    exact simM_bind (simM_totalPorts P _ _ _ _ _ _) (fun _ => ih _)

theorem simM_getCoefficientSetNames (P : Nat → Prop) (dev : USBDevice σ) :
    SimM true P (getCoefficientSetNames dev : M σ D (List String)) (fun _ k => P k) := by
  unfold getCoefficientSetNames
  exact simM_bind (simM_Query _ _) (fun _ =>
    simM_ite (simM_pure _ (fun _ h => h)) (simM_pure _ (fun _ h => h)))

theorem simM_loadCoefficientSetsThreadSlow (dev : USBDevice σ) (qt : QtNumeric D)
    (names : List String) :
    SimM true (fun _ => True) (loadCoefficientSetsThreadSlow dev qt names)
      (fun _ _ => True) := by
  unfold loadCoefficientSetsThreadSlow
  refine simM_bind (simM_getCoefficientSetNames _ dev) (fun coeffList => ?_)
  refine simM_ite (simM_bind (simM_emit _) (fun _ => simM_leave _))
    (simM_ite (simM_bind (simM_emit _) (fun _ => simM_leave _)) ?_)
  refine simM_bind simM_readNumPorts (fun numPorts => ?_)
  refine simM_bind (simM_totalSets _ _ _ _ _ _) (fun totalPoints => ?_)
  exact simM_bind (simM_readSetsSlow _ _ _ _ _ _) (fun _ =>
    simM_conseq (simM_emit _) (fun _ h => h) (fun _ _ h => h))

end CalDevice

namespace CalDevice

open QString

variable {σ D : Type}

/-! ### The streaming strategy with and without an abort request -/

theorem simM_receiveLines (P : Nat → Prop) (dev : USBDevice σ) (qt : QtNumeric D) (fuel : Nat)
    (t : Touchstone D) :
    SimM true P (loadCoefficientSetsThreadFast.receiveLines dev qt fuel t) (fun _ k => P k) := by
  induction fuel generalizing t with
  | zero => exact simM_leave _
  | succ fuel ih =>
    unfold loadCoefficientSetsThreadFast.receiveLines
    refine simM_bind (simM_receive _) (fun r => ?_)
    cases r with
    | none => exact simM_pure _ (fun _ h => h)
    | some line =>
      refine simM_ite (simM_pure _ (fun _ h => h))
        (simM_ite (ih _) (simM_ite (simM_pure _ (fun _ h => h)) ?_))
      cases t.AddDatapoint (parseDatapoint qt (split line ' ')) with
      | none => exact simM_pure _ (fun _ h => h)
      | some t1 => exact ih _

theorem simM_createCoefficientFast (P : Nat → Prop) (hP : ∀ n k, n ≤ k → P n → P k)
    (dev : USBDevice σ) (qt : QtNumeric D) (fuel : Nat) (setName paramName : String) :
    SimM true P (loadCoefficientSetsThreadFast.createCoefficient dev qt fuel setName paramName)
      (fun c k => c < k ∧ P k) := by
  unfold loadCoefficientSetsThreadFast.createCoefficient
  refine simM_bind (simM_send _ _) (fun _ => ?_)
  refine simM_bind (simM_receiveLines P _ _ _ _) (fun t => ?_)
  refine simM_conseq (simM_alloc _) (fun _ h => h) ?_
  rintro c k ⟨rfl, hc⟩
  exact ⟨Nat.lt_succ_self c, hP _ _ (Nat.le_succ c) hc⟩

theorem simM_readCoeffs (dev : USBDevice σ) (qt : QtNumeric D) (fuel : Nat)
    (total_coeffs : Int) (name : String) (coeffs : List String) (set : CoefficientSet)
    (read_coeffs : Int) :
    SimM true (fun k => SetValid k set)
      (loadCoefficientSetsThreadFast.readCoeffs dev qt fuel total_coeffs name coeffs set
        read_coeffs)
      (fun r k => SetValid k r.1) := by
  induction coeffs generalizing set read_coeffs with
  | nil => exact simM_pure _ (fun _ h => h)
  | cons coeff coeffs ih =>
    unfold loadCoefficientSetsThreadFast.readCoeffs
    refine simM_bind
      (simM_createCoefficientFast (fun k => SetValid k set) (fun _ _ hk h => h.of_le hk) _ _ _ _ _)
      (fun c => ?_)
    refine simM_ifAbort ?_ (frozen_leave true) (inner_leave _).toMono
    refine simM_ite (simM_leave _) (simM_bind (simM_emit _) (fun _ => ?_))
    exact simM_conseq (ih _ _) (fun k h => h.2.store coeff h.1) (fun _ _ h => h)

theorem simM_readSetsFast (dev : USBDevice σ) (qt : QtNumeric D) (fuel : Nat)
    (total_coeffs : Int) (numPorts : Int) (coeffNames : List String) (names : List String)
    (read_coeffs : Int) :
    SimM true (fun _ => True)
      (loadCoefficientSetsThreadFast.readSets dev qt fuel total_coeffs numPorts coeffNames names
        read_coeffs)
      (fun _ _ => True) := by
  induction names generalizing read_coeffs with
  | nil => exact simM_pure _ (fun _ h => h)
  | cons name names ih =>
    unfold loadCoefficientSetsThreadFast.readSets
    refine simM_bind
      (simM_conseq (simM_readCoeffs _ _ _ _ _ _ _ _) (fun k _ => SetValid.empty k name numPorts)
        (fun _ _ h => h))
      (fun r => simM_bind (simM_pushCoeffSet r.1) (fun _ => ih _))

theorem simM_loadCoefficientSetsThreadFast (dev : USBDevice σ) (qt : QtNumeric D) (fuel : Nat)
    (names : List String) :
    SimM true (fun _ => True) (loadCoefficientSetsThreadFast dev qt fuel names)
      (fun _ _ => True) := by
  unfold loadCoefficientSetsThreadFast
  refine simM_bind (simM_getCoefficientSetNames _ dev) (fun coeffList => ?_)
  refine simM_ite (simM_bind (simM_emit _) (fun _ => simM_leave _))
    (simM_ite (simM_bind (simM_emit _) (fun _ => simM_leave _)) ?_)
  refine simM_bind simM_readNumPorts (fun numPorts => ?_)
  exact simM_bind (simM_readSetsFast _ _ _ _ _ _ _ _) (fun _ =>
    simM_conseq (simM_emit _) (fun _ h => h) (fun _ _ h => h))

/-! ### The names of the retained sets -/

theorem bind_eq_ok {α β : Type} {m : M σ D α} {f : α → M σ D β} {w w2 : CalDevice σ D} {b : β}
    (h : (m >>= f) w = .ok b w2) : ∃ a w1, m w = .ok a w1 ∧ f a w1 = .ok b w2 := by
  rw [bind_apply] at h
  cases hm : m w with
  | ok a w1 =>
    rw [hm] at h
    exact ⟨a, w1, rfl, h⟩
  | exit e w1 =>
    rw [hm] at h
    cases h

theorem readThroughs_name (dev : USBDevice σ) (qt : QtNumeric D) (totalPoints : Nat)
    (name : String) (i : Int) (js : List Int) (set : CoefficientSet) (pr : SlowProgress)
    (w w1 : CalDevice σ D) (r : CoefficientSet × SlowProgress)
    (h : loadCoefficientSetsThreadSlow.readThroughs dev qt totalPoints name i js set pr w
      = .ok r w1) : r.1.name = set.name := by
  induction js generalizing set pr w with
  | nil =>
    cases h
    rfl
  | cons j js ih =>
    unfold loadCoefficientSetsThreadSlow.readThroughs at h
    obtain ⟨r1, w2, -, h2⟩ := bind_eq_ok h
    have h3 := ih _ _ _ h2
    exact h3

theorem readPorts_name (dev : USBDevice σ) (qt : QtNumeric D) (totalPoints : Nat)
    (numPorts : Int) (name : String) (ports : List Int) (set : CoefficientSet)
    (pr : SlowProgress) (w w1 : CalDevice σ D) (r : CoefficientSet × SlowProgress)
    (h : loadCoefficientSetsThreadSlow.readPorts dev qt totalPoints numPorts name ports set pr w
      = .ok r w1) : r.1.name = set.name := by
  induction ports generalizing set pr w with
  | nil =>
    cases h
    rfl
  | cons i ports ih =>
    unfold loadCoefficientSetsThreadSlow.readPorts at h
    obtain ⟨r1, w2, -, h2⟩ := bind_eq_ok h
    obtain ⟨r2, w3, -, h3⟩ := bind_eq_ok h2
    obtain ⟨r3, w4, -, h4⟩ := bind_eq_ok h3
    obtain ⟨r4, w5, hr4, h5⟩ := bind_eq_ok h4
    obtain ⟨b, w6, -, h6⟩ := bind_eq_ok h5
    have hn4 := readThroughs_name _ _ _ _ _ _ _ _ _ _ _ hr4
    cases b with
    | true => cases h6
    | false =>
      have := ih _ _ _ h6
      rw [this, hn4]

theorem readCoeffs_name (dev : USBDevice σ) (qt : QtNumeric D) (fuel : Nat)
    (total_coeffs : Int) (name : String) (coeffs : List String) (set : CoefficientSet)
    (read_coeffs : Int) (w w1 : CalDevice σ D) (r : CoefficientSet × Int)
    (h : loadCoefficientSetsThreadFast.readCoeffs dev qt fuel total_coeffs name coeffs set
      read_coeffs w = .ok r w1) : r.1.name = set.name := by
  induction coeffs generalizing set read_coeffs w with
  | nil =>
    cases h
    rfl
  | cons coeff coeffs ih =>
    unfold loadCoefficientSetsThreadFast.readCoeffs at h
    obtain ⟨c, w2, -, h2⟩ := bind_eq_ok h
    obtain ⟨b, w3, -, h3⟩ := bind_eq_ok h2
    cases b with
    | true => cases h3
    | false =>
      simp only [Bool.false_eq_true, if_false] at h3
      split at h3
      · cases h3
      · obtain ⟨u, w4, -, h4⟩ := bind_eq_ok h3
        rw [ih _ _ _ h4, store_name]

end CalDevice

namespace CalDevice

open QString

variable {σ D : Type}

theorem requestedSets_ne_nil (names : List String) (s : String) (sep : Char) :
    requestedSets names (split s sep) ≠ [] := by
  unfold requestedSets
  split
  · rename_i h
    exact List.length_pos.mp h
  · exact split_ne_nil s sep

theorem namesOK_of_exit {α : Type} {sets : List String} (hsets : sets ≠ []) {R : Res σ D α}
    (h : R.state.coeffSets = []) : NamesOK sets R := by
  refine ⟨?_, fun _ => ?_⟩
  · rw [h]
    exact List.nil_prefix
  · rw [h]
    exact List.length_pos.mpr hsets

/-- The loop over the sets of the polling strategy appends sets with the names of the list, in
order, and not all of them unless it reaches its end. -/
theorem readSetsSlow_names (dev : USBDevice σ) (qt : QtNumeric D) (totalPoints : Nat)
    (numPorts : Int) (names : List String) (pr : SlowProgress) (w : CalDevice σ D) :
    ∃ m, m ≤ names.length ∧
      (loadCoefficientSetsThreadSlow.readSets dev qt totalPoints numPorts names pr
        w).state.coeffSets.map (fun s => s.name)
        = w.coeffSets.map (fun s => s.name) ++ names.take m ∧
      ((loadCoefficientSetsThreadSlow.readSets dev qt totalPoints numPorts names pr w).exit?
        ≠ none → m < names.length) := by
  induction names generalizing pr w with
  | nil => exact ⟨0, le_rfl, by simp [loadCoefficientSetsThreadSlow.readSets, pure_apply, Res.state],
      fun h => absurd rfl h⟩
  | cons name names ih =>
    unfold loadCoefficientSetsThreadSlow.readSets
    cases h : loadCoefficientSetsThreadSlow.readPorts dev qt totalPoints numPorts name
        (intRange 1 numPorts)
        { name := name, ports := numPorts, opens := [], shorts := [], loads := [],
          throughs := [] } pr w with
    | ok r w1 =>
      have hin := (inner_readPorts dev qt totalPoints numPorts name (intRange 1 numPorts)
        { name := name, ports := numPorts, opens := [], shorts := [], loads := [],
          throughs := [] } pr w).1
      rw [h] at hin
      have hname := readPorts_name _ _ _ _ _ _ _ _ _ _ _ h
      rw [bind_ok h, bind_ok (show pushCoeffSet r.1 w1 = _ from rfl)]
      obtain ⟨m, hm, hmap, hex⟩ := ih r.2 { w1 with coeffSets := w1.coeffSets ++ [r.1] }
      refine ⟨m + 1, by simp; omega, ?_, fun he => by have := hex he; simp; omega⟩
      rw [hmap]
      show (w1.coeffSets ++ [r.1]).map _ ++ _ = _
      rw [show w1.coeffSets = w.coeffSets from hin]
      simp [hname]
    | exit e w1 =>
      have hin := (inner_readPorts dev qt totalPoints numPorts name (intRange 1 numPorts)
        { name := name, ports := numPorts, opens := [], shorts := [], loads := [],
          throughs := [] } pr w).1
      rw [h] at hin
      rw [bind_exit h]
      refine ⟨0, Nat.zero_le _, ?_, fun _ => by simp⟩
      show w1.coeffSets.map _ = _
      rw [show w1.coeffSets = w.coeffSets from hin]
      simp

/-- The loop over the sets of the streaming strategy appends sets with the names of the list,
in order, and not all of them unless it reaches its end. -/
theorem readSetsFast_names (dev : USBDevice σ) (qt : QtNumeric D) (fuel : Nat)
    (total_coeffs : Int) (numPorts : Int) (coeffNames : List String) (names : List String)
    (read_coeffs : Int) (w : CalDevice σ D) :
    ∃ m, m ≤ names.length ∧
      (loadCoefficientSetsThreadFast.readSets dev qt fuel total_coeffs numPorts coeffNames names
        read_coeffs w).state.coeffSets.map (fun s => s.name)
        = w.coeffSets.map (fun s => s.name) ++ names.take m ∧
      ((loadCoefficientSetsThreadFast.readSets dev qt fuel total_coeffs numPorts coeffNames names
        read_coeffs w).exit? ≠ none → m < names.length) := by
  induction names generalizing read_coeffs w with
  | nil => exact ⟨0, le_rfl, by simp [loadCoefficientSetsThreadFast.readSets, pure_apply, Res.state],
      fun h => absurd rfl h⟩
  | cons name names ih =>
    unfold loadCoefficientSetsThreadFast.readSets
    cases h : loadCoefficientSetsThreadFast.readCoeffs dev qt fuel total_coeffs name coeffNames
        { name := name, ports := numPorts, opens := [], shorts := [], loads := [],
          throughs := [] } read_coeffs w with
    | ok r w1 =>
      have hin := (inner_readCoeffs dev qt fuel total_coeffs name coeffNames
        { name := name, ports := numPorts, opens := [], shorts := [], loads := [],
          throughs := [] } read_coeffs w).1
      rw [h] at hin
      have hname := readCoeffs_name _ _ _ _ _ _ _ _ _ _ _ h
      rw [bind_ok h, bind_ok (show pushCoeffSet r.1 w1 = _ from rfl)]
      obtain ⟨m, hm, hmap, hex⟩ := ih r.2 { w1 with coeffSets := w1.coeffSets ++ [r.1] }
      refine ⟨m + 1, by simp; omega, ?_, fun he => by have := hex he; simp; omega⟩
      rw [hmap]
      show (w1.coeffSets ++ [r.1]).map _ ++ _ = _
      rw [show w1.coeffSets = w.coeffSets from hin]
      simp [hname]
    | exit e w1 =>
      have hin := (inner_readCoeffs dev qt fuel total_coeffs name coeffNames
        { name := name, ports := numPorts, opens := [], shorts := [], loads := [],
          throughs := [] } read_coeffs w).1
      rw [h] at hin
      rw [bind_exit h]
      refine ⟨0, Nat.zero_le _, ?_, fun _ => by simp⟩
      show w1.coeffSets.map _ = _
      rw [show w1.coeffSets = w.coeffSets from hin]
      simp

theorem namesOK_of_take {α : Type} {sets : List String} {R : Res σ D α} {m : Nat}
    (hm : m ≤ sets.length) (hmap : R.state.coeffSets.map (fun s => s.name) = sets.take m)
    (hex : R.exit? ≠ none → m < sets.length) : NamesOK sets R := by
  refine ⟨?_, fun he => ?_⟩
  · rw [hmap]
    exact List.take_prefix _ _
  · have h1 : R.state.coeffSets.length = m := by
      have := congrArg List.length hmap
      simpa [hm] using this
    rw [h1]
    exact hex he

/-- Both load threads start with the same validation; when it fails the collection is as it
was. -/
theorem namesOK_of_rest (dev : USBDevice σ) (names : List String) (w : CalDevice σ D)
    (hw : w.coeffSets = []) (rest : List String → M σ D Unit)
    (hrest : ∀ w1 : CalDevice σ D, w1.coeffSets = [] →
      NamesOK (requestedSets names (split (dev.Query ":COEFF:LIST?" w.usb).1 ','))
        (rest (requestedSets names (split (dev.Query ":COEFF:LIST?" w.usb).1 ',')) w1)) :
    NamesOK (requestedSets names (split (dev.Query ":COEFF:LIST?" w.usb).1 ','))
      ((do
        let coeffList ← getCoefficientSetNames dev
        if coeffList.isEmpty then
          emit (.updateCoefficientsDone false)
          leave .returned
        else if names.length > 0 ∧ ¬ names.all (fun n => coeffList.contains n) then
          emit (.updateCoefficientsDone false)
          leave .returned
        else rest (if names.length > 0 then names else coeffList) : M σ D Unit) w) := by
  have hne := requestedSets_ne_nil names (dev.Query ":COEFF:LIST?" w.usb).1 ','
  rw [bind_ok (getCoefficientSetNames_apply dev _)]
  by_cases hs : startsWith (dev.Query ":COEFF:LIST?" w.usb).1 "FACTORY" = true
  · simp only [hs, if_true]
    split
    · exact namesOK_of_exit hne hw
    · split
      · exact namesOK_of_exit hne hw
      · exact hrest _ hw
  · simp only [hs, Bool.false_eq_true, if_false, List.isEmpty_nil, if_true]
    exact namesOK_of_exit hne hw

theorem namesOK_slow (dev : USBDevice σ) (qt : QtNumeric D) (names : List String)
    (w : CalDevice σ D) (hw : w.coeffSets = []) :
    NamesOK (requestedSets names (split (dev.Query ":COEFF:LIST?" w.usb).1 ','))
      (loadCoefficientSetsThreadSlow dev qt names w) := by
  unfold loadCoefficientSetsThreadSlow
  refine namesOK_of_rest dev names w hw
    (fun coeffList => do
      let numPorts ← readNumPorts
      let totalPoints ← loadCoefficientSetsThreadSlow.totalSets dev qt numPorts coeffList 0
      loadCoefficientSetsThreadSlow.readSets dev qt totalPoints numPorts coeffList
        { readPoints := 0, lastPercentage := 0 }
      emit (.updateCoefficientsDone true))
    (fun w1 hw1 => ?_)
  have hne := requestedSets_ne_nil names (dev.Query ":COEFF:LIST?" w.usb).1 ','
  generalize requestedSets names (split (dev.Query ":COEFF:LIST?" w.usb).1 ',') = sets at hne ⊢
  beta_reduce
  rw [bind_ok (show readNumPorts w1 = _ from rfl)]
  cases ht : loadCoefficientSetsThreadSlow.totalSets dev qt w1.numPorts sets 0 w1 with
  | exit e w2 =>
    rw [bind_exit ht]
    have hin := (inner_totalSets dev qt w1.numPorts sets 0 w1).1
    rw [ht] at hin
    exact namesOK_of_exit hne (hin.trans hw1)
  | ok totalPoints w2 =>
    rw [bind_ok ht]
    have hin := (inner_totalSets dev qt w1.numPorts sets 0 w1).1
    rw [ht] at hin
    have hw2 : w2.coeffSets = [] := hin.trans hw1
    obtain ⟨m, hm, hmap, hex⟩ := readSetsSlow_names dev qt totalPoints w1.numPorts sets
      { readPoints := 0, lastPercentage := 0 } w2
    rw [hw2, List.map_nil, List.nil_append] at hmap
    cases hr : loadCoefficientSetsThreadSlow.readSets dev qt totalPoints w1.numPorts sets
        { readPoints := 0, lastPercentage := 0 } w2 with
    | ok u w3 =>
      rw [bind_ok hr]
      rw [hr] at hmap
      exact namesOK_of_take hm hmap (fun he => absurd rfl he)
    | exit e w3 =>
      rw [bind_exit hr]
      rw [hr] at hmap hex
      exact namesOK_of_take hm hmap (fun _ => hex (by simp [Res.exit?]))

theorem namesOK_fast (dev : USBDevice σ) (qt : QtNumeric D) (fuel : Nat) (names : List String)
    (w : CalDevice σ D) (hw : w.coeffSets = []) :
    NamesOK (requestedSets names (split (dev.Query ":COEFF:LIST?" w.usb).1 ','))
      (loadCoefficientSetsThreadFast dev qt fuel names w) := by
  unfold loadCoefficientSetsThreadFast
  refine namesOK_of_rest dev names w hw
    (fun coeffList => do
      let numPorts ← readNumPorts
      let coeffNames := loadCoefficientSetsThreadFast.coeffNames numPorts
      let total_coeffs : Int := (coeffNames.length : Int) * (names.length : Int)
      loadCoefficientSetsThreadFast.readSets dev qt fuel total_coeffs numPorts coeffNames
        coeffList 0
      emit (.updateCoefficientsDone true))
    (fun w1 hw1 => ?_)
  generalize requestedSets names (split (dev.Query ":COEFF:LIST?" w.usb).1 ',') = sets
  beta_reduce
  rw [bind_ok (show readNumPorts w1 = _ from rfl)]
  obtain ⟨m, hm, hmap, hex⟩ := readSetsFast_names dev qt fuel
    (((loadCoefficientSetsThreadFast.coeffNames w1.numPorts).length : Int) * (names.length : Int))
    w1.numPorts (loadCoefficientSetsThreadFast.coeffNames w1.numPorts) sets 0 w1
  rw [hw1, List.map_nil, List.nil_append] at hmap
  cases hr : loadCoefficientSetsThreadFast.readSets dev qt fuel
      (((loadCoefficientSetsThreadFast.coeffNames w1.numPorts).length : Int)
        * (names.length : Int))
      w1.numPorts (loadCoefficientSetsThreadFast.coeffNames w1.numPorts) sets 0 w1 with
  | ok u w3 =>
    rw [bind_ok hr]
    rw [hr] at hmap
    exact namesOK_of_take hm hmap (fun he => absurd rfl he)
  | exit e w3 =>
    rw [bind_exit hr]
    rw [hr] at hmap hex
    exact namesOK_of_take hm hmap (fun _ => hex (by simp [Res.exit?]))

end CalDevice

namespace CalDevice

open QString

variable {σ D : Type}

theorem Res.state_unrequested {α : Type} (R : Res σ D α) :
    R.unrequested.state = R.state.unrequested := by
  cases R <;> rfl

theorem getElem?_of_isPrefix {α : Type} {h0 h : List α} (hp : h0 <+: h) {c : Nat}
    (hc : c < h0.length) : h[c]? = h0[c]? := by
  obtain ⟨l, rfl⟩ := hp
  exact List.getElem?_append_left hc

/-- What the relation between the run with and the run without an abort request gives for the
states in which the two runs end. -/
theorem cancelled_of_sim {α : Type} {m : M σ D α} (hm : SimM true (fun _ => True) m
    (fun _ _ => True)) (w : CalDevice σ D) (hw : w.abortLoading = false)
    (hsets : w.coeffSets = []) :
    (m w).state.coeffSets <+: (m w.unrequested).state.coeffSets ∧
    (∀ set ∈ (m w).state.coeffSets, ∀ c ∈ set.slots,
      ∃ co, (m w).state.heap[c]? = some co ∧ (m w.unrequested).state.heap[c]? = some co) ∧
    ((m w).state.abortLoading = true → (m w).exit? = some .returned) := by
  have hv : Valid w := by
    intro set hset
    rw [hsets] at hset
    cases hset
  rcases hm.2 w hw hv trivial with ⟨heq, hfl, hval, -⟩ | ⟨hab, hend, hpre, h0, hh1, hh2, hsv⟩
  · rw [heq, Res.state_unrequested]
    refine ⟨List.prefix_refl _, fun set hset c hc => ?_, fun h => ?_⟩
    · have hlt : c < (m w).state.heap.length := hval set hset c hc
      exact ⟨(m w).state.heap[c], List.getElem?_eq_getElem hlt, List.getElem?_eq_getElem hlt⟩
    · rw [hfl] at h
      cases h
  · refine ⟨hpre, fun set hset c hc => ?_, fun _ => ?_⟩
    · have hlt : c < h0.length := hsv set hset c hc
      exact ⟨h0[c], (getElem?_of_isPrefix hh1 hlt).trans (List.getElem?_eq_getElem hlt),
        (getElem?_of_isPrefix hh2 hlt).trans (List.getElem?_eq_getElem hlt)⟩
    · rcases hend with h | ⟨h, -⟩
      · exact h
      · cases h

/-- The statement of C9 for all devices, requests and times of the abort request. -/
theorem cancelled_load_general (dev : USBDevice σ) (qt : QtNumeric D) (fuel : Nat)
    (names : List String) (fast : Bool) (w : CalDevice σ D) (k : Nat) :
    (loadCoefficientSets dev qt fuel names fast { w with abortRequest := some k }).state.coeffSets
      <+: (loadCoefficientSets dev qt fuel names fast
            { w with abortRequest := none }).state.coeffSets ∧
    (∀ set ∈ (loadCoefficientSets dev qt fuel names fast
          { w with abortRequest := some k }).state.coeffSets, ∀ c ∈ set.slots,
      ∃ co, (loadCoefficientSets dev qt fuel names fast
              { w with abortRequest := some k }).state.heap[c]? = some co ∧
            (loadCoefficientSets dev qt fuel names fast
              { w with abortRequest := none }).state.heap[c]? = some co) ∧
    (loadCoefficientSets dev qt fuel names fast
        { w with abortRequest := some k }).state.coeffSets.map (fun s => s.name)
      <+: requestedSets names (split (dev.Query ":COEFF:LIST?" w.usb).1 ',') ∧
    ((loadCoefficientSets dev qt fuel names fast
        { w with abortRequest := some k }).state.abortLoading = true →
      (loadCoefficientSets dev qt fuel names fast { w with abortRequest := some k }).exit?
        = some .returned ∧
      (loadCoefficientSets dev qt fuel names fast
          { w with abortRequest := some k }).state.coeffSets.length
        < (requestedSets names (split (dev.Query ":COEFF:LIST?" w.usb).1 ',')).length) := by
  unfold loadCoefficientSets
  cases fast
  · simp only [Bool.false_eq_true, if_false]
    obtain ⟨h1, h2, h3⟩ := cancelled_of_sim (simM_loadCoefficientSetsThreadSlow dev qt names)
      { w with abortRequest := some k, coeffSets := [], abortLoading := false } rfl rfl
    have h4 := namesOK_slow dev qt names
      { w with abortRequest := some k, coeffSets := [], abortLoading := false } rfl
    refine ⟨h1, h2, h4.1, fun hab => ⟨h3 hab, h4.2 ?_⟩⟩
    rw [h3 hab]
    simp
  · simp only [if_true]
    obtain ⟨h1, h2, h3⟩ := cancelled_of_sim
      (simM_loadCoefficientSetsThreadFast dev qt fuel names)
      { w with abortRequest := some k, coeffSets := [], abortLoading := false } rfl rfl
    have h4 := namesOK_fast dev qt fuel names
      { w with abortRequest := some k, coeffSets := [], abortLoading := false } rfl
    refine ⟨h1, h2, h4.1, fun hab => ⟨h3 hab, h4.2 ?_⟩⟩
    rw [h3 hab]
    simp

/-- C9: for both strategies and every time `k` at which the abort request lands (before the
read number `k` of the flag by the worker, and then the flag stays set): the collection of the
cancelled load is a beginning of the collection that the same load builds without a request,
with the same coefficient objects in every slot, so every set in it was retrieved completely;
its names are the first of the requested names (or of the listing when none is requested), in
order; and once the worker has seen the flag it returns with fewer sets than requested: the set
in progress is not appended. With three requested sets and a request that lands after the first
set was completed, the collection holds that one set. -/
theorem cancelled_load_keeps_complete_sets :
    (∀ (dev : USBDevice σ) (qt : QtNumeric D) (fuel : Nat) (names : List String) (fast : Bool)
        (w : CalDevice σ D) (k : Nat),
      (loadCoefficientSets dev qt fuel names fast
          { w with abortRequest := some k }).state.coeffSets
        <+: (loadCoefficientSets dev qt fuel names fast
              { w with abortRequest := none }).state.coeffSets ∧
      (∀ set ∈ (loadCoefficientSets dev qt fuel names fast
            { w with abortRequest := some k }).state.coeffSets, ∀ c ∈ set.slots,
        ∃ co, (loadCoefficientSets dev qt fuel names fast
                { w with abortRequest := some k }).state.heap[c]? = some co ∧
              (loadCoefficientSets dev qt fuel names fast
                { w with abortRequest := none }).state.heap[c]? = some co) ∧
      (loadCoefficientSets dev qt fuel names fast
          { w with abortRequest := some k }).state.coeffSets.map (fun s => s.name)
        <+: requestedSets names (split (dev.Query ":COEFF:LIST?" w.usb).1 ',') ∧
      ((loadCoefficientSets dev qt fuel names fast
          { w with abortRequest := some k }).state.abortLoading = true →
        (loadCoefficientSets dev qt fuel names fast { w with abortRequest := some k }).exit?
          = some .returned ∧
        (loadCoefficientSets dev qt fuel names fast
            { w with abortRequest := some k }).state.coeffSets.length
          < (requestedSets names (split (dev.Query ":COEFF:LIST?" w.usb).1 ',')).length)) ∧
    (loadCoefficientSets threeSetDevice wholeNumbers 8 ["FACTORY", "USER1", "USER2"] true
      (fresh [] 1 (some 4))).state.coeffSets
      = [{ name := "FACTORY", ports := 1, opens := [0], shorts := [1], loads := [2],
           throughs := [] }] ∧
    (loadCoefficientSets threeSetDevice wholeNumbers 8 ["FACTORY", "USER1", "USER2"] false
      (fresh [] 1 (some 8))).state.coeffSets
      = [{ name := "FACTORY", ports := 1, opens := [0], shorts := [1], loads := [2],
           throughs := [] }] :=
  ⟨cancelled_load_general, by decide!, by decide!⟩

end CalDevice
namespace CalDevice

open QString

variable {σ D : Type}

/-! ## Parsing a sample -/

theorem getD_pairs_fst (pairs : List (String × String)) (j : Nat) (h : j < pairs.length) :
    (pairs.flatMap (fun p => [p.1, p.2])).getD (j * 2) "" = (pairs.get ⟨j, h⟩).1 := by
  induction pairs generalizing j with
  | nil => simp at h
  | cons p ps ih =>
    cases j with
    | zero => simp
    | succ j =>
      have e : (j + 1) * 2 = j * 2 + 1 + 1 := by ring
      simp only [List.flatMap_cons, List.cons_append, List.nil_append, e, List.getD_cons_succ,
        List.get_eq_getElem, List.getElem_cons_succ]
      simpa using ih j (by simpa using h)

theorem getD_pairs_snd (pairs : List (String × String)) (j : Nat) (h : j < pairs.length) :
    (pairs.flatMap (fun p => [p.1, p.2])).getD (j * 2 + 1) "" = (pairs.get ⟨j, h⟩).2 := by
  induction pairs generalizing j with
  | nil => simp at h
  | cons p ps ih =>
    cases j with
    | zero => simp
    | succ j =>
      have e : (j + 1) * 2 + 1 = (j * 2 + 1) + 1 + 1 := by ring
      simp only [List.flatMap_cons, List.cons_append, List.nil_append, e, List.getD_cons_succ,
        List.get_eq_getElem, List.getElem_cons_succ]
      simpa using ih j (by simpa using h)

theorem length_pairs (pairs : List (String × String)) :
    (pairs.flatMap (fun p => [p.1, p.2])).length = 2 * pairs.length := by
  induction pairs with
  | nil => rfl
  | cons p ps ih =>
    simp only [List.flatMap_cons, List.length_append, ih, List.length_cons, List.length_nil]
    ring

/-- The sample built from a frequency field followed by the pairs of fields `pairs`. -/
theorem parseDatapoint_of_pairs (qt : QtNumeric D) (freq : String)
    (pairs : List (String × String)) :
    parseDatapoint qt (freq :: pairs.flatMap (fun p => [p.1, p.2])) =
      { frequency := qt.timesGiga (qt.toDouble freq)
        S := swapMiddle (pairs.map (fun p => (qt.toDouble p.1, qt.toDouble p.2))) } := by
  unfold parseDatapoint
  congr 2
  apply List.ext_getElem
  · rw [List.length_map, List.length_range, List.length_cons, length_pairs, List.length_map]
    omega
  · intro j h1 h2
    have hj : j < pairs.length := by simpa using h2
    have e1 : 1 + j * 2 = (j * 2) + 1 := by ring
    have e2 : 2 + j * 2 = (j * 2 + 1) + 1 := by ring
    simp only [List.getElem_map, List.getElem_range, e1, e2, List.getD_cons_succ]
    rw [getD_pairs_fst pairs j hj, getD_pairs_snd pairs j hj]
    rfl

theorem splitAux_append_sep (sep : Char) (f cur rest : List Char) (h : sep ∉ f) :
    splitAux sep (f ++ sep :: rest) cur = (cur.reverse ++ f) :: splitAux sep rest [] := by
  induction f generalizing cur with
  | nil => simp [splitAux]
  | cons c cs ih =>
    have hc : c ≠ sep := fun e => h (by simp [e])
    have hcs : sep ∉ cs := fun e => h (by simp [e])
    rw [List.cons_append, splitAux, if_neg hc, ih _ hcs]
    simp

theorem splitAux_no_sep (sep : Char) (f cur : List Char) (h : sep ∉ f) :
    splitAux sep f cur = [cur.reverse ++ f] := by
  induction f generalizing cur with
  | nil => simp [splitAux]
  | cons c cs ih =>
    have hc : c ≠ sep := fun e => h (by simp [e])
    have hcs : sep ∉ cs := fun e => h (by simp [e])
    simp only [splitAux, if_neg hc]
    rw [ih _ hcs]
    simp

/-- Splitting the line that carries the fields gives the fields back, when no field contains
the separator. -/
theorem split_joinFields (sep : Char) (fields : List String) (hne : fields ≠ [])
    (h : ∀ f ∈ fields, sep ∉ f.data) : split (joinFields sep fields) sep = fields := by
  unfold split joinFields
  simp only
  induction fields with
  | nil => exact absurd rfl hne
  | cons f fs ih =>
    cases fs with
    | nil =>
      have e : List.intercalate [sep] (List.map String.data [f]) = f.data := by
        simp [List.intercalate]
      rw [e, splitAux_no_sep sep _ _ (h f (by simp))]
      simp
    | cons g gs =>
      have e : List.intercalate [sep] (List.map String.data (f :: g :: gs))
          = f.data ++ sep :: List.intercalate [sep] (List.map String.data (g :: gs)) := by
        simp [List.intercalate, List.intersperse]
      rw [e, splitAux_append_sep sep _ _ _ (h f (by simp))]
      have ih2 := ih (by simp) (fun x hx => h x (by simp [hx]))
      simp only [List.reverse_nil, List.nil_append, List.map_cons] at ih2 ⊢
      rw [ih2]

theorem length_swapMiddle {α : Type} (l : List α) : (swapMiddle l).length = l.length := by
  unfold swapMiddle
  split <;> rfl

theorem swapMiddle_of_length_ne {α : Type} (l : List α) (h : l.length ≠ 4) : swapMiddle l = l := by
  unfold swapMiddle
  split
  · simp at h
  · rfl

/-- C20: a line with a frequency field followed by 2k numeric fields is parsed to a sample with
the frequency scaled by 1e9 and k complex parameters, the (re, im) pairs in field order; for
k = 4 the wire order (S11, S21, S12, S22) is stored as (S11, S12, S21, S22), for any other k
(k = 1 in particular) the order is kept. The polling parser splits its line at commas and the
streaming parser at blanks, and both build the sample with the same code, so the same fields
give the same sample. -/
theorem parse_sample_of_fields (qt : QtNumeric D) :
    (∀ (freq : String) (pairs : List (String × String)),
      parseDatapoint qt (freq :: pairs.flatMap (fun p => [p.1, p.2])) =
        { frequency := qt.timesGiga (qt.toDouble freq)
          S := swapMiddle (pairs.map (fun p => (qt.toDouble p.1, qt.toDouble p.2))) } ∧
      (parseDatapoint qt (freq :: pairs.flatMap (fun p => [p.1, p.2]))).S.length = pairs.length ∧
      (pairs.length ≠ 4 →
        (parseDatapoint qt (freq :: pairs.flatMap (fun p => [p.1, p.2]))).S
          = pairs.map (fun p => (qt.toDouble p.1, qt.toDouble p.2)))) ∧
    (∀ freq r11 i11 r21 i21 r12 i12 r22 i22 : String,
      parseDatapoint qt [freq, r11, i11, r21, i21, r12, i12, r22, i22] =
        { frequency := qt.timesGiga (qt.toDouble freq)
          S := [(qt.toDouble r11, qt.toDouble i11), (qt.toDouble r12, qt.toDouble i12),
                (qt.toDouble r21, qt.toDouble i21), (qt.toDouble r22, qt.toDouble i22)] }) ∧
    (∀ freq re im : String,
      parseDatapoint qt [freq, re, im] =
        { frequency := qt.timesGiga (qt.toDouble freq)
          S := [(qt.toDouble re, qt.toDouble im)] }) ∧
    (∀ fields : List String, fields ≠ [] → (∀ f ∈ fields, ',' ∉ f.data ∧ ' ' ∉ f.data) →
      split (joinFields ',' fields) ',' = fields ∧ split (joinFields ' ' fields) ' ' = fields ∧
      parseDatapoint qt (split (joinFields ',' fields) ',')
        = parseDatapoint qt (split (joinFields ' ' fields) ' ')) := by
  refine ⟨fun freq pairs => ⟨parseDatapoint_of_pairs qt freq pairs, ?_, ?_⟩, ?_, ?_, ?_⟩
  · rw [parseDatapoint_of_pairs, length_swapMiddle, List.length_map]
  · intro h
    rw [parseDatapoint_of_pairs, swapMiddle_of_length_ne _ (by simpa using h)]
  · intro freq r11 i11 r21 i21 r12 i12 r22 i22
    exact parseDatapoint_of_pairs qt freq [(r11, i11), (r21, i21), (r12, i12), (r22, i22)]
  · intro freq re im
    exact parseDatapoint_of_pairs qt freq [(re, im)]
  · intro fields hne h
    have h1 := split_joinFields ',' fields hne (fun f hf => (h f hf).1)
    have h2 := split_joinFields ' ' fields hne (fun f hf => (h f hf).2)
    exact ⟨h1, h2, by rw [h1, h2]⟩

/-! ## The guard of `getThrough` -/

/-- C18 fails on the code for a first port below 1: the guard of `getThrough` is
`port1 > ports || port2 > ports || port1 >= port2`, so `nullptr` is returned exactly for the
pairs that it names, and a pair with `port1 <= 0` passes it. On a set of a two-port device
`getThrough(0, 1)` yields the slot of the pair (1, 2) and `getThrough(0, 2)` and
`getThrough(-1, 2)` index `throughs` past its end. -/
theorem getThrough_accepts_port_below_one :
    twoPortSet.getThrough 1 2 = .ok (some 6) ∧
    twoPortSet.getThrough 0 1 = .ok (some 6) ∧
    twoPortSet.getThrough 0 2 = .error .outOfBounds ∧
    twoPortSet.getThrough (-1) 2 = .error .outOfBounds ∧
    (∀ (set : CoefficientSet) (port1 port2 : Int),
      set.getThrough port1 port2 = .ok none ↔
        (port1 > set.ports ∨ port2 > set.ports ∨ port1 ≥ port2)) := by
  refine ⟨?_, ?_, ?_, ?_, ?_⟩
  · simp [CoefficientSet.getThrough, getThroughIndex, getThroughLoop_le_one, twoPortSet]
  · simp [CoefficientSet.getThrough, getThroughIndex, getThroughLoop_le_one, twoPortSet]
  · simp [CoefficientSet.getThrough, getThroughIndex, getThroughLoop_le_one, twoPortSet]
  · simp [CoefficientSet.getThrough, getThroughIndex, getThroughLoop_le_one, twoPortSet]
  · intro set port1 port2
    unfold CoefficientSet.getThrough getThroughIndex
    by_cases h : port1 > set.ports ∨ port2 > set.ports ∨ port1 ≥ port2
    · simp [h]
    · simp only [h, if_false, iff_false]
      split
      · split <;> simp
      · simp

end CalDevice
namespace CalDevice

open QString

variable {σ D : Type}

/-! ## Persistence: the commands of one slot -/

theorem SaveFrame.same (w : CalDevice σ D) : SaveFrame w w :=
  ⟨rfl, rfl, rfl, rfl, [], by simp⟩

theorem SaveFrame.then {u v w : CalDevice σ D} (h1 : SaveFrame u v) (h2 : SaveFrame v w) :
    SaveFrame u w := by
  obtain ⟨a1, a2, a3, a4, ps, a5⟩ := h1
  obtain ⟨b1, b2, b3, b4, qs, b5⟩ := h2
  refine ⟨b1.trans a1, b2.trans a2, b3.trans a3, b4.trans a4, ps ++ qs, ?_⟩
  rw [b5, a5, List.map_append, List.append_assoc]

theorem sendUntilRejected_append (dev : USBDevice σ) (a b : List String) (s : σ) :
    sendUntilRejected dev (a ++ b) s =
      if (sendUntilRejected dev a s).1.all (fun x => x.2) then
        ((sendUntilRejected dev a s).1 ++ (sendUntilRejected dev b (sendUntilRejected dev a s).2).1,
          (sendUntilRejected dev b (sendUntilRejected dev a s).2).2)
      else sendUntilRejected dev a s := by
  induction a generalizing s with
  | nil => simp [sendUntilRejected]
  | cons c cs ih =>
    simp only [List.cons_append, sendUntilRejected, List.append_eq]
    by_cases h : (dev.Cmd c s).1 = true
    · simp only [h, if_true, List.all_cons, Bool.true_and]
      rw [ih]
      split <;> simp
    · simp [h]

/-- The loop that sends the samples: it issues the add commands in order up to and including the
first that is rejected, and returns whether all were acknowledged. -/
theorem addPoints_spec (dev : USBDevice σ) (qt : QtNumeric D) (totalPoints : Nat)
    (points : List (Touchstone.Datapoint D)) (pr : SaveProgress) (w : CalDevice σ D)
    (htot : points = [] ∨ totalPoints ≠ 0) :
    ∃ pr1 w1, saveCoefficientSetsThread.addPoints dev qt totalPoints points pr w
        = .ok (((sendUntilRejected dev (points.map (saveCoefficientSetsThread.addCommand qt))
            w.usb).1.all (fun x => x.2)), pr1) w1 ∧
      w1.usb = (sendUntilRejected dev (points.map (saveCoefficientSetsThread.addCommand qt))
        w.usb).2 ∧
      w1.io = w.io ++ (sendUntilRejected dev (points.map (saveCoefficientSetsThread.addCommand qt))
        w.usb).1.map (fun x => ChannelOp.cmd x.1) ∧
      w1.heap = w.heap ∧ SaveFrame w w1 := by
  induction points generalizing pr w with
  | nil =>
    exact ⟨pr, w, rfl, rfl, by simp [sendUntilRejected], rfl, SaveFrame.same w⟩
  | cons point points ih =>
    have htp : totalPoints ≠ 0 := by
      rcases htot with h | h
      · exact absurd h (by simp)
      · exact h
    unfold saveCoefficientSetsThread.addPoints
    rw [bind_ok (show Cmd dev (saveCoefficientSetsThread.addCommand qt point) w = _ from rfl)]
    simp only [List.map_cons, sendUntilRejected]
    by_cases hack : (dev.Cmd (saveCoefficientSetsThread.addCommand qt point) w.usb).1 = true
    · simp only [hack, Bool.not_true, Bool.false_eq_true, if_false, if_true, if_neg htp,
        List.all_cons, Bool.true_and, List.map_cons]
      have step : ∀ (pr2 : SaveProgress) (w2 : CalDevice σ D),
          w2.usb = (dev.Cmd (saveCoefficientSetsThread.addCommand qt point) w.usb).2 →
          w2.io = w.io ++ [.cmd (saveCoefficientSetsThread.addCommand qt point)] →
          w2.heap = w.heap → SaveFrame w w2 →
          ∃ pr1 w1, saveCoefficientSetsThread.addPoints dev qt totalPoints points pr2 w2
            = .ok (((sendUntilRejected dev (points.map (saveCoefficientSetsThread.addCommand qt))
                (dev.Cmd (saveCoefficientSetsThread.addCommand qt point) w.usb).2).1.all
                  (fun x => x.2)), pr1) w1 ∧
            w1.usb = (sendUntilRejected dev (points.map (saveCoefficientSetsThread.addCommand qt))
              (dev.Cmd (saveCoefficientSetsThread.addCommand qt point) w.usb).2).2 ∧
            w1.io = w.io ++ ChannelOp.cmd (saveCoefficientSetsThread.addCommand qt point) ::
              (sendUntilRejected dev (points.map (saveCoefficientSetsThread.addCommand qt))
                (dev.Cmd (saveCoefficientSetsThread.addCommand qt point) w.usb).2).1.map
                  (fun x => ChannelOp.cmd x.1) ∧
            w1.heap = w.heap ∧ SaveFrame w w1 := by
        intro pr2 w2 h1 h2 h3 h4
        obtain ⟨pr1, w1, e, e1, e2, e3, e4⟩ := ih pr2 w2 (Or.inr htp)
        rw [h1] at e e1 e2
        refine ⟨pr1, w1, e, e1, ?_, e3.trans h3, h4.then e4⟩
        rw [e2, h2, List.append_assoc]
        rfl
      split
      · rw [bind_ok (show emit _ _ = _ from rfl)]
        exact step _ _ rfl rfl rfl ⟨rfl, rfl, rfl, rfl, [_], rfl⟩
      · exact step _ _ rfl rfl rfl ⟨rfl, rfl, rfl, rfl, [], by simp⟩
    · simp only [hack, Bool.not_false, if_true, Bool.false_eq_true, if_false]
      exact ⟨pr, _, rfl, rfl, rfl, rfl, ⟨rfl, rfl, rfl, rfl, [], by simp⟩⟩

theorem deref_ok {w : CalDevice σ D} {c : Ptr} {co : CoefficientSet.Coefficient D}
    (h : w.heap[c]? = some co) : deref c w = .ok co w := by
  unfold deref
  rw [h]

theorem setModified_ok {w : CalDevice σ D} {c : Ptr} {co : CoefficientSet.Coefficient D}
    (h : w.heap[c]? = some co) (b : Bool) :
    setModified c b w = .ok () { w with heap := w.heap.set c { co with modified := b } } := by
  unfold setModified
  rw [h]

/-- The lambda of the save thread on the slot at `c`: for a dirty slot it issues the commands of
the slot in order up to and including the first that is rejected, returns whether all were
acknowledged and clears the flag in that case only; for a clean slot it does nothing. -/
theorem createCoefficientSave_spec (dev : USBDevice σ) (qt : QtNumeric D) (totalPoints : Nat)
    (setName paramName : String) (c : Ptr) (pr : SaveProgress) (w : CalDevice σ D)
    (co : CoefficientSet.Coefficient D) (hc : w.heap[c]? = some co)
    (htot : co.modified = true → 0 < co.t.points → totalPoints ≠ 0) :
    ∃ pr1 w1, saveCoefficientSetsThread.createCoefficient dev qt totalPoints setName paramName c
          pr w
        = .ok (((sendUntilRejected dev
            (if co.modified then slotCommands qt setName paramName co.t else []) w.usb).1.all
              (fun x => x.2)), pr1) w1 ∧
      w1.usb = (sendUntilRejected dev
        (if co.modified then slotCommands qt setName paramName co.t else []) w.usb).2 ∧
      w1.io = w.io ++ (sendUntilRejected dev
        (if co.modified then slotCommands qt setName paramName co.t else []) w.usb).1.map
          (fun x => ChannelOp.cmd x.1) ∧
      w1.heap = (if co.modified = true ∧ (sendUntilRejected dev
          (if co.modified then slotCommands qt setName paramName co.t else []) w.usb).1.all
            (fun x => x.2) = true
        then w.heap.set c { co with modified := false } else w.heap) ∧
      SaveFrame w w1 := by
  unfold saveCoefficientSetsThread.createCoefficient
  rw [bind_ok (deref_ok hc)]
  by_cases hm : co.modified = true
  swap
  · have hm2 : co.modified = false := by simpa using hm
    simp only [hm2, Bool.not_false, if_true, Bool.false_eq_true, if_false, sendUntilRejected,
      List.all_nil, List.map_nil, List.append_nil, false_and]
    exact ⟨pr, w, rfl, rfl, rfl, rfl, SaveFrame.same w⟩
  simp only [hm, Bool.not_true, Bool.false_eq_true, if_false, if_true, true_and]
  by_cases hp : co.t.points > 0
  · simp only [hp, if_true, slotCommands, List.singleton_append, List.cons_append,
      sendUntilRejected, List.nil_append]
    rw [bind_ok (show Cmd dev (":COEFF:CREATE " ++ setName ++ " " ++ paramName) w = _ from rfl)]
    by_cases h1 : (dev.Cmd (":COEFF:CREATE " ++ setName ++ " " ++ paramName) w.usb).1 = true
    swap
    · simp only [h1, Bool.not_false, if_true, Bool.false_eq_true, if_false, List.all_cons,
        Bool.false_and, List.map_cons, List.map_nil]
      exact ⟨pr, _, rfl, rfl, rfl, rfl, ⟨rfl, rfl, rfl, rfl, [], by simp⟩⟩
    simp only [h1, Bool.not_true, Bool.false_eq_true, if_false, if_true, List.all_cons,
      Bool.true_and, List.map_cons]
    obtain ⟨pr1, w1, e, e1, e2, e3, e4⟩ := addPoints_spec dev qt totalPoints co.t.datapoints pr
      { w with usb := (dev.Cmd (":COEFF:CREATE " ++ setName ++ " " ++ paramName) w.usb).2,
               io := w.io ++ [.cmd (":COEFF:CREATE " ++ setName ++ " " ++ paramName)] }
      (Or.inr (htot hm hp))
    simp only at e e1 e2 e3
    rw [bind_ok e, sendUntilRejected_append]
    have hf : SaveFrame w w1 := SaveFrame.then ⟨rfl, rfl, rfl, rfl, [], by simp⟩ e4
    by_cases h2 : (sendUntilRejected dev
        (co.t.datapoints.map (saveCoefficientSetsThread.addCommand qt))
        (dev.Cmd (":COEFF:CREATE " ++ setName ++ " " ++ paramName) w.usb).2).1.all
          (fun x => x.2) = true
    swap
    · simp only [h2, Bool.not_false, if_true, Bool.false_eq_true, if_false]
      have h2f : (sendUntilRejected dev
        (co.t.datapoints.map (saveCoefficientSetsThread.addCommand qt))
        (dev.Cmd (":COEFF:CREATE " ++ setName ++ " " ++ paramName) w.usb).2).1.all
          (fun x => x.2) = false := by simpa using h2
      rw [h2f] at e
      refine ⟨pr1, w1, ?_, e1, ?_, e3, hf⟩
      · simp [pure_apply]
      · rw [e2, List.append_assoc]
        rfl
    simp only [h2, Bool.not_true, Bool.false_eq_true, if_false, if_true, sendUntilRejected]
    rw [bind_ok (show Cmd dev ":COEFF:FIN" w1 = _ from rfl), e1]
    have hc1 : w1.heap[c]? = some co := by rw [e3]; exact hc
    by_cases h3 : (dev.Cmd ":COEFF:FIN" (sendUntilRejected dev
        (co.t.datapoints.map (saveCoefficientSetsThread.addCommand qt))
        (dev.Cmd (":COEFF:CREATE " ++ setName ++ " " ++ paramName) w.usb).2).2).1 = true
    swap
    · simp only [h3, Bool.not_false, if_true, Bool.false_eq_true, if_false, List.all_append,
        h2, List.all_cons, List.all_nil, Bool.and_true, Bool.and_false]
      refine ⟨pr1, _, rfl, rfl, ?_, e3, ?_⟩
      · simp only [e2, List.map_append, List.map_cons, List.map_nil, List.append_assoc,
          List.singleton_append, List.cons_append, List.nil_append]
      · exact SaveFrame.then hf ⟨rfl, rfl, rfl, rfl, [], by simp⟩
    simp only [h3, Bool.not_true, Bool.false_eq_true, if_false, if_true, List.all_append, h2,
      List.all_cons, List.all_nil, Bool.and_true]
    have hc2 : ({ w1 with
        usb := (dev.Cmd ":COEFF:FIN" (sendUntilRejected dev
          (co.t.datapoints.map (saveCoefficientSetsThread.addCommand qt))
          (dev.Cmd (":COEFF:CREATE " ++ setName ++ " " ++ paramName) w.usb).2).2).2
        io := w1.io ++ [.cmd ":COEFF:FIN"] } : CalDevice σ D).heap[c]? = some co := hc1
    rw [bind_ok (setModified_ok hc2 false)]
    refine ⟨pr1, _, rfl, rfl, ?_, ?_, ?_⟩
    · simp only [e2, List.map_append, List.map_cons, List.map_nil, List.append_assoc,
        List.singleton_append, List.cons_append, List.nil_append]
    · simp only [e3]
    · exact SaveFrame.then hf ⟨rfl, rfl, rfl, rfl, [], by simp⟩
  · have hp0 : ¬ (0 < co.t.points) := hp
    simp only [hp, if_false, slotCommands, sendUntilRejected]
    rw [bind_ok (show Cmd dev (":COEFF:DEL " ++ setName ++ " " ++ paramName) w = _ from rfl)]
    by_cases h1 : (dev.Cmd (":COEFF:DEL " ++ setName ++ " " ++ paramName) w.usb).1 = true
    swap
    · simp only [h1, Bool.not_false, if_true, Bool.false_eq_true, if_false, List.all_cons,
        Bool.false_and, List.map_cons, List.map_nil]
      exact ⟨pr, _, rfl, rfl, rfl, rfl, ⟨rfl, rfl, rfl, rfl, [], by simp⟩⟩
    simp only [h1, Bool.not_true, Bool.false_eq_true, if_false, if_true, List.all_cons,
      List.all_nil, Bool.and_true, List.map_cons, List.map_nil]
    have hc2 : ({ w with
        usb := (dev.Cmd (":COEFF:DEL " ++ setName ++ " " ++ paramName) w.usb).2
        io := w.io ++ [.cmd (":COEFF:DEL " ++ setName ++ " " ++ paramName)] }
          : CalDevice σ D).heap[c]? = some co := hc
    rw [bind_ok (setModified_ok hc2 false)]
    exact ⟨pr, _, rfl, rfl, rfl, rfl, ⟨rfl, rfl, rfl, rfl, [], by simp⟩⟩

theorem sendUntilRejected_of_ack (dev : USBDevice σ) (hack : ∀ cmd s, (dev.Cmd cmd s).1 = true)
    (cmds : List String) (s : σ) :
    (sendUntilRejected dev cmds s).1 = cmds.map (fun c => (c, true)) := by
  induction cmds generalizing s with
  | nil => rfl
  | cons c cs ih => simp [sendUntilRejected, hack, ih]

/-- C11: on a device that acknowledges every command, the lambda `createCoefficient` of the save
thread issues for a dirty slot exactly one `COEFF:DEL <set> <coeffId>` when the slot has no
sample, and otherwise `COEFF:CREATE <set> <coeffId>`, one `COEFF:ADD` for each sample in sample
order and `COEFF:FIN`; for a slot that is not dirty it issues nothing. It returns `true` in
every case. (`totalPoints` is the number of samples of all dirty slots, so it is not zero when
the slot has a sample.) -/
theorem save_commands_of_slot (dev : USBDevice σ) (qt : QtNumeric D) (totalPoints : Nat)
    (setName paramName : String) (c : Ptr) (pr : SaveProgress) (w : CalDevice σ D)
    (co : CoefficientSet.Coefficient D)
    (hack : ∀ cmd s, (dev.Cmd cmd s).1 = true)
    (hc : w.heap[c]? = some co)
    (htot : co.modified = true → 0 < co.t.points → totalPoints ≠ 0) :
    ∃ pr1 w1, saveCoefficientSetsThread.createCoefficient dev qt totalPoints setName paramName c
          pr w = .ok (true, pr1) w1 ∧
      w1.io = w.io ++
        (if co.modified = false then []
         else if co.t.points = 0 then [.cmd (":COEFF:DEL " ++ setName ++ " " ++ paramName)]
         else [ChannelOp.cmd (":COEFF:CREATE " ++ setName ++ " " ++ paramName)]
          ++ co.t.datapoints.map (fun p => .cmd (saveCoefficientSetsThread.addCommand qt p))
          ++ [.cmd ":COEFF:FIN"]) := by
  obtain ⟨pr1, w1, e, -, e2, -, -⟩ :=
    createCoefficientSave_spec dev qt totalPoints setName paramName c pr w co hc htot
  rw [sendUntilRejected_of_ack dev hack] at e e2
  refine ⟨pr1, w1, ?_, ?_⟩
  · rw [e]
    simp
  · rw [e2]
    congr 1
    cases hm : co.modified
    · simp
    · by_cases hp : co.t.points = 0
      · simp [slotCommands, hp]
      · have hp2 : co.t.points > 0 := Nat.pos_of_ne_zero hp
        simp [slotCommands, hp, hp2]

/-- The slot of the open of port 1 of `dirtyDevice`, which holds two samples, is written by a
create command, two add commands and a finalize command. -/
theorem save_commands_of_slot_witness :
    ∃ pr1 w1, saveCoefficientSetsThread.createCoefficient exampleDevice wholeNumbers 3 "USER1"
          "P1_OPEN" 0 { transferredPoints := 0, lastPercentage := 0 } dirtyDevice
        = .ok (true, pr1) w1 ∧
      w1.io = [.cmd ":COEFF:CREATE USER1 P1_OPEN", .cmd ":COEFF:ADD 1 5 -7",
        .cmd ":COEFF:ADD 2 6 -8", .cmd ":COEFF:FIN"] := by
  obtain ⟨pr1, w1, h1, h2⟩ :=
    save_commands_of_slot exampleDevice wholeNumbers 3 "USER1" "P1_OPEN" 0
      { transferredPoints := 0, lastPercentage := 0 } dirtyDevice
      { t := { ports := 1, filename := "LibreCAL/P1_OPEN",
               datapoints := [{ frequency := 1000000000, S := [(5, -7)] },
                              { frequency := 2000000000, S := [(6, -8)] }] },
        modified := true }
      (fun _ _ => rfl) rfl (fun _ _ => by decide)
  refine ⟨pr1, w1, h1, ?_⟩
  rw [h2]
  decide!

end CalDevice
namespace CalDevice

open QString

variable {σ D : Type}

/-! ## Persistence: the loops of the save thread as one pass over the slots -/

theorem bind_assoc_M {α β γ : Type} (m : M σ D α) (f : α → M σ D β) (g : β → M σ D γ) :
    (m >>= f) >>= g = m >>= fun a => f a >>= g := by
  funext w
  simp only [bind_apply]
  cases m w <;> rfl

theorem pure_bind_M {α β : Type} (a : α) (f : α → M σ D β) : (pure a >>= f) = f a := rfl

theorem bind_congr_M {α β : Type} (m : M σ D α) {f g : α → M σ D β} (h : ∀ a, f a = g a) :
    (m >>= f) = (m >>= g) := by
  rw [show f = g from funext h]

theorem saveSlots_append (dev : USBDevice σ) (qt : QtNumeric D) (totalPoints : Nat)
    (a b : List (String × String × Ptr)) (success : Bool) (pr : SaveProgress) :
    saveSlots dev qt totalPoints (a ++ b) success pr =
      saveSlots dev qt totalPoints a success pr >>= fun r =>
        saveSlots dev qt totalPoints b r.1 r.2 := by
  induction a generalizing success pr with
  | nil => rfl
  | cons slot rest ih =>
    simp only [List.cons_append, saveSlots]
    rw [bind_assoc_M]
    exact bind_congr_M _ (fun r => ih _ _)

theorem vectorAt_eq (v : List Ptr) (i : Int) (h0 : 0 ≤ i) (h1 : i < v.length) :
    (vectorAt v i : M σ D Ptr) = pure (v.getD i.toNat 0) := by
  funext w
  unfold vectorAt
  have h2 : i.toNat < v.length := by omega
  simp only [h0, if_true, List.getElem?_eq_getElem h2, List.getD_eq_getElem?_getD,
    Option.getD_some]
  rfl

theorem throughIndex_bounds (N i j : Int) (hi : 1 ≤ i) (hij : i < j) (hj : j ≤ N) :
    0 ≤ rowOffset N i + (j - i - 1) ∧ rowOffset N i + (j - i - 1) < N * (N - 1) / 2 := by
  constructor
  · have := rowOffset_nonneg N i hi (by omega)
    omega
  · have h1 := two_mul_rowOffset N i hi
    have h3 : 0 ≤ (N - i) * (N - i - 1) := mul_nonneg (by omega) (by omega)
    have h2 : N * (N - 1) / 2 * 2 = N * (N - 1) :=
      Int.ediv_mul_cancel (Int.even_mul_pred_self _).two_dvd
    nlinarith

/-- In a set that has all its slots, `getThrough(i, j)` yields a slot for every pair
`1 <= i < j <= N`: the slot at the triangular index. -/
theorem getThrough_of_hasAllSlots {N : Int} {set : CoefficientSet} (h : HasAllSlots N set)
    (i j : Int) (hi : 1 ≤ i) (hij : i < j) (hj : j ≤ N) :
    set.getThrough i j = .ok (some (set.throughAt i j)) ∧
    set.throughs[(rowOffset N i + (j - i - 1)).toNat]? = some (set.throughAt i j) := by
  obtain ⟨hp, -, -, -, ht⟩ := h
  obtain ⟨b0, b1⟩ := throughIndex_bounds N i j hi hij hj
  have hlt : (rowOffset N i + (j - i - 1)).toNat < set.throughs.length := by omega
  have e : set.getThrough i j
      = .ok (some (set.throughs.get ⟨(rowOffset N i + (j - i - 1)).toNat, hlt⟩)) := by
    unfold CoefficientSet.getThrough
    rw [hp, getThroughIndex_eq N i j hi hij hj]
    simp only [b0, if_true, List.getElem?_eq_getElem hlt, List.get_eq_getElem]
  have e2 : set.throughAt i j = set.throughs.get ⟨(rowOffset N i + (j - i - 1)).toNat, hlt⟩ := by
    unfold CoefficientSet.throughAt
    rw [e]
  rw [e2]
  exact ⟨e, by simp [List.getElem?_eq_getElem hlt]⟩

theorem saveThroughs_eq (dev : USBDevice σ) (qt : QtNumeric D) (totalPoints : Nat) {N : Int}
    {set : CoefficientSet} (h : HasAllSlots N set) (i : Int) (hi : 1 ≤ i) (js : List Int)
    (hjs : ∀ j ∈ js, i < j ∧ j ≤ N) (success : Bool) (pr : SaveProgress) :
    saveCoefficientSetsThread.saveThroughs dev qt totalPoints set i js success pr =
      saveSlots dev qt totalPoints
        (js.map (fun j => (set.name, "P" ++ number i ++ number j ++ "_THROUGH",
          set.throughAt i j))) success pr := by
  induction js generalizing success pr with
  | nil => rfl
  | cons j js ih =>
    have hj := hjs j (by simp)
    unfold saveCoefficientSetsThread.saveThroughs
    rw [(getThrough_of_hasAllSlots h i j hi hj.1 hj.2).1]
    simp only [List.map_cons, saveSlots]
    exact bind_congr_M _ (fun r => ih (fun j' hj' => hjs j' (by simp [hj'])) _ _)

theorem savePorts_eq (dev : USBDevice σ) (qt : QtNumeric D) (totalPoints : Nat) {N : Int}
    {set : CoefficientSet} (h : HasAllSlots N set) (is : List Int)
    (his : ∀ i ∈ is, 1 ≤ i ∧ i ≤ N) (success : Bool) (pr : SaveProgress) :
    saveCoefficientSetsThread.savePorts dev qt totalPoints N set is success pr =
      saveSlots dev qt totalPoints
        ((is.flatMap (savePortOrder N set)).map (fun x => (set.name, x.1, x.2))) success pr := by
  induction is generalizing success pr with
  | nil => rfl
  | cons i is ih =>
    have hi := his i (by simp)
    have ho := h.2.1
    have hs := h.2.2.1
    have hl := h.2.2.2.1
    unfold saveCoefficientSetsThread.savePorts
    rw [vectorAt_eq set.opens (i - 1) (by omega) (by omega),
      vectorAt_eq set.shorts (i - 1) (by omega) (by omega),
      vectorAt_eq set.loads (i - 1) (by omega) (by omega)]
    simp only [pure_bind_M]
    rw [List.flatMap_cons, List.map_append, saveSlots_append]
    unfold savePortOrder
    rw [List.map_append, saveSlots_append]
    simp only [List.map_cons, List.map_nil, saveSlots, List.map_map, bind_assoc_M, pure_bind_M]
    refine bind_congr_M _ (fun r1 => bind_congr_M _ (fun r2 => bind_congr_M _ (fun r3 => ?_)))
    rw [saveThroughs_eq dev qt totalPoints h i hi.1 _
      (fun j hj => by rw [mem_intRange] at hj; omega)]
    refine bind_congr_M _ (fun r4 => ?_)
    exact ih (fun i' hi' => his i' (by simp [hi'])) _ _

theorem saveSets_eq (dev : USBDevice σ) (qt : QtNumeric D) (totalPoints : Nat) {N : Int}
    (sets : List CoefficientSet) (h : ∀ set ∈ sets, HasAllSlots N set) (success : Bool)
    (pr : SaveProgress) :
    saveCoefficientSetsThread.saveSets dev qt totalPoints N sets success pr =
      saveSlots dev qt totalPoints (saveOrder N sets) success pr := by
  induction sets generalizing success pr with
  | nil => rfl
  | cons set sets ih =>
    unfold saveCoefficientSetsThread.saveSets saveOrder
    rw [List.flatMap_cons, saveSlots_append,
      savePorts_eq dev qt totalPoints (h set (by simp)) _
        (fun i hi => by rw [mem_intRange] at hi; exact hi)]
    exact bind_congr_M _ (fun r => ih (fun s hs => h s (by simp [hs])) _ _)

end CalDevice
namespace CalDevice

open QString

variable {σ D : Type}

/-! ## Persistence: what one pass over the slots does -/

theorem slotModified_of_getElem? {heap heap1 : List (CoefficientSet.Coefficient D)} {c : Ptr}
    (h : heap1[c]? = heap[c]?) : slotModified heap1 c = slotModified heap c := by
  unfold slotModified
  rw [h]

theorem dirtyPointsAt_of_getElem? {heap heap1 : List (CoefficientSet.Coefficient D)} {c : Ptr}
    (h : heap1[c]? = heap[c]?) : dirtyPointsAt heap1 c = dirtyPointsAt heap c := by
  unfold dirtyPointsAt
  rw [h]

theorem slotWrites_congr (qt : QtNumeric D) (heap heap1 : List (CoefficientSet.Coefficient D))
    (slots : List (String × String × Ptr)) (h : ∀ x ∈ slots, heap1[x.2.2]? = heap[x.2.2]?) :
    slotWrites qt heap1 slots = slotWrites qt heap slots := by
  unfold slotWrites
  apply List.map_congr_left
  intro x hx
  rw [h x hx]

theorem zipWith_congr_mem {α β γ : Type} {f g : α → β → γ} (l : List α) (l1 : List β)
    (h : ∀ x ∈ l, ∀ y, f x y = g x y) : List.zipWith f l l1 = List.zipWith g l l1 := by
  induction l generalizing l1 with
  | nil => simp
  | cons a l ih =>
    cases l1 with
    | nil => simp
    | cons b l1 =>
      simp only [List.zipWith_cons_cons]
      rw [h a (by simp), ih l1 (fun x hx => h x (by simp [hx]))]

/-- The heap after the write of one slot, compared with the heap before it. -/
theorem heap_after_write (heap : List (CoefficientSet.Coefficient D)) (c : Ptr)
    (co : CoefficientSet.Coefficient D) (hc : heap[c]? = some co) (ok : Bool) :
    (if co.modified = true ∧ ok = true then heap.set c { co with modified := false }
      else heap).length = heap.length ∧
    (∀ c1, c1 ≠ c →
      (if co.modified = true ∧ ok = true then heap.set c { co with modified := false }
        else heap)[c1]? = heap[c1]?) ∧
    (∀ c1, responseAt (if co.modified = true ∧ ok = true
        then heap.set c { co with modified := false } else heap) c1 = responseAt heap c1) ∧
    slotModified (if co.modified = true ∧ ok = true then heap.set c { co with modified := false }
        else heap) c = (co.modified && !ok) := by
  have hlt : c < heap.length := by
    by_contra hcon
    rw [List.getElem?_eq_none (Nat.le_of_not_lt hcon)] at hc
    exact absurd hc (by simp)
  by_cases hP : co.modified = true ∧ ok = true
  · rw [if_pos hP]
    refine ⟨by simp, fun c1 h1 => ?_, fun c1 => ?_, ?_⟩
    · rw [List.getElem?_set_ne (Ne.symm h1)]
    · unfold responseAt
      by_cases h1 : c1 = c
      · subst h1
        rw [List.getElem?_set_self hlt, hc]
        rfl
      · rw [List.getElem?_set_ne (Ne.symm h1)]
    · unfold slotModified
      rw [List.getElem?_set_self hlt]
      simp [hP.1, hP.2]
  · rw [if_neg hP]
    refine ⟨rfl, fun _ _ => rfl, fun _ => rfl, ?_⟩
    unfold slotModified
    rw [hc]
    simp only
    cases hm : co.modified <;> cases hok : ok <;> simp_all

/-- One pass of the save thread over slots at distinct addresses: every slot that is dirty is
written up to and including the first command that the device rejects, whatever became of the
slots before it; the flag that is returned tells whether every command was acknowledged; and the
dirty flag of a slot is cleared exactly when all its commands were acknowledged. -/
theorem saveSlots_spec (dev : USBDevice σ) (qt : QtNumeric D) (totalPoints : Nat)
    (slots : List (String × String × Ptr)) (success : Bool) (pr : SaveProgress)
    (w : CalDevice σ D)
    (hnodup : (slots.map (fun x => x.2.2)).Nodup)
    (hvalid : ∀ x ∈ slots, x.2.2 < w.heap.length)
    (htot : ∀ x ∈ slots, 0 < dirtyPointsAt w.heap x.2.2 → totalPoints ≠ 0) :
    ∃ pr1 w1, saveSlots dev qt totalPoints slots success pr w
        = .ok (success && (writeAll dev (slotWrites qt w.heap slots) w.usb).1.all
            (fun l => l.all (fun x => x.2)), pr1) w1 ∧
      w1.usb = (writeAll dev (slotWrites qt w.heap slots) w.usb).2 ∧
      w1.io = w.io ++ (writeAll dev (slotWrites qt w.heap slots) w.usb).1.flatten.map
        (fun x => ChannelOp.cmd x.1) ∧
      w1.heap.length = w.heap.length ∧
      (∀ c, c ∉ slots.map (fun x => x.2.2) → w1.heap[c]? = w.heap[c]?) ∧
      (∀ c, responseAt w1.heap c = responseAt w.heap c) ∧
      slots.map (fun x => slotModified w1.heap x.2.2)
        = List.zipWith (fun x l => slotModified w.heap x.2.2 && !(l.all (fun y => y.2))) slots
            (writeAll dev (slotWrites qt w.heap slots) w.usb).1 ∧
      SaveFrame w w1 := by
  induction slots generalizing success pr w with
  | nil =>
    refine ⟨pr, w, ?_, rfl, ?_, rfl, fun _ _ => rfl, fun _ => rfl, rfl, SaveFrame.same w⟩
    · simp [saveSlots, slotWrites, writeAll, pure_apply]
    · simp [slotWrites, writeAll]
  | cons slot rest ih =>
    obtain ⟨setName, paramName, c⟩ := slot
    have hlt : c < w.heap.length := hvalid (setName, paramName, c) (by simp)
    have hc : w.heap[c]? = some (w.heap.get ⟨c, hlt⟩) := List.getElem?_eq_getElem hlt
    generalize w.heap.get ⟨c, hlt⟩ = co at hc
    have hnd : c ∉ rest.map (fun x => x.2.2) ∧ (rest.map (fun x => x.2.2)).Nodup :=
      List.nodup_cons.mp hnodup
    have hcrest : ∀ x ∈ rest, x.2.2 ≠ c := by
      intro x hx e
      exact hnd.1 (by rw [← e]; exact List.mem_map_of_mem (fun x => x.2.2) hx)
    have hd : dirtyPointsAt w.heap c = if co.modified then co.t.points else 0 := by
      unfold dirtyPointsAt
      rw [hc]
    obtain ⟨pr1, w1, e, e1, e2, e3, e4⟩ :=
      createCoefficientSave_spec dev qt totalPoints setName paramName c pr w co hc
        (fun hm hp => htot (setName, paramName, c) (by simp) (by rw [hd, hm]; exact hp))
    obtain ⟨a1, a2, a3, a4⟩ := heap_after_write w.heap c co hc
      ((sendUntilRejected dev
        (if co.modified then slotCommands qt setName paramName co.t else []) w.usb).1.all
          (fun x => x.2))
    rw [← e3] at a1 a2 a3 a4
    have hw : slotWrites qt w1.heap rest = slotWrites qt w.heap rest :=
      slotWrites_congr qt _ _ rest (fun x hx => a2 _ (hcrest x hx))
    obtain ⟨pr2, w2, f, f1, f2, f3, f4, f5, f6, f7⟩ :=
      ih (success && (sendUntilRejected dev
        (if co.modified then slotCommands qt setName paramName co.t else []) w.usb).1.all
          (fun x => x.2)) pr1 w1 hnd.2
        (fun x hx => by rw [a1]; exact hvalid x (by simp [hx]))
        (fun x hx h0 => htot x (by simp [hx])
          (by rw [← dirtyPointsAt_of_getElem? (a2 _ (hcrest x hx))]; exact h0))
    rw [hw, e1] at f f1 f2 f6
    have hsw : slotWrites qt w.heap ((setName, paramName, c) :: rest)
        = (if co.modified then slotCommands qt setName paramName co.t else [])
            :: slotWrites qt w.heap rest := by
      simp only [slotWrites, List.map_cons, hc]
    refine ⟨pr2, w2, ?_, ?_, ?_, f3.trans a1, ?_, ?_, ?_, e4.then f7⟩
    · simp only [saveSlots]
      rw [bind_ok e, f, hsw]
      simp only [writeAll, List.all_cons, Bool.and_assoc]
    · rw [f1, hsw]
      simp only [writeAll]
    · rw [f2, e2, hsw]
      simp only [writeAll, List.flatten_cons, List.map_append, List.append_assoc]
    · intro c1 hc1
      have h1 : c1 ≠ c := fun e => hc1 (by simp [e])
      have h2 : c1 ∉ rest.map (fun x => x.2.2) := fun e => hc1 (by simp at e ⊢; exact Or.inr e)
      rw [f4 c1 h2, a2 c1 h1]
    · intro c1
      rw [f5 c1, a3 c1]
    · rw [hsw]
      simp only [writeAll, List.map_cons, List.zipWith_cons_cons]
      congr 1
      · rw [slotModified_of_getElem? (f4 c hnd.1), a4]
        unfold slotModified
        rw [hc]
      · rw [f6]
        apply zipWith_congr_mem
        intro x hx l
        rw [slotModified_of_getElem? (a2 _ (hcrest x hx))]

end CalDevice
namespace CalDevice

open QString

variable {σ D : Type}

/-! ## Persistence: the save thread as a whole -/

theorem getD_mem_of_lt (v : List Ptr) (k : Nat) (h : k < v.length) : v.getD k 0 ∈ v := by
  rw [List.getD_eq_getElem v 0 h]
  exact List.getElem_mem h

/-- Every slot that the save thread visits is one of the slots of a set of the collection. -/
theorem mem_slots_of_mem_saveOrder {N : Int} (sets : List CoefficientSet)
    (h : ∀ set ∈ sets, HasAllSlots N set) (x : String × String × Ptr)
    (hx : x ∈ saveOrder N sets) : ∃ set ∈ sets, x.1 = set.name ∧ x.2.2 ∈ set.slots := by
  unfold saveOrder at hx
  simp only [List.mem_flatMap, List.mem_map] at hx
  obtain ⟨set, hset, y, ⟨i, hi, hy⟩, rfl⟩ := hx
  refine ⟨set, hset, rfl, ?_⟩
  have hs := h set hset
  rw [mem_intRange] at hi
  unfold savePortOrder at hy
  unfold CoefficientSet.slots
  simp only [List.mem_append, List.mem_cons, List.mem_singleton, List.mem_map,
    List.not_mem_nil, or_false] at hy ⊢
  rcases hy with (rfl | rfl | rfl) | ⟨j, hj, rfl⟩
  · exact Or.inl (Or.inl (Or.inl (getD_mem_of_lt _ _ (by have := hs.2.1; omega))))
  · exact Or.inl (Or.inl (Or.inr (getD_mem_of_lt _ _ (by have := hs.2.2.1; omega))))
  · exact Or.inl (Or.inr (getD_mem_of_lt _ _ (by have := hs.2.2.2.1; omega)))
  · rw [mem_intRange] at hj
    exact Or.inr (List.getElem?_mem
      (getThrough_of_hasAllSlots hs i j hi.1 (by omega) hj.2).2)

theorem totalOf_spec (cs : List Ptr) (totalPoints : Nat) (w : CalDevice σ D)
    (hlt : totalPoints < 2 ^ 64) (hvalid : ∀ c ∈ cs, c < w.heap.length) :
    (saveCoefficientSetsThread.totalOf cs totalPoints : M σ D Nat) w
      = .ok ((totalPoints + (cs.map (dirtyPointsAt w.heap)).sum) % 2 ^ 64) w := by
  induction cs generalizing totalPoints with
  | nil =>
    simp only [saveCoefficientSetsThread.totalOf, List.map_nil, List.sum_nil, Nat.add_zero,
      Nat.mod_eq_of_lt hlt]
    rfl
  | cons c cs ih =>
    have hc : w.heap[c]? = some (w.heap.get ⟨c, hvalid c (by simp)⟩) :=
      List.getElem?_eq_getElem _
    generalize w.heap.get ⟨c, hvalid c (by simp)⟩ = co at hc
    have hd : dirtyPointsAt w.heap c = if co.modified then co.t.points else 0 := by
      unfold dirtyPointsAt
      rw [hc]
    unfold saveCoefficientSetsThread.totalOf
    rw [bind_ok (deref_ok hc), List.map_cons, List.sum_cons, hd]
    cases hm : co.modified
    · simp only [Bool.false_eq_true, if_false, Nat.zero_add]
      exact ih totalPoints hlt (fun c1 h1 => hvalid c1 (by simp [h1]))
    · simp only [if_true]
      rw [ih _ (Nat.mod_lt _ (by norm_num)) (fun c1 h1 => hvalid c1 (by simp [h1])),
        Nat.mod_add_mod, Nat.add_assoc]

theorem totalSetsSave_spec (sets : List CoefficientSet) (totalPoints : Nat) (w : CalDevice σ D)
    (hlt : totalPoints < 2 ^ 64) (hvalid : ∀ set ∈ sets, SetValid w.heap.length set) :
    (saveCoefficientSetsThread.totalSets sets totalPoints : M σ D Nat) w
      = .ok ((totalPoints + dirtyPoints w.heap sets) % 2 ^ 64) w := by
  induction sets generalizing totalPoints with
  | nil =>
    simp only [saveCoefficientSetsThread.totalSets, dirtyPoints, List.flatMap_nil, List.map_nil,
      List.sum_nil, Nat.add_zero, Nat.mod_eq_of_lt hlt]
    rfl
  | cons set sets ih =>
    have hv := hvalid set (by simp)
    unfold SetValid CoefficientSet.slots at hv
    have hm : ∀ n : Nat, n % 2 ^ 64 < 2 ^ 64 := fun n => Nat.mod_lt _ (by norm_num)
    unfold saveCoefficientSetsThread.totalSets
    rw [bind_ok (totalOf_spec set.opens totalPoints w hlt (fun c hc => hv c (by simp [hc]))),
      bind_ok (totalOf_spec set.shorts _ w (hm _) (fun c hc => hv c (by simp [hc]))),
      bind_ok (totalOf_spec set.loads _ w (hm _) (fun c hc => hv c (by simp [hc]))),
      bind_ok (totalOf_spec set.throughs _ w (hm _) (fun c hc => hv c (by simp [hc]))),
      ih _ (hm _) (fun s hs => hvalid s (by simp [hs]))]
    simp only [dirtyPoints, List.flatMap_cons, CoefficientSet.slots, List.map_append,
      List.sum_append, Nat.mod_add_mod, Nat.add_assoc]

theorem dirtyPointsAt_le_dirtyPoints (heap : List (CoefficientSet.Coefficient D))
    (sets : List CoefficientSet) (set : CoefficientSet) (hset : set ∈ sets) (c : Ptr)
    (hc : c ∈ set.slots) : dirtyPointsAt heap c ≤ dirtyPoints heap sets := by
  unfold dirtyPoints
  apply List.le_sum_of_mem
  exact List.mem_map.mpr ⟨c, List.mem_flatMap.mpr ⟨set, hset, hc⟩, rfl⟩

/-- The save thread on a collection whose sets have all their slots, at distinct addresses that
hold objects, when the number of samples to send is below `2 ^ 64`. -/
theorem saveCoefficientSetsThread_spec (dev : USBDevice σ) (qt : QtNumeric D)
    (w : CalDevice σ D)
    (hslots : ∀ set ∈ w.coeffSets, HasAllSlots w.numPorts set)
    (hvalid : Valid w)
    (hnodup : ((saveOrder w.numPorts w.coeffSets).map (fun x => x.2.2)).Nodup)
    (hsum : dirtyPoints w.heap w.coeffSets < 2 ^ 64) :
    ∃ w1, saveCoefficientSetsThread dev qt w = .ok () w1 ∧
      w1.usb = (writeAll dev (slotWrites qt w.heap (saveOrder w.numPorts w.coeffSets)) w.usb).2 ∧
      w1.io = w.io ++ (writeAll dev (slotWrites qt w.heap (saveOrder w.numPorts w.coeffSets))
        w.usb).1.flatten.map (fun x => ChannelOp.cmd x.1) ∧
      (∃ ps : List Int, w1.signals = w.signals ++ ps.map Signal.updateCoefficientsPercent ++
        [.updateCoefficientsDone ((writeAll dev
          (slotWrites qt w.heap (saveOrder w.numPorts w.coeffSets)) w.usb).1.all
            (fun l => l.all (fun x => x.2)))]) ∧
      w1.heap.length = w.heap.length ∧
      (∀ c, c ∉ (saveOrder w.numPorts w.coeffSets).map (fun x => x.2.2) →
        w1.heap[c]? = w.heap[c]?) ∧
      (∀ c, responseAt w1.heap c = responseAt w.heap c) ∧
      (saveOrder w.numPorts w.coeffSets).map (fun x => slotModified w1.heap x.2.2)
        = List.zipWith (fun x l => slotModified w.heap x.2.2 && !(l.all (fun y => y.2)))
            (saveOrder w.numPorts w.coeffSets)
            (writeAll dev (slotWrites qt w.heap (saveOrder w.numPorts w.coeffSets)) w.usb).1 ∧
      w1.numPorts = w.numPorts ∧ w1.coeffSets = w.coeffSets := by
  have hmem := mem_slots_of_mem_saveOrder w.coeffSets hslots
  obtain ⟨pr1, w1, e, e1, e2, e3, e4, e5, e6, e7⟩ :=
    saveSlots_spec dev qt (dirtyPoints w.heap w.coeffSets) (saveOrder w.numPorts w.coeffSets)
      true { transferredPoints := 0, lastPercentage := 0 } w hnodup
      (fun x hx => by
        obtain ⟨set, hset, -, hc⟩ := hmem x hx
        exact hvalid set hset _ hc)
      (fun x hx h0 => by
        obtain ⟨set, hset, -, hc⟩ := hmem x hx
        have := dirtyPointsAt_le_dirtyPoints w.heap w.coeffSets set hset _ hc
        omega)
  obtain ⟨g1, g2, g3, g4, ps, g5⟩ := e7
  unfold saveCoefficientSetsThread
  rw [bind_ok (show readCoeffSets w = .ok w.coeffSets w from rfl),
    bind_ok (totalSetsSave_spec w.coeffSets 0 w (by norm_num) hvalid),
    bind_ok (show readNumPorts w = .ok w.numPorts w from rfl),
    Nat.zero_add, Nat.mod_eq_of_lt hsum, saveSets_eq dev qt _ _ hslots, bind_ok e]
  refine ⟨_, rfl, e1, e2, ⟨ps, ?_⟩, e3, e4, e5, e6, g1, g2⟩
  simp only [g5, Bool.true_and]

theorem writeAll_of_clean (dev : USBDevice σ) (writes : List (List String)) (s : σ)
    (h : ∀ cmds ∈ writes, cmds = []) : writeAll dev writes s = (writes.map (fun _ => []), s) := by
  induction writes generalizing s with
  | nil => rfl
  | cons cmds rest ih =>
    rw [h cmds (by simp)]
    simp only [writeAll, sendUntilRejected, List.map_cons]
    rw [ih s (fun c hc => h c (by simp [hc]))]

theorem hasModified_false (w : CalDevice σ D) (h : hasModifiedCoefficients w = false) :
    ∀ set ∈ w.coeffSets, ∀ c ∈ set.slots, slotModified w.heap c = false := by
  intro set hset c hc
  by_contra hcon
  have hm : slotModified w.heap c = true := by simpa using hcon
  have : hasModifiedCoefficients w = true := by
    unfold hasModifiedCoefficients
    simp only [List.any_eq_true, Bool.or_eq_true]
    refine ⟨set, hset, ?_⟩
    unfold CoefficientSet.slots at hc
    simp only [List.mem_append] at hc
    rcases hc with ((hc | hc) | hc) | hc
    · exact Or.inl (Or.inl (Or.inl ⟨c, hc, hm⟩))
    · exact Or.inl (Or.inl (Or.inr ⟨c, hc, hm⟩))
    · exact Or.inl (Or.inr ⟨c, hc, hm⟩)
    · exact Or.inr ⟨c, hc, hm⟩
  rw [h] at this
  exact absurd this (by simp)

theorem zipWith_map_self {α β γ : Type} (f : α → β → γ) (g : α → β) (l : List α) :
    List.zipWith f l (l.map g) = l.map (fun x => f x (g x)) := by
  induction l with
  | nil => rfl
  | cons a l ih => simp [ih]

/-- `saveCoefficientSets` on a collection whose sets have all their slots, at distinct addresses
that hold objects, when the number of samples to send is below `2 ^ 64`. -/
theorem saveCoefficientSets_spec (dev : USBDevice σ) (qt : QtNumeric D)
    (w : CalDevice σ D)
    (hslots : ∀ set ∈ w.coeffSets, HasAllSlots w.numPorts set)
    (hvalid : Valid w)
    (hnodup : ((saveOrder w.numPorts w.coeffSets).map (fun x => x.2.2)).Nodup)
    (hsum : dirtyPoints w.heap w.coeffSets < 2 ^ 64) :
    ∃ w1, saveCoefficientSets dev qt w = .ok () w1 ∧
      w1.usb = (writeAll dev (slotWrites qt w.heap (saveOrder w.numPorts w.coeffSets)) w.usb).2 ∧
      w1.io = w.io ++ (writeAll dev (slotWrites qt w.heap (saveOrder w.numPorts w.coeffSets))
        w.usb).1.flatten.map (fun x => ChannelOp.cmd x.1) ∧
      (∃ ps : List Int, w1.signals = w.signals ++ ps.map Signal.updateCoefficientsPercent ++
        [.updateCoefficientsDone ((writeAll dev
          (slotWrites qt w.heap (saveOrder w.numPorts w.coeffSets)) w.usb).1.all
            (fun l => l.all (fun x => x.2)))]) ∧
      w1.heap.length = w.heap.length ∧
      (∀ c, c ∉ (saveOrder w.numPorts w.coeffSets).map (fun x => x.2.2) →
        w1.heap[c]? = w.heap[c]?) ∧
      (∀ c, responseAt w1.heap c = responseAt w.heap c) ∧
      (saveOrder w.numPorts w.coeffSets).map (fun x => slotModified w1.heap x.2.2)
        = List.zipWith (fun x l => slotModified w.heap x.2.2 && !(l.all (fun y => y.2)))
            (saveOrder w.numPorts w.coeffSets)
            (writeAll dev (slotWrites qt w.heap (saveOrder w.numPorts w.coeffSets)) w.usb).1 ∧
      w1.numPorts = w.numPorts ∧ w1.coeffSets = w.coeffSets := by
  by_cases hm : hasModifiedCoefficients w = true
  · have e : saveCoefficientSets dev qt w = saveCoefficientSetsThread dev qt w := by
      unfold saveCoefficientSets
      simp [hm]
    rw [e]
    exact saveCoefficientSetsThread_spec dev qt w hslots hvalid hnodup hsum
  · have hm2 : hasModifiedCoefficients w = false := by simpa using hm
    have e : saveCoefficientSets dev qt w
        = .ok () { w with signals := w.signals ++ [.updateCoefficientsDone true] } := by
      unfold saveCoefficientSets
      simp [hm2, emit]
    have hclean : ∀ x ∈ saveOrder w.numPorts w.coeffSets, slotModified w.heap x.2.2 = false := by
      intro x hx
      obtain ⟨set, hset, -, hc⟩ := mem_slots_of_mem_saveOrder w.coeffSets hslots x hx
      exact hasModified_false w hm2 set hset _ hc
    have hw : slotWrites qt w.heap (saveOrder w.numPorts w.coeffSets)
        = (saveOrder w.numPorts w.coeffSets).map (fun _ => []) := by
      unfold slotWrites
      apply List.map_congr_left
      intro x hx
      have := hclean x hx
      unfold slotModified at this
      cases hh : w.heap[x.2.2]? with
      | none => rfl
      | some co =>
        rw [hh] at this
        simp only at this
        simp [this]
    rw [e, hw, writeAll_of_clean dev _ _ (by simp)]
    refine ⟨_, rfl, rfl, ?_, ⟨[], ?_⟩, rfl, fun _ _ => rfl, fun _ => rfl, ?_, rfl, rfl⟩
    · simp
    · simp
    · simp only [List.map_map]
      rw [zipWith_map_self]
      apply List.map_congr_left
      intro x hx
      simp [hclean x hx]

end CalDevice
namespace CalDevice

open QString

variable {σ D : Type}

/-! ## Persistence: partial failure and the dirty flags -/

theorem sendUntilRejected_written (dev : USBDevice σ) (cmds : List String) (s : σ) :
    WrittenUntilRejected cmds (sendUntilRejected dev cmds s).1 := by
  induction cmds generalizing s with
  | nil => exact ⟨by simp [sendUntilRejected], fun h => absurd rfl h, by simp [sendUntilRejected],
      fun _ => rfl⟩
  | cons c cs ih =>
    obtain ⟨a1, a2, a3, a4⟩ := ih (dev.Cmd c s).2
    unfold sendUntilRejected
    by_cases h : (dev.Cmd c s).1 = true
    · simp only [h, if_true]
      refine ⟨?_, fun _ => by simp, ?_, ?_⟩
      · simpa using a1
      · intro x hx
        cases hcs : (sendUntilRejected dev cs (dev.Cmd c s).2).1 with
        | nil => simp [hcs] at hx
        | cons y ys =>
          rw [hcs, List.dropLast_cons₂] at hx
          rcases List.mem_cons.mp hx with rfl | hx
          · rfl
          · exact a3 x (by rw [hcs]; exact hx)
      · intro hall
        simp only [List.all_cons, Bool.true_and] at hall
        simp only [List.map_cons, a4 hall]
    · simp only [h, Bool.false_eq_true, if_false]
      refine ⟨by simp, fun _ => by simp, by simp, by simp⟩

theorem writeAll_written (dev : USBDevice σ) (writes : List (List String)) (s : σ) :
    List.Forall₂ WrittenUntilRejected writes (writeAll dev writes s).1 := by
  induction writes generalizing s with
  | nil => exact List.Forall₂.nil
  | cons cmds rest ih =>
    exact List.Forall₂.cons (sendUntilRejected_written dev cmds s) (ih _)

/-- C12 fails on the code for a set that `addCoefficientSet` made, whose slots of one kind are
one object. On a device with two ports, client code adds the set `USER1` and, through `opens[0]`
and `shorts[0]`, replaces the response and sets the dirty flag, so that both opens and both
shorts are dirty. The device rejects the create command of the short of port 1. The save writes
the open of port 1, which clears the flag that the open of port 2 shares; the create command of
the short of port 1 is rejected; and then no command is issued for the open of port 2, a dirty
slot later in the traversal, while the short of port 2 is written. -/
theorem save_skips_dirty_slot_that_shares_object :
    (editNewSet (fresh [] 2 none : CalDevice (List String) Int)).state.coeffSets
      = [{ name := "USER1", ports := 2, opens := [2, 2], shorts := [1, 1], loads := [0, 0],
           throughs := [3] }] ∧
    (editNewSet (fresh [] 2 none : CalDevice (List String) Int)).state.heap.map
        (fun co => (co.modified, co.t.points))
      = [(false, 0), (true, 1), (true, 1), (false, 0)] ∧
    ((editNewSet >>= fun _ =>
        saveCoefficientSets (rejectingDevice ":COEFF:CREATE USER1 P1_SHORT") wholeNumbers)
      (fresh [] 2 none)).exit? = none ∧
    ((editNewSet >>= fun _ =>
        saveCoefficientSets (rejectingDevice ":COEFF:CREATE USER1 P1_SHORT") wholeNumbers)
      (fresh [] 2 none)).state.io
      = [.cmd ":COEFF:CREATE USER1 P1_OPEN", .cmd ":COEFF:ADD 1 5 -7", .cmd ":COEFF:FIN",
         .cmd ":COEFF:CREATE USER1 P1_SHORT",
         .cmd ":COEFF:CREATE USER1 P2_SHORT", .cmd ":COEFF:ADD 2 6 -8", .cmd ":COEFF:FIN"] ∧
    ((editNewSet >>= fun _ =>
        saveCoefficientSets (rejectingDevice ":COEFF:CREATE USER1 P1_SHORT") wholeNumbers)
      (fresh [] 2 none)).state.signals
      = [.updateCoefficientsPercent 25, .updateCoefficientsPercent 50,
         .updateCoefficientsDone false] := by
  decide!

/-- C12, for sets whose slots are distinct objects: save is partial-failure, not fail-fast. On a
collection whose sets have all their slots, at distinct addresses that hold objects (and with
fewer than `2 ^ 64` samples to send), `save` runs to
its end; the commands that it issues are, slot after slot in the order of the traversal, those
of `writeAll`: for every slot the commands of the slot (none for a clean slot, a delete or a
create, the adds and a finalize for a dirty one) up to and including the first that the device
rejects, so that no further command is issued for a slot once one was rejected, and every dirty
slot is written whatever became of the slots before it; and the completion signal is the last
signal and carries success exactly when no command was rejected. Every collection that a load
has built is such a collection, also after client code has edited it through its slots and
after a save (`wellFormed_invariant`, `saveOrder_nodup_iff`); only `addCoefficientSet` makes
slots that share an object. -/
theorem save_is_partial_failure (dev : USBDevice σ) (qt : QtNumeric D) (w : CalDevice σ D)
    (hslots : ∀ set ∈ w.coeffSets, HasAllSlots w.numPorts set)
    (hvalid : Valid w)
    (hdistinct : ((saveOrder w.numPorts w.coeffSets).map (fun x => x.2.2)).Nodup)
    (hsum : dirtyPoints w.heap w.coeffSets < 2 ^ 64) :
    ∃ w1, saveCoefficientSets dev qt w = .ok () w1 ∧
      w1.io = w.io ++ (writeAll dev (slotWrites qt w.heap (saveOrder w.numPorts w.coeffSets))
        w.usb).1.flatten.map (fun x => ChannelOp.cmd x.1) ∧
      List.Forall₂ WrittenUntilRejected
        (slotWrites qt w.heap (saveOrder w.numPorts w.coeffSets))
        (writeAll dev (slotWrites qt w.heap (saveOrder w.numPorts w.coeffSets)) w.usb).1 ∧
      w1.signals.getLast? = some (.updateCoefficientsDone
        ((writeAll dev (slotWrites qt w.heap (saveOrder w.numPorts w.coeffSets)) w.usb).1.all
          (fun entry => entry.all (fun x => x.2)))) ∧
      (∀ x ∈ saveOrder w.numPorts w.coeffSets, ∀ co, w.heap[x.2.2]? = some co →
        co.modified = true → slotCommands qt x.1 x.2.1 co.t ≠ []) := by
  obtain ⟨w1, e, -, e2, ⟨ps, e3⟩, -⟩ :=
    saveCoefficientSets_spec dev qt w hslots hvalid hdistinct hsum
  refine ⟨w1, e, e2, writeAll_written dev _ _, ?_, ?_⟩
  · rw [e3]
    simp
  · intro x _ co _ _
    unfold slotCommands
    split <;> simp

/-- C13 fails on the code for a set that `addCoefficientSet` made, whose slots of one kind are
one object. On a device with two ports, client code adds the set `USER1` and, through `opens[0]`
and `shorts[0]`, replaces the response and sets the dirty flag. The device rejects the create
command of the open of port 1, the only command issued for that slot. The save goes on, writes
the open of port 2 and clears the flag that both opens share: after the save the flag of the
open of port 1 is clear although the slot was dirty and its command was rejected. -/
theorem save_clears_flag_of_rejected_slot :
    (editNewSet (fresh [] 2 none : CalDevice (List String) Int)).state.coeffSets
      = [{ name := "USER1", ports := 2, opens := [2, 2], shorts := [1, 1], loads := [0, 0],
           throughs := [3] }] ∧
    slotModified (editNewSet (fresh [] 2 none : CalDevice (List String) Int)).state.heap 2
      = true ∧
    ((editNewSet >>= fun _ =>
        saveCoefficientSets (rejectingDevice ":COEFF:CREATE USER1 P1_OPEN") wholeNumbers)
      (fresh [] 2 none)).exit? = none ∧
    ((editNewSet >>= fun _ =>
        saveCoefficientSets (rejectingDevice ":COEFF:CREATE USER1 P1_OPEN") wholeNumbers)
      (fresh [] 2 none)).state.io
      = [.cmd ":COEFF:CREATE USER1 P1_OPEN",
         .cmd ":COEFF:CREATE USER1 P1_SHORT", .cmd ":COEFF:ADD 2 6 -8", .cmd ":COEFF:FIN",
         .cmd ":COEFF:CREATE USER1 P2_OPEN", .cmd ":COEFF:ADD 1 5 -7", .cmd ":COEFF:FIN"] ∧
    slotModified ((editNewSet >>= fun _ =>
        saveCoefficientSets (rejectingDevice ":COEFF:CREATE USER1 P1_OPEN") wholeNumbers)
      (fresh [] 2 none)).state.heap 2 = false := by
  decide!

/-- C13, for sets whose slots are distinct objects: after save, on a collection whose sets have
all their slots, at distinct addresses that hold objects (and with fewer than `2 ^ 64` samples
to send): the dirty flag of a slot is set exactly
when it was set before the save and one of the commands issued for the slot was rejected; no
response and no other object changes. Every collection that a load has built is such a
collection, also after client code has edited it through its slots and after a save
(`wellFormed_invariant`, `saveOrder_nodup_iff`); only `addCoefficientSet` makes slots that share
an object. -/
theorem save_clears_flags_of_written_slots (dev : USBDevice σ) (qt : QtNumeric D)
    (w : CalDevice σ D)
    (hslots : ∀ set ∈ w.coeffSets, HasAllSlots w.numPorts set)
    (hvalid : Valid w)
    (hdistinct : ((saveOrder w.numPorts w.coeffSets).map (fun x => x.2.2)).Nodup)
    (hsum : dirtyPoints w.heap w.coeffSets < 2 ^ 64) :
    ∃ w1, saveCoefficientSets dev qt w = .ok () w1 ∧
      (∀ (k : Nat) (x : String × String × Ptr) (entry : List (String × Bool)),
        (saveOrder w.numPorts w.coeffSets)[k]? = some x →
        (writeAll dev (slotWrites qt w.heap (saveOrder w.numPorts w.coeffSets)) w.usb).1[k]?
          = some entry →
        slotModified w1.heap x.2.2
          = (slotModified w.heap x.2.2 && entry.any (fun y => !y.2))) ∧
      (∀ c, responseAt w1.heap c = responseAt w.heap c) ∧
      (∀ c, c ∉ (saveOrder w.numPorts w.coeffSets).map (fun x => x.2.2) →
        w1.heap[c]? = w.heap[c]?) ∧
      w1.heap.length = w.heap.length ∧ w1.coeffSets = w.coeffSets := by
  obtain ⟨w1, e, -, -, -, e4, e5, e6, e7, -, e9⟩ :=
    saveCoefficientSets_spec dev qt w hslots hvalid hdistinct hsum
  refine ⟨w1, e, ?_, e6, e5, e4, e9⟩
  intro k x entry hx hentry
  have h := congrArg (fun l => l[k]?) e7
  simp only [List.getElem?_map, hx, Option.map_some', List.getElem?_zipWith, hentry] at h
  have h2 := Option.some.inj h
  rw [h2, List.not_all_eq_any_not]

theorem dirtyDevice_hasAllSlots :
    ∀ set ∈ dirtyDevice.coeffSets, HasAllSlots dirtyDevice.numPorts set := by
  intro set hset
  have e : set = twoPortSet := by simpa [dirtyDevice] using hset
  subst e
  exact ⟨rfl, rfl, rfl, rfl, by decide⟩

theorem dirtyDevice_valid : Valid dirtyDevice := by
  intro set hset
  have e : set = twoPortSet := by simpa [dirtyDevice] using hset
  subst e
  intro c hc
  have h : c ∈ [0, 1, 2, 3, 4, 5, 6] := hc
  have h7 : dirtyDevice.heap.length = 7 := rfl
  rw [h7]
  simp only [List.mem_cons, List.mem_singleton, List.not_mem_nil, or_false] at h
  rcases h with rfl | rfl | rfl | rfl | rfl | rfl | rfl <;> decide

theorem dirtyDevice_saveOrder :
    saveOrder dirtyDevice.numPorts dirtyDevice.coeffSets
      = [("USER1", "P1_OPEN", 0), ("USER1", "P1_SHORT", 2), ("USER1", "P1_LOAD", 4),
         ("USER1", "P12_THROUGH", 6), ("USER1", "P2_OPEN", 1), ("USER1", "P2_SHORT", 3),
         ("USER1", "P2_LOAD", 5)] := by
  decide!

/-- On `dirtyDevice`, whose three dirty slots are the open of port 1 (two samples), the through
(one sample) and the open of port 2 (no sample), with a device that rejects the second sample
of the open of port 1: the write of that slot stops at the rejected command, the through and
the open of port 2 are written all the same, and the completion signal carries failure. -/
theorem save_is_partial_failure_witness :
    ∃ w1, saveCoefficientSets pickyDevice wholeNumbers dirtyDevice = .ok () w1 ∧
      w1.io = [.cmd ":COEFF:CREATE USER1 P1_OPEN", .cmd ":COEFF:ADD 1 5 -7",
        .cmd ":COEFF:ADD 2 6 -8",
        .cmd ":COEFF:CREATE USER1 P12_THROUGH", .cmd ":COEFF:ADD 3 1 2 5 6 3 4 7 8",
        .cmd ":COEFF:FIN",
        .cmd ":COEFF:DEL USER1 P2_OPEN"] ∧
      w1.signals.getLast? = some (.updateCoefficientsDone false) := by
  obtain ⟨w1, h1, h2, -, h4, -⟩ :=
    save_is_partial_failure pickyDevice wholeNumbers dirtyDevice dirtyDevice_hasAllSlots
      dirtyDevice_valid (by rw [dirtyDevice_saveOrder]; decide) (by decide!)
  refine ⟨w1, h1, ?_, ?_⟩
  · rw [h2, dirtyDevice_saveOrder]
    decide!
  · rw [h4, dirtyDevice_saveOrder]
    decide!

/-- On `dirtyDevice` with a device that rejects the second sample of the open of port 1: after
the save that slot is still dirty, and the through and the open of port 2, whose commands were
all acknowledged, are clean. -/
theorem save_clears_flags_of_written_slots_witness :
    ∃ w1, saveCoefficientSets pickyDevice wholeNumbers dirtyDevice = .ok () w1 ∧
      slotModified w1.heap 0 = true ∧ slotModified w1.heap 6 = false ∧
      slotModified w1.heap 1 = false := by
  obtain ⟨w1, h1, h2, -⟩ :=
    save_clears_flags_of_written_slots pickyDevice wholeNumbers dirtyDevice
      dirtyDevice_hasAllSlots dirtyDevice_valid (by rw [dirtyDevice_saveOrder]; decide)
      (by decide!)
  rw [dirtyDevice_saveOrder] at h2
  refine ⟨w1, h1, ?_, ?_, ?_⟩
  · exact (h2 0 ("USER1", "P1_OPEN", 0)
      [(":COEFF:CREATE USER1 P1_OPEN", true), (":COEFF:ADD 1 5 -7", true),
        (":COEFF:ADD 2 6 -8", false)] rfl (by decide!)).trans (by decide!)
  · exact (h2 3 ("USER1", "P12_THROUGH", 6)
      [(":COEFF:CREATE USER1 P12_THROUGH", true), (":COEFF:ADD 3 1 2 5 6 3 4 7 8", true),
        (":COEFF:FIN", true)] rfl (by decide!)).trans (by decide!)
  · exact (h2 4 ("USER1", "P2_OPEN", 1) [(":COEFF:DEL USER1 P2_OPEN", true)] rfl
      (by decide!)).trans (by decide!)

end CalDevice
namespace CalDevice

open QString

variable {σ D : Type}

/-! ## The states of the channel that a load reaches -/

theorem walks_bind {α β : Type} {dev : USBDevice σ} {m : M σ D α} {f : α → M σ D β}
    (hm : Walks dev m) (hf : ∀ a, Walks dev (f a)) : Walks dev (m >>= f) := by
  intro s0 w hw
  have h1 := hm s0 w hw
  cases h : m w with
  | ok a w1 =>
    rw [bind_ok h]
    rw [h] at h1
    exact hf a s0 w1 h1
  | exit e w1 =>
    rw [bind_exit h]
    rw [h] at h1
    exact h1

theorem walks_pure {α : Type} {dev : USBDevice σ} (a : α) : Walks dev (pure a : M σ D α) :=
  fun _ _ h => h

theorem walks_leave {α : Type} {dev : USBDevice σ} (e : Exit) :
    Walks dev (leave e : M σ D α) := fun _ _ h => h

theorem walks_emit {dev : USBDevice σ} (s : Signal) : Walks dev (emit s : M σ D Unit) :=
  fun _ _ h => h

theorem walks_Query (dev : USBDevice σ) (cmd : String) :
    Walks dev (Query dev cmd : M σ D String) := fun _ _ h => Reach.query cmd h

theorem walks_send (dev : USBDevice σ) (cmd : String) :
    Walks dev (send dev cmd : M σ D Unit) := fun _ _ h => Reach.send cmd h

theorem walks_receive (dev : USBDevice σ) :
    Walks dev (receive dev : M σ D (Option String)) := fun _ _ h => Reach.receive h

theorem walks_readNumPorts {dev : USBDevice σ} : Walks dev (readNumPorts : M σ D Int) :=
  fun _ _ h => h

theorem walks_alloc {dev : USBDevice σ} (c : CoefficientSet.Coefficient D) :
    Walks dev (alloc c : M σ D Ptr) := fun _ _ h => h

theorem walks_pushCoeffSet {dev : USBDevice σ} (set : CoefficientSet) :
    Walks dev (pushCoeffSet set : M σ D Unit) := fun _ _ h => h

theorem walks_readAbortLoading {dev : USBDevice σ} :
    Walks dev (readAbortLoading : M σ D Bool) := by
  intro s0 w h
  unfold readAbortLoading
  split
  · exact h
  · split <;> exact h

theorem walks_ite {α : Type} {dev : USBDevice σ} {c : Prop} [Decidable c] {x y : M σ D α}
    (hx : Walks dev x) (hy : Walks dev y) : Walks dev (if c then x else y) := by
  split
  · exact hx
  · exact hy

theorem walks_readSamples (dev : USBDevice σ) (qt : QtNumeric D) (totalPoints : Nat)
    (setName paramName : String) (n : Nat) (i : Int) (t : Touchstone D) (pr : SlowProgress) :
    Walks dev (loadCoefficientSetsThreadSlow.readSamples dev qt totalPoints setName paramName n i t
      pr) := by
  induction n generalizing i t pr with
  | zero => exact walks_pure _
  | succ n ih =>
    unfold loadCoefficientSetsThreadSlow.readSamples
    refine walks_bind walks_readAbortLoading (fun b => walks_ite (walks_pure _) ?_)
    refine walks_bind (walks_Query _ _) (fun pString => ?_)
    cases t.AddDatapoint (parseDatapoint qt (split pString ',')) with
    | none => exact walks_leave _
    | some t1 =>
      exact walks_ite (walks_leave _)
        (walks_ite (walks_bind (walks_emit _) (fun _ => ih _ _ _)) (ih _ _ _))

theorem walks_createCoefficientSlow (dev : USBDevice σ) (qt : QtNumeric D) (totalPoints : Nat)
    (setName paramName : String) (pr : SlowProgress) :
    Walks dev (loadCoefficientSetsThreadSlow.createCoefficient dev qt totalPoints setName paramName
      pr) := by
  unfold loadCoefficientSetsThreadSlow.createCoefficient
  exact walks_bind (walks_Query _ _) (fun _ =>
    walks_bind (walks_readSamples _ _ _ _ _ _ _ _ _) (fun _ =>
      walks_bind (walks_alloc _) (fun _ => walks_pure _)))

theorem walks_readThroughs (dev : USBDevice σ) (qt : QtNumeric D) (totalPoints : Nat)
    (name : String) (i : Int) (js : List Int) (set : CoefficientSet) (pr : SlowProgress) :
    Walks dev (loadCoefficientSetsThreadSlow.readThroughs dev qt totalPoints name i js set pr) := by
  induction js generalizing set pr with
  | nil => exact walks_pure _
  | cons j js ih =>
    unfold loadCoefficientSetsThreadSlow.readThroughs
    exact walks_bind (walks_createCoefficientSlow _ _ _ _ _ _) (fun _ => ih _ _)

theorem walks_readPorts (dev : USBDevice σ) (qt : QtNumeric D) (totalPoints : Nat)
    (numPorts : Int) (name : String) (ports : List Int) (set : CoefficientSet)
    (pr : SlowProgress) :
    Walks dev (loadCoefficientSetsThreadSlow.readPorts dev qt totalPoints numPorts name ports set
      pr) := by
  induction ports generalizing set pr with
  | nil => exact walks_pure _
  | cons i ports ih =>
    unfold loadCoefficientSetsThreadSlow.readPorts
    exact walks_bind (walks_createCoefficientSlow _ _ _ _ _ _) (fun _ =>
      walks_bind (walks_createCoefficientSlow _ _ _ _ _ _) (fun _ =>
        walks_bind (walks_createCoefficientSlow _ _ _ _ _ _) (fun _ =>
          walks_bind (walks_readThroughs _ _ _ _ _ _ _ _) (fun _ =>
            walks_bind walks_readAbortLoading (fun _ =>
              walks_ite (walks_leave _) (ih _ _))))))

theorem walks_readSetsSlow (dev : USBDevice σ) (qt : QtNumeric D) (totalPoints : Nat)
    (numPorts : Int) (names : List String) (pr : SlowProgress) :
    Walks dev (loadCoefficientSetsThreadSlow.readSets dev qt totalPoints numPorts names pr) := by
  induction names generalizing pr with
  | nil => exact walks_pure _
  | cons name names ih =>
    unfold loadCoefficientSetsThreadSlow.readSets
    exact walks_bind (walks_readPorts _ _ _ _ _ _ _ _) (fun _ =>
      walks_bind (walks_pushCoeffSet _) (fun _ => ih _))

theorem walks_totalThroughs (dev : USBDevice σ) (qt : QtNumeric D) (name : String) (i : Int)
    (js : List Int) (totalPoints : Nat) :
    Walks dev (loadCoefficientSetsThreadSlow.totalThroughs dev qt name i js totalPoints) := by
  induction js generalizing totalPoints with
  | nil => exact walks_pure _
  | cons j js ih =>
    unfold loadCoefficientSetsThreadSlow.totalThroughs
    exact walks_bind (walks_Query _ _) (fun _ => ih _)

theorem walks_totalPorts (dev : USBDevice σ) (qt : QtNumeric D) (numPorts : Int) (name : String)
    (ports : List Int) (totalPoints : Nat) :
    Walks dev (loadCoefficientSetsThreadSlow.totalPorts dev qt numPorts name ports totalPoints) := by
  induction ports generalizing totalPoints with
  | nil => exact walks_pure _
  | cons i ports ih =>
    unfold loadCoefficientSetsThreadSlow.totalPorts
    exact walks_bind walks_readAbortLoading (fun _ => walks_ite (walks_leave _)
      (walks_bind (walks_Query _ _) (fun _ => walks_bind (walks_Query _ _) (fun _ =>
        walks_bind (walks_Query _ _) (fun _ =>
          walks_bind (walks_totalThroughs _ _ _ _ _ _) (fun _ => ih _))))))

theorem walks_totalSets (dev : USBDevice σ) (qt : QtNumeric D) (numPorts : Int)
    (names : List String) (totalPoints : Nat) :
    Walks dev (loadCoefficientSetsThreadSlow.totalSets dev qt numPorts names totalPoints) := by
  induction names generalizing totalPoints with
  | nil => exact walks_pure _
  | cons name names ih =>
    unfold loadCoefficientSetsThreadSlow.totalSets
    exact walks_bind (walks_totalPorts _ _ _ _ _ _) (fun _ => ih _)

theorem walks_receiveLines (dev : USBDevice σ) (qt : QtNumeric D) (fuel : Nat)
    (t : Touchstone D) : Walks dev (loadCoefficientSetsThreadFast.receiveLines dev qt fuel t) := by
  induction fuel generalizing t with
  | zero => exact walks_leave _
  | succ fuel ih =>
    unfold loadCoefficientSetsThreadFast.receiveLines
    refine walks_bind (walks_receive _) (fun r => ?_)
    cases r with
    | none => exact walks_pure _
    | some line =>
      refine walks_ite (walks_pure _) (walks_ite (ih _) (walks_ite (walks_pure _) ?_))
      cases t.AddDatapoint (parseDatapoint qt (split line ' ')) with
      | none => exact walks_pure _
      | some t1 => exact ih _

theorem walks_createCoefficientFast (dev : USBDevice σ) (qt : QtNumeric D) (fuel : Nat)
    (setName paramName : String) :
    Walks dev (loadCoefficientSetsThreadFast.createCoefficient dev qt fuel setName paramName) := by
  unfold loadCoefficientSetsThreadFast.createCoefficient
  exact walks_bind (walks_send _ _) (fun _ =>
    walks_bind (walks_receiveLines _ _ _ _) (fun _ => walks_alloc _))

theorem walks_readCoeffs (dev : USBDevice σ) (qt : QtNumeric D) (fuel : Nat)
    (total_coeffs : Int) (name : String) (coeffs : List String) (set : CoefficientSet)
    (read_coeffs : Int) :
    Walks dev (loadCoefficientSetsThreadFast.readCoeffs dev qt fuel total_coeffs name coeffs set
      read_coeffs) := by
  induction coeffs generalizing set read_coeffs with
  | nil => exact walks_pure _
  | cons coeff coeffs ih =>
    unfold loadCoefficientSetsThreadFast.readCoeffs
    exact walks_bind (walks_createCoefficientFast _ _ _ _ _) (fun _ =>
      walks_bind walks_readAbortLoading (fun _ => walks_ite (walks_leave _)
        (walks_ite (walks_leave _) (walks_bind (walks_emit _) (fun _ => ih _ _)))))

theorem walks_readSetsFast (dev : USBDevice σ) (qt : QtNumeric D) (fuel : Nat)
    (total_coeffs : Int) (numPorts : Int) (coeffNames : List String) (names : List String)
    (read_coeffs : Int) :
    Walks dev (loadCoefficientSetsThreadFast.readSets dev qt fuel total_coeffs numPorts coeffNames
      names read_coeffs) := by
  induction names generalizing read_coeffs with
  | nil => exact walks_pure _
  | cons name names ih =>
    unfold loadCoefficientSetsThreadFast.readSets
    exact walks_bind (walks_readCoeffs _ _ _ _ _ _ _ _) (fun _ =>
      walks_bind (walks_pushCoeffSet _) (fun _ => ih _))

end CalDevice
namespace CalDevice

open QString

variable {σ D : Type}

/-! ## The slots that the load threads fill -/

theorem endsWith_append (s suf p : String) :
    endsWith (s ++ suf) p = p.data.reverse.isPrefixOf (suf.data.reverse ++ s.data.reverse) := by
  unfold endsWith
  rw [List.isSuffixOf, String.data_append, List.reverse_append]

theorem endsWith_self (s suf : String) : endsWith (s ++ suf) suf = true := by
  rw [endsWith_append]
  exact List.isPrefixOf_iff_prefix.mpr (List.prefix_append _ _)

theorem endsWith_open (s : String) :
    endsWith (s ++ "_OPEN") "THROUGH" = false ∧ endsWith (s ++ "_OPEN") "_OPEN" = true := by
  exact ⟨by rw [endsWith_append]; rfl, endsWith_self _ _⟩

theorem endsWith_short (s : String) :
    endsWith (s ++ "_SHORT") "THROUGH" = false ∧ endsWith (s ++ "_SHORT") "_OPEN" = false ∧
    endsWith (s ++ "_SHORT") "_SHORT" = true := by
  refine ⟨?_, ?_, endsWith_self _ _⟩ <;> (rw [endsWith_append]; rfl)

theorem endsWith_load (s : String) :
    endsWith (s ++ "_LOAD") "THROUGH" = false ∧ endsWith (s ++ "_LOAD") "_OPEN" = false ∧
    endsWith (s ++ "_LOAD") "_SHORT" = false ∧ endsWith (s ++ "_LOAD") "_LOAD" = true := by
  refine ⟨?_, ?_, ?_, endsWith_self _ _⟩ <;> (rw [endsWith_append]; rfl)

theorem endsWith_through (s : String) :
    endsWith (s ++ "_THROUGH") "THROUGH" = true ∧ endsWith (s ++ "_THROUGH") "_OPEN" = false ∧
    endsWith (s ++ "_THROUGH") "_SHORT" = false ∧ endsWith (s ++ "_THROUGH") "_LOAD" = false ∧
    endsWith (s ++ "_THROUGH") "_THROUGH" = true := by
  refine ⟨?_, ?_, ?_, ?_, endsWith_self _ _⟩ <;> (rw [endsWith_append]; rfl)

theorem tagAt_append_length (heap : List (CoefficientSet.Coefficient D))
    (co : CoefficientSet.Coefficient D) :
    tagAt (heap ++ [co]) heap.length = some (co.t.filename, co.t.ports) := by
  simp [tagAt]

theorem Retrieved.onLargerHeap {dev : USBDevice σ} {qt : QtNumeric D} {fuel : Nat} {fast : Bool}
    {s0 : σ} {setName paramName : String} {h h1 : List (CoefficientSet.Coefficient D)}
    (hp : h <+: h1) {c : Ptr} (hr : Retrieved dev qt fuel fast s0 setName paramName h c) :
    Retrieved dev qt fuel fast s0 setName paramName h1 c := by
  obtain ⟨co, hc, hcall⟩ := hr
  obtain ⟨l, rfl⟩ := hp
  refine ⟨co, ?_, hcall⟩
  have hlt : c < h.length := (List.getElem?_eq_some.mp hc).1
  rw [List.getElem?_append_left hlt, hc]

/-- The state of the channel after code that reached its end. -/
theorem reach_of_ok {α : Type} {dev : USBDevice σ} {m : M σ D α} (hm : Walks dev m) {s0 : σ}
    {w w1 : CalDevice σ D} {a : α} (h : m w = .ok a w1) (hr : Reach dev s0 w.usb) :
    Reach dev s0 w1.usb := by
  have h1 := hm s0 w hr
  rw [h] at h1
  exact h1

/-- The worker had not seen the abort flag before code after which it has not seen it. -/
theorem flag_before {α : Type} {strict : Bool} {m : M σ D α} (hm : Frozen strict m)
    {w w1 : CalDevice σ D} {a : α} (h : m w = .ok a w1) (hflag : w1.abortLoading = false) :
    w.abortLoading = false := by
  by_contra hcon
  have h1 := (hm w (by simpa using hcon)).1
  rw [h] at h1
  have h2 : w1.abortLoading = true := h1
  rw [hflag] at h2
  exact absurd h2 (by simp)

/-- A read of the abort flag that gives `false`. -/
theorem readAbortLoading_false {w w1 : CalDevice σ D} (h : readAbortLoading w = .ok false w1) :
    w.abortLoading = false ∧ w1.abortLoading = false ∧ w1.usb = w.usb ∧ w1.heap = w.heap := by
  unfold readAbortLoading at h
  by_cases hf : w.abortLoading = true
  · rw [if_pos hf] at h
    cases h
  · rw [if_neg hf] at h
    have hf2 : w.abortLoading = false := by simpa using hf
    cases hr : w.abortRequest with
    | none =>
      rw [hr] at h
      cases h
      exact ⟨hf2, hf2, rfl, rfl⟩
    | some k =>
      rw [hr] at h
      cases k with
      | zero => cases h
      | succ k =>
        cases h
        exact ⟨hf2, hf2, rfl, rfl⟩

theorem SlotsFilled.imp {R S : String → Ptr → Prop} (hRS : ∀ x c, R x c → S x c)
    {numPorts : Int} {ports : List Int} {opens shorts loads throughs : List Ptr}
    (hl : SlotsFilled R numPorts ports opens shorts loads throughs) :
    SlotsFilled S numPorts ports opens shorts loads throughs :=
  ⟨hl.1.imp hRS, hl.2.1.imp hRS, hl.2.2.1.imp hRS, hl.2.2.2.imp hRS⟩

theorem SetFilled.setOnLargerHeap {dev : USBDevice σ} {qt : QtNumeric D} {fuel : Nat}
    {fast : Bool} {s0 : σ} {h h1 : List (CoefficientSet.Coefficient D)} (hp : h <+: h1)
    {numPorts : Int} {set : CoefficientSet} (hl : SetFilled dev qt fuel fast s0 h numPorts set) :
    SetFilled dev qt fuel fast s0 h1 numPorts set :=
  ⟨hl.1, hl.2.imp (fun _ _ hr => hr.onLargerHeap hp)⟩

theorem forall₂_append {α β : Type} {R : α → β → Prop} {l1 l2 : List α} {m1 m2 : List β}
    (h1 : List.Forall₂ R l1 m1) (h2 : List.Forall₂ R l2 m2) :
    List.Forall₂ R (l1 ++ l2) (m1 ++ m2) := by
  induction h1 with
  | nil => exact h2
  | cons hab _ ih => exact List.Forall₂.cons hab ih

theorem AddDatapoint_tag {t t1 : Touchstone D} {p : Touchstone.Datapoint D}
    (h : t.AddDatapoint p = some t1) : t1.filename = t.filename ∧ t1.ports = t.ports := by
  unfold Touchstone.AddDatapoint at h
  split at h
  · cases h
    exact ⟨rfl, rfl⟩
  · cases h

/-- The sample loop of the polling strategy keeps the file name and the port count of the
response. -/
theorem readSamples_tag (dev : USBDevice σ) (qt : QtNumeric D) (totalPoints : Nat)
    (setName paramName : String) (n : Nat) (i : Int) (t : Touchstone D) (pr : SlowProgress)
    (w w1 : CalDevice σ D) (r : Touchstone D × SlowProgress)
    (h : loadCoefficientSetsThreadSlow.readSamples dev qt totalPoints setName paramName n i t pr w
      = .ok r w1) : r.1.filename = t.filename ∧ r.1.ports = t.ports := by
  induction n generalizing i t pr w with
  | zero =>
    cases h
    exact ⟨rfl, rfl⟩
  | succ n ih =>
    unfold loadCoefficientSetsThreadSlow.readSamples at h
    obtain ⟨b, w2, -, h2⟩ := bind_eq_ok h
    cases b with
    | true =>
      cases h2
      exact ⟨rfl, rfl⟩
    | false =>
      simp only [Bool.false_eq_true, if_false] at h2
      obtain ⟨pString, w3, -, h3⟩ := bind_eq_ok h2
      cases hadd : t.AddDatapoint (parseDatapoint qt (split pString ',')) with
      | none =>
        rw [hadd] at h3
        cases h3
      | some t1 =>
        rw [hadd] at h3
        simp only at h3
        obtain ⟨e1, e2⟩ := AddDatapoint_tag hadd
        split at h3
        · cases h3
        · split at h3
          · obtain ⟨u, w4, -, h4⟩ := bind_eq_ok h3
            have := ih _ _ _ _ h4
            exact ⟨this.1.trans e1, this.2.trans e2⟩
          · have := ih _ _ _ _ h3
            exact ⟨this.1.trans e1, this.2.trans e2⟩

/-- The lambda of the polling strategy returns the address of an object whose response has the
file name of the identifier and two ports for a through, one port otherwise. -/
theorem createCoefficientSlow_tag (dev : USBDevice σ) (qt : QtNumeric D) (totalPoints : Nat)
    (setName paramName : String) (pr : SlowProgress) (w w1 : CalDevice σ D)
    (r : Ptr × SlowProgress)
    (h : loadCoefficientSetsThreadSlow.createCoefficient dev qt totalPoints setName paramName pr w
      = .ok r w1) :
    tagAt w1.heap r.1
      = some ("LibreCAL/" ++ paramName, if endsWith paramName "THROUGH" then 2 else 1) ∧
    w.heap <+: w1.heap ∧ w1.coeffSets = w.coeffSets := by
  have hin := inner_createCoefficientSlow dev qt totalPoints setName paramName pr w
  rw [h] at hin
  refine ⟨?_, hin.2, hin.1⟩
  unfold loadCoefficientSetsThreadSlow.createCoefficient at h
  obtain ⟨n, w2, -, h2⟩ := bind_eq_ok h
  obtain ⟨rs, w3, h3, h4⟩ := bind_eq_ok h2
  obtain ⟨e1, e2⟩ := readSamples_tag _ _ _ _ _ _ _ _ _ _ _ _ h3
  cases h4
  rw [tagAt_append_length]
  simp only [Touchstone.setFilename, e2]
  split <;> rfl

/-- The object that the lambda of the polling strategy returns is one retrieved for its set and
its identifier, when the worker has not seen the abort flag by then. -/
theorem createCoefficientSlow_retrieved (dev : USBDevice σ) (qt : QtNumeric D) (fuel : Nat)
    (totalPoints : Nat) (setName paramName : String) (pr : SlowProgress) (s0 : σ)
    (w w1 : CalDevice σ D) (r : Ptr × SlowProgress)
    (h : loadCoefficientSetsThreadSlow.createCoefficient dev qt totalPoints setName paramName pr w
      = .ok r w1) (hr : Reach dev s0 w.usb) (hflag : w1.abortLoading = false) :
    Retrieved dev qt fuel false s0 setName paramName w1.heap r.1 ∧ w.heap <+: w1.heap ∧
    Reach dev s0 w1.usb ∧ w.abortLoading = false := by
  obtain ⟨ht, hp, -⟩ := createCoefficientSlow_tag _ _ _ _ _ _ _ _ _ h
  refine ⟨?_, hp, reach_of_ok (walks_createCoefficientSlow _ _ _ _ _ _) h hr,
    flag_before (frozen_createCoefficientSlow _ _ _ _ _ _) h hflag⟩
  unfold tagAt at ht
  cases hc : w1.heap[r.1]? with
  | none => simp [hc] at ht
  | some co =>
    refine ⟨co, hc, ?_⟩
    simp only [Bool.false_eq_true, if_false]
    exact ⟨totalPoints, pr, r.2, w, w1, hr, h, hflag, hc⟩

end CalDevice
namespace CalDevice

open QString

variable {σ D : Type}

/-! ## The slots that the polling strategy fills -/

theorem readThroughs_filled (dev : USBDevice σ) (qt : QtNumeric D) (fuel : Nat)
    (totalPoints : Nat) (name : String) (i : Int) (js : List Int) (set : CoefficientSet)
    (pr : SlowProgress) (s0 : σ) (w w1 : CalDevice σ D) (r : CoefficientSet × SlowProgress)
    (h : loadCoefficientSetsThreadSlow.readThroughs dev qt totalPoints name i js set pr w
      = .ok r w1) (hr : Reach dev s0 w.usb) (hflag : w1.abortLoading = false) :
    w.heap <+: w1.heap ∧ Reach dev s0 w1.usb ∧ w.abortLoading = false ∧
    r.1.ports = set.ports ∧ r.1.opens = set.opens ∧
    r.1.shorts = set.shorts ∧ r.1.loads = set.loads ∧
    ∃ new, r.1.throughs = set.throughs ++ new ∧
      List.Forall₂ (fun paramName c => Retrieved dev qt fuel false s0 name paramName w1.heap c)
        (js.map (fun j => "P" ++ number i ++ number j ++ "_THROUGH")) new := by
  induction js generalizing set pr w with
  | nil =>
    cases h
    exact ⟨List.prefix_refl _, hr, hflag, rfl, rfl, rfl, rfl, [], by simp, List.Forall₂.nil⟩
  | cons j js ih =>
    unfold loadCoefficientSetsThreadSlow.readThroughs at h
    obtain ⟨r1, w2, h1, h2⟩ := bind_eq_ok h
    have hr2 := reach_of_ok (walks_createCoefficientSlow _ _ _ _ _ _) h1 hr
    obtain ⟨p2, hr1, hf2, e1, e2, e3, e4, new, e5, e6⟩ := ih _ _ _ h2 hr2
    obtain ⟨t1, p1, -, hf1⟩ := createCoefficientSlow_retrieved _ _ fuel _ _ _ _ _ _ _ _ h1 hr hf2
    refine ⟨p1.trans p2, hr1, hf1, e1, e2, e3, e4, r1.1 :: new, ?_, ?_⟩
    · rw [e5]
      simp
    · exact List.Forall₂.cons (t1.onLargerHeap p2) e6

theorem readPorts_filled (dev : USBDevice σ) (qt : QtNumeric D) (fuel : Nat) (totalPoints : Nat)
    (numPorts : Int) (name : String) (ports : List Int) (set : CoefficientSet)
    (pr : SlowProgress) (s0 : σ) (w w1 : CalDevice σ D) (r : CoefficientSet × SlowProgress)
    (h : loadCoefficientSetsThreadSlow.readPorts dev qt totalPoints numPorts name ports set pr w
      = .ok r w1) (hr : Reach dev s0 w.usb) :
    w.heap <+: w1.heap ∧ Reach dev s0 w1.usb ∧ r.1.ports = set.ports ∧
    ∃ no ns nl nt, r.1.opens = set.opens ++ no ∧ r.1.shorts = set.shorts ++ ns ∧
      r.1.loads = set.loads ++ nl ∧ r.1.throughs = set.throughs ++ nt ∧
      SlotsFilled (fun paramName c => Retrieved dev qt fuel false s0 name paramName w1.heap c)
        numPorts ports no ns nl nt := by
  induction ports generalizing set pr w with
  | nil =>
    cases h
    exact ⟨List.prefix_refl _, hr, rfl, [], [], [], [], by simp, by simp, by simp, by simp,
      List.Forall₂.nil, List.Forall₂.nil, List.Forall₂.nil, List.Forall₂.nil⟩
  | cons i ports ih =>
    unfold loadCoefficientSetsThreadSlow.readPorts at h
    obtain ⟨r1, w2, h1, h2⟩ := bind_eq_ok h
    obtain ⟨r2, w3, h3, h4⟩ := bind_eq_ok h2
    obtain ⟨r3, w4, h5, h6⟩ := bind_eq_ok h4
    obtain ⟨r4, w5, h7, h8⟩ := bind_eq_ok h6
    obtain ⟨b, w6, h9, h10⟩ := bind_eq_ok h8
    cases b with
    | true => cases h10
    | false =>
      simp only [Bool.false_eq_true, if_false] at h10
      obtain ⟨hf5, -, hu6, hh6⟩ := readAbortLoading_false h9
      have hr2 := reach_of_ok (walks_createCoefficientSlow _ _ _ _ _ _) h1 hr
      have hr3 := reach_of_ok (walks_createCoefficientSlow _ _ _ _ _ _) h3 hr2
      have hr4 := reach_of_ok (walks_createCoefficientSlow _ _ _ _ _ _) h5 hr3
      obtain ⟨p4, hr5, hf4, e1, e2, e3, e4, nt4, e5, e6⟩ :=
        readThroughs_filled _ _ fuel _ _ _ _ _ _ _ _ _ _ h7 hr4 hf5
      obtain ⟨t3, p3, -, hf3⟩ := createCoefficientSlow_retrieved _ _ fuel _ _ _ _ _ _ _ _ h5 hr3 hf4
      obtain ⟨t2, p2, -, hf2⟩ := createCoefficientSlow_retrieved _ _ fuel _ _ _ _ _ _ _ _ h3 hr2 hf3
      obtain ⟨t1, p1, -, -⟩ := createCoefficientSlow_retrieved _ _ fuel _ _ _ _ _ _ _ _ h1 hr hf2
      have p5 : w5.heap <+: w6.heap := by
        rw [hh6]
      have hr6 : Reach dev s0 w6.usb := by
        rw [hu6]
        exact hr5
      obtain ⟨p6, hr7, f1, no, ns, nl, nt, f2, f3, f4, f5, f6⟩ := ih _ _ _ h10 hr6
      refine ⟨((((p1.trans p2).trans p3).trans p4).trans p5).trans p6, hr7, f1.trans e1,
        r1.1 :: no, r2.1 :: ns, r3.1 :: nl, nt4 ++ nt, ?_, ?_, ?_, ?_, ?_, ?_, ?_, ?_⟩
      · rw [f2, e2]
        simp
      · rw [f3, e3]
        simp
      · rw [f4, e4]
        simp
      · rw [f5, e5]
        simp
      · exact List.Forall₂.cons
          (t1.onLargerHeap ((((p2.trans p3).trans p4).trans p5).trans p6)) f6.1
      · exact List.Forall₂.cons (t2.onLargerHeap (((p3.trans p4).trans p5).trans p6)) f6.2.1
      · exact List.Forall₂.cons (t3.onLargerHeap ((p4.trans p5).trans p6)) f6.2.2.1
      · rw [List.flatMap_cons]
        exact forall₂_append (e6.imp (fun _ _ hr => hr.onLargerHeap (p5.trans p6))) f6.2.2.2

/-- The loop over the sets of the polling strategy, however it ends: every set of the collection
holds, slot by slot, the objects retrieved for its coefficients, when that was so at the
start. -/
theorem readSetsSlow_filled (dev : USBDevice σ) (qt : QtNumeric D) (fuel : Nat)
    (totalPoints : Nat) (numPorts : Int) (names : List String) (pr : SlowProgress) (s0 : σ)
    (w : CalDevice σ D) (hw : Filled dev qt fuel false s0 numPorts w) :
    Filled dev qt fuel false s0 numPorts
      (loadCoefficientSetsThreadSlow.readSets dev qt totalPoints numPorts names pr w).state := by
  induction names generalizing pr w with
  | nil => exact hw
  | cons name names ih =>
    unfold loadCoefficientSetsThreadSlow.readSets
    have hin := inner_readPorts dev qt totalPoints numPorts name (intRange 1 numPorts)
      { name := name, ports := numPorts, opens := [], shorts := [], loads := [],
        throughs := [] } pr w
    have hwalk := walks_readPorts dev qt totalPoints numPorts name (intRange 1 numPorts)
      { name := name, ports := numPorts, opens := [], shorts := [], loads := [],
        throughs := [] } pr s0 w hw.1
    cases h : loadCoefficientSetsThreadSlow.readPorts dev qt totalPoints numPorts name
        (intRange 1 numPorts)
        { name := name, ports := numPorts, opens := [], shorts := [], loads := [],
          throughs := [] } pr w with
    | ok r w1 =>
      rw [h] at hin hwalk
      obtain ⟨p1, -, e1, no, ns, nl, nt, f2, f3, f4, f5, f6⟩ :=
        readPorts_filled _ _ fuel _ _ _ _ _ _ _ _ _ _ h hw.1
      have hname := readPorts_name _ _ _ _ _ _ _ _ _ _ _ h
      rw [bind_ok h, bind_ok (show pushCoeffSet r.1 w1 = _ from rfl)]
      apply ih
      refine ⟨hwalk, ?_⟩
      intro set hset
      have hset2 : set ∈ w1.coeffSets ++ [r.1] := hset
      rw [show w1.coeffSets = w.coeffSets from hin.1] at hset2
      rcases List.mem_append.mp hset2 with hs | hs
      · exact (hw.2 set hs).setOnLargerHeap p1
      · have e : set = r.1 := by simpa using hs
        subst e
        simp only [List.nil_append] at f2 f3 f4 f5
        refine ⟨e1, ?_⟩
        rw [f2, f3, f4, f5, hname]
        exact f6
    | exit e w1 =>
      rw [h] at hin hwalk
      rw [bind_exit h]
      refine ⟨hwalk, ?_⟩
      intro set hset
      have hset2 : set ∈ w1.coeffSets := hset
      rw [show w1.coeffSets = w.coeffSets from hin.1] at hset2
      exact (hw.2 set hset2).setOnLargerHeap hin.2

end CalDevice
namespace CalDevice

open QString

variable {σ D : Type}

/-! ## The slots that the streaming strategy fills -/

/-- The loop that reads the lines of a stream keeps the file name and the port count of the
response. -/
theorem receiveLines_tag (dev : USBDevice σ) (qt : QtNumeric D) (fuel : Nat) (t : Touchstone D)
    (w w1 : CalDevice σ D) (r : Touchstone D)
    (h : loadCoefficientSetsThreadFast.receiveLines dev qt fuel t w = .ok r w1) :
    r.filename = t.filename ∧ r.ports = t.ports := by
  induction fuel generalizing t w with
  | zero => cases h
  | succ fuel ih =>
    unfold loadCoefficientSetsThreadFast.receiveLines at h
    obtain ⟨line, w2, -, h2⟩ := bind_eq_ok h
    cases line with
    | none =>
      cases h2
      exact ⟨rfl, rfl⟩
    | some line =>
      simp only at h2
      split at h2
      · cases h2
        exact ⟨rfl, rfl⟩
      · split at h2
        · exact ih _ _ h2
        · split at h2
          · cases h2
            exact ⟨rfl, rfl⟩
          · cases hadd : t.AddDatapoint (parseDatapoint qt (split line ' ')) with
            | none =>
              rw [hadd] at h2
              cases h2
              exact ⟨rfl, rfl⟩
            | some t1 =>
              rw [hadd] at h2
              obtain ⟨e1, e2⟩ := AddDatapoint_tag hadd
              have := ih _ _ h2
              exact ⟨this.1.trans e1, this.2.trans e2⟩

/-- The lambda of the streaming strategy returns the address of an object whose response has the
file name of the identifier and two ports for a through, one port otherwise. -/
theorem createCoefficientFast_tag (dev : USBDevice σ) (qt : QtNumeric D) (fuel : Nat)
    (setName paramName : String) (w w1 : CalDevice σ D) (c : Ptr)
    (h : loadCoefficientSetsThreadFast.createCoefficient dev qt fuel setName paramName w
      = .ok c w1) :
    tagAt w1.heap c
      = some ("LibreCAL/" ++ paramName, if endsWith paramName "THROUGH" then 2 else 1) ∧
    w.heap <+: w1.heap := by
  have hin := inner_createCoefficientFast dev qt fuel setName paramName w
  rw [h] at hin
  refine ⟨?_, hin.2⟩
  unfold loadCoefficientSetsThreadFast.createCoefficient at h
  obtain ⟨u, w2, -, h2⟩ := bind_eq_ok h
  obtain ⟨t, w3, h3, h4⟩ := bind_eq_ok h2
  obtain ⟨e1, e2⟩ := receiveLines_tag _ _ _ _ _ _ _ h3
  cases h4
  rw [tagAt_append_length, e1, e2]
  simp only [Touchstone.setFilename]
  split <;> rfl

/-- The object that the lambda of the streaming strategy returns is one retrieved for its set
and its identifier. -/
theorem createCoefficientFast_retrieved (dev : USBDevice σ) (qt : QtNumeric D) (fuel : Nat)
    (setName paramName : String) (s0 : σ) (w w1 : CalDevice σ D) (c : Ptr)
    (h : loadCoefficientSetsThreadFast.createCoefficient dev qt fuel setName paramName w
      = .ok c w1) (hr : Reach dev s0 w.usb) :
    Retrieved dev qt fuel true s0 setName paramName w1.heap c ∧ w.heap <+: w1.heap ∧
    Reach dev s0 w1.usb := by
  obtain ⟨ht, hp⟩ := createCoefficientFast_tag _ _ _ _ _ _ _ _ h
  refine ⟨?_, hp, reach_of_ok (walks_createCoefficientFast _ _ _ _ _) h hr⟩
  unfold tagAt at ht
  cases hc : w1.heap[c]? with
  | none => simp [hc] at ht
  | some co =>
    refine ⟨co, hc, ?_⟩
    simp only [if_true]
    exact ⟨w, w1, hr, h, hc⟩

/-- An object retrieved for an identifier has the file name of the identifier and two ports for
a through, one port otherwise. -/
theorem Retrieved.tag {dev : USBDevice σ} {qt : QtNumeric D} {fuel : Nat} {fast : Bool}
    {s0 : σ} {setName paramName : String} {heap : List (CoefficientSet.Coefficient D)} {c : Ptr}
    (hr : Retrieved dev qt fuel fast s0 setName paramName heap c) :
    tagAt heap c
      = some ("LibreCAL/" ++ paramName, if endsWith paramName "THROUGH" then 2 else 1) := by
  obtain ⟨co, hc, hcall⟩ := hr
  cases fast with
  | true =>
    simp only [if_true] at hcall
    obtain ⟨w, w1, -, h, hc1⟩ := hcall
    have ht := (createCoefficientFast_tag _ _ _ _ _ _ _ _ h).1
    unfold tagAt at ht ⊢
    rw [hc1] at ht
    rw [hc]
    exact ht
  | false =>
    simp only [Bool.false_eq_true, if_false] at hcall
    obtain ⟨tp, pr, pr1, w, w1, -, h, -, hc1⟩ := hcall
    have ht := (createCoefficientSlow_tag _ _ _ _ _ _ _ _ _ h).1
    unfold tagAt at ht ⊢
    rw [hc1] at ht
    rw [hc]
    exact ht

/-- One turn of the loop over the coefficients of the streaming strategy that goes on: the
object built for the coefficient is filed in the set. -/
theorem readCoeffs_cons_ok (dev : USBDevice σ) (qt : QtNumeric D) (fuel : Nat)
    (total_coeffs : Int) (name coeff : String) (coeffs : List String) (set : CoefficientSet)
    (read_coeffs : Int) (s0 : σ) (w w1 : CalDevice σ D) (r : CoefficientSet × Int)
    (h : loadCoefficientSetsThreadFast.readCoeffs dev qt fuel total_coeffs name (coeff :: coeffs)
      set read_coeffs w = .ok r w1) (hr : Reach dev s0 w.usb) :
    ∃ c w2 rc2, Retrieved dev qt fuel true s0 name coeff w2.heap c ∧ w.heap <+: w2.heap ∧
      Reach dev s0 w2.usb ∧
      loadCoefficientSetsThreadFast.readCoeffs dev qt fuel total_coeffs name coeffs
        (loadCoefficientSetsThreadFast.store set coeff c) rc2 w2 = .ok r w1 := by
  unfold loadCoefficientSetsThreadFast.readCoeffs at h
  obtain ⟨c, w2, h1, h2⟩ := bind_eq_ok h
  obtain ⟨b, w3, h3, h4⟩ := bind_eq_ok h2
  obtain ⟨t1, p1, hr2⟩ := createCoefficientFast_retrieved _ _ _ _ _ _ _ _ _ h1 hr
  have hr3 := reach_of_ok
    (walks_readAbortLoading : Walks dev (readAbortLoading : M σ D Bool)) h3 hr2
  have p2 : w2.heap <+: w3.heap := by
    have := (inner_readAbortLoading (σ := σ) (D := D) w2).2
    rw [h3] at this
    exact this
  cases b with
  | true => cases h4
  | false =>
    simp only [Bool.false_eq_true, if_false] at h4
    split at h4
    · cases h4
    · obtain ⟨u, w4, h5, h6⟩ := bind_eq_ok h4
      cases h5
      refine ⟨c, _, _, ?_, ?_, ?_, h6⟩
      · exact t1.onLargerHeap p2
      · exact p1.trans p2
      · exact hr3

theorem store_open (set : CoefficientSet) (s : String) (c : Ptr) :
    loadCoefficientSetsThreadFast.store set (s ++ "_OPEN") c
      = { set with opens := set.opens ++ [c] } := by
  unfold loadCoefficientSetsThreadFast.store
  rw [(endsWith_open s).2]
  rfl

theorem store_short (set : CoefficientSet) (s : String) (c : Ptr) :
    loadCoefficientSetsThreadFast.store set (s ++ "_SHORT") c
      = { set with shorts := set.shorts ++ [c] } := by
  unfold loadCoefficientSetsThreadFast.store
  rw [(endsWith_short s).2.1, (endsWith_short s).2.2]
  rfl

theorem store_load (set : CoefficientSet) (s : String) (c : Ptr) :
    loadCoefficientSetsThreadFast.store set (s ++ "_LOAD") c
      = { set with loads := set.loads ++ [c] } := by
  unfold loadCoefficientSetsThreadFast.store
  rw [(endsWith_load s).2.1, (endsWith_load s).2.2.1, (endsWith_load s).2.2.2]
  rfl

theorem store_through (set : CoefficientSet) (s : String) (c : Ptr) :
    loadCoefficientSetsThreadFast.store set (s ++ "_THROUGH") c
      = { set with throughs := set.throughs ++ [c] } := by
  unfold loadCoefficientSetsThreadFast.store
  rw [(endsWith_through s).2.1, (endsWith_through s).2.2.1, (endsWith_through s).2.2.2.1,
    (endsWith_through s).2.2.2.2]
  rfl

/-- The turns of the loop over the coefficients for the throughs of port `i`. -/
theorem readCoeffs_throughs_filled (dev : USBDevice σ) (qt : QtNumeric D) (fuel : Nat)
    (total_coeffs : Int) (name : String) (i : Int) (js : List Int) (rest : List String)
    (set : CoefficientSet) (read_coeffs : Int) (s0 : σ) (w w1 : CalDevice σ D)
    (r : CoefficientSet × Int)
    (h : loadCoefficientSetsThreadFast.readCoeffs dev qt fuel total_coeffs name
      (js.map (fun j => "P" ++ number i ++ number j ++ "_THROUGH") ++ rest) set read_coeffs w
        = .ok r w1) (hr : Reach dev s0 w.usb) :
    ∃ set2 rc2 w2, loadCoefficientSetsThreadFast.readCoeffs dev qt fuel total_coeffs name rest
        set2 rc2 w2 = .ok r w1 ∧
      w.heap <+: w2.heap ∧ Reach dev s0 w2.usb ∧ set2.ports = set.ports ∧
      set2.opens = set.opens ∧ set2.shorts = set.shorts ∧ set2.loads = set.loads ∧
      ∃ new, set2.throughs = set.throughs ++ new ∧
        List.Forall₂ (fun paramName c => Retrieved dev qt fuel true s0 name paramName w2.heap c)
          (js.map (fun j => "P" ++ number i ++ number j ++ "_THROUGH")) new := by
  induction js generalizing set read_coeffs w with
  | nil =>
    exact ⟨set, read_coeffs, w, h, List.prefix_refl _, hr, rfl, rfl, rfl, rfl, [], by simp,
      List.Forall₂.nil⟩
  | cons j js ih =>
    rw [List.map_cons, List.cons_append] at h
    obtain ⟨c, w2, rc2, t1, p1, hr2, h2⟩ := readCoeffs_cons_ok _ _ _ _ _ _ _ _ _ _ _ _ _ h hr
    rw [store_through] at h2
    obtain ⟨set3, rc3, w3, h3, p2, hr3, e1, e2, e3, e4, new, e5, e6⟩ := ih _ _ _ h2 hr2
    refine ⟨set3, rc3, w3, h3, p1.trans p2, hr3, e1, e2, e3, e4, c :: new, ?_, ?_⟩
    · rw [e5]
      simp
    · exact List.Forall₂.cons (t1.onLargerHeap p2) e6

/-- The turns of the loop over the coefficients for the ports `ports`. -/
theorem readCoeffs_ports_filled (dev : USBDevice σ) (qt : QtNumeric D) (fuel : Nat)
    (total_coeffs : Int) (name : String) (numPorts : Int) (ports : List Int)
    (set : CoefficientSet) (read_coeffs : Int) (s0 : σ) (w w1 : CalDevice σ D)
    (r : CoefficientSet × Int)
    (h : loadCoefficientSetsThreadFast.readCoeffs dev qt fuel total_coeffs name
      (ports.flatMap (portCoeffNames numPorts)) set read_coeffs w = .ok r w1)
    (hr : Reach dev s0 w.usb) :
    w.heap <+: w1.heap ∧ Reach dev s0 w1.usb ∧ r.1.ports = set.ports ∧
    ∃ no ns nl nt, r.1.opens = set.opens ++ no ∧ r.1.shorts = set.shorts ++ ns ∧
      r.1.loads = set.loads ++ nl ∧ r.1.throughs = set.throughs ++ nt ∧
      SlotsFilled (fun paramName c => Retrieved dev qt fuel true s0 name paramName w1.heap c)
        numPorts ports no ns nl nt := by
  induction ports generalizing set read_coeffs w with
  | nil =>
    cases h
    exact ⟨List.prefix_refl _, hr, rfl, [], [], [], [], by simp, by simp, by simp, by simp,
      List.Forall₂.nil, List.Forall₂.nil, List.Forall₂.nil, List.Forall₂.nil⟩
  | cons i ports ih =>
    rw [List.flatMap_cons] at h
    unfold portCoeffNames at h
    simp only [List.cons_append, List.nil_append, List.append_assoc] at h
    obtain ⟨c1, w2, rc2, t1, p1, hr2, h2⟩ := readCoeffs_cons_ok _ _ _ _ _ _ _ _ _ _ _ _ _ h hr
    obtain ⟨c2, w3, rc3, t2, p2, hr3, h3⟩ := readCoeffs_cons_ok _ _ _ _ _ _ _ _ _ _ _ _ _ h2 hr2
    obtain ⟨c3, w4, rc4, t3, p3, hr4, h4⟩ := readCoeffs_cons_ok _ _ _ _ _ _ _ _ _ _ _ _ _ h3 hr3
    rw [store_open, store_short, store_load] at h4
    obtain ⟨set5, rc5, w5, h5, p4, hr5, e1, e2, e3, e4, nt4, e5, e6⟩ :=
      readCoeffs_throughs_filled _ _ _ _ _ _ _ _ _ _ _ _ _ _ h4 hr4
    obtain ⟨p6, hr6, f1, no, ns, nl, nt, f2, f3, f4, f5, f6⟩ := ih _ _ _ h5 hr5
    refine ⟨(((p1.trans p2).trans p3).trans p4).trans p6, hr6, f1.trans e1,
      c1 :: no, c2 :: ns, c3 :: nl, nt4 ++ nt, ?_, ?_, ?_, ?_, ?_, ?_, ?_, ?_⟩
    · rw [f2, e2]
      simp
    · rw [f3, e3]
      simp
    · rw [f4, e4]
      simp
    · rw [f5, e5]
      simp
    · exact List.Forall₂.cons (t1.onLargerHeap (((p2.trans p3).trans p4).trans p6)) f6.1
    · exact List.Forall₂.cons (t2.onLargerHeap ((p3.trans p4).trans p6)) f6.2.1
    · exact List.Forall₂.cons (t3.onLargerHeap (p4.trans p6)) f6.2.2.1
    · rw [List.flatMap_cons]
      exact forall₂_append (e6.imp (fun _ _ hr => hr.onLargerHeap p6)) f6.2.2.2

/-- The loop over the sets of the streaming strategy, however it ends: every set of the
collection holds, slot by slot, the objects retrieved for its coefficients, when that was so at the
start. -/
theorem readSetsFast_filled (dev : USBDevice σ) (qt : QtNumeric D) (fuel : Nat)
    (total_coeffs : Int) (numPorts : Int) (names : List String) (read_coeffs : Int) (s0 : σ)
    (w : CalDevice σ D) (hw : Filled dev qt fuel true s0 numPorts w) :
    Filled dev qt fuel true s0 numPorts
      (loadCoefficientSetsThreadFast.readSets dev qt fuel total_coeffs numPorts
        (loadCoefficientSetsThreadFast.coeffNames numPorts) names read_coeffs w).state := by
  induction names generalizing read_coeffs w with
  | nil => exact hw
  | cons name names ih =>
    unfold loadCoefficientSetsThreadFast.readSets
    have hin := inner_readCoeffs dev qt fuel total_coeffs name
      (loadCoefficientSetsThreadFast.coeffNames numPorts)
      { name := name, ports := numPorts, opens := [], shorts := [], loads := [],
        throughs := [] } read_coeffs w
    have hwalk := walks_readCoeffs dev qt fuel total_coeffs name
      (loadCoefficientSetsThreadFast.coeffNames numPorts)
      { name := name, ports := numPorts, opens := [], shorts := [], loads := [],
        throughs := [] } read_coeffs s0 w hw.1
    cases h : loadCoefficientSetsThreadFast.readCoeffs dev qt fuel total_coeffs name
        (loadCoefficientSetsThreadFast.coeffNames numPorts)
        { name := name, ports := numPorts, opens := [], shorts := [], loads := [],
          throughs := [] } read_coeffs w with
    | ok r w1 =>
      rw [h] at hin hwalk
      obtain ⟨p1, -, e1, no, ns, nl, nt, f2, f3, f4, f5, f6⟩ :=
        readCoeffs_ports_filled _ _ _ _ _ _ _ _ _ _ _ _ _ h hw.1
      have hname := readCoeffs_name _ _ _ _ _ _ _ _ _ _ _ h
      rw [bind_ok h, bind_ok (show pushCoeffSet r.1 w1 = _ from rfl)]
      apply ih
      refine ⟨hwalk, ?_⟩
      intro set hset
      have hset2 : set ∈ w1.coeffSets ++ [r.1] := hset
      rw [show w1.coeffSets = w.coeffSets from hin.1] at hset2
      rcases List.mem_append.mp hset2 with hs | hs
      · exact (hw.2 set hs).setOnLargerHeap p1
      · have e : set = r.1 := by simpa using hs
        subst e
        simp only [List.nil_append] at f2 f3 f4 f5
        refine ⟨e1, ?_⟩
        rw [f2, f3, f4, f5, hname]
        exact f6
    | exit e w1 =>
      rw [h] at hin hwalk
      rw [bind_exit h]
      refine ⟨hwalk, ?_⟩
      intro set hset
      have hset2 : set ∈ w1.coeffSets := hset
      rw [show w1.coeffSets = w.coeffSets from hin.1] at hset2
      exact (hw.2 set hset2).setOnLargerHeap hin.2

end CalDevice
namespace CalDevice

open QString

variable {σ D : Type}

/-! ## The slots of the sets after a load -/

theorem filled_of_inner {α : Type} {m : M σ D α} (hin : Inner m) (dev : USBDevice σ)
    (hwalk : Walks dev m) (qt : QtNumeric D) (fuel : Nat) (fast : Bool) (s0 : σ) (N : Int)
    (w : CalDevice σ D) (hw : Filled dev qt fuel fast s0 N w) :
    Filled dev qt fuel fast s0 N (m w).state := by
  refine ⟨hwalk s0 w hw.1, ?_⟩
  intro set hset
  rw [(hin w).1] at hset
  exact (hw.2 set hset).setOnLargerHeap (hin w).2

theorem filled_bind {α β : Type} {m : M σ D α} {f : α → M σ D β} (dev : USBDevice σ)
    (qt : QtNumeric D) (fuel : Nat) (fast : Bool) (s0 : σ) (N : Int)
    (hm : ∀ w, Filled dev qt fuel fast s0 N w → Filled dev qt fuel fast s0 N (m w).state)
    (hf : ∀ a w, Filled dev qt fuel fast s0 N w → Filled dev qt fuel fast s0 N (f a w).state)
    (w : CalDevice σ D) (hw : Filled dev qt fuel fast s0 N w) :
    Filled dev qt fuel fast s0 N ((m >>= f) w).state := by
  have h1 := hm w hw
  cases h : m w with
  | ok a w1 =>
    rw [bind_ok h]
    rw [h] at h1
    exact hf a w1 h1
  | exit e w1 =>
    rw [bind_exit h]
    rw [h] at h1
    exact h1

/-- Both load threads start with the same validation; when it fails the collection is as it
was, and otherwise the thread goes on with the port count of the device. -/
theorem filled_of_rest (dev : USBDevice σ) (qt : QtNumeric D) (fuel : Nat) (fast : Bool)
    (s0 : σ) (names : List String) (w : CalDevice σ D)
    (rest : List String → Int → M σ D Unit) (hw : Filled dev qt fuel fast s0 w.numPorts w)
    (hrest : ∀ l w1, Filled dev qt fuel fast s0 w.numPorts w1 →
      Filled dev qt fuel fast s0 w.numPorts (rest l w.numPorts w1).state) :
    Filled dev qt fuel fast s0 w.numPorts ((do
        let coeffList ← getCoefficientSetNames dev
        if coeffList.isEmpty then
          emit (.updateCoefficientsDone false)
          leave .returned
        else if names.length > 0 ∧ ¬ names.all (fun n => coeffList.contains n) then
          emit (.updateCoefficientsDone false)
          leave .returned
        else
          let coeffList := if names.length > 0 then names else coeffList
          let numPorts ← readNumPorts
          rest coeffList numPorts : M σ D Unit) w).state := by
  have hq : Filled dev qt fuel fast s0 w.numPorts
      ({ w with usb := (dev.Query ":COEFF:LIST?" w.usb).2, io := w.io ++ [.query ":COEFF:LIST?"] }
        : CalDevice σ D) := ⟨Reach.query _ hw.1, hw.2⟩
  have hq2 : Filled dev qt fuel fast s0 w.numPorts
      ({ w with
          usb := (dev.Query ":COEFF:LIST?" w.usb).2
          io := w.io ++ [.query ":COEFF:LIST?"]
          signals := w.signals ++ [.updateCoefficientsDone false] } : CalDevice σ D) :=
    ⟨Reach.query _ hw.1, hw.2⟩
  rw [bind_ok (getCoefficientSetNames_apply dev w)]
  by_cases hs : startsWith (dev.Query ":COEFF:LIST?" w.usb).1 "FACTORY" = true
  · simp only [hs, if_true]
    split
    · exact hq2
    · split
      · exact hq2
      · rw [bind_apply]
        exact hrest _ _ hq
  · simp only [hs, Bool.false_eq_true, if_false, List.isEmpty_nil, if_true]
    exact hq2

/-- However a load ends, every set of the collection holds, slot by slot, the objects that the
lambda `createCoefficient` of the strategy returned for the name of the set and the identifiers
of its coefficients. -/
theorem loadCoefficientSets_filled (dev : USBDevice σ) (qt : QtNumeric D) (fuel : Nat)
    (names : List String) (fast : Bool) (w : CalDevice σ D) :
    Filled dev qt fuel fast w.usb w.numPorts
      (loadCoefficientSets dev qt fuel names fast w).state := by
  have h0 : Filled dev qt fuel fast w.usb w.numPorts
      ({ w with coeffSets := [], abortLoading := false } : CalDevice σ D) := by
    refine ⟨Reach.refl, ?_⟩
    intro set hset
    exact absurd hset (List.not_mem_nil _)
  unfold loadCoefficientSets
  cases fast
  · simp only [Bool.false_eq_true, if_false]
    unfold loadCoefficientSetsThreadSlow
    refine filled_of_rest dev qt fuel false w.usb names
      { w with coeffSets := [], abortLoading := false }
      (fun coeffList numPorts => do
        let totalPoints ← loadCoefficientSetsThreadSlow.totalSets dev qt numPorts coeffList 0
        loadCoefficientSetsThreadSlow.readSets dev qt totalPoints numPorts coeffList
          { readPoints := 0, lastPercentage := 0 }
        emit (.updateCoefficientsDone true)) h0 ?_
    intro l w1 hw1
    refine filled_bind _ _ _ _ _ _
      (fun w2 => filled_of_inner (inner_totalSets _ _ _ _ _) _ (walks_totalSets _ _ _ _ _)
        _ _ _ _ _ w2)
      (fun tp => filled_bind _ _ _ _ _ _ (fun w2 h2 => readSetsSlow_filled _ _ _ _ _ _ _ _ w2 h2)
        (fun _ w2 => filled_of_inner (inner_emit _) _ (walks_emit _) _ _ _ _ _ w2)) w1 hw1
  · simp only [if_true]
    unfold loadCoefficientSetsThreadFast
    refine filled_of_rest dev qt fuel true w.usb names
      { w with coeffSets := [], abortLoading := false }
      (fun coeffList numPorts => do
        loadCoefficientSetsThreadFast.readSets dev qt fuel
          ((loadCoefficientSetsThreadFast.coeffNames numPorts).length * (names.length : Int))
          numPorts (loadCoefficientSetsThreadFast.coeffNames numPorts) coeffList 0
        emit (.updateCoefficientsDone true)) h0 ?_
    intro l w1 hw1
    exact filled_bind _ _ _ _ _ _ (fun w2 h2 => readSetsFast_filled _ _ _ _ _ _ _ _ w2 h2)
      (fun _ w2 => filled_of_inner (inner_emit _) _ (walks_emit _) _ _ _ _ _ w2) w1 hw1

end CalDevice
namespace CalDevice

open QString

variable {σ D : Type}

/-! ## The slot counts and the triangular order of the throughs -/

theorem intRange_length (lo hi : Int) : (intRange lo hi).length = (hi + 1 - lo).toNat := by
  simp [intRange]

theorem intRange_getElem? (lo hi : Int) (k : Nat) (h : k < (hi + 1 - lo).toNat) :
    (intRange lo hi)[k]? = some (lo + k) := by
  simp [intRange, List.getElem?_range h]

theorem intRange_cons (lo hi : Int) (h : lo ≤ hi) :
    intRange lo hi = lo :: intRange (lo + 1) hi := by
  apply List.ext_getElem?
  intro k
  cases k with
  | zero =>
    rw [intRange_getElem? lo hi 0 (by omega)]
    simp
  | succ k =>
    rw [List.getElem?_cons_succ]
    by_cases hk : k + 1 < (hi + 1 - lo).toNat
    · rw [intRange_getElem? lo hi (k + 1) hk, intRange_getElem? (lo + 1) hi k (by omega)]
      congr 1
      push_cast
      ring
    · rw [List.getElem?_eq_none (by rw [intRange_length]; omega),
        List.getElem?_eq_none (by rw [intRange_length]; omega)]

/-- The through slots of the rows `a .. N`, which a load appends row by row, are as many as the
triangular offsets tell. -/
theorem length_throughRows {β : Type} (N : Int) (f : Int → Int → β) (n : Nat) (a : Int)
    (ha : 1 ≤ a) (hn : a + n = N + 1) :
    (((intRange a N).flatMap (fun i => (intRange (i + 1) N).map (f i))).length : Int)
      = rowOffset N (N + 1) - rowOffset N a := by
  induction n generalizing a with
  | zero =>
    have e : a = N + 1 := by omega
    subst e
    have : intRange (N + 1) N = [] := by
      apply List.eq_nil_of_length_eq_zero
      rw [intRange_length]
      omega
    simp [this]
  | succ n ih =>
    rw [intRange_cons a N (by omega), List.flatMap_cons, List.length_append, List.length_map,
      intRange_length, Nat.cast_add, ih (a + 1) (by omega) (by push_cast at hn ⊢; omega),
      rowOffset_succ N a ha]
    have : (((N + 1 - (a + 1)).toNat : Nat) : Int) = N - a := by omega
    rw [this]
    ring

/-- The through slot of the pair `(i, j)` is found at the triangular index in the rows that a
load appends one after the other. -/
theorem getElem?_throughRows {β : Type} (N : Int) (f : Int → Int → β) (i j : Int)
    (hij : i < j) (hj : j ≤ N) (n : Nat) (a : Int) (ha : 1 ≤ a) (hn : a + n = i) :
    ((intRange a N).flatMap (fun i => (intRange (i + 1) N).map (f i)))[
        (rowOffset N i - rowOffset N a + (j - i - 1)).toNat]? = some (f i j) := by
  induction n generalizing a with
  | zero =>
    have e : a = i := by omega
    subst e
    rw [intRange_cons a N (by omega), List.flatMap_cons, sub_self, zero_add,
      List.getElem?_append_left (by rw [List.length_map, intRange_length]; omega),
      List.getElem?_map, intRange_getElem? _ _ _ (by omega)]
    simp only [Option.map_some']
    congr 2
    omega
  | succ n ih =>
    have hle := rowOffset_succ_le N a i ha (by omega) (by omega)
    have hs := rowOffset_succ N a ha
    have hlen : ((intRange (a + 1) N).map (f a)).length = (N - a).toNat := by
      rw [List.length_map, intRange_length]
      congr 1
      ring
    have hidx : (rowOffset N i - rowOffset N a + (j - i - 1)).toNat
        = ((intRange (a + 1) N).map (f a)).length
          + (rowOffset N i - rowOffset N (a + 1) + (j - i - 1)).toNat := by
      rw [hlen]
      omega
    rw [intRange_cons a N (by omega), List.flatMap_cons, hidx,
      List.getElem?_append_right (Nat.le_add_right _ _), Nat.add_sub_cancel_left]
    exact ih (a + 1) (by omega) (by push_cast at hn ⊢; omega)

theorem rowOffset_last (N : Int) (hN : 0 ≤ N) : rowOffset N (N + 1) = N * (N - 1) / 2 := by
  have h1 := two_mul_rowOffset N (N + 1) (by omega)
  have h2 : N * (N - 1) / 2 * 2 = N * (N - 1) :=
    Int.ediv_mul_cancel (Int.even_mul_pred_self _).two_dvd
  have h3 : (N + 1 - 1) * (2 * N - (N + 1)) = N * (N - 1) := by ring
  omega

/-- A set whose slots hold the objects retrieved for its coefficients has all its slots. -/
theorem SetFilled.hasAllSlots {dev : USBDevice σ} {qt : QtNumeric D} {fuel : Nat} {fast : Bool}
    {s0 : σ} {heap : List (CoefficientSet.Coefficient D)} {N : Int} {set : CoefficientSet}
    (h : SetFilled dev qt fuel fast s0 heap N set) (hN : 0 ≤ N) : HasAllSlots N set := by
  obtain ⟨hp, ho, hs, hl, ht⟩ := h
  have e : ∀ (R : String → Ptr → Prop) (v : List Ptr) (F : Int → String),
      List.Forall₂ R ((intRange 1 N).map F) v → (v.length : Int) = N := by
    intro R v F hv
    have := hv.length_eq
    rw [List.length_map, intRange_length] at this
    omega
  refine ⟨hp, e _ _ _ ho, e _ _ _ hs, e _ _ _ hl, ?_⟩
  have h1 := ht.length_eq
  rw [← h1, length_throughRows N _ N.toNat 1 le_rfl (by omega), rowOffset_one, sub_zero,
    rowOffset_last N hN]

end CalDevice
namespace CalDevice

open QString

variable {σ D : Type}

/-! ## Slot correspondence -/

theorem forall₂_getElem? {α β : Type} {R : α → β → Prop} {l : List α} {m : List β}
    (h : List.Forall₂ R l m) (k : Nat) (x : α) (hx : l[k]? = some x) :
    ∃ c, m[k]? = some c ∧ R x c := by
  induction h generalizing k with
  | nil => simp at hx
  | cons hab _ ih =>
    cases k with
    | zero =>
      simp only [List.getElem?_cons_zero, Option.some.injEq] at hx
      subst hx
      exact ⟨_, by simp, hab⟩
    | succ k =>
      simp only [List.getElem?_cons_succ] at hx
      simpa using ih k hx

theorem slot_of_filled (R : String → Ptr → Prop) (v : List Ptr) (N : Int) (F : Int → String)
    (h : List.Forall₂ R ((intRange 1 N).map F) v) (i : Int) (h1 : 1 ≤ i) (h2 : i ≤ N) :
    ∃ c, v[(i - 1).toNat]? = some c ∧ R (F i) c := by
  refine forall₂_getElem? h _ _ ?_
  rw [List.getElem?_map, intRange_getElem? 1 N _ (by omega)]
  have e : (1 : Int) + ((i - 1).toNat : Nat) = i := by omega
  rw [e]
  rfl

theorem through_of_filled {dev : USBDevice σ} {qt : QtNumeric D} {fuel : Nat} {fast : Bool}
    {s0 : σ} {heap : List (CoefficientSet.Coefficient D)} {N : Int} {set : CoefficientSet}
    (h : SetFilled dev qt fuel fast s0 heap N set) (i j : Int) (hi : 1 ≤ i) (hij : i < j)
    (hj : j ≤ N) :
    ∃ c, set.getThrough i j = .ok (some c) ∧
      Retrieved dev qt fuel fast s0 set.name ("P" ++ number i ++ number j ++ "_THROUGH") heap
        c := by
  have hall := h.hasAllSlots (by omega)
  obtain ⟨g1, g2⟩ := getThrough_of_hasAllSlots hall i j hi hij hj
  refine ⟨_, g1, ?_⟩
  have h4 := getElem?_throughRows N
    (fun i j => "P" ++ number i ++ number j ++ "_THROUGH") i j hij hj
    (i - 1).toNat 1 le_rfl (by omega)
  rw [rowOffset_one, sub_zero] at h4
  obtain ⟨c, hc, hr⟩ := forall₂_getElem? h.2.2.2.2 _ _ h4
  rw [g2] at hc
  cases hc
  exact hr

end CalDevice
namespace CalDevice

open QString

variable {σ D : Type}

/-! ## The slot-count invariant -/

theorem keeps_bind {α β : Type} {m : M σ D α} {f : α → M σ D β} (hm : Keeps m)
    (hf : ∀ a, Keeps (f a)) : Keeps (m >>= f) := by
  intro w
  have h1 := hm w
  cases h : m w with
  | ok a w1 =>
    rw [bind_ok h]
    rw [h] at h1
    exact ⟨(hf a w1).1.trans h1.1, (hf a w1).2.trans h1.2⟩
  | exit e w1 =>
    rw [bind_exit h]
    rw [h] at h1
    exact h1

theorem keeps_pure {α : Type} (a : α) : Keeps (pure a : M σ D α) := fun _ => ⟨rfl, rfl⟩

theorem keeps_leave {α : Type} (e : Exit) : Keeps (leave e : M σ D α) := fun _ => ⟨rfl, rfl⟩

theorem keeps_emit (s : Signal) : Keeps (emit s : M σ D Unit) := fun _ => ⟨rfl, rfl⟩

theorem keeps_Cmd (dev : USBDevice σ) (cmd : String) : Keeps (Cmd dev cmd : M σ D Bool) :=
  fun _ => ⟨rfl, rfl⟩

theorem keeps_readNumPorts : Keeps (readNumPorts : M σ D Int) := fun _ => ⟨rfl, rfl⟩

theorem keeps_readCoeffSets : Keeps (readCoeffSets : M σ D (List CoefficientSet)) :=
  fun _ => ⟨rfl, rfl⟩

theorem keeps_deref (c : Ptr) : Keeps (deref c : M σ D (CoefficientSet.Coefficient D)) := by
  intro w
  unfold deref
  split <;> exact ⟨rfl, rfl⟩

theorem keeps_setModified (c : Ptr) (b : Bool) : Keeps (setModified c b : M σ D Unit) := by
  intro w
  unfold setModified
  split <;> exact ⟨rfl, rfl⟩

theorem keeps_vectorAt (v : List Ptr) (i : Int) : Keeps (vectorAt v i : M σ D Ptr) := by
  intro w
  unfold vectorAt
  split
  · split <;> exact ⟨rfl, rfl⟩
  · exact ⟨rfl, rfl⟩

theorem keeps_ite {α : Type} {c : Prop} [Decidable c] {x y : M σ D α} (hx : Keeps x)
    (hy : Keeps y) : Keeps (if c then x else y) := by
  split
  · exact hx
  · exact hy

theorem keeps_addPoints (dev : USBDevice σ) (qt : QtNumeric D) (totalPoints : Nat)
    (points : List (Touchstone.Datapoint D)) (pr : SaveProgress) :
    Keeps (saveCoefficientSetsThread.addPoints dev qt totalPoints points pr) := by
  induction points generalizing pr with
  | nil => exact keeps_pure _
  | cons point points ih =>
    unfold saveCoefficientSetsThread.addPoints
    exact keeps_bind (keeps_Cmd _ _) (fun _ => keeps_ite (keeps_pure _)
      (keeps_ite (keeps_leave _) (keeps_ite (keeps_bind (keeps_emit _) (fun _ => ih _)) (ih _))))

theorem keeps_createCoefficientSave (dev : USBDevice σ) (qt : QtNumeric D) (totalPoints : Nat)
    (setName paramName : String) (c : Ptr) (pr : SaveProgress) :
    Keeps (saveCoefficientSetsThread.createCoefficient dev qt totalPoints setName paramName c
      pr) := by
  unfold saveCoefficientSetsThread.createCoefficient
  exact keeps_bind (keeps_deref _) (fun _ => keeps_ite (keeps_pure _) (keeps_ite
    (keeps_bind (keeps_Cmd _ _) (fun _ => keeps_ite (keeps_pure _)
      (keeps_bind (keeps_addPoints _ _ _ _ _) (fun _ => keeps_ite (keeps_pure _)
        (keeps_bind (keeps_Cmd _ _) (fun _ => keeps_ite (keeps_pure _)
          (keeps_bind (keeps_setModified _ _) (fun _ => keeps_pure _))))))))
    (keeps_bind (keeps_Cmd _ _) (fun _ => keeps_ite (keeps_pure _)
      (keeps_bind (keeps_setModified _ _) (fun _ => keeps_pure _))))))

theorem keeps_saveThroughs (dev : USBDevice σ) (qt : QtNumeric D) (totalPoints : Nat)
    (set : CoefficientSet) (i : Int) (js : List Int) (success : Bool) (pr : SaveProgress) :
    Keeps (saveCoefficientSetsThread.saveThroughs dev qt totalPoints set i js success pr) := by
  induction js generalizing success pr with
  | nil => exact keeps_pure _
  | cons j js ih =>
    unfold saveCoefficientSetsThread.saveThroughs
    split
    · exact keeps_leave _
    · exact keeps_leave _
    · exact keeps_bind (keeps_createCoefficientSave _ _ _ _ _ _ _) (fun _ => ih _ _)

theorem keeps_savePorts (dev : USBDevice σ) (qt : QtNumeric D) (totalPoints : Nat)
    (numPorts : Int) (set : CoefficientSet) (is : List Int) (success : Bool)
    (pr : SaveProgress) :
    Keeps (saveCoefficientSetsThread.savePorts dev qt totalPoints numPorts set is success
      pr) := by
  induction is generalizing success pr with
  | nil => exact keeps_pure _
  | cons i is ih =>
    unfold saveCoefficientSetsThread.savePorts
    exact keeps_bind (keeps_vectorAt _ _) (fun _ =>
      keeps_bind (keeps_createCoefficientSave _ _ _ _ _ _ _) (fun _ =>
      keeps_bind (keeps_vectorAt _ _) (fun _ =>
      keeps_bind (keeps_createCoefficientSave _ _ _ _ _ _ _) (fun _ =>
      keeps_bind (keeps_vectorAt _ _) (fun _ =>
      keeps_bind (keeps_createCoefficientSave _ _ _ _ _ _ _) (fun _ =>
      keeps_bind (keeps_saveThroughs _ _ _ _ _ _ _ _) (fun _ => ih _ _)))))))

theorem keeps_saveSets (dev : USBDevice σ) (qt : QtNumeric D) (totalPoints : Nat)
    (numPorts : Int) (sets : List CoefficientSet) (success : Bool) (pr : SaveProgress) :
    Keeps (saveCoefficientSetsThread.saveSets dev qt totalPoints numPorts sets success pr) := by
  induction sets generalizing success pr with
  | nil => exact keeps_pure _
  | cons set sets ih =>
    unfold saveCoefficientSetsThread.saveSets
    exact keeps_bind (keeps_savePorts _ _ _ _ _ _ _ _) (fun _ => ih _ _)

theorem keeps_totalOf (cs : List Ptr) (totalPoints : Nat) :
    Keeps (saveCoefficientSetsThread.totalOf cs totalPoints : M σ D Nat) := by
  induction cs generalizing totalPoints with
  | nil => exact keeps_pure _
  | cons c cs ih =>
    unfold saveCoefficientSetsThread.totalOf
    exact keeps_bind (keeps_deref _) (fun _ => keeps_ite (ih _) (ih _))

theorem keeps_totalSetsSave (sets : List CoefficientSet) (totalPoints : Nat) :
    Keeps (saveCoefficientSetsThread.totalSets sets totalPoints : M σ D Nat) := by
  induction sets generalizing totalPoints with
  | nil => exact keeps_pure _
  | cons set sets ih =>
    unfold saveCoefficientSetsThread.totalSets
    exact keeps_bind (keeps_totalOf _ _) (fun _ => keeps_bind (keeps_totalOf _ _) (fun _ =>
      keeps_bind (keeps_totalOf _ _) (fun _ => keeps_bind (keeps_totalOf _ _) (fun _ => ih _))))

/-- A save leaves the collection and the port count as they are, however it ends. -/
theorem keeps_saveCoefficientSets (dev : USBDevice σ) (qt : QtNumeric D) :
    Keeps (saveCoefficientSets dev qt) := by
  intro w
  unfold saveCoefficientSets
  split
  · exact ⟨rfl, rfl⟩
  · unfold saveCoefficientSetsThread
    exact keeps_bind keeps_readCoeffSets (fun _ => keeps_bind (keeps_totalSetsSave _ _) (fun _ =>
      keeps_bind keeps_readNumPorts (fun _ => keeps_bind (keeps_saveSets _ _ _ _ _ _ _)
        (fun _ => keeps_emit _)))) w

theorem resize_ok (n : Int) (c : Ptr) (w : CalDevice σ D) (h : 0 ≤ n) :
    resize n c w = .ok (List.replicate n.toNat c) w := by
  unfold resize
  rw [if_neg (by omega)]
  rfl

/-- `addCoefficientSet` on a device with a port count that is not negative appends one set with
the name given, which has all its slots. -/
theorem addCoefficientSet_spec (init : CoefficientSet.Coefficient D) (name : String)
    (w : CalDevice σ D) (hN : 0 ≤ w.numPorts) :
    ∃ w1 set, addCoefficientSet init name w = .ok () w1 ∧
      w1.coeffSets = w.coeffSets ++ [set] ∧ set.name = name ∧ HasAllSlots w.numPorts set ∧
      w1.numPorts = w.numPorts := by
  have hprod : 0 ≤ w.numPorts * (w.numPorts - 1) := by
    rcases Int.lt_or_le 0 w.numPorts with h | h
    · exact mul_nonneg hN (by omega)
    · have : w.numPorts = 0 := by omega
      rw [this]
      norm_num
  have htdiv : (w.numPorts * (w.numPorts - 1)).tdiv 2 = w.numPorts * (w.numPorts - 1) / 2 :=
    Int.tdiv_eq_ediv hprod (by norm_num)
  have hdiv : 0 ≤ w.numPorts * (w.numPorts - 1) / 2 := Int.ediv_nonneg hprod (by norm_num)
  unfold addCoefficientSet
  rw [bind_ok (show readNumPorts w = .ok w.numPorts w from rfl),
    bind_ok (show alloc init w = _ from rfl), bind_ok (resize_ok _ _ _ hN),
    bind_ok (show alloc init _ = _ from rfl), bind_ok (resize_ok _ _ _ hN),
    bind_ok (show alloc init _ = _ from rfl), bind_ok (resize_ok _ _ _ hN),
    bind_ok (show alloc init _ = _ from rfl),
    bind_ok (resize_ok _ _ _ (by rw [htdiv]; exact hdiv))]
  refine ⟨_, _, rfl, rfl, rfl, ⟨rfl, ?_, ?_, ?_, ?_⟩, rfl⟩
  · simp only [List.length_replicate]
    omega
  · simp only [List.length_replicate]
    omega
  · simp only [List.length_replicate]
    omega
  · simp only [List.length_replicate, htdiv]
    omega

/-- C15: the slot-count invariant. On a device whose port count `N` is not negative, every set
of the collection after a retrieval by either strategy, however it ends, and the set that
`addCoefficientSet` appends, has `ports = N`, `N` open, `N` short and `N` load slots and
`N * (N - 1) / 2` through slots; a save leaves the collection as it is; and in a set that has
these slots the accesses of the save thread, `opens[i-1]`, `shorts[i-1]`, `loads[i-1]` for `i`
in `1..N` and `getThrough(i, j)` for `i < j <= N`, are in range and yield a slot. -/
theorem slot_count_invariant :
    (∀ (dev : USBDevice σ) (qt : QtNumeric D) (fuel : Nat) (names : List String) (fast : Bool)
      (w : CalDevice σ D), 0 ≤ w.numPorts →
      ∀ set ∈ (loadCoefficientSets dev qt fuel names fast w).state.coeffSets,
        HasAllSlots w.numPorts set) ∧
    (∀ (init : CoefficientSet.Coefficient D) (name : String) (w : CalDevice σ D),
      0 ≤ w.numPorts → (∀ set ∈ w.coeffSets, HasAllSlots w.numPorts set) →
      ∃ w1, (addCoefficientSet init name : M σ D Unit) w = .ok () w1 ∧
        w1.numPorts = w.numPorts ∧ w1.coeffSets.length = w.coeffSets.length + 1 ∧
        ∀ set ∈ w1.coeffSets, HasAllSlots w.numPorts set) ∧
    (∀ (dev : USBDevice σ) (qt : QtNumeric D) (w : CalDevice σ D),
      (saveCoefficientSets dev qt w).state.coeffSets = w.coeffSets ∧
      (saveCoefficientSets dev qt w).state.numPorts = w.numPorts) ∧
    (∀ (N : Int) (set : CoefficientSet), HasAllSlots N set →
      set.ports = N ∧ (set.opens.length : Int) = N ∧ (set.shorts.length : Int) = N ∧
      (set.loads.length : Int) = N ∧ (set.throughs.length : Int) = N * (N - 1) / 2 ∧
      (∀ (i : Int) (w : CalDevice σ D), 1 ≤ i → i ≤ N →
        (∃ c, vectorAt set.opens (i - 1) w = .ok c w) ∧
        (∃ c, vectorAt set.shorts (i - 1) w = .ok c w) ∧
        (∃ c, vectorAt set.loads (i - 1) w = .ok c w)) ∧
      (∀ i j : Int, 1 ≤ i → i < j → j ≤ N → ∃ c, set.getThrough i j = .ok (some c))) := by
  refine ⟨?_, ?_, ?_, ?_⟩
  · intro dev qt fuel names fast w hN set hset
    exact ((loadCoefficientSets_filled dev qt fuel names fast w).2 set hset).hasAllSlots hN
  · intro init name w hN hw
    obtain ⟨w1, set, e, e1, -, e3, e4⟩ := addCoefficientSet_spec init name w hN
    refine ⟨w1, e, e4, by rw [e1]; simp, ?_⟩
    intro s hs
    rw [e1] at hs
    rcases List.mem_append.mp hs with h | h
    · exact hw s h
    · have : s = set := by simpa using h
      rw [this]
      exact e3
  · intro dev qt w
    exact keeps_saveCoefficientSets dev qt w
  · intro N set h
    refine ⟨h.1, h.2.1, h.2.2.1, h.2.2.2.1, h.2.2.2.2, ?_, ?_⟩
    · intro i w h1 h2
      refine ⟨⟨set.opens.getD (i - 1).toNat 0, ?_⟩, ⟨set.shorts.getD (i - 1).toNat 0, ?_⟩,
        ⟨set.loads.getD (i - 1).toNat 0, ?_⟩⟩
      · rw [vectorAt_eq set.opens (i - 1) (by omega) (by have := h.2.1; omega)]
        rfl
      · rw [vectorAt_eq set.shorts (i - 1) (by omega) (by have := h.2.2.1; omega)]
        rfl
      · rw [vectorAt_eq set.loads (i - 1) (by omega) (by have := h.2.2.2.1; omega)]
        rfl
    · intro i j hi hij hj
      exact ⟨_, (getThrough_of_hasAllSlots h i j hi hij hj).1⟩

end CalDevice
namespace CalDevice

open QString

variable {σ D : Type}

/-! ## The signals of a transfer -/

theorem silent_bind {α β : Type} {m : M σ D α} {f : α → M σ D β} (hm : Silent m)
    (hf : ∀ a, Silent (f a)) : Silent (m >>= f) := by
  intro w
  obtain ⟨⟨ps, h1⟩, h2⟩ := hm w
  cases h : m w with
  | ok a w1 =>
    rw [bind_ok h]
    rw [h] at h1
    obtain ⟨⟨qs, g1⟩, g2⟩ := hf a w1
    refine ⟨⟨ps ++ qs, ?_⟩, g2⟩
    rw [g1, show w1.signals = _ from h1, List.map_append, List.append_assoc]
  | exit e w1 =>
    rw [bind_exit h]
    rw [h] at h1 h2
    exact ⟨⟨ps, h1⟩, h2⟩

theorem silent_of_ok {α : Type} {m : M σ D α}
    (h : ∀ w, ∃ a w1, m w = .ok a w1 ∧ w1.signals = w.signals) : Silent m := by
  intro w
  obtain ⟨a, w1, e1, e2⟩ := h w
  rw [e1]
  exact ⟨⟨[], by simpa [Res.state] using e2⟩, fun he => absurd he (by simp [Res.exit?])⟩

theorem silent_pure {α : Type} (a : α) : Silent (pure a : M σ D α) :=
  silent_of_ok (fun w => ⟨a, w, rfl, rfl⟩)

theorem silent_leave {α : Type} (e : Exit) (he : e ≠ .returned) :
    Silent (leave e : M σ D α) := fun w =>
  ⟨⟨[], by simp [leave, Res.state]⟩, fun h => absurd (Option.some.inj h) he⟩

theorem silent_percent (p : Int) :
    Silent (emit (.updateCoefficientsPercent p) : M σ D Unit) := fun w =>
  ⟨⟨[p], by simp [emit, Res.state]⟩, fun he => absurd he (by simp [emit, Res.exit?])⟩

theorem silent_Query (dev : USBDevice σ) (cmd : String) :
    Silent (Query dev cmd : M σ D String) := silent_of_ok (fun _ => ⟨_, _, rfl, rfl⟩)

theorem silent_Cmd (dev : USBDevice σ) (cmd : String) :
    Silent (Cmd dev cmd : M σ D Bool) := silent_of_ok (fun _ => ⟨_, _, rfl, rfl⟩)

theorem silent_send (dev : USBDevice σ) (cmd : String) :
    Silent (send dev cmd : M σ D Unit) := silent_of_ok (fun _ => ⟨_, _, rfl, rfl⟩)

theorem silent_receive (dev : USBDevice σ) : Silent (receive dev : M σ D (Option String)) :=
  silent_of_ok (fun _ => ⟨_, _, rfl, rfl⟩)

theorem silent_readNumPorts : Silent (readNumPorts : M σ D Int) :=
  silent_of_ok (fun _ => ⟨_, _, rfl, rfl⟩)

theorem silent_readCoeffSets : Silent (readCoeffSets : M σ D (List CoefficientSet)) :=
  silent_of_ok (fun _ => ⟨_, _, rfl, rfl⟩)

theorem silent_alloc (c : CoefficientSet.Coefficient D) : Silent (alloc c : M σ D Ptr) :=
  silent_of_ok (fun _ => ⟨_, _, rfl, rfl⟩)

theorem silent_pushCoeffSet (set : CoefficientSet) : Silent (pushCoeffSet set : M σ D Unit) :=
  silent_of_ok (fun _ => ⟨_, _, rfl, rfl⟩)

/-- A read of the abort flag changes no signal, and yields `true` only when the flag is set. -/
theorem readAbortLoading_cases (w : CalDevice σ D) :
    ∃ b w1, readAbortLoading w = .ok b w1 ∧ w1.signals = w.signals ∧
      (b = true → w1.abortLoading = true) := by
  unfold readAbortLoading
  by_cases h : w.abortLoading = true
  · rw [if_pos h]
    exact ⟨true, w, rfl, rfl, fun _ => h⟩
  · rw [if_neg h]
    cases hr : w.abortRequest with
    | none => exact ⟨false, w, rfl, rfl, fun e => absurd e (by simp)⟩
    | some k =>
      cases k with
      | zero => exact ⟨true, _, rfl, rfl, fun _ => rfl⟩
      | succ k => exact ⟨false, _, rfl, rfl, fun e => absurd e (by simp)⟩

theorem silent_readAbortLoading : Silent (readAbortLoading : M σ D Bool) :=
  silent_of_ok (fun w => by
    obtain ⟨b, w1, e1, e2, -⟩ := readAbortLoading_cases w
    exact ⟨b, w1, e1, e2⟩)

/-- The statement `if(abortLoading) return;`. -/
theorem silent_ifAbort {α : Type} {y : M σ D α} (hy : Silent y) :
    Silent (readAbortLoading >>= fun b => if b = true then leave .returned else y) := by
  intro w
  obtain ⟨b, w1, e1, e2, e3⟩ := readAbortLoading_cases w
  rw [bind_ok e1]
  cases b with
  | true =>
    simp only [if_true]
    exact ⟨⟨[], by simp [leave, Res.state, e2]⟩, fun _ => e3 rfl⟩
  | false =>
    simp only [Bool.false_eq_true, if_false]
    obtain ⟨⟨ps, g1⟩, g2⟩ := hy w1
    exact ⟨⟨ps, by rw [g1, e2]⟩, g2⟩

theorem silent_ite {α : Type} {c : Prop} [Decidable c] {x y : M σ D α} (hx : Silent x)
    (hy : Silent y) : Silent (if c then x else y) := by
  split
  · exact hx
  · exact hy

theorem silent_deref (c : Ptr) : Silent (deref c : M σ D (CoefficientSet.Coefficient D)) := by
  intro w
  unfold deref
  split
  · exact silent_pure _ w
  · exact silent_leave _ (by simp) w

theorem silent_setModified (c : Ptr) (b : Bool) : Silent (setModified c b : M σ D Unit) := by
  intro w
  unfold setModified
  split
  · exact ⟨⟨[], by simp [Res.state]⟩, fun he => absurd he (by simp [Res.exit?])⟩
  · exact silent_leave _ (by simp) w

theorem silent_vectorAt (v : List Ptr) (i : Int) : Silent (vectorAt v i : M σ D Ptr) := by
  intro w
  unfold vectorAt
  split
  · split
    · exact silent_pure _ w
    · exact silent_leave _ (by simp) w
  · exact silent_leave _ (by simp) w

end CalDevice
namespace CalDevice

open QString

variable {σ D : Type}

/-! ### The loops of the load threads emit progress signals only -/

theorem silent_readSamples (dev : USBDevice σ) (qt : QtNumeric D) (totalPoints : Nat)
    (setName paramName : String) (n : Nat) (i : Int) (t : Touchstone D) (pr : SlowProgress) :
    Silent (loadCoefficientSetsThreadSlow.readSamples dev qt totalPoints setName paramName n i t
      pr) := by
  induction n generalizing i t pr with
  | zero => exact silent_pure _
  | succ n ih =>
    unfold loadCoefficientSetsThreadSlow.readSamples
    refine silent_bind silent_readAbortLoading (fun b => silent_ite (silent_pure _) ?_)
    refine silent_bind (silent_Query _ _) (fun pString => ?_)
    cases t.AddDatapoint (parseDatapoint qt (split pString ',')) with
    | none => exact silent_leave _ (by simp)
    | some t1 =>
      exact silent_ite (silent_leave _ (by simp))
        (silent_ite (silent_bind (silent_percent _) (fun _ => ih _ _ _)) (ih _ _ _))

theorem silent_createCoefficientSlow (dev : USBDevice σ) (qt : QtNumeric D) (totalPoints : Nat)
    (setName paramName : String) (pr : SlowProgress) :
    Silent (loadCoefficientSetsThreadSlow.createCoefficient dev qt totalPoints setName paramName
      pr) := by
  unfold loadCoefficientSetsThreadSlow.createCoefficient
  exact silent_bind (silent_Query _ _) (fun _ =>
    silent_bind (silent_readSamples _ _ _ _ _ _ _ _ _) (fun _ =>
      silent_bind (silent_alloc _) (fun _ => silent_pure _)))

theorem silent_readThroughs (dev : USBDevice σ) (qt : QtNumeric D) (totalPoints : Nat)
    (name : String) (i : Int) (js : List Int) (set : CoefficientSet) (pr : SlowProgress) :
    Silent (loadCoefficientSetsThreadSlow.readThroughs dev qt totalPoints name i js set pr) := by
  induction js generalizing set pr with
  | nil => exact silent_pure _
  | cons j js ih =>
    unfold loadCoefficientSetsThreadSlow.readThroughs
    exact silent_bind (silent_createCoefficientSlow _ _ _ _ _ _) (fun _ => ih _ _)

theorem silent_readPorts (dev : USBDevice σ) (qt : QtNumeric D) (totalPoints : Nat)
    (numPorts : Int) (name : String) (ports : List Int) (set : CoefficientSet)
    (pr : SlowProgress) :
    Silent (loadCoefficientSetsThreadSlow.readPorts dev qt totalPoints numPorts name ports set
      pr) := by
  induction ports generalizing set pr with
  | nil => exact silent_pure _
  | cons i ports ih =>
    unfold loadCoefficientSetsThreadSlow.readPorts
    exact silent_bind (silent_createCoefficientSlow _ _ _ _ _ _) (fun _ =>
      silent_bind (silent_createCoefficientSlow _ _ _ _ _ _) (fun _ =>
        silent_bind (silent_createCoefficientSlow _ _ _ _ _ _) (fun _ =>
          silent_bind (silent_readThroughs _ _ _ _ _ _ _ _) (fun _ =>
            silent_ifAbort (ih _ _)))))

theorem silent_readSetsSlow (dev : USBDevice σ) (qt : QtNumeric D) (totalPoints : Nat)
    (numPorts : Int) (names : List String) (pr : SlowProgress) :
    Silent (loadCoefficientSetsThreadSlow.readSets dev qt totalPoints numPorts names pr) := by
  induction names generalizing pr with
  | nil => exact silent_pure _
  | cons name names ih =>
    unfold loadCoefficientSetsThreadSlow.readSets
    exact silent_bind (silent_readPorts _ _ _ _ _ _ _ _) (fun _ =>
      silent_bind (silent_pushCoeffSet _) (fun _ => ih _))

theorem silent_totalThroughs (dev : USBDevice σ) (qt : QtNumeric D) (name : String) (i : Int)
    (js : List Int) (totalPoints : Nat) :
    Silent (loadCoefficientSetsThreadSlow.totalThroughs dev qt name i js totalPoints) := by
  induction js generalizing totalPoints with
  | nil => exact silent_pure _
  | cons j js ih =>
    unfold loadCoefficientSetsThreadSlow.totalThroughs
    exact silent_bind (silent_Query _ _) (fun _ => ih _)

theorem silent_totalPorts (dev : USBDevice σ) (qt : QtNumeric D) (numPorts : Int)
    (name : String) (ports : List Int) (totalPoints : Nat) :
    Silent (loadCoefficientSetsThreadSlow.totalPorts dev qt numPorts name ports totalPoints) := by
  induction ports generalizing totalPoints with
  | nil => exact silent_pure _
  | cons i ports ih =>
    unfold loadCoefficientSetsThreadSlow.totalPorts
    exact silent_ifAbort
      (silent_bind (silent_Query _ _) (fun _ => silent_bind (silent_Query _ _) (fun _ =>
        silent_bind (silent_Query _ _) (fun _ =>
          silent_bind (silent_totalThroughs _ _ _ _ _ _) (fun _ => ih _)))))

theorem silent_totalSets (dev : USBDevice σ) (qt : QtNumeric D) (numPorts : Int)
    (names : List String) (totalPoints : Nat) :
    Silent (loadCoefficientSetsThreadSlow.totalSets dev qt numPorts names totalPoints) := by
  induction names generalizing totalPoints with
  | nil => exact silent_pure _
  | cons name names ih =>
    unfold loadCoefficientSetsThreadSlow.totalSets
    exact silent_bind (silent_totalPorts _ _ _ _ _ _) (fun _ => ih _)

theorem silent_receiveLines (dev : USBDevice σ) (qt : QtNumeric D) (fuel : Nat)
    (t : Touchstone D) : Silent (loadCoefficientSetsThreadFast.receiveLines dev qt fuel t) := by
  induction fuel generalizing t with
  | zero => exact silent_leave _ (by simp)
  | succ fuel ih =>
    unfold loadCoefficientSetsThreadFast.receiveLines
    refine silent_bind (silent_receive _) (fun r => ?_)
    cases r with
    | none => exact silent_pure _
    | some line =>
      refine silent_ite (silent_pure _) (silent_ite (ih _) (silent_ite (silent_pure _) ?_))
      cases t.AddDatapoint (parseDatapoint qt (split line ' ')) with
      | none => exact silent_pure _
      | some t1 => exact ih _

theorem silent_createCoefficientFast (dev : USBDevice σ) (qt : QtNumeric D) (fuel : Nat)
    (setName paramName : String) :
    Silent (loadCoefficientSetsThreadFast.createCoefficient dev qt fuel setName paramName) := by
  unfold loadCoefficientSetsThreadFast.createCoefficient
  exact silent_bind (silent_send _ _) (fun _ =>
    silent_bind (silent_receiveLines _ _ _ _) (fun _ => silent_alloc _))

theorem silent_readCoeffs (dev : USBDevice σ) (qt : QtNumeric D) (fuel : Nat)
    (total_coeffs : Int) (name : String) (coeffs : List String) (set : CoefficientSet)
    (read_coeffs : Int) :
    Silent (loadCoefficientSetsThreadFast.readCoeffs dev qt fuel total_coeffs name coeffs set
      read_coeffs) := by
  induction coeffs generalizing set read_coeffs with
  | nil => exact silent_pure _
  | cons coeff coeffs ih =>
    unfold loadCoefficientSetsThreadFast.readCoeffs
    exact silent_bind (silent_createCoefficientFast _ _ _ _ _) (fun _ =>
      silent_ifAbort (silent_ite (silent_leave _ (by simp))
        (silent_bind (silent_percent _) (fun _ => ih _ _))))

theorem silent_readSetsFast (dev : USBDevice σ) (qt : QtNumeric D) (fuel : Nat)
    (total_coeffs : Int) (numPorts : Int) (coeffNames : List String) (names : List String)
    (read_coeffs : Int) :
    Silent (loadCoefficientSetsThreadFast.readSets dev qt fuel total_coeffs numPorts coeffNames
      names read_coeffs) := by
  induction names generalizing read_coeffs with
  | nil => exact silent_pure _
  | cons name names ih =>
    unfold loadCoefficientSetsThreadFast.readSets
    exact silent_bind (silent_readCoeffs _ _ _ _ _ _ _ _) (fun _ =>
      silent_bind (silent_pushCoeffSet _) (fun _ => ih _))

/-! ### The loops of the save thread emit progress signals only -/

theorem silent_addPoints (dev : USBDevice σ) (qt : QtNumeric D) (totalPoints : Nat)
    (points : List (Touchstone.Datapoint D)) (pr : SaveProgress) :
    Silent (saveCoefficientSetsThread.addPoints dev qt totalPoints points pr) := by
  induction points generalizing pr with
  | nil => exact silent_pure _
  | cons point points ih =>
    unfold saveCoefficientSetsThread.addPoints
    exact silent_bind (silent_Cmd _ _) (fun _ => silent_ite (silent_pure _)
      (silent_ite (silent_leave _ (by simp))
        (silent_ite (silent_bind (silent_percent _) (fun _ => ih _)) (ih _))))

theorem silent_createCoefficientSave (dev : USBDevice σ) (qt : QtNumeric D) (totalPoints : Nat)
    (setName paramName : String) (c : Ptr) (pr : SaveProgress) :
    Silent (saveCoefficientSetsThread.createCoefficient dev qt totalPoints setName paramName c
      pr) := by
  unfold saveCoefficientSetsThread.createCoefficient
  exact silent_bind (silent_deref _) (fun _ => silent_ite (silent_pure _) (silent_ite
    (silent_bind (silent_Cmd _ _) (fun _ => silent_ite (silent_pure _)
      (silent_bind (silent_addPoints _ _ _ _ _) (fun _ => silent_ite (silent_pure _)
        (silent_bind (silent_Cmd _ _) (fun _ => silent_ite (silent_pure _)
          (silent_bind (silent_setModified _ _) (fun _ => silent_pure _))))))))
    (silent_bind (silent_Cmd _ _) (fun _ => silent_ite (silent_pure _)
      (silent_bind (silent_setModified _ _) (fun _ => silent_pure _))))))

theorem silent_saveThroughs (dev : USBDevice σ) (qt : QtNumeric D) (totalPoints : Nat)
    (set : CoefficientSet) (i : Int) (js : List Int) (success : Bool) (pr : SaveProgress) :
    Silent (saveCoefficientSetsThread.saveThroughs dev qt totalPoints set i js success pr) := by
  induction js generalizing success pr with
  | nil => exact silent_pure _
  | cons j js ih =>
    unfold saveCoefficientSetsThread.saveThroughs
    split
    · exact silent_leave _ (by simp)
    · exact silent_leave _ (by simp)
    · exact silent_bind (silent_createCoefficientSave _ _ _ _ _ _ _) (fun _ => ih _ _)

theorem silent_savePorts (dev : USBDevice σ) (qt : QtNumeric D) (totalPoints : Nat)
    (numPorts : Int) (set : CoefficientSet) (is : List Int) (success : Bool)
    (pr : SaveProgress) :
    Silent (saveCoefficientSetsThread.savePorts dev qt totalPoints numPorts set is success
      pr) := by
  induction is generalizing success pr with
  | nil => exact silent_pure _
  | cons i is ih =>
    unfold saveCoefficientSetsThread.savePorts
    exact silent_bind (silent_vectorAt _ _) (fun _ =>
      silent_bind (silent_createCoefficientSave _ _ _ _ _ _ _) (fun _ =>
      silent_bind (silent_vectorAt _ _) (fun _ =>
      silent_bind (silent_createCoefficientSave _ _ _ _ _ _ _) (fun _ =>
      silent_bind (silent_vectorAt _ _) (fun _ =>
      silent_bind (silent_createCoefficientSave _ _ _ _ _ _ _) (fun _ =>
      silent_bind (silent_saveThroughs _ _ _ _ _ _ _ _) (fun _ => ih _ _)))))))

theorem silent_saveSets (dev : USBDevice σ) (qt : QtNumeric D) (totalPoints : Nat)
    (numPorts : Int) (sets : List CoefficientSet) (success : Bool) (pr : SaveProgress) :
    Silent (saveCoefficientSetsThread.saveSets dev qt totalPoints numPorts sets success pr) := by
  induction sets generalizing success pr with
  | nil => exact silent_pure _
  | cons set sets ih =>
    unfold saveCoefficientSetsThread.saveSets
    exact silent_bind (silent_savePorts _ _ _ _ _ _ _ _) (fun _ => ih _ _)

theorem silent_totalOf (cs : List Ptr) (totalPoints : Nat) :
    Silent (saveCoefficientSetsThread.totalOf cs totalPoints : M σ D Nat) := by
  induction cs generalizing totalPoints with
  | nil => exact silent_pure _
  | cons c cs ih =>
    unfold saveCoefficientSetsThread.totalOf
    exact silent_bind (silent_deref _) (fun _ => silent_ite (ih _) (ih _))

theorem silent_totalSetsSave (sets : List CoefficientSet) (totalPoints : Nat) :
    Silent (saveCoefficientSetsThread.totalSets sets totalPoints : M σ D Nat) := by
  induction sets generalizing totalPoints with
  | nil => exact silent_pure _
  | cons set sets ih =>
    unfold saveCoefficientSetsThread.totalSets
    exact silent_bind (silent_totalOf _ _) (fun _ => silent_bind (silent_totalOf _ _) (fun _ =>
      silent_bind (silent_totalOf _ _) (fun _ => silent_bind (silent_totalOf _ _)
        (fun _ => ih _))))

end CalDevice
namespace CalDevice

open QString

variable {σ D : Type}

/-! ### The completion signal -/

theorem silent_ok {α : Type} {m : M σ D α} (hm : Silent m) {w w1 : CalDevice σ D} {a : α}
    (h : m w = .ok a w1) :
    ∃ ps : List Int, w1.signals = w.signals ++ ps.map Signal.updateCoefficientsPercent := by
  obtain ⟨⟨ps, h1⟩, -⟩ := hm w
  rw [h] at h1
  exact ⟨ps, h1⟩

theorem completes_bind {α : Type} {m : M σ D α} {f : α → M σ D Unit} (hm : Silent m)
    (hf : ∀ a, Completes (f a)) : Completes (m >>= f) := by
  intro w
  obtain ⟨⟨ps, h1⟩, h2⟩ := hm w
  cases h : m w with
  | ok a w1 =>
    rw [bind_ok h]
    rw [h] at h1
    have e : w1.signals = w.signals ++ ps.map Signal.updateCoefficientsPercent := h1
    obtain ⟨g1, g2⟩ := hf a w1
    constructor
    · intro w2 hw2
      obtain ⟨qs, hq⟩ := g1 w2 hw2
      exact ⟨ps ++ qs, by simp only [hq, e, List.map_append, List.append_assoc]⟩
    · intro w2 hw2
      obtain ⟨ha, qs, hq⟩ := g2 w2 hw2
      exact ⟨ha, ps ++ qs, by simp only [hq, e, List.map_append, List.append_assoc]⟩
  | exit e w1 =>
    rw [bind_exit h]
    rw [h] at h1 h2
    constructor
    · intro w2 hw2
      cases hw2
    · intro w2 hw2
      cases hw2
      exact ⟨h2 rfl, ps, h1⟩

theorem completes_done : Completes (emit (.updateCoefficientsDone true) : M σ D Unit) := by
  intro w
  constructor
  · intro w1 h
    cases h
    exact ⟨[], by simp⟩
  · intro w1 h
    cases h

/-- Both load threads start with the same validation: when it fails they emit the completion
signal with failure and return; otherwise they go on with the rest of the thread. -/
theorem signals_of_rest (dev : USBDevice σ) (names : List String) (w : CalDevice σ D)
    (rest : List String → Int → M σ D Unit) (hw : w.abortLoading = false)
    (hrest : ∀ l n, Completes (rest l n)) :
    (∀ w1, (do
        let coeffList ← getCoefficientSetNames dev
        if coeffList.isEmpty then
          emit (.updateCoefficientsDone false)
          leave .returned
        else if names.length > 0 ∧ ¬ names.all (fun n => coeffList.contains n) then
          emit (.updateCoefficientsDone false)
          leave .returned
        else
          let coeffList := if names.length > 0 then names else coeffList
          let numPorts ← readNumPorts
          rest coeffList numPorts : M σ D Unit) w = .ok () w1 →
      ∃ ps : List Int, w1.signals = w.signals ++ ps.map Signal.updateCoefficientsPercent
        ++ [.updateCoefficientsDone true]) ∧
    (∀ w1, (do
        let coeffList ← getCoefficientSetNames dev
        if coeffList.isEmpty then
          emit (.updateCoefficientsDone false)
          leave .returned
        else if names.length > 0 ∧ ¬ names.all (fun n => coeffList.contains n) then
          emit (.updateCoefficientsDone false)
          leave .returned
        else
          let coeffList := if names.length > 0 then names else coeffList
          let numPorts ← readNumPorts
          rest coeffList numPorts : M σ D Unit) w = .exit .returned w1 →
      (w1.abortLoading = false ∧ w1.signals = w.signals ++ [.updateCoefficientsDone false]) ∨
      (w1.abortLoading = true ∧ ∃ ps : List Int,
        w1.signals = w.signals ++ ps.map Signal.updateCoefficientsPercent)) := by
  have hfail : ∀ w0 : CalDevice σ D, w0.abortLoading = false → w0.signals = w.signals →
      (∀ w1, ((emit (.updateCoefficientsDone false) >>= fun _ => leave .returned : M σ D Unit) w0)
          = .ok () w1 →
        ∃ ps : List Int, w1.signals = w.signals ++ ps.map Signal.updateCoefficientsPercent
          ++ [.updateCoefficientsDone true]) ∧
      (∀ w1, ((emit (.updateCoefficientsDone false) >>= fun _ => leave .returned : M σ D Unit) w0)
          = .exit .returned w1 →
        (w1.abortLoading = false ∧ w1.signals = w.signals ++ [.updateCoefficientsDone false]) ∨
        (w1.abortLoading = true ∧ ∃ ps : List Int,
          w1.signals = w.signals ++ ps.map Signal.updateCoefficientsPercent)) := by
    intro w0 h0 h1
    constructor
    · intro w1 h
      cases h
    · intro w1 h
      cases h
      exact Or.inl ⟨h0, by rw [← h1]⟩
  rw [bind_ok (getCoefficientSetNames_apply dev w)]
  by_cases hs : startsWith (dev.Query ":COEFF:LIST?" w.usb).1 "FACTORY" = true
  · simp only [hs, if_true]
    split
    · exact hfail _ hw rfl
    · split
      · exact hfail _ hw rfl
      · rw [bind_apply]
        obtain ⟨g1, g2⟩ := hrest (if names.length > 0 then names
          else split (dev.Query ":COEFF:LIST?" w.usb).1 ',') w.numPorts
          { w with usb := (dev.Query ":COEFF:LIST?" w.usb).2,
                   io := w.io ++ [.query ":COEFF:LIST?"] }
        exact ⟨g1, fun w1 h => Or.inr (g2 w1 h)⟩
  · simp only [hs, Bool.false_eq_true, if_false, List.isEmpty_nil, if_true]
    exact hfail _ hw rfl

/-- The signals of a load that reaches its end or returns. -/
theorem loadCoefficientSets_signals (dev : USBDevice σ) (qt : QtNumeric D) (fuel : Nat)
    (names : List String) (fast : Bool) (w : CalDevice σ D) :
    (∀ w1, loadCoefficientSets dev qt fuel names fast w = .ok () w1 →
      ∃ ps : List Int, w1.signals = w.signals ++ ps.map Signal.updateCoefficientsPercent
        ++ [.updateCoefficientsDone true]) ∧
    (∀ w1, loadCoefficientSets dev qt fuel names fast w = .exit .returned w1 →
      (w1.abortLoading = false ∧ w1.signals = w.signals ++ [.updateCoefficientsDone false]) ∨
      (w1.abortLoading = true ∧ ∃ ps : List Int,
        w1.signals = w.signals ++ ps.map Signal.updateCoefficientsPercent)) := by
  unfold loadCoefficientSets
  cases fast
  · simp only [Bool.false_eq_true, if_false]
    unfold loadCoefficientSetsThreadSlow
    exact signals_of_rest dev names { w with coeffSets := [], abortLoading := false }
      (fun coeffList numPorts => do
        let totalPoints ← loadCoefficientSetsThreadSlow.totalSets dev qt numPorts coeffList 0
        loadCoefficientSetsThreadSlow.readSets dev qt totalPoints numPorts coeffList
          { readPoints := 0, lastPercentage := 0 }
        emit (.updateCoefficientsDone true)) rfl
      (fun l n => completes_bind (silent_totalSets _ _ _ _ _) (fun _ =>
        completes_bind (silent_readSetsSlow _ _ _ _ _ _) (fun _ => completes_done)))
  · simp only [if_true]
    unfold loadCoefficientSetsThreadFast
    exact signals_of_rest dev names { w with coeffSets := [], abortLoading := false }
      (fun coeffList numPorts => do
        loadCoefficientSetsThreadFast.readSets dev qt fuel
          ((loadCoefficientSetsThreadFast.coeffNames numPorts).length * (names.length : Int))
          numPorts (loadCoefficientSetsThreadFast.coeffNames numPorts) coeffList 0
        emit (.updateCoefficientsDone true)) rfl
      (fun l n => completes_bind (silent_readSetsFast _ _ _ _ _ _ _ _) (fun _ => completes_done))

/-- The signals of a save that reaches its end. -/
theorem saveCoefficientSets_signals (dev : USBDevice σ) (qt : QtNumeric D) (w w1 : CalDevice σ D)
    (h : saveCoefficientSets dev qt w = .ok () w1) :
    ∃ (ps : List Int) (b : Bool),
      w1.signals = w.signals ++ ps.map Signal.updateCoefficientsPercent
        ++ [.updateCoefficientsDone b] := by
  unfold saveCoefficientSets at h
  split at h
  · cases h
    exact ⟨[], true, by simp⟩
  · unfold saveCoefficientSetsThread at h
    obtain ⟨sets, w2, h1, h2⟩ := bind_eq_ok h
    cases h1
    obtain ⟨tp, w3, h3, h4⟩ := bind_eq_ok h2
    obtain ⟨n, w4, h5, h6⟩ := bind_eq_ok h4
    cases h5
    obtain ⟨r, w5, h7, h8⟩ := bind_eq_ok h6
    cases h8
    obtain ⟨ps, e1⟩ := silent_ok (silent_totalSetsSave _ _) h3
    obtain ⟨qs, e2⟩ := silent_ok (silent_saveSets _ _ _ _ _ _ _) h7
    exact ⟨ps ++ qs, r.1, by
      show w5.signals ++ _ = _
      simp only [e2, e1, List.map_append, List.append_assoc]⟩

end CalDevice
namespace CalDevice

open QString

variable {σ D : Type}

/-- C16 fails on the code for a cancelled retrieval: a load of three sets by the streaming
strategy whose worker sees the abort flag during the second set returns with four progress
signals emitted and no completion signal; the polling strategy, cancelled during the second
set, returns without any completion signal as well. -/
theorem cancelled_load_sends_no_completion_signal :
    (loadCoefficientSets threeSetDevice wholeNumbers 8 ["FACTORY", "USER1", "USER2"] true
      (fresh [] 1 (some 4))).exit? = some .returned ∧
    (loadCoefficientSets threeSetDevice wholeNumbers 8 ["FACTORY", "USER1", "USER2"] true
      (fresh [] 1 (some 4))).state.signals
      = [.updateCoefficientsPercent 11, .updateCoefficientsPercent 22,
         .updateCoefficientsPercent 33, .updateCoefficientsPercent 44] ∧
    (loadCoefficientSets threeSetDevice wholeNumbers 8 ["FACTORY", "USER1", "USER2"] false
      (fresh [] 1 (some 8))).exit? = some .returned ∧
    (∀ b : Bool, Signal.updateCoefficientsDone b ∉
      (loadCoefficientSets threeSetDevice wholeNumbers 8 ["FACTORY", "USER1", "USER2"] false
        (fresh [] 1 (some 8))).state.signals) := by
  decide!

end CalDevice
namespace CalDevice

open QString

variable {σ D : Type}

/-! ## The text of a standard -/

theorem map_StandardToString_availableStandards (dest : Int) :
    (availableStandards dest).map StandardToString
      = ["NONE", "OPEN", "SHORT", "LOAD", "THROUGH 1", "THROUGH 2", "THROUGH 3", "THROUGH 4"] := by
  rfl

theorem find?_eq_none_of_not_mem_map {α : Type} (l : List α) (f : α → String) (s : String)
    (h : s ∉ l.map f) : l.find? (fun a => s == f a) = none := by
  rw [List.find?_eq_none]
  intro a ha hs
  exact h (List.mem_map.mpr ⟨a, ha, (beq_iff_eq.mp hs).symm⟩)

/-- C29: `StandardFromString` inverts `StandardToString` on the available standards. For every
standard `s` of `availableStandards()` (None, Open, Short, Load, Through 1..4),
`StandardFromString(StandardToString(s)) = s`; the texts of the eight standards are `NONE`,
`OPEN`, `SHORT`, `LOAD`, `THROUGH 1`, ..., `THROUGH 4`, which are pairwise distinct; and for
every string that is not one of them, such as `THROUGH 5`, `StandardFromString` returns the None
standard. (`dest` is the value that the constructor `Standard(Type)` gives to `throughDest`.) -/
theorem StandardFromString_inverts_StandardToString (dest : Int) :
    (∀ s ∈ availableStandards dest, StandardFromString dest (StandardToString s) = s) ∧
    (availableStandards dest).map StandardToString
      = ["NONE", "OPEN", "SHORT", "LOAD", "THROUGH 1", "THROUGH 2", "THROUGH 3", "THROUGH 4"] ∧
    ((availableStandards dest).map StandardToString).Nodup ∧
    (∀ str : String, str ∉ (availableStandards dest).map StandardToString →
      StandardFromString dest str = Standard.ofType dest .None) ∧
    StandardFromString dest "THROUGH 5" = Standard.ofType dest .None := by
  refine ⟨?_, map_StandardToString_availableStandards dest, ?_, ?_, ?_⟩
  · intro s hs
    simp only [availableStandards, List.mem_cons, List.mem_singleton, List.not_mem_nil,
      or_false] at hs
    rcases hs with rfl | rfl | rfl | rfl | rfl | rfl | rfl | rfl <;> rfl
  · rw [map_StandardToString_availableStandards]
    decide
  · intro str hstr
    unfold StandardFromString
    rw [find?_eq_none_of_not_mem_map _ _ _ hstr]
  · rfl

end CalDevice

/-! ## The UTC offset in the date and time sent to the device -/

theorem utcOffsetArgs_of_hours (h m : Int) (hh : 1 ≤ h) (hm0 : 0 ≤ m) (hm : m < 60) :
    utcOffsetArgs (h * 3600 + m * 60) = ("+", QString.argInt h 2, QString.argInt m 2) := by
  have e1 : (h * 3600 + m * 60).tdiv 3600 = h := by
    rw [Int.tdiv_eq_ediv (by omega) (by norm_num)]
    omega
  have e2 : ((h * 3600 + m * 60).tmod 3600).tdiv 60 = m := by
    rw [Int.tmod_eq_emod (by omega) (by norm_num), Int.tdiv_eq_ediv (by omega) (by norm_num)]
    omega
  unfold utcOffsetArgs
  simp only [e1, e2]
  rw [if_pos (by omega), Int.natAbs_of_nonneg (by omega)]

theorem utcOffsetArgs_of_minutes (m : Int) (hm0 : 0 ≤ m) (hm : m < 60) :
    utcOffsetArgs (m * 60) = ("-", QString.argInt 0 2, QString.argInt m 2) := by
  have e1 : (m * 60).tdiv 3600 = 0 := by
    rw [Int.tdiv_eq_ediv (by omega) (by norm_num)]
    omega
  have e2 : ((m * 60).tmod 3600).tdiv 60 = m := by
    rw [Int.tmod_eq_emod (by omega) (by norm_num), Int.tdiv_eq_ediv (by omega) (by norm_num)]
    omega
  unfold utcOffsetArgs
  simp only [e1, e2]
  rfl

theorem utcOffsetArgs_of_neg (h m : Int) (hh : 0 ≤ h) (hm0 : 0 ≤ m) (hm : m < 60) :
    utcOffsetArgs (-(h * 3600 + m * 60)) = ("-", QString.argInt h 2, QString.argInt (-m) 2) := by
  have e0 : (h * 3600 + m * 60).tdiv 3600 = h := by
    rw [Int.tdiv_eq_ediv (by omega) (by norm_num)]
    omega
  have e1 : (-(h * 3600 + m * 60)).tdiv 3600 = -h := by
    rw [Int.neg_tdiv, e0]
  have e2 : ((-(h * 3600 + m * 60)).tmod 3600).tdiv 60 = -m := by
    have e3 : (-(h * 3600 + m * 60)).tmod 3600 = -(m * 60) := by
      rw [Int.tmod_def, e1]
      ring
    rw [e3, Int.neg_tdiv, Int.tdiv_eq_ediv (by omega) (by norm_num)]
    omega
  unfold utcOffsetArgs
  simp only [e1, e2]
  rw [if_neg (by omega), Int.natAbs_neg, Int.natAbs_of_nonneg hh]

/-- C30 fails on the code. The sign of the suffix is `+` only when the offset is a whole hour or
more (`utcOffset > 0` with `utcOffset = offsetFromUtc / 3600`), and the minutes are the remainder
with the sign of the offset. For an offset of `h` hours and `m` minutes east of UTC with
`h >= 1` the suffix is `UTC+hh:mm`, which denotes the offset. For an offset of `m` minutes east
of UTC (less than an hour) the suffix has the sign `-`, so for `+00:30` it is `UTC-00:30`, which
denotes 30 minutes west. For an offset of `h` hours and `m >= 1` minutes west of UTC the minutes
are the text of `-m`, so for `-03:30` the suffix is `UTC-03:-30`, which is not of the form
`UTC` sign hh `:` mm. -/
theorem utc_offset_suffix_sign_and_minutes :
    (∀ h m : Int, 1 ≤ h → 0 ≤ m → m < 60 →
      utcOffsetArgs (h * 3600 + m * 60) = ("+", QString.argInt h 2, QString.argInt m 2)) ∧
    (∀ m : Int, 0 ≤ m → m < 60 →
      utcOffsetArgs (m * 60) = ("-", QString.argInt 0 2, QString.argInt m 2)) ∧
    (∀ h m : Int, 0 ≤ h → 0 ≤ m → m < 60 →
      utcOffsetArgs (-(h * 3600 + m * 60))
        = ("-", QString.argInt h 2, QString.argInt (-m) 2)) ∧
    getLocalDateTimeWithUtcOffset ⟨2024, 1, 2, 3, 4, 5, 3600⟩ = "2024/01/02 03:04:05 UTC+01:00" ∧
    getLocalDateTimeWithUtcOffset ⟨2024, 1, 2, 3, 4, 5, 0⟩ = "2024/01/02 03:04:05 UTC-00:00" ∧
    getLocalDateTimeWithUtcOffset ⟨2024, 1, 2, 3, 4, 5, 1800⟩ = "2024/01/02 03:04:05 UTC-00:30" ∧
    getLocalDateTimeWithUtcOffset ⟨2024, 1, 2, 3, 4, 5, -1800⟩ = "2024/01/02 03:04:05 UTC-00:-30" ∧
    getLocalDateTimeWithUtcOffset ⟨2024, 1, 2, 3, 4, 5, -12600⟩ = "2024/01/02 03:04:05 UTC-03:-30" := by
  refine ⟨utcOffsetArgs_of_hours, utcOffsetArgs_of_minutes, utcOffsetArgs_of_neg, ?_, ?_, ?_, ?_,
    ?_⟩ <;> decide
namespace CalDevice

open QString

variable {σ D : Type}

/-! ## The slots of a set that `addCoefficientSet` creates -/

theorem slotsShareObject_replicate (init : CoefficientSet.Coefficient D) (w1 : CalDevice σ D)
    (n : Nat) (c : Ptr) (hc : w1.heap[c]? = some init) (i j : Nat) (hi : i < n) (hj : j < n) :
    SlotsShareObject init w1 (List.replicate n c) i j := by
  have hlt : c < w1.heap.length := (List.getElem?_eq_some.mp hc).1
  refine ⟨c, c, ?_, ?_, ?_, ?_, ?_, ?_⟩
  · rw [List.getElem?_replicate, if_pos hi]
  · rw [List.getElem?_replicate, if_pos hj]
  · simp only [slotModified, hc]
  · simp only [responseAt, hc, Option.map_some']
  · intro b
    refine ⟨{ w1 with heap := w1.heap.set c { init with modified := b } }, ?_, ?_⟩
    · simp only [setModified, hc]
    · simp only [slotModified, List.getElem?_set_self hlt]
  · intro t
    refine ⟨{ w1 with heap := w1.heap.set c { init with t := t } }, ?_, ?_⟩
    · simp only [setResponse, hc]
    · simp only [responseAt, List.getElem?_set_self hlt, Option.map_some']

theorem getElem?_append_four {α : Type} (h : List α) (a : α) (k : Nat) (hk : k < 4) :
    (h ++ [a] ++ [a] ++ [a] ++ [a])[h.length + k]? = some a := by
  simp only [List.append_assoc, List.singleton_append]
  rw [List.getElem?_append_right (Nat.le_add_right _ _), Nat.add_sub_cancel_left]
  interval_cases k <;> rfl

theorem addCoefficientSet_eq (init : CoefficientSet.Coefficient D) (name : String)
    (w : CalDevice σ D) (hN : 0 ≤ w.numPorts) (hT : 0 ≤ (w.numPorts * (w.numPorts - 1)).tdiv 2) :
    addCoefficientSet init name w = .ok ()
      { w with
        heap := w.heap ++ [init] ++ [init] ++ [init] ++ [init]
        coeffSets := w.coeffSets ++
          [{ name := name, ports := w.numPorts,
             opens := List.replicate w.numPorts.toNat (w.heap.length + 2),
             shorts := List.replicate w.numPorts.toNat (w.heap.length + 1),
             loads := List.replicate w.numPorts.toNat w.heap.length,
             throughs := List.replicate ((w.numPorts * (w.numPorts - 1)).tdiv 2).toNat
               (w.heap.length + 3) }] } := by
  unfold addCoefficientSet
  rw [bind_ok (show readNumPorts w = .ok w.numPorts w from rfl),
    bind_ok (show alloc init w = _ from rfl), bind_ok (resize_ok _ _ _ hN),
    bind_ok (show alloc init _ = _ from rfl), bind_ok (resize_ok _ _ _ hN),
    bind_ok (show alloc init _ = _ from rfl), bind_ok (resize_ok _ _ _ hN),
    bind_ok (show alloc init _ = _ from rfl), bind_ok (resize_ok _ _ _ hT)]
  simp only [pushCoeffSet, List.length_append, List.length_singleton]

/-- C28 fails on the code. Each `resize(n, new CoefficientSet::Coefficient())` of
`addCoefficientSet` creates one object and fills the vector with `n` copies of its address, so
all slots of one kind of the new set are the same object. On a device with `N >= 2` ports, for
any two Open slots `i` and `j` of the new set (and likewise Short, Load and Through slots),
setting the modified flag through slot `i` sets the flag of slot `j`, and replacing the response
through slot `i` replaces the response of slot `j`. On a device with two ports the set has the
addresses `opens = [2, 2]`, `shorts = [1, 1]`, `loads = [0, 0]`, and after
`opens[0]->modified = true` the flag of `opens[1]` is set. -/
theorem addCoefficientSet_slots_share_one_object :
    (∀ (init : CoefficientSet.Coefficient D) (name : String) (w : CalDevice σ D),
      2 ≤ w.numPorts →
      ∃ w1 set, addCoefficientSet init name w = .ok () w1 ∧
        w1.coeffSets = w.coeffSets ++ [set] ∧
        (∀ i j : Nat, (i : Int) < w.numPorts → (j : Int) < w.numPorts →
          SlotsShareObject init w1 set.opens i j ∧ SlotsShareObject init w1 set.shorts i j ∧
          SlotsShareObject init w1 set.loads i j) ∧
        (∀ i j : Nat, (i : Int) < w.numPorts * (w.numPorts - 1) / 2 →
          (j : Int) < w.numPorts * (w.numPorts - 1) / 2 →
          SlotsShareObject init w1 set.throughs i j)) ∧
    ((addCoefficientSet { t := Touchstone.new 1, modified := false } "USER1"
        (fresh [] 2 none : CalDevice (List String) Int)).state.coeffSets
      = [{ name := "USER1", ports := 2, opens := [2, 2], shorts := [1, 1], loads := [0, 0],
           throughs := [3] }] ∧
      slotModified (addCoefficientSet { t := Touchstone.new 1, modified := false } "USER1"
        (fresh [] 2 none : CalDevice (List String) Int)).state.heap 2 = false ∧
      slotModified ((addCoefficientSet { t := Touchstone.new 1, modified := false } "USER1"
          >>= fun _ => setModified 2 true)
        (fresh [] 2 none : CalDevice (List String) Int)).state.heap 2 = true) := by
  constructor
  · intro init name w hN
    have hprod : 0 ≤ w.numPorts * (w.numPorts - 1) := mul_nonneg (by omega) (by omega)
    have htdiv : (w.numPorts * (w.numPorts - 1)).tdiv 2 = w.numPorts * (w.numPorts - 1) / 2 :=
      Int.tdiv_eq_ediv hprod (by norm_num)
    have hdiv : 0 ≤ w.numPorts * (w.numPorts - 1) / 2 := Int.ediv_nonneg hprod (by norm_num)
    refine ⟨_, _, addCoefficientSet_eq init name w (by omega) (by rw [htdiv]; exact hdiv), rfl,
      ?_, ?_⟩
    · intro i j hi hj
      exact ⟨slotsShareObject_replicate init _ _ _ (getElem?_append_four _ _ 2 (by omega)) i j
          (by omega) (by omega),
        slotsShareObject_replicate init _ _ _ (getElem?_append_four _ _ 1 (by omega)) i j
          (by omega) (by omega),
        slotsShareObject_replicate init _ _ _ (getElem?_append_four _ _ 0 (by omega)) i j
          (by omega) (by omega)⟩
    · intro i j hi hj
      rw [htdiv]
      exact slotsShareObject_replicate init _ _ _ (getElem?_append_four _ _ 3 (by omega)) i j
        (by omega) (by omega)
  · decide!

end CalDevice
namespace CalDevice

open QString

variable {σ D : Type}

/-! ## The order in which the save thread visits the slots -/

theorem saveOrder_eq (N : Int) (sets : List CoefficientSet) :
    saveOrder N sets = sets.flatMap (fun set => (intRange 1 N).flatMap (fun i =>
      [(set.name, "P" ++ number i ++ "_OPEN", set.opens.getD (i - 1).toNat 0),
       (set.name, "P" ++ number i ++ "_SHORT", set.shorts.getD (i - 1).toNat 0),
       (set.name, "P" ++ number i ++ "_LOAD", set.loads.getD (i - 1).toNat 0)]
      ++ (intRange (i + 1) N).map
        (fun j => (set.name, "P" ++ number i ++ number j ++ "_THROUGH", set.throughAt i j)))) := by
  unfold saveOrder
  congr 1
  funext set
  rw [List.map_flatMap]
  congr 1
  funext i
  simp only [savePortOrder, List.map_append, List.map_cons, List.map_nil, List.map_map,
    Function.comp_def]

/-- C23, as stated, fails: the save thread does not visit the Through slots after the Open,
Short and Load slots of all ports. On `dirtyDevice` (two ports; dirty are the open of port 1,
the through of the ports 1 and 2, and the open of port 2, which holds no sample), with a device
that acknowledges every command, the through is written before the open of port 2. -/
theorem save_writes_through_before_later_port :
    (saveCoefficientSets exampleDevice wholeNumbers dirtyDevice).exit? = none ∧
    (saveCoefficientSets exampleDevice wholeNumbers dirtyDevice).state.io
      = [.cmd ":COEFF:CREATE USER1 P1_OPEN", .cmd ":COEFF:ADD 1 5 -7", .cmd ":COEFF:ADD 2 6 -8",
         .cmd ":COEFF:FIN",
         .cmd ":COEFF:CREATE USER1 P12_THROUGH", .cmd ":COEFF:ADD 3 1 2 5 6 3 4 7 8",
         .cmd ":COEFF:FIN",
         .cmd ":COEFF:DEL USER1 P2_OPEN"] := by
  decide!

/-- C23, amended: the save thread processes the sets in collection order and, within each set,
the ports `i = 1..N` in turn; for port `i` it visits the Open, the Short and the Load slot of
the port and then the Through slots of the pairs `(i, i+1), ..., (i, N)`. So the Through slots
are visited in ascending port-pair order, each row of them right after the one-port slots of
its first port, and not after the one-port slots of all ports. Precisely, on sets that have all
their slots the nested loops are the calls of the lambda `createCoefficient` for the slots of
that list, one after the other. -/
theorem save_visits_ports_in_turn (dev : USBDevice σ) (qt : QtNumeric D) (totalPoints : Nat)
    (N : Int) (sets : List CoefficientSet) (success : Bool) (pr : SaveProgress)
    (hslots : ∀ set ∈ sets, HasAllSlots N set) :
    saveCoefficientSetsThread.saveSets dev qt totalPoints N sets success pr
      = saveSlots dev qt totalPoints (sets.flatMap (fun set => (intRange 1 N).flatMap (fun i =>
          [(set.name, "P" ++ number i ++ "_OPEN", set.opens.getD (i - 1).toNat 0),
           (set.name, "P" ++ number i ++ "_SHORT", set.shorts.getD (i - 1).toNat 0),
           (set.name, "P" ++ number i ++ "_LOAD", set.loads.getD (i - 1).toNat 0)]
          ++ (intRange (i + 1) N).map (fun j =>
            (set.name, "P" ++ number i ++ number j ++ "_THROUGH", set.throughAt i j)))))
        success pr := by
  rw [← saveOrder_eq]
  exact saveSets_eq dev qt totalPoints sets hslots success pr

/-- The set `twoPortSet` of a device with two ports: the slots are visited in the order open,
short, load of port 1, the through, then open, short, load of port 2. -/
theorem save_visits_ports_in_turn_witness :
    (∀ set ∈ [twoPortSet], HasAllSlots 2 set) ∧
    saveCoefficientSetsThread.saveSets exampleDevice wholeNumbers 3 2 [twoPortSet] true
        { transferredPoints := 0, lastPercentage := 0 }
      = saveSlots exampleDevice wholeNumbers 3
          [("USER1", "P1_OPEN", 0), ("USER1", "P1_SHORT", 2), ("USER1", "P1_LOAD", 4),
           ("USER1", "P12_THROUGH", 6), ("USER1", "P2_OPEN", 1), ("USER1", "P2_SHORT", 3),
           ("USER1", "P2_LOAD", 5)] true { transferredPoints := 0, lastPercentage := 0 } :=
  ⟨dirtyDevice_hasAllSlots,
    (save_visits_ports_in_turn exampleDevice wholeNumbers 3 2 [twoPortSet] true
      { transferredPoints := 0, lastPercentage := 0 } dirtyDevice_hasAllSlots).trans
      (congrArg (fun l => saveSlots exampleDevice wholeNumbers 3 l true
        { transferredPoints := 0, lastPercentage := 0 })
        ((saveOrder_eq 2 [twoPortSet]).symm.trans dirtyDevice_saveOrder))⟩

end CalDevice
namespace CalDevice

open QString

variable {σ D : Type}

/-! ## The lines that the streaming strategy reads for one coefficient -/

theorem AddDatapoint_eq_none (t : Touchstone D) (p : Touchstone.Datapoint D)
    (h : ¬ p.S.length = t.ports * t.ports) : t.AddDatapoint p = none := by
  unfold Touchstone.AddDatapoint
  rw [if_neg h]

theorem replicate_succ_receive (n : Nat) :
    ([ChannelOp.receive] ++ List.replicate n ChannelOp.receive)
      = List.replicate (n + 1) ChannelOp.receive := by
  rw [List.replicate_succ]
  rfl

/-- The loop that reads the lines of a stream: when one of the first `fuel` results of `receive`
ends the retrieval, the loop has read the results up to and including the first of them, and
has appended the samples of the data lines before it; otherwise it has read `fuel` results and
is cut off. -/
theorem receiveLines_eq (dev : USBDevice σ) (qt : QtNumeric D) (fuel : Nat) (t : Touchstone D)
    (w : CalDevice σ D) :
    loadCoefficientSetsThreadFast.receiveLines dev qt fuel t w
      = if (received dev fuel w.usb).any (endsRetrieval qt t.ports) then
          .ok { t with datapoints := t.datapoints
                  ++ samplesOfLines qt (linesBeforeEnd dev qt fuel t.ports w.usb) }
            { w with
              usb := afterReceives dev ((linesBeforeEnd dev qt fuel t.ports w.usb).length + 1) w.usb
              io := w.io ++ List.replicate
                ((linesBeforeEnd dev qt fuel t.ports w.usb).length + 1) .receive }
        else
          .exit .diverged
            { w with
              usb := afterReceives dev fuel w.usb
              io := w.io ++ List.replicate fuel .receive } := by
  induction fuel generalizing t w with
  | zero =>
    simp only [received, List.any_nil, Bool.false_eq_true, if_false, afterReceives,
      List.replicate_zero, List.append_nil]
    rfl
  | succ fuel ih =>
    unfold loadCoefficientSetsThreadFast.receiveLines
    rw [bind_ok (show receive dev w = _ from rfl)]
    have hstop : ∀ r, (dev.receive w.usb).1 = r → endsRetrieval qt t.ports r = true →
        (if (received dev (fuel + 1) w.usb).any (endsRetrieval qt t.ports) then
          (.ok { t with datapoints := t.datapoints
                  ++ samplesOfLines qt (linesBeforeEnd dev qt (fuel + 1) t.ports w.usb) }
            { w with
              usb := afterReceives dev
                ((linesBeforeEnd dev qt (fuel + 1) t.ports w.usb).length + 1) w.usb
              io := w.io ++ List.replicate
                ((linesBeforeEnd dev qt (fuel + 1) t.ports w.usb).length + 1) .receive }
            : Res σ D (Touchstone D))
        else
          .exit .diverged
            { w with
              usb := afterReceives dev (fuel + 1) w.usb
              io := w.io ++ List.replicate (fuel + 1) .receive })
        = .ok t { w with usb := (dev.receive w.usb).2, io := w.io ++ [.receive] } := by
      intro r hr he
      subst hr
      simp only [received, List.any_cons, he, Bool.true_or, if_true, linesBeforeEnd,
        List.takeWhile_cons, Bool.not_true, Bool.false_eq_true, if_false, samplesOfLines,
        List.filterMap_nil, List.filter_nil, List.map_nil, List.append_nil, List.length_nil,
        Nat.zero_add, afterReceives, List.replicate_one]
    have hgo : ∀ (r : Option String) (d1 : List (Touchstone.Datapoint D)),
        (dev.receive w.usb).1 = r → endsRetrieval qt t.ports r = false →
        d1 ++ samplesOfLines qt (linesBeforeEnd dev qt fuel t.ports (dev.receive w.usb).2)
          = t.datapoints ++ samplesOfLines qt (r :: linesBeforeEnd dev qt fuel t.ports
              (dev.receive w.usb).2) →
        loadCoefficientSetsThreadFast.receiveLines dev qt fuel { t with datapoints := d1 }
            { w with usb := (dev.receive w.usb).2, io := w.io ++ [.receive] }
        = (if (received dev (fuel + 1) w.usb).any (endsRetrieval qt t.ports) then
          (.ok { t with datapoints := t.datapoints
                  ++ samplesOfLines qt (linesBeforeEnd dev qt (fuel + 1) t.ports w.usb) }
            { w with
              usb := afterReceives dev
                ((linesBeforeEnd dev qt (fuel + 1) t.ports w.usb).length + 1) w.usb
              io := w.io ++ List.replicate
                ((linesBeforeEnd dev qt (fuel + 1) t.ports w.usb).length + 1) .receive }
            : Res σ D (Touchstone D))
        else
          .exit .diverged
            { w with
              usb := afterReceives dev (fuel + 1) w.usb
              io := w.io ++ List.replicate (fuel + 1) .receive }) := by
      intro r d1 hr he hd
      subst hr
      rw [ih _ _]
      simp only [received, List.any_cons, he, Bool.false_or, linesBeforeEnd,
        List.takeWhile_cons, Bool.not_false, if_true, List.length_cons, afterReceives,
        List.append_assoc, replicate_succ_receive]
      simp only [linesBeforeEnd] at hd
      split
      · rw [hd]
      · rfl
    cases hr : (dev.receive w.usb).1 with
    | none => exact (hstop none hr rfl).symm
    | some line =>
      simp only
      by_cases herr : startsWith line "ERROR" = true
      · rw [if_pos herr]
        exact (hstop (some line) hr (by simp [endsRetrieval, herr])).symm
      · rw [if_neg herr]
        have herr2 : startsWith line "ERROR" = false := by simpa using herr
        by_cases hskip : (startsWith line "START" || startsWith line "!"
            || startsWith line "#") = true
        · rw [if_pos hskip]
          have hskip1 : skipsLine line = true := hskip
          refine hgo (some line) t.datapoints hr ?_ ?_
          · simp [endsRetrieval, herr2, hskip1]
          · simp [samplesOfLines, hskip1]
        · rw [if_neg hskip]
          have hskip2 : skipsLine line = false := by simpa [skipsLine] using hskip
          by_cases hend : startsWith line "END" = true
          · rw [if_pos hend]
            exact (hstop (some line) hr (by simp [endsRetrieval, hskip2, hend])).symm
          · rw [if_neg hend]
            have hend2 : startsWith line "END" = false := by simpa using hend
            by_cases hfit : (parseDatapoint qt (split line ' ')).S.length = t.ports * t.ports
            · rw [AddDatapoint_of_length t _ hfit]
              refine hgo (some line) _ hr ?_ ?_
              · simp [endsRetrieval, herr2, hskip2, hend2, fitsResponse, hfit]
              · simp [samplesOfLines, hskip2]
            · rw [AddDatapoint_eq_none t _ hfit]
              exact (hstop (some line) hr
                (by simp [endsRetrieval, hskip2, fitsResponse, hfit])).symm

/-- The lambda of the streaming strategy as a function of the results of the receives that
follow its request. -/
theorem createCoefficientFast_eq (dev : USBDevice σ) (qt : QtNumeric D) (fuel : Nat)
    (setName paramName : String) (w : CalDevice σ D) :
    loadCoefficientSetsThreadFast.createCoefficient dev qt fuel setName paramName w
      = if (received dev fuel (dev.send (":COEFF:GET? " ++ setName ++ " " ++ paramName)
            w.usb)).any (endsRetrieval qt (if endsWith paramName "THROUGH" then 2 else 1)) then
          .ok w.heap.length
            { w with
              usb := afterReceives dev
                ((linesBeforeEnd dev qt fuel (if endsWith paramName "THROUGH" then 2 else 1)
                  (dev.send (":COEFF:GET? " ++ setName ++ " " ++ paramName) w.usb)).length + 1)
                (dev.send (":COEFF:GET? " ++ setName ++ " " ++ paramName) w.usb)
              io := w.io ++ [.send (":COEFF:GET? " ++ setName ++ " " ++ paramName)]
                ++ List.replicate
                  ((linesBeforeEnd dev qt fuel (if endsWith paramName "THROUGH" then 2 else 1)
                    (dev.send (":COEFF:GET? " ++ setName ++ " " ++ paramName) w.usb)).length + 1)
                  .receive
              heap := w.heap ++
                [{ t := { ports := if endsWith paramName "THROUGH" then 2 else 1
                          datapoints := samplesOfLines qt (linesBeforeEnd dev qt fuel
                            (if endsWith paramName "THROUGH" then 2 else 1)
                            (dev.send (":COEFF:GET? " ++ setName ++ " " ++ paramName) w.usb))
                          filename := "LibreCAL/" ++ paramName }
                   modified := false }] }
        else
          .exit .diverged
            { w with
              usb := afterReceives dev fuel
                (dev.send (":COEFF:GET? " ++ setName ++ " " ++ paramName) w.usb)
              io := w.io ++ [.send (":COEFF:GET? " ++ setName ++ " " ++ paramName)]
                ++ List.replicate fuel .receive } := by
  have hp : ((if endsWith paramName "THROUGH" then Touchstone.new 2 else Touchstone.new 1
      : Touchstone D).setFilename ("LibreCAL/" ++ paramName)).ports
      = if endsWith paramName "THROUGH" then 2 else 1 := by
    split <;> rfl
  have hd : ((if endsWith paramName "THROUGH" then Touchstone.new 2 else Touchstone.new 1
      : Touchstone D).setFilename ("LibreCAL/" ++ paramName)).datapoints = [] := by
    split <;> rfl
  have hf : ((if endsWith paramName "THROUGH" then Touchstone.new 2 else Touchstone.new 1
      : Touchstone D).setFilename ("LibreCAL/" ++ paramName)).filename
      = "LibreCAL/" ++ paramName := rfl
  unfold loadCoefficientSetsThreadFast.createCoefficient
  rw [bind_ok (show send dev _ w = _ from rfl)]
  have h := receiveLines_eq dev qt fuel
    ((if endsWith paramName "THROUGH" then Touchstone.new 2 else Touchstone.new 1
      : Touchstone D).setFilename ("LibreCAL/" ++ paramName))
    { w with usb := dev.send (":COEFF:GET? " ++ setName ++ " " ++ paramName) w.usb,
             io := w.io ++ [.send (":COEFF:GET? " ++ setName ++ " " ++ paramName)] }
  rw [hp, hd, hf, List.nil_append] at h
  by_cases hany : (received dev fuel (dev.send (":COEFF:GET? " ++ setName ++ " " ++ paramName)
      w.usb)).any (endsRetrieval qt (if endsWith paramName "THROUGH" then 2 else 1)) = true
  · rw [if_pos hany] at h ⊢
    rw [bind_ok h]
    rfl
  · rw [if_neg hany] at h ⊢
    rw [bind_exit h]


end CalDevice
namespace CalDevice

open QString

variable {σ D : Type}

/-! ## The streaming retrieval of one coefficient -/

/-- C21, as stated, fails: an error line ends the retrieval of a coefficient before the `END`
line. The stream of `brokenStreamDevice` is `START`, `1 5 -7`, `ERROR`, `2 6 -8`, `END`; the
coefficient holds the sample of the first data line only, and the lines `2 6 -8` and `END`,
which precede the end of the stream, are not read for it (they wait in the channel). -/
theorem error_line_ends_stream_before_end_line :
    (loadCoefficientSetsThreadFast.createCoefficient brokenStreamDevice wholeNumbers 8 "FACTORY"
        "P1_OPEN" (fresh [] 1 none)).value? = some 0 ∧
    (loadCoefficientSetsThreadFast.createCoefficient brokenStreamDevice wholeNumbers 8 "FACTORY"
        "P1_OPEN" (fresh [] 1 none)).state.heap
      = [{ t := { ports := 1, datapoints := [{ frequency := 1000000000, S := [(5, -7)] }],
                  filename := "LibreCAL/P1_OPEN" },
           modified := false }] ∧
    (loadCoefficientSetsThreadFast.createCoefficient brokenStreamDevice wholeNumbers 8 "FACTORY"
        "P1_OPEN" (fresh [] 1 none)).state.usb = ["2 6 -8", "END"] ∧
    (loadCoefficientSetsThreadFast.createCoefficient brokenStreamDevice wholeNumbers 8 "FACTORY"
        "P1_OPEN" (fresh [] 1 none)).state.io
      = [.send ":COEFF:GET? FACTORY P1_OPEN", .receive, .receive, .receive] := by
  decide!

/-- C21, amended: the streaming retrieval of one coefficient sends one request and then reads
the results of `receive` up to and including the first that ends the retrieval: a timeout, a
line that starts with `ERROR`, a line that starts with `END`, or a data line whose sample does
not have the number of parameters of the response (the lines that start with `START`, `!` or
`#` are ignored and end nothing). The samples of the coefficient are exactly the parsed data
lines before that result, in arrival order; no result after it is read for this coefficient;
and whichever of the four ended the retrieval, the coefficient filled so far is returned as
final. (When none of the first `fuel` results ends the retrieval, the run of the embedding is
cut off.) -/
theorem streamed_samples_until_terminator (dev : USBDevice σ) (qt : QtNumeric D) (fuel : Nat)
    (setName paramName : String) (w : CalDevice σ D) :
    loadCoefficientSetsThreadFast.createCoefficient dev qt fuel setName paramName w
      = if (received dev fuel (dev.send (":COEFF:GET? " ++ setName ++ " " ++ paramName)
            w.usb)).any (endsRetrieval qt (if endsWith paramName "THROUGH" then 2 else 1)) then
          .ok w.heap.length
            { w with
              usb := afterReceives dev
                ((linesBeforeEnd dev qt fuel (if endsWith paramName "THROUGH" then 2 else 1)
                  (dev.send (":COEFF:GET? " ++ setName ++ " " ++ paramName) w.usb)).length + 1)
                (dev.send (":COEFF:GET? " ++ setName ++ " " ++ paramName) w.usb)
              io := w.io ++ [.send (":COEFF:GET? " ++ setName ++ " " ++ paramName)]
                ++ List.replicate
                  ((linesBeforeEnd dev qt fuel (if endsWith paramName "THROUGH" then 2 else 1)
                    (dev.send (":COEFF:GET? " ++ setName ++ " " ++ paramName) w.usb)).length + 1)
                  .receive
              heap := w.heap ++
                [{ t := { ports := if endsWith paramName "THROUGH" then 2 else 1
                          datapoints := samplesOfLines qt (linesBeforeEnd dev qt fuel
                            (if endsWith paramName "THROUGH" then 2 else 1)
                            (dev.send (":COEFF:GET? " ++ setName ++ " " ++ paramName) w.usb))
                          filename := "LibreCAL/" ++ paramName }
                   modified := false }] }
        else
          .exit .diverged
            { w with
              usb := afterReceives dev fuel
                (dev.send (":COEFF:GET? " ++ setName ++ " " ++ paramName) w.usb)
              io := w.io ++ [.send (":COEFF:GET? " ++ setName ++ " " ++ paramName)]
                ++ List.replicate fuel .receive } := by
  have hp : ((if endsWith paramName "THROUGH" then Touchstone.new 2 else Touchstone.new 1
      : Touchstone D).setFilename ("LibreCAL/" ++ paramName)).ports
      = if endsWith paramName "THROUGH" then 2 else 1 := by
    split <;> rfl
  have hd : ((if endsWith paramName "THROUGH" then Touchstone.new 2 else Touchstone.new 1
      : Touchstone D).setFilename ("LibreCAL/" ++ paramName)).datapoints = [] := by
    split <;> rfl
  have hf : ((if endsWith paramName "THROUGH" then Touchstone.new 2 else Touchstone.new 1
      : Touchstone D).setFilename ("LibreCAL/" ++ paramName)).filename
      = "LibreCAL/" ++ paramName := rfl
  unfold loadCoefficientSetsThreadFast.createCoefficient
  rw [bind_ok (show send dev _ w = _ from rfl)]
  have h := receiveLines_eq dev qt fuel
    ((if endsWith paramName "THROUGH" then Touchstone.new 2 else Touchstone.new 1
      : Touchstone D).setFilename ("LibreCAL/" ++ paramName))
    { w with usb := dev.send (":COEFF:GET? " ++ setName ++ " " ++ paramName) w.usb,
             io := w.io ++ [.send (":COEFF:GET? " ++ setName ++ " " ++ paramName)] }
  rw [hp, hd, hf, List.nil_append] at h
  by_cases hany : (received dev fuel (dev.send (":COEFF:GET? " ++ setName ++ " " ++ paramName)
      w.usb)).any (endsRetrieval qt (if endsWith paramName "THROUGH" then 2 else 1)) = true
  · rw [if_pos hany] at h ⊢
    rw [bind_ok h]
    rfl
  · rw [if_neg hany] at h ⊢
    rw [bind_exit h]

end CalDevice
namespace CalDevice

open QString

variable {σ D : Type}

/-! ## An error line in a stream -/

theorem takeWhile_eq_take {α : Type} (p : α → Bool) (l : List α) (k : Nat) (x : α)
    (hk : l[k]? = some x) (hx : p x = false) (hpre : ∀ y ∈ l.take k, p y = true) :
    l.takeWhile p = l.take k := by
  induction l generalizing k with
  | nil => simp at hk
  | cons a l ih =>
    cases k with
    | zero =>
      simp only [List.getElem?_cons_zero, Option.some.injEq] at hk
      subst hk
      simp [List.takeWhile_cons, hx]
    | succ k =>
      simp only [List.getElem?_cons_succ] at hk
      have ha : p a = true := hpre a (by simp)
      rw [List.takeWhile_cons, ha, List.take_succ_cons,
        ih k hk (fun y hy => hpre y (by simp [hy]))]
      rfl

/-- C22, as stated, fails: the samples read before an error line are not discarded. The stream
of `errorDevice` for the short of port 1 is `START`, `1 5 -7`, `ERROR`; the coefficient is
accepted with the sample of the line `1 5 -7`. -/
theorem error_line_keeps_samples_read :
    (loadCoefficientSetsThreadFast.createCoefficient errorDevice wholeNumbers 8 "FACTORY"
        "P1_SHORT" (fresh [] 1 none)).value? = some 0 ∧
    (loadCoefficientSetsThreadFast.createCoefficient errorDevice wholeNumbers 8 "FACTORY"
        "P1_SHORT" (fresh [] 1 none)).state.heap
      = [{ t := { ports := 1, datapoints := [{ frequency := 1000000000, S := [(5, -7)] }],
                  filename := "LibreCAL/P1_SHORT" },
           modified := false }] := by
  decide!

/-- C22, amended: in the streaming strategy an error line (a line that starts with `ERROR`)
ends the retrieval of the current coefficient only. The samples of the data lines read for the
coefficient before the error line are kept: the coefficient is accepted with them, and no line
after the error line is read for it. Without cancellation the loop then files the coefficient
in its slot, notifies the progress and goes on with the next coefficient. (Here the error line
is the result `k` of the receives that follow the request, and no result before it ends the
retrieval.) -/
theorem error_line_keeps_samples_and_goes_on (dev : USBDevice σ) (qt : QtNumeric D) (fuel : Nat)
    (total_coeffs : Int) (name coeff : String) (coeffs : List String) (set : CoefficientSet)
    (read_coeffs : Int) (w : CalDevice σ D) (k : Nat) (line : String)
    (hline : (received dev fuel (dev.send (":COEFF:GET? " ++ name ++ " " ++ coeff) w.usb))[k]?
      = some (some line))
    (herr : startsWith line "ERROR" = true)
    (hpre : ∀ r ∈ (received dev fuel (dev.send (":COEFF:GET? " ++ name ++ " " ++ coeff)
        w.usb)).take k,
      endsRetrieval qt (if endsWith coeff "THROUGH" then 2 else 1) r = false)
    (hcalm : Calm w) (htotal : total_coeffs ≠ 0) :
    ∃ w1, loadCoefficientSetsThreadFast.createCoefficient dev qt fuel name coeff w
        = .ok w.heap.length w1 ∧
      w1.heap = w.heap ++
        [{ t := { ports := if endsWith coeff "THROUGH" then 2 else 1
                  datapoints := samplesOfLines qt ((received dev fuel
                    (dev.send (":COEFF:GET? " ++ name ++ " " ++ coeff) w.usb)).take k)
                  filename := "LibreCAL/" ++ coeff }
           modified := false }] ∧
      w1.io = w.io ++ [.send (":COEFF:GET? " ++ name ++ " " ++ coeff)]
        ++ List.replicate (k + 1) .receive ∧
      loadCoefficientSetsThreadFast.readCoeffs dev qt fuel total_coeffs name (coeff :: coeffs)
          set read_coeffs w
        = loadCoefficientSetsThreadFast.readCoeffs dev qt fuel total_coeffs name coeffs
            (loadCoefficientSetsThreadFast.store set coeff w.heap.length) (read_coeffs + 1)
            { w1 with signals := w1.signals ++
                [.updateCoefficientsPercent (((read_coeffs + 1) * 100).tdiv total_coeffs)] } := by
  have hends : endsRetrieval qt (if endsWith coeff "THROUGH" then 2 else 1) (some line)
      = true := by
    simp [endsRetrieval, herr]
  have hany : (received dev fuel (dev.send (":COEFF:GET? " ++ name ++ " " ++ coeff)
      w.usb)).any (endsRetrieval qt (if endsWith coeff "THROUGH" then 2 else 1)) = true := by
    rw [List.any_eq_true]
    exact ⟨some line, List.getElem?_mem hline, hends⟩
  have htake : linesBeforeEnd dev qt fuel (if endsWith coeff "THROUGH" then 2 else 1)
      (dev.send (":COEFF:GET? " ++ name ++ " " ++ coeff) w.usb)
      = (received dev fuel (dev.send (":COEFF:GET? " ++ name ++ " " ++ coeff) w.usb)).take k :=
    takeWhile_eq_take _ _ k (some line) hline (by simp [hends])
      (fun y hy => by simp [hpre y hy])
  have hlen : ((received dev fuel (dev.send (":COEFF:GET? " ++ name ++ " " ++ coeff)
      w.usb)).take k).length = k := by
    rw [List.length_take]
    have := (List.getElem?_eq_some.mp hline).1
    omega
  have hc := createCoefficientFast_eq dev qt fuel name coeff w
  rw [if_pos hany, htake, hlen] at hc
  refine ⟨_, hc, rfl, rfl, ?_⟩
  have hcalm1 : Calm ({ w with
      usb := afterReceives dev (k + 1) (dev.send (":COEFF:GET? " ++ name ++ " " ++ coeff) w.usb)
      io := w.io ++ [.send (":COEFF:GET? " ++ name ++ " " ++ coeff)]
        ++ List.replicate (k + 1) .receive
      heap := w.heap ++
        [{ t := { ports := if endsWith coeff "THROUGH" then 2 else 1
                  datapoints := samplesOfLines qt ((received dev fuel
                    (dev.send (":COEFF:GET? " ++ name ++ " " ++ coeff) w.usb)).take k)
                  filename := "LibreCAL/" ++ coeff }
           modified := false }] } : CalDevice σ D) := hcalm
  conv_lhs => unfold loadCoefficientSetsThreadFast.readCoeffs
  rw [bind_ok hc, bind_ok (readAbortLoading_calm hcalm1)]
  simp only [Bool.false_eq_true, if_false, htotal]
  rw [bind_ok (show emit _ _ = _ from rfl)]

/-- On `errorDevice` the error line of the short of port 1 is the third line of its stream: the
coefficient keeps the sample read before it, and the loop goes on with the load of the port. -/
theorem error_line_keeps_samples_and_goes_on_witness :
    ∃ w1, loadCoefficientSetsThreadFast.createCoefficient errorDevice wholeNumbers 8 "FACTORY"
        "P1_SHORT" (fresh [] 1 none) = .ok 0 w1 ∧
      w1.heap
        = [{ t := { ports := 1, datapoints := [{ frequency := 1000000000, S := [(5, -7)] }],
                    filename := "LibreCAL/P1_SHORT" },
             modified := false }] ∧
      w1.io = [.send ":COEFF:GET? FACTORY P1_SHORT", .receive, .receive, .receive] ∧
      loadCoefficientSetsThreadFast.readCoeffs errorDevice wholeNumbers 8 3 "FACTORY"
          ["P1_SHORT", "P1_LOAD"]
          { name := "FACTORY", ports := 1, opens := [], shorts := [], loads := [],
            throughs := [] } 1 (fresh [] 1 none)
        = loadCoefficientSetsThreadFast.readCoeffs errorDevice wholeNumbers 8 3 "FACTORY"
            ["P1_LOAD"]
            { name := "FACTORY", ports := 1, opens := [], shorts := [0], loads := [],
              throughs := [] } 2
            { w1 with signals := w1.signals ++ [.updateCoefficientsPercent 66] } := by
  obtain ⟨w1, h1, h2, h3, h4⟩ := error_line_keeps_samples_and_goes_on errorDevice wholeNumbers 8
    3 "FACTORY" "P1_SHORT" ["P1_LOAD"]
    { name := "FACTORY", ports := 1, opens := [], shorts := [], loads := [], throughs := [] }
    1 (fresh [] 1 none) 2 "ERROR" (by decide!) (by decide!) (by decide!) ⟨rfl, rfl⟩ (by decide)
  refine ⟨w1, h1, ?_, ?_, ?_⟩
  · rw [h2]
    decide!
  · rw [h3]
    decide!
  · rw [h4]
    rfl

end CalDevice
namespace CalDevice

open QString

variable {σ D : Type}

/-! ## The progress of the streaming strategy -/

theorem fastPercents_add (T rc : Int) (a b : Nat) :
    fastPercents T rc (a + b) = fastPercents T rc a ++ fastPercents T (rc + a) b := by
  unfold fastPercents
  rw [List.range_add, List.map_append, List.map_map]
  congr 1
  apply List.map_congr_left
  intro k _
  simp only [Function.comp_apply]
  congr 2
  push_cast
  ring

theorem fastPercents_one (T rc : Int) :
    fastPercents T rc 1 = [.updateCoefficientsPercent (((rc + 1) * 100).tdiv T)] := by
  unfold fastPercents
  rw [show List.range 1 = [0] from rfl]
  simp

theorem createCoefficientFast_cases (dev : USBDevice σ) (qt : QtNumeric D) (fuel : Nat)
    (setName paramName : String) (w : CalDevice σ D) :
    (∃ c w1, loadCoefficientSetsThreadFast.createCoefficient dev qt fuel setName paramName w
        = .ok c w1 ∧ w1.signals = w.signals) ∨
    (∃ w1, loadCoefficientSetsThreadFast.createCoefficient dev qt fuel setName paramName w
        = .exit .diverged w1 ∧ w1.signals = w.signals) := by
  rw [createCoefficientFast_eq]
  by_cases hany : (received dev fuel (dev.send (":COEFF:GET? " ++ setName ++ " " ++ paramName)
      w.usb)).any (endsRetrieval qt (if endsWith paramName "THROUGH" then 2 else 1)) = true
  · rw [if_pos hany]
    exact Or.inl ⟨_, _, rfl, rfl⟩
  · rw [if_neg hany]
    exact Or.inr ⟨_, rfl, rfl⟩

/-- The loop over the coefficients of one set, when `total_coeffs` is not zero: it notifies
`read_coeffs * 100 / total_coeffs` after each coefficient that it completes, never divides by
zero, and completes every coefficient when it reaches its end. -/
theorem readCoeffs_progress (dev : USBDevice σ) (qt : QtNumeric D) (fuel : Nat)
    (total_coeffs : Int) (htotal : total_coeffs ≠ 0) (name : String) (coeffs : List String)
    (set : CoefficientSet) (read_coeffs : Int) (w : CalDevice σ D) :
    ∃ K, K ≤ coeffs.length ∧
      (loadCoefficientSetsThreadFast.readCoeffs dev qt fuel total_coeffs name coeffs set
        read_coeffs w).state.signals = w.signals ++ fastPercents total_coeffs read_coeffs K ∧
      (loadCoefficientSetsThreadFast.readCoeffs dev qt fuel total_coeffs name coeffs set
        read_coeffs w).exit? ≠ some (.crashed .divisionByZero) ∧
      ∀ r w1, loadCoefficientSetsThreadFast.readCoeffs dev qt fuel total_coeffs name coeffs set
        read_coeffs w = .ok r w1 → K = coeffs.length ∧ r.2 = read_coeffs + coeffs.length := by
  induction coeffs generalizing set read_coeffs w with
  | nil =>
    refine ⟨0, le_rfl, ?_, ?_, ?_⟩
    · simp [loadCoefficientSetsThreadFast.readCoeffs, pure_apply, Res.state, fastPercents]
    · simp [loadCoefficientSetsThreadFast.readCoeffs, pure_apply, Res.exit?]
    · intro r w1 h
      cases h
      simp
  | cons coeff coeffs ih =>
    unfold loadCoefficientSetsThreadFast.readCoeffs
    rcases createCoefficientFast_cases dev qt fuel name coeff w with ⟨c, w1, hc, hs1⟩ | ⟨w1, hc, hs1⟩
    · rw [bind_ok hc]
      obtain ⟨b, w2, hb, hs2, -⟩ := readAbortLoading_cases w1
      rw [bind_ok hb]
      cases b with
      | true =>
        refine ⟨0, Nat.zero_le _, ?_, ?_, ?_⟩
        · simp [leave, Res.state, fastPercents, hs2, hs1]
        · simp [leave, Res.exit?]
        · intro r w3 h
          simp [leave] at h
      | false =>
        simp only [Bool.false_eq_true, if_false, htotal]
        rw [bind_ok (show emit _ w2 = _ from rfl)]
        obtain ⟨K, hK, h1, h2, h3⟩ := ih (loadCoefficientSetsThreadFast.store set coeff c)
          (read_coeffs + 1)
          { w2 with signals := w2.signals ++
            [.updateCoefficientsPercent (((read_coeffs + 1) * 100).tdiv total_coeffs)] }
        refine ⟨1 + K, by simp only [List.length_cons]; omega, ?_, h2, ?_⟩
        · rw [h1, fastPercents_add, fastPercents_one, hs2, hs1]
          simp only [List.append_assoc, Nat.cast_one]
        · intro r w3 h
          obtain ⟨e1, e2⟩ := h3 r w3 h
          refine ⟨by simp only [List.length_cons]; omega, ?_⟩
          rw [e2, List.length_cons]
          push_cast
          ring
    · rw [bind_exit hc]
      refine ⟨0, Nat.zero_le _, ?_, ?_, ?_⟩
      · simp [Res.state, fastPercents, hs1]
      · simp [Res.exit?]
      · intro r w3 h
        cases h

/-- The loop over the sets of the streaming strategy, when `total_coeffs` is not zero or there
is no coefficient. -/
theorem readSetsFast_progress (dev : USBDevice σ) (qt : QtNumeric D) (fuel : Nat)
    (total_coeffs : Int) (numPorts : Int) (coeffNames : List String)
    (htotal : coeffNames = [] ∨ total_coeffs ≠ 0) (names : List String) (read_coeffs : Int)
    (w : CalDevice σ D) :
    ∃ K, K ≤ coeffNames.length * names.length ∧
      (loadCoefficientSetsThreadFast.readSets dev qt fuel total_coeffs numPorts coeffNames names
        read_coeffs w).state.signals = w.signals ++ fastPercents total_coeffs read_coeffs K ∧
      (loadCoefficientSetsThreadFast.readSets dev qt fuel total_coeffs numPorts coeffNames names
        read_coeffs w).exit? ≠ some (.crashed .divisionByZero) ∧
      ((loadCoefficientSetsThreadFast.readSets dev qt fuel total_coeffs numPorts coeffNames names
        read_coeffs w).exit? = none → K = coeffNames.length * names.length) := by
  have hcoeffs : ∀ (name : String) (set : CoefficientSet) (rc : Int) (w : CalDevice σ D),
      ∃ K, K ≤ coeffNames.length ∧
        (loadCoefficientSetsThreadFast.readCoeffs dev qt fuel total_coeffs name coeffNames set
          rc w).state.signals = w.signals ++ fastPercents total_coeffs rc K ∧
        (loadCoefficientSetsThreadFast.readCoeffs dev qt fuel total_coeffs name coeffNames set
          rc w).exit? ≠ some (.crashed .divisionByZero) ∧
        ∀ r w1, loadCoefficientSetsThreadFast.readCoeffs dev qt fuel total_coeffs name coeffNames
          set rc w = .ok r w1 → K = coeffNames.length ∧ r.2 = rc + coeffNames.length := by
    intro name set rc w
    rcases htotal with h | h
    · subst h
      refine ⟨0, le_rfl, ?_, ?_, ?_⟩
      · simp [loadCoefficientSetsThreadFast.readCoeffs, pure_apply, Res.state, fastPercents]
      · simp [loadCoefficientSetsThreadFast.readCoeffs, pure_apply, Res.exit?]
      · intro r w1 h
        cases h
        simp
    · exact readCoeffs_progress dev qt fuel total_coeffs h name coeffNames set rc w
  induction names generalizing read_coeffs w with
  | nil =>
    refine ⟨0, Nat.zero_le _, ?_, ?_, ?_⟩
    · simp [loadCoefficientSetsThreadFast.readSets, pure_apply, Res.state, fastPercents]
    · simp [loadCoefficientSetsThreadFast.readSets, pure_apply, Res.exit?]
    · intro _
      simp
  | cons name names ih =>
    unfold loadCoefficientSetsThreadFast.readSets
    obtain ⟨K1, hK1, h1, h2, h3⟩ := hcoeffs name
      { name := name, ports := numPorts, opens := [], shorts := [], loads := [], throughs := [] }
      read_coeffs w
    cases hr : loadCoefficientSetsThreadFast.readCoeffs dev qt fuel total_coeffs name coeffNames
        { name := name, ports := numPorts, opens := [], shorts := [], loads := [],
          throughs := [] } read_coeffs w with
    | ok r w1 =>
      rw [hr] at h1 h2
      obtain ⟨e1, e2⟩ := h3 r w1 hr
      rw [bind_ok hr, bind_ok (show pushCoeffSet r.1 w1 = _ from rfl)]
      obtain ⟨K2, hK2, g1, g2, g3⟩ := ih r.2 { w1 with coeffSets := w1.coeffSets ++ [r.1] }
      refine ⟨K1 + K2, ?_, ?_, g2, ?_⟩
      · rw [List.length_cons, Nat.mul_succ]
        omega
      · rw [g1, fastPercents_add, e2, e1]
        show w1.signals ++ _ = _
        have : w1.signals = w.signals ++ fastPercents total_coeffs read_coeffs K1 := h1
        rw [this, e1, List.append_assoc]
      · intro hnone
        rw [g3 hnone, e1, List.length_cons, Nat.mul_succ]
        omega
    | exit e w1 =>
      rw [hr] at h1 h2
      rw [bind_exit hr]
      refine ⟨K1, ?_, h1, h2, ?_⟩
      · rw [List.length_cons, Nat.mul_succ]
        omega
      · intro hnone
        simp [Res.exit?] at hnone

end CalDevice
namespace CalDevice

open QString

variable {σ D : Type}

/-! ## The validation at the start of both load threads -/

/-- Both load threads start with the same validation: when the listing is accepted and holds
every requested name, the thread goes on with the sets to retrieve and the port count;
otherwise it emits the completion signal with failure and returns. -/
theorem prologue_eq (dev : USBDevice σ) (names : List String) (w : CalDevice σ D)
    (rest : List String → Int → M σ D Unit) :
    (do
      let coeffList ← getCoefficientSetNames dev
      if coeffList.isEmpty then
        emit (.updateCoefficientsDone false)
        leave .returned
      else if names.length > 0 ∧ ¬ names.all (fun n => coeffList.contains n) then
        emit (.updateCoefficientsDone false)
        leave .returned
      else
        let coeffList := if names.length > 0 then names else coeffList
        let numPorts ← readNumPorts
        rest coeffList numPorts : M σ D Unit) w
    = if startsWith (dev.Query ":COEFF:LIST?" w.usb).1 "FACTORY" = true ∧
          names.all (fun n => (split (dev.Query ":COEFF:LIST?" w.usb).1 ',').contains n) = true
      then rest (requestedSets names (split (dev.Query ":COEFF:LIST?" w.usb).1 ',')) w.numPorts
        { w with usb := (dev.Query ":COEFF:LIST?" w.usb).2, io := w.io ++ [.query ":COEFF:LIST?"] }
      else .exit .returned
        { w with
          usb := (dev.Query ":COEFF:LIST?" w.usb).2
          io := w.io ++ [.query ":COEFF:LIST?"]
          signals := w.signals ++ [.updateCoefficientsDone false] } := by
  rw [bind_ok (getCoefficientSetNames_apply dev w)]
  by_cases hs : startsWith (dev.Query ":COEFF:LIST?" w.usb).1 "FACTORY" = true
  · have hnonempty : (split (dev.Query ":COEFF:LIST?" w.usb).1 ',').isEmpty = false := by
      have := split_ne_nil (dev.Query ":COEFF:LIST?" w.usb).1 ','
      cases h : split (dev.Query ":COEFF:LIST?" w.usb).1 ',' with
      | nil => exact absurd h this
      | cons a l => rfl
    simp only [hs, if_true, hnonempty, Bool.false_eq_true, if_false, true_and]
    by_cases hall : names.all
        (fun n => (split (dev.Query ":COEFF:LIST?" w.usb).1 ',').contains n) = true
    · simp only [hall, not_true_eq_false, and_false, if_false, if_true]
      rw [bind_apply]
      rfl
    · by_cases hlen : names.length > 0
      · simp only [hall, hlen, not_false_eq_true, and_self, if_true, if_false]
        rfl
      · have hnil : names = [] := List.eq_nil_of_length_eq_zero (by omega)
        subst hnil
        simp at hall
  · simp only [hs, Bool.false_eq_true, if_false, List.isEmpty_nil, if_true, false_and]
    rfl

end CalDevice
namespace CalDevice

open QString

variable {σ D : Type}

/-! ## The notifications of the streaming strategy -/

theorem length_coeffRows (N : Int) (n : Nat) (a : Int) (ha : 1 ≤ a) (hn : a + n = N + 1) :
    (((intRange a N).flatMap (portCoeffNames N)).length : Int)
      = 3 * (N + 1 - a) + (rowOffset N (N + 1) - rowOffset N a) := by
  induction n generalizing a with
  | zero =>
    have e : a = N + 1 := by omega
    subst e
    have : intRange (N + 1) N = [] := by
      apply List.eq_nil_of_length_eq_zero
      rw [intRange_length]
      omega
    simp [this]
  | succ n ih =>
    rw [intRange_cons a N (by omega), List.flatMap_cons, List.length_append, Nat.cast_add,
      ih (a + 1) (by omega) (by push_cast at hn ⊢; omega), rowOffset_succ N a ha]
    have : (((portCoeffNames N a).length : Nat) : Int) = 3 + (N - a) := by
      unfold portCoeffNames
      rw [List.length_append, List.length_map, intRange_length]
      simp only [List.length_cons, List.length_nil]
      omega
    rw [this]
    ring

/-- The list `coeffNames` of a device with `N` ports has `3 * N + N * (N - 1) / 2` entries. -/
theorem length_coeffNames (N : Int) (hN : 0 ≤ N) :
    ((loadCoefficientSetsThreadFast.coeffNames N).length : Int) = 3 * N + N * (N - 1) / 2 := by
  unfold loadCoefficientSetsThreadFast.coeffNames
  rw [length_coeffRows N N.toNat 1 le_rfl (by omega), rowOffset_one, sub_zero, rowOffset_last N hN]
  ring

theorem fastPercents_eq_percentsUpTo (T : Int) (hT : 0 ≤ T) (K : Nat) :
    fastPercents T 0 K = percentsUpTo T K := by
  unfold fastPercents percentsUpTo
  apply List.map_congr_left
  intro k _
  rw [Int.tdiv_eq_ediv (by positivity) hT]
  congr 2
  ring

/-- A streaming load of a request that is not empty: the thread never divides by zero, and,
unless the validation fails, it notifies `read_coeffs * 100 / total_coeffs` after each
coefficient that it completes, and the completion when it reaches its end, with every
coefficient completed. -/
theorem loadFast_progress (dev : USBDevice σ) (qt : QtNumeric D) (fuel : Nat)
    (names : List String) (hne : names ≠ []) (w : CalDevice σ D) :
    (loadCoefficientSets dev qt fuel names true w).exit? ≠ some (.crashed .divisionByZero) ∧
    ((startsWith (dev.Query ":COEFF:LIST?" w.usb).1 "FACTORY" = true ∧
        names.all (fun n => (split (dev.Query ":COEFF:LIST?" w.usb).1 ',').contains n) = true) →
      ∃ K, K ≤ (loadCoefficientSetsThreadFast.coeffNames w.numPorts).length * names.length ∧
        (loadCoefficientSets dev qt fuel names true w).state.signals
          = w.signals ++ fastPercents
              (((loadCoefficientSetsThreadFast.coeffNames w.numPorts).length : Int)
                * (names.length : Int)) 0 K
            ++ doneSignal (loadCoefficientSets dev qt fuel names true w).exit? ∧
        ((loadCoefficientSets dev qt fuel names true w).exit? = none →
          K = (loadCoefficientSetsThreadFast.coeffNames w.numPorts).length * names.length)) := by
  have hlen : names.length > 0 := List.length_pos.mpr hne
  have htotal : loadCoefficientSetsThreadFast.coeffNames w.numPorts = [] ∨
      ((loadCoefficientSetsThreadFast.coeffNames w.numPorts).length : Int) * (names.length : Int)
        ≠ 0 := by
    cases h : loadCoefficientSetsThreadFast.coeffNames w.numPorts with
    | nil => exact Or.inl rfl
    | cons a l =>
      right
      have h1 : (0 : Int) < (names.length : Int) := by exact_mod_cast hlen
      have h2 : (0 : Int) < ((a :: l).length : Int) := by
        rw [List.length_cons]
        omega
      exact (mul_pos h2 h1).ne'
  have hreq : ∀ l, requestedSets names l = names := by
    intro l
    unfold requestedSets
    rw [if_pos hlen]
  have e : loadCoefficientSets dev qt fuel names true w
      = if startsWith (dev.Query ":COEFF:LIST?" w.usb).1 "FACTORY" = true ∧
          names.all (fun n => (split (dev.Query ":COEFF:LIST?" w.usb).1 ',').contains n) = true
        then (do
          loadCoefficientSetsThreadFast.readSets dev qt fuel
            (((loadCoefficientSetsThreadFast.coeffNames w.numPorts).length : Int)
              * (names.length : Int))
            w.numPorts (loadCoefficientSetsThreadFast.coeffNames w.numPorts) names 0
          emit (.updateCoefficientsDone true) : M σ D Unit)
          { w with usb := (dev.Query ":COEFF:LIST?" w.usb).2, coeffSets := [],
                   abortLoading := false, io := w.io ++ [.query ":COEFF:LIST?"] }
        else .exit .returned
          { w with
            usb := (dev.Query ":COEFF:LIST?" w.usb).2
            coeffSets := []
            abortLoading := false
            io := w.io ++ [.query ":COEFF:LIST?"]
            signals := w.signals ++ [.updateCoefficientsDone false] } := by
    unfold loadCoefficientSets
    simp only [if_true]
    unfold loadCoefficientSetsThreadFast
    rw [prologue_eq dev names { w with coeffSets := [], abortLoading := false }
      (fun coeffList numPorts => do
        loadCoefficientSetsThreadFast.readSets dev qt fuel
          (((loadCoefficientSetsThreadFast.coeffNames numPorts).length : Int)
            * (names.length : Int))
          numPorts (loadCoefficientSetsThreadFast.coeffNames numPorts) coeffList 0
        emit (.updateCoefficientsDone true))]
    simp only [hreq]
  obtain ⟨K, hK, h1, h2, h3⟩ := readSetsFast_progress dev qt fuel
    (((loadCoefficientSetsThreadFast.coeffNames w.numPorts).length : Int) * (names.length : Int))
    w.numPorts (loadCoefficientSetsThreadFast.coeffNames w.numPorts) htotal names 0
    { w with usb := (dev.Query ":COEFF:LIST?" w.usb).2, coeffSets := [],
             abortLoading := false, io := w.io ++ [.query ":COEFF:LIST?"] }
  rw [e]
  by_cases hv : startsWith (dev.Query ":COEFF:LIST?" w.usb).1 "FACTORY" = true ∧
      names.all (fun n => (split (dev.Query ":COEFF:LIST?" w.usb).1 ',').contains n) = true
  · rw [if_pos hv]
    cases hr : loadCoefficientSetsThreadFast.readSets dev qt fuel
        (((loadCoefficientSetsThreadFast.coeffNames w.numPorts).length : Int)
          * (names.length : Int))
        w.numPorts (loadCoefficientSetsThreadFast.coeffNames w.numPorts) names 0
        { w with usb := (dev.Query ":COEFF:LIST?" w.usb).2, coeffSets := [],
                 abortLoading := false, io := w.io ++ [.query ":COEFF:LIST?"] } with
    | ok u w1 =>
      rw [hr] at h1 h2 h3
      rw [bind_ok hr]
      refine ⟨by simp [emit, Res.exit?], fun _ => ⟨K, hK, ?_, fun _ => h3 rfl⟩⟩
      have : w1.signals = w.signals ++ fastPercents _ 0 K := h1
      simp [emit, Res.state, Res.exit?, doneSignal, this]
    | exit e1 w1 =>
      rw [hr] at h1 h2 h3
      rw [bind_exit hr]
      refine ⟨h2, fun _ => ⟨K, hK, ?_, fun hnone => ?_⟩⟩
      · have : w1.signals = w.signals ++ fastPercents _ 0 K := h1
        simp [Res.state, Res.exit?, doneSignal, this]
      · simp [Res.exit?] at hnone
  · rw [if_neg hv]
    exact ⟨by simp [Res.exit?], fun h => absurd h hv⟩

end CalDevice
namespace CalDevice

open QString

variable {σ D : Type}

/-! ## The total of the streaming strategy -/

/-- A streaming load of all available sets (the empty request) from a device with at least one
port whose listing is accepted, without cancellation: `total_coeffs` is
`coeffNames.size() * names.size() = 0`, and the thread divides by it after the first
coefficient, before any notification and before any set is appended. -/
theorem loadFast_all_sets_crashes (dev : USBDevice σ) (qt : QtNumeric D) (fuel : Nat)
    (w : CalDevice σ D)
    (hlist : startsWith (dev.Query ":COEFF:LIST?" w.usb).1 "FACTORY" = true)
    (hN : 1 ≤ w.numPorts) (hno : w.abortRequest = none) (hstream : StreamsEnd dev qt fuel) :
    (loadCoefficientSets dev qt fuel [] true w).exit? = some (.crashed .divisionByZero) ∧
    (loadCoefficientSets dev qt fuel [] true w).state.signals = w.signals ∧
    (loadCoefficientSets dev qt fuel [] true w).state.coeffSets = [] := by
  obtain ⟨name, rest, hsplit⟩ : ∃ name rest,
      split (dev.Query ":COEFF:LIST?" w.usb).1 ',' = name :: rest := by
    have := split_ne_nil (dev.Query ":COEFF:LIST?" w.usb).1 ','
    cases h : split (dev.Query ":COEFF:LIST?" w.usb).1 ',' with
    | nil => exact absurd h this
    | cons a l => exact ⟨a, l, rfl⟩
  obtain ⟨coeff, coeffs, hcoeffs⟩ : ∃ coeff coeffs,
      loadCoefficientSetsThreadFast.coeffNames w.numPorts = coeff :: coeffs := by
    unfold loadCoefficientSetsThreadFast.coeffNames
    rw [intRange_cons 1 w.numPorts hN, List.flatMap_cons]
    unfold portCoeffNames
    exact ⟨_, _, rfl⟩
  have hcalm0 : Calm ({ w with
      usb := (dev.Query ":COEFF:LIST?" w.usb).2
      coeffSets := []
      abortLoading := false
      io := w.io ++ [.query ":COEFF:LIST?"] } : CalDevice σ D) :=
    ⟨rfl, hno⟩
  obtain ⟨c, w1, hc, -, hs1, ha1, hr1, hsig1, -⟩ := createCoefficientFast_spec dev qt fuel hstream
    name coeff { w with
      usb := (dev.Query ":COEFF:LIST?" w.usb).2
      coeffSets := []
      abortLoading := false
      io := w.io ++ [.query ":COEFF:LIST?"] }
  have hcalm1 : Calm w1 := ⟨ha1.trans hcalm0.1, hr1.trans hcalm0.2⟩
  have e : loadCoefficientSets dev qt fuel [] true w = .exit (.crashed .divisionByZero) w1 := by
    unfold loadCoefficientSets
    simp only [if_true]
    unfold loadCoefficientSetsThreadFast
    rw [prologue_eq dev [] { w with coeffSets := [], abortLoading := false }
      (fun coeffList numPorts => do
        loadCoefficientSetsThreadFast.readSets dev qt fuel
          (((loadCoefficientSetsThreadFast.coeffNames numPorts).length : Int)
            * (([] : List String).length : Int))
          numPorts (loadCoefficientSetsThreadFast.coeffNames numPorts) coeffList 0
        emit (.updateCoefficientsDone true))]
    simp only [hlist, List.all_nil, and_self, if_true, requestedSets, List.length_nil,
      gt_iff_lt, lt_self_iff_false, if_false, hsplit, hcoeffs, Nat.cast_zero, mul_zero]
    have h2 : loadCoefficientSetsThreadFast.readSets dev qt fuel 0 w.numPorts (coeff :: coeffs)
        (name :: rest) 0
        { w with
          usb := (dev.Query ":COEFF:LIST?" w.usb).2
          coeffSets := []
          abortLoading := false
          io := w.io ++ [.query ":COEFF:LIST?"] }
        = .exit (.crashed .divisionByZero) w1 := by
      unfold loadCoefficientSetsThreadFast.readSets
      apply bind_exit
      unfold loadCoefficientSetsThreadFast.readCoeffs
      rw [bind_ok hc, bind_ok (readAbortLoading_calm hcalm1)]
      simp only [Bool.false_eq_true, if_false, if_true]
      rfl
    exact bind_exit h2
  rw [e]
  exact ⟨rfl, hsig1, hs1⟩

/-- C25 fails on the code when no names are requested. For a request that is not empty and
passes the validation, the streaming strategy notifies `floor(100 * k / T)` after the `k`-th
coefficient is completed, for `k = 1, ..., K`, where `T` is `3 * N + N * (N - 1) / 2` times the
number of requested names and `K` the number of coefficients completed; a retrieval that
reaches its end has completed all `T` coefficients, notifies the completion after the
percentages, and its last percentage is 100. For the empty request, which retrieves every
available set, the code takes `T = coeffNames.size() * names.size() = 0` instead of the number
of coefficients of the available sets: the thread divides by zero after the first coefficient
and notifies nothing. -/
theorem streaming_progress_counts_requested_names :
    (∀ (dev : USBDevice σ) (qt : QtNumeric D) (fuel : Nat) (names : List String)
      (w : CalDevice σ D), names ≠ [] → 0 ≤ w.numPorts →
      startsWith (dev.Query ":COEFF:LIST?" w.usb).1 "FACTORY" = true →
      (∀ n ∈ names, n ∈ split (dev.Query ":COEFF:LIST?" w.usb).1 ',') →
      ∃ K : Nat,
        (K : Int) ≤ (3 * w.numPorts + w.numPorts * (w.numPorts - 1) / 2) * names.length ∧
        (loadCoefficientSets dev qt fuel names true w).state.signals
          = w.signals
            ++ percentsUpTo ((3 * w.numPorts + w.numPorts * (w.numPorts - 1) / 2) * names.length) K
            ++ doneSignal (loadCoefficientSets dev qt fuel names true w).exit? ∧
        ((loadCoefficientSets dev qt fuel names true w).exit? = none →
          (K : Int) = (3 * w.numPorts + w.numPorts * (w.numPorts - 1) / 2) * names.length ∧
          (0 < K →
            (percentsUpTo ((3 * w.numPorts + w.numPorts * (w.numPorts - 1) / 2) * names.length)
              K).getLast? = some (.updateCoefficientsPercent 100)))) ∧
    (∀ (dev : USBDevice σ) (qt : QtNumeric D) (fuel : Nat) (w : CalDevice σ D),
      startsWith (dev.Query ":COEFF:LIST?" w.usb).1 "FACTORY" = true → 1 ≤ w.numPorts →
      w.abortRequest = none → StreamsEnd dev qt fuel →
      (loadCoefficientSets dev qt fuel [] true w).exit? = some (.crashed .divisionByZero) ∧
      (loadCoefficientSets dev qt fuel [] true w).state.signals = w.signals ∧
      (loadCoefficientSets dev qt fuel [] true w).state.coeffSets = []) := by
  constructor
  · intro dev qt fuel names w hne hN hlist hnames
    have hall : names.all (fun n => (split (dev.Query ":COEFF:LIST?" w.usb).1 ',').contains n)
        = true := by
      simp only [List.all_eq_true]
      intro n hn
      simpa using hnames n hn
    obtain ⟨K, hK, h1, h2⟩ := (loadFast_progress dev qt fuel names hne w).2 ⟨hlist, hall⟩
    have hT : ((loadCoefficientSetsThreadFast.coeffNames w.numPorts).length : Int)
        * (names.length : Int)
        = (3 * w.numPorts + w.numPorts * (w.numPorts - 1) / 2) * names.length := by
      rw [length_coeffNames w.numPorts hN]
    have hT0 : (0 : Int) ≤ ((loadCoefficientSetsThreadFast.coeffNames w.numPorts).length : Int)
        * (names.length : Int) := by positivity
    rw [fastPercents_eq_percentsUpTo _ hT0, hT] at h1
    have hKT : (K : Int) ≤ (3 * w.numPorts + w.numPorts * (w.numPorts - 1) / 2)
        * names.length := by
      rw [← hT]
      exact_mod_cast hK
    refine ⟨K, hKT, h1, fun hnone => ?_⟩
    have hKe : (K : Int) = (3 * w.numPorts + w.numPorts * (w.numPorts - 1) / 2)
        * names.length := by
      rw [← hT, h2 hnone]
      push_cast
      rfl
    refine ⟨hKe, fun hpos => ?_⟩
    obtain ⟨k, rfl⟩ : ∃ k, K = k + 1 := ⟨K - 1, by omega⟩
    have hk : (0 : Int) < (k : Int) + 1 := by omega
    have key : 100 * ((k : Int) + 1)
        / ((3 * w.numPorts + w.numPorts * (w.numPorts - 1) / 2) * names.length) = 100 := by
      rw [← hKe]
      push_cast
      exact Int.mul_ediv_cancel _ hk.ne'
    unfold percentsUpTo
    rw [List.range_succ, List.map_append, List.map_singleton, key]
    simp
  · intro dev qt fuel w hlist hN hno hstream
    exact loadFast_all_sets_crashes dev qt fuel w hlist hN hno hstream

/-- C26 fails on the code for the empty request. When the request is not empty, the streaming
strategy never divides by zero, whatever the device answers: `total_coeffs` is the product of
two numbers that are not zero whenever the progress is computed. When the request is empty,
which asks for all available sets, `total_coeffs = coeffNames.size() * names.size()` is zero,
and on a device with at least one port whose listing is accepted the thread, unless it is
cancelled, divides by zero as soon as the first coefficient is read. -/
theorem streaming_progress_divides_by_zero_iff_no_names :
    (∀ (dev : USBDevice σ) (qt : QtNumeric D) (fuel : Nat) (names : List String)
      (w : CalDevice σ D), names ≠ [] →
      (loadCoefficientSets dev qt fuel names true w).exit? ≠ some (.crashed .divisionByZero)) ∧
    (∀ (dev : USBDevice σ) (qt : QtNumeric D) (fuel : Nat) (w : CalDevice σ D),
      startsWith (dev.Query ":COEFF:LIST?" w.usb).1 "FACTORY" = true → 1 ≤ w.numPorts →
      w.abortRequest = none → StreamsEnd dev qt fuel →
      (loadCoefficientSets dev qt fuel [] true w).exit? = some (.crashed .divisionByZero)) :=
  ⟨fun dev qt fuel names w hne => (loadFast_progress dev qt fuel names hne w).1,
    fun dev qt fuel w hlist hN hno hstream =>
      (loadFast_all_sets_crashes dev qt fuel w hlist hN hno hstream).1⟩

end CalDevice
namespace CalDevice

open QString

variable {σ D : Type}

/-! ## The percentages that the polling strategy notifies -/

theorem percentOf_mono (T : Nat) {r r1 : Nat} (h : r ≤ r1) : percentOf T r ≤ percentOf T r1 := by
  unfold percentOf
  exact_mod_cast Nat.div_le_div_right (Nat.mul_le_mul_right 100 h)

theorem percentOf_zero (T : Nat) : percentOf T 0 = 0 := by
  simp [percentOf]

theorem percentOf_self (T : Nat) (hT : 0 < T) : percentOf T T = 100 := by
  unfold percentOf
  rw [Nat.mul_div_cancel_left 100 hT]
  rfl

theorem percentOf_le (T r : Nat) (h : r ≤ T) : percentOf T r ≤ 100 := by
  rcases Nat.eq_zero_or_pos T with h0 | h0
  · subst h0
    simp [percentOf]
  · exact (percentOf_mono T h).trans (percentOf_self T h0).le

theorem notifications_add (T : Nat) (k1 k2 : Nat) (r : Nat) (last : Int) :
    notifications T r last (k1 + k2)
      = notifications T r last k1
        ++ notifications T (r + k1) (if k1 = 0 then last else percentOf T (r + k1)) k2 := by
  induction k1 generalizing r last with
  | zero => simp [notifications]
  | succ k1 ih =>
    have e : k1 + 1 + k2 = (k1 + k2) + 1 := by omega
    rw [e]
    have hr : r + (k1 + 1) = r + 1 + k1 := by omega
    simp only [notifications, Nat.add_one_ne_zero, if_false, hr]
    by_cases hp : percentOf T (r + 1) = last
    · simp only [hp, ne_eq, not_true_eq_false, if_false]
      rw [ih (r + 1) last]
      congr 2
      by_cases hk : k1 = 0
      · subst hk
        simp [hp]
      · simp [hk]
    · simp only [ne_eq, hp, not_false_eq_true, if_true]
      rw [ih (r + 1) (percentOf T (r + 1)), List.cons_append]
      congr 3
      by_cases hk : k1 = 0
      · subst hk
        simp
      · simp [hk]

/-- Every percentage notified for the samples `r + 1, ..., r + k` is above the percentage of
`r` samples and at most the percentage of `r + k` samples. -/
theorem notifications_bounds (T : Nat) (k r : Nat) :
    ∀ p ∈ notifications T r (percentOf T r) k,
      percentOf T r < p ∧ p ≤ percentOf T (r + k) := by
  induction k generalizing r with
  | zero => simp [notifications]
  | succ k ih =>
    have hm : percentOf T r ≤ percentOf T (r + 1) := percentOf_mono T (by omega)
    have hr : r + (k + 1) = r + 1 + k := by omega
    intro p hp
    simp only [notifications] at hp
    rw [hr]
    by_cases he : percentOf T (r + 1) = percentOf T r
    · simp only [he, ne_eq, not_true_eq_false, if_false] at hp
      rw [← he] at hp
      have := ih (r + 1) p hp
      rw [he] at this
      exact this
    · simp only [ne_eq, he, not_false_eq_true, if_true, List.mem_cons] at hp
      have hlt : percentOf T r < percentOf T (r + 1) := lt_of_le_of_ne hm (Ne.symm he)
      rcases hp with rfl | hp
      · exact ⟨hlt, percentOf_mono T (by omega)⟩
      · have := ih (r + 1) p hp
        exact ⟨hlt.trans this.1, this.2⟩

/-- The percentages notified are strictly increasing. -/
theorem notifications_increasing (T : Nat) (k r : Nat) :
    (notifications T r (percentOf T r) k).Pairwise (· < ·) := by
  induction k generalizing r with
  | zero => simp [notifications]
  | succ k ih =>
    simp only [notifications]
    by_cases he : percentOf T (r + 1) = percentOf T r
    · simp only [he, ne_eq, not_true_eq_false, if_false]
      rw [← he]
      exact ih (r + 1)
    · simp only [ne_eq, he, not_false_eq_true, if_true, List.pairwise_cons]
      exact ⟨fun p hp => (notifications_bounds T k (r + 1) p hp).1, ih (r + 1)⟩

/-- The percentage notified last for the samples `r + 1, ..., r + k`, or the percentage of `r`
samples when none is notified, is the percentage of `r + k` samples. -/
theorem notifications_getLastD (T : Nat) (k r : Nat) :
    (notifications T r (percentOf T r) k).getLastD (percentOf T r) = percentOf T (r + k) := by
  induction k generalizing r with
  | zero => simp [notifications]
  | succ k ih =>
    have hr : r + (k + 1) = r + 1 + k := by omega
    simp only [notifications]
    rw [hr]
    by_cases he : percentOf T (r + 1) = percentOf T r
    · simp only [he, ne_eq, not_true_eq_false, if_false]
      rw [← he]
      exact ih (r + 1)
    · simp only [ne_eq, he, not_false_eq_true, if_true, List.getLastD_cons]
      exact ih (r + 1)

theorem notifications_getLast? (T : Nat) (hT : 0 < T) :
    (notifications T 0 0 T).getLast? = some 100 := by
  have h := notifications_getLastD T T 0
  rw [percentOf_zero, Nat.zero_add, percentOf_self T hT] at h
  rw [List.getLastD_eq_getLast?] at h
  cases hl : (notifications T 0 0 T).getLast? with
  | none =>
    rw [hl] at h
    simp at h
  | some x =>
    rw [hl] at h
    simpa using h

theorem notifications_range (T : Nat) (k : Nat) (hk : k ≤ T) :
    ∀ p ∈ notifications T 0 0 k, 1 ≤ p ∧ p ≤ 100 := by
  intro p hp
  have h := notifications_bounds T k 0
  rw [percentOf_zero, Nat.zero_add] at h
  obtain ⟨h1, h2⟩ := h p hp
  exact ⟨by omega, h2.trans (percentOf_le T k hk)⟩

end CalDevice
namespace CalDevice

open QString

variable {σ D : Type}

/-! ## The progress of the polling strategy: the lambda and the loop over the throughs -/

theorem readAbortLoading_flag (w : CalDevice σ D) :
    ∃ b w1, readAbortLoading w = .ok b w1 ∧ w1.signals = w.signals ∧
      (b = true → w1.abortLoading = true) ∧ (b = false → w1.abortLoading = false) ∧
      (w.abortLoading = true → b = true) := by
  unfold readAbortLoading
  by_cases h : w.abortLoading = true
  · rw [if_pos h]
    exact ⟨true, w, rfl, rfl, fun _ => h, fun e => absurd e (by simp), fun _ => rfl⟩
  · rw [if_neg h]
    have h2 : w.abortLoading = false := by simpa using h
    cases hr : w.abortRequest with
    | none => exact ⟨false, w, rfl, rfl, fun e => absurd e (by simp), fun _ => h2, fun e => absurd e h⟩
    | some k =>
      cases k with
      | zero => exact ⟨true, _, rfl, rfl, fun _ => rfl, fun e => absurd e (by simp), fun _ => rfl⟩
      | succ k =>
        exact ⟨false, _, rfl, rfl, fun e => absurd e (by simp), fun _ => h2, fun e => absurd e h⟩

theorem quiet_Query (dev : USBDevice σ) (cmd : String) : Quiet (Query dev cmd : M σ D String) :=
  fun _ => ⟨_, _, rfl, rfl, fun h => h⟩

theorem quiet_alloc (c : CoefficientSet.Coefficient D) : Quiet (alloc c : M σ D Ptr) :=
  fun _ => ⟨_, _, rfl, rfl, fun h => h⟩

theorem progresses_pure {α : Type} (T : Nat) (pr : SlowProgress) (x : α) :
    Progresses T 0 pr (pure (x, pr) : M σ D (α × SlowProgress)) := by
  intro w
  refine ⟨0, le_rfl, ?_, ?_, fun h => h, ?_⟩
  · simp [pure_apply, Res.state, notifications]
  · simp [pure_apply, Res.exit?]
  · intro a w1 h
    rw [pure_apply] at h
    cases h
    exact ⟨rfl, Or.inl rfl⟩

theorem progresses_quiet_bind {α β : Type} {T c : Nat} {pr : SlowProgress} {m : M σ D α}
    {f : α → M σ D (β × SlowProgress)} (hm : Quiet m) (hf : ∀ a, Progresses T c pr (f a)) :
    Progresses T c pr (m >>= f) := by
  intro w
  obtain ⟨a, w1, e, hs, ha⟩ := hm w
  rw [bind_ok e]
  obtain ⟨k, hk, h1, h2, h3, h4⟩ := hf a w1
  exact ⟨k, hk, by rw [h1, hs], h2, fun h => h3 (ha h), h4⟩

theorem progresses_bind {α β : Type} {T c1 c2 : Nat} {pr : SlowProgress}
    {m : M σ D (α × SlowProgress)} {f : α × SlowProgress → M σ D (β × SlowProgress)}
    (h1 : Progresses T c1 pr m)
    (h2 : ∀ (a : α × SlowProgress) (k : Nat), k ≤ c1 →
      a.2 = { readPoints := pr.readPoints + k,
              lastPercentage := if k = 0 then pr.lastPercentage
                else percentOf T (pr.readPoints + k) } →
      Progresses T c2 a.2 (f a)) :
    Progresses T (c1 + c2) pr (m >>= f) := by
  intro w
  obtain ⟨k1, hk1, g1, g2, g3, g4⟩ := h1 w
  cases hm : m w with
  | ok a w1 =>
    rw [hm] at g1 g2 g3
    obtain ⟨ea, hfull⟩ := g4 a w1 hm
    rw [bind_ok hm]
    obtain ⟨k2, hk2, f1, f2, f3, f4⟩ := h2 a k1 hk1 ea w1
    have hs1 : w1.signals = w.signals ++ (notifications T pr.readPoints pr.lastPercentage
        k1).map Signal.updateCoefficientsPercent := g1
    refine ⟨k1 + k2, by omega, ?_, f2, fun h => f3 (g3 h), ?_⟩
    · rw [f1, hs1, notifications_add, List.map_append, List.append_assoc, ea]
    · intro b w2 hb
      obtain ⟨eb, hfull2⟩ := f4 b w2 hb
      refine ⟨?_, ?_⟩
      · rw [eb, ea]
        by_cases hk : k2 = 0
        · subst hk
          simp
        · have hk' : k1 + k2 ≠ 0 := by omega
          simp only [hk, hk', if_false, Nat.add_assoc]
      · rcases hfull with e1 | e1
        · rcases hfull2 with e2 | e2
          · exact Or.inl (by omega)
          · exact Or.inr e2
        · right
          have := f3 e1
          rw [hb] at this
          exact this
  | exit e w1 =>
    rw [hm] at g1 g2 g3
    rw [bind_exit hm]
    refine ⟨k1, by omega, g1, g2, g3, ?_⟩
    intro b w2 hb
    cases hb

theorem newPercentage_eq (T r : Nat) (hT : T * 100 < 2 ^ 64) (hr : r + 1 ≤ T) :
    (r + 1) % 2 ^ 64 = r + 1 ∧
    toInt32 (((r + 1) * 100) % 2 ^ 64 / T) = percentOf T (r + 1) := by
  have h1 : (r + 1) % 2 ^ 64 = r + 1 := Nat.mod_eq_of_lt (by omega)
  have h2 : ((r + 1) * 100) % 2 ^ 64 = (r + 1) * 100 := Nat.mod_eq_of_lt (by omega)
  have h3 : (r + 1) * 100 / T ≤ 100 := by
    apply Nat.div_le_of_le_mul
    nlinarith
  refine ⟨h1, ?_⟩
  rw [h2]
  unfold toInt32 percentOf
  have h4 : (r + 1) * 100 / T % 2 ^ 32 = (r + 1) * 100 / T := Nat.mod_eq_of_lt (by omega)
  rw [h4, if_pos (by omega)]

/-- The sample loop of the polling strategy. -/
theorem progresses_readSamples (dev : USBDevice σ) (qt : QtNumeric D) (T : Nat)
    (hT : T * 100 < 2 ^ 64) (setName paramName : String) (n : Nat) (i : Int) (t : Touchstone D)
    (pr : SlowProgress) (hpr : pr.readPoints + n ≤ T) :
    Progresses T n pr
      (loadCoefficientSetsThreadSlow.readSamples dev qt T setName paramName n i t pr) := by
  induction n generalizing i t pr with
  | zero => exact progresses_pure T pr t
  | succ n ih =>
    obtain ⟨hmod, hpct⟩ := newPercentage_eq T pr.readPoints hT (by omega)
    have hT0 : T ≠ 0 := by omega
    intro w
    unfold loadCoefficientSetsThreadSlow.readSamples
    obtain ⟨b, w1, hb, hs1, hb1, hb2, hb3⟩ := readAbortLoading_flag w
    rw [bind_ok hb]
    cases b with
    | true =>
      refine ⟨0, Nat.zero_le _, ?_, ?_, fun _ => hb1 rfl, ?_⟩
      · simp [pure_apply, Res.state, notifications, hs1]
      · simp [pure_apply, Res.exit?]
      · intro a w2 h
        simp only [if_true, pure_apply] at h
        cases h
        exact ⟨rfl, Or.inr (hb1 rfl)⟩
    | false =>
      have hw : w.abortLoading = false := by
        cases h : w.abortLoading with
        | false => rfl
        | true => exact absurd (hb3 h) (by simp)
      simp only [Bool.false_eq_true, if_false]
      rw [bind_ok (show Query dev _ w1 = _ from rfl)]
      cases hadd : t.AddDatapoint (parseDatapoint qt (split
          (dev.Query (":COEFF:GET? " ++ setName ++ " " ++ paramName ++ " " ++ number i)
            w1.usb).1 ',')) with
      | none =>
        refine ⟨0, Nat.zero_le _, ?_, ?_, fun h => absurd h (by simp [hw]), ?_⟩
        · simp [leave, Res.state, notifications, hs1]
        · simp [leave, Res.exit?]
        · intro a w2 h
          simp [leave] at h
      | some t1 =>
        simp only [hT0, if_false, hmod, hpct]
        by_cases hp : percentOf T (pr.readPoints + 1) = pr.lastPercentage
        · simp only [hp, ne_eq, not_true_eq_false, if_false]
          obtain ⟨k, hk, g1, g2, g3, g4⟩ := ih (i + 1) t1
            { readPoints := pr.readPoints + 1, lastPercentage := pr.lastPercentage }
            (by simp only; omega)
            { w1 with
              usb := (dev.Query (":COEFF:GET? " ++ setName ++ " " ++ paramName ++ " " ++ number i)
                w1.usb).2
              io := w1.io ++ [.query (":COEFF:GET? " ++ setName ++ " " ++ paramName ++ " "
                ++ number i)] }
          refine ⟨k + 1, by omega, ?_, g2, fun h => absurd h (by simp [hw]), ?_⟩
          · rw [g1]
            simp only [notifications, hp, ne_eq, not_true_eq_false, if_false, hs1]
          · intro a w2 h
            obtain ⟨ea, hfull⟩ := g4 a w2 h
            refine ⟨?_, ?_⟩
            · rw [ea]
              simp only [Nat.add_one_ne_zero, if_false, SlowProgress.mk.injEq]
              refine ⟨by omega, ?_⟩
              by_cases hk0 : k = 0
              · subst hk0
                simp [hp]
              · simp only [hk0, if_false]
                congr 1
                omega
            · rcases hfull with e | e
              · exact Or.inl (by omega)
              · exact Or.inr e
        · simp only [ne_eq, hp, not_false_eq_true, if_true]
          rw [bind_ok (show emit _ _ = _ from rfl)]
          obtain ⟨k, hk, g1, g2, g3, g4⟩ := ih (i + 1) t1
            { readPoints := pr.readPoints + 1,
              lastPercentage := percentOf T (pr.readPoints + 1) }
            (by simp only; omega)
            { w1 with
              usb := (dev.Query (":COEFF:GET? " ++ setName ++ " " ++ paramName ++ " " ++ number i)
                w1.usb).2
              io := w1.io ++ [.query (":COEFF:GET? " ++ setName ++ " " ++ paramName ++ " "
                ++ number i)]
              signals := w1.signals
                ++ [.updateCoefficientsPercent (percentOf T (pr.readPoints + 1))] }
          refine ⟨k + 1, by omega, ?_, g2, fun h => absurd h (by simp [hw]), ?_⟩
          · rw [g1]
            simp only [notifications, ne_eq, hp, not_false_eq_true, if_true, hs1,
              List.map_cons, List.append_assoc, List.singleton_append]
          · intro a w2 h
            obtain ⟨ea, hfull⟩ := g4 a w2 h
            refine ⟨?_, ?_⟩
            · rw [ea]
              simp only [Nat.add_one_ne_zero, if_false, SlowProgress.mk.injEq]
              refine ⟨by omega, ?_⟩
              by_cases hk0 : k = 0
              · subst hk0
                simp
              · simp only [hk0, if_false]
                congr 1
                omega
            · rcases hfull with e | e
              · exact Or.inl (by omega)
              · exact Or.inr e

end CalDevice
namespace CalDevice

open QString

variable {σ D : Type}

/-! ## The progress of the polling strategy: the loops over the throughs and the ports -/

/-- The lambda of the polling strategy, for a coefficient of which the device counts `c`
samples. -/
theorem progresses_createCoefficient (dev : USBDevice σ) (qt : QtNumeric D) (T : Nat)
    (hT : T * 100 < 2 ^ 64) (setName paramName : String) (c : Nat)
    (hnum : ∀ s, qt.toInt (dev.Query (":COEFF:NUM? " ++ setName ++ " " ++ paramName) s).1
      = (c : Int))
    (pr : SlowProgress) (hpr : pr.readPoints + c ≤ T) :
    Progresses T c pr
      (loadCoefficientSetsThreadSlow.createCoefficient dev qt T setName paramName pr) := by
  have h := progresses_bind
    (progresses_readSamples dev qt T hT setName paramName c 0
      (if endsWith paramName "THROUGH" then Touchstone.new 2 else Touchstone.new 1) pr hpr)
    (f := fun r => (alloc { t := r.1.setFilename ("LibreCAL/" ++ paramName), modified := false }
      >>= fun c1 => pure (c1, r.2) : M σ D (Ptr × SlowProgress)))
    (fun r k _ _ => progresses_quiet_bind (quiet_alloc _) (fun c1 => progresses_pure T r.2 c1))
  intro w
  unfold loadCoefficientSetsThreadSlow.createCoefficient
  rw [bind_ok (show Query dev _ w = _ from rfl)]
  simp only [hnum w.usb, Int.toNat_ofNat]
  exact h { w with
    usb := (dev.Query (":COEFF:NUM? " ++ setName ++ " " ++ paramName) w.usb).2
    io := w.io ++ [.query (":COEFF:NUM? " ++ setName ++ " " ++ paramName)] }

/-- The loop over the throughs of port `i`, of which the device counts the samples `count`. -/
theorem progresses_readThroughs (dev : USBDevice σ) (qt : QtNumeric D) (T : Nat)
    (hT : T * 100 < 2 ^ 64) (count : String → String → Nat) (name : String) (i : Int)
    (js : List Int) (set : CoefficientSet) (pr : SlowProgress)
    (hnum : ∀ j ∈ js, ∀ s, qt.toInt (dev.Query (":COEFF:NUM? " ++ name ++ " "
      ++ ("P" ++ number i ++ number j ++ "_THROUGH")) s).1
        = (count name ("P" ++ number i ++ number j ++ "_THROUGH") : Int))
    (hpr : pr.readPoints
      + (js.map (fun j => count name ("P" ++ number i ++ number j ++ "_THROUGH"))).sum ≤ T) :
    Progresses T (js.map (fun j => count name ("P" ++ number i ++ number j ++ "_THROUGH"))).sum
      pr (loadCoefficientSetsThreadSlow.readThroughs dev qt T name i js set pr) := by
  induction js generalizing set pr with
  | nil => exact progresses_pure T pr set
  | cons j js ih =>
    rw [List.map_cons, List.sum_cons] at hpr ⊢
    unfold loadCoefficientSetsThreadSlow.readThroughs
    exact progresses_bind
      (progresses_createCoefficient dev qt T hT name _ _ (hnum j (List.mem_cons_self _ _)) pr
        (by omega))
      (fun r k hk ha => ih _ r.2 (fun j' hj' => hnum j' (List.mem_cons_of_mem _ hj')) (by
        rw [ha]
        simp only
        omega))

theorem ends_pure {α : Type} (T : Nat) (pr : SlowProgress) (x : α) :
    Ends T 0 pr (pure (x, pr) : M σ D (α × SlowProgress)) := by
  intro w
  refine ⟨0, le_rfl, ?_, ?_, ?_⟩
  · simp [pure_apply, Res.state, notifications]
  · simp [pure_apply, Res.exit?]
  · intro a w1 h
    rw [pure_apply] at h
    cases h
    exact ⟨rfl, rfl⟩

theorem Checks.ends {α : Type} {T c : Nat} {pr : SlowProgress} {m : M σ D (α × SlowProgress)}
    (h : Checks T c pr m) : Ends T c pr m := by
  intro w
  obtain ⟨k, hk, h1, h2, h3⟩ := h w
  exact ⟨k, hk, h1, h2, fun a w1 e => (h3 a w1 e).2⟩

/-- The statement `if(abortLoading) return;` in front of code that ends. -/
theorem checks_ifAbort {α : Type} {T c : Nat} {pr : SlowProgress}
    {m : M σ D (α × SlowProgress)} (h : Ends T c pr m) :
    Checks T c pr (readAbortLoading >>= fun b => if b = true then leave .returned else m) := by
  intro w
  obtain ⟨b, w1, hb, hs1, hb1, hb2, hb3⟩ := readAbortLoading_flag w
  rw [bind_ok hb]
  cases b with
  | true =>
    refine ⟨0, Nat.zero_le _, ?_, ?_, ?_⟩
    · simp [leave, Res.state, notifications, hs1]
    · simp [leave, Res.exit?]
    · intro a w2 e
      simp [leave] at e
  | false =>
    have hw : w.abortLoading = false := by
      cases hq : w.abortLoading with
      | false => rfl
      | true => exact absurd (hb3 hq) (by simp)
    simp only [Bool.false_eq_true, if_false]
    obtain ⟨k, hk, h1, h2, h3⟩ := h w1
    refine ⟨k, hk, by rw [h1, hs1], h2, fun a w2 e => ⟨hw, h3 a w2 e⟩⟩

theorem progresses_bind_checks {α β : Type} {T c1 c2 : Nat} {pr : SlowProgress}
    {m : M σ D (α × SlowProgress)} {f : α × SlowProgress → M σ D (β × SlowProgress)}
    (h1 : Progresses T c1 pr m)
    (h2 : ∀ (a : α × SlowProgress) (k : Nat), k ≤ c1 →
      a.2 = { readPoints := pr.readPoints + k,
              lastPercentage := if k = 0 then pr.lastPercentage
                else percentOf T (pr.readPoints + k) } →
      Checks T c2 a.2 (f a)) :
    Checks T (c1 + c2) pr (m >>= f) := by
  intro w
  obtain ⟨k1, hk1, g1, g2, g3, g4⟩ := h1 w
  cases hm : m w with
  | ok a w1 =>
    rw [hm] at g1 g2 g3
    obtain ⟨ea, hfull⟩ := g4 a w1 hm
    rw [bind_ok hm]
    obtain ⟨k2, hk2, f1, f2, f4⟩ := h2 a k1 hk1 ea w1
    have hs1 : w1.signals = w.signals ++ (notifications T pr.readPoints pr.lastPercentage
        k1).map Signal.updateCoefficientsPercent := g1
    refine ⟨k1 + k2, by omega, ?_, f2, ?_⟩
    · rw [f1, hs1, notifications_add, List.map_append, List.append_assoc, ea]
    · intro b w2 hb
      obtain ⟨hw1, ek2, eb⟩ := f4 b w2 hb
      have hw1' : w1.abortLoading = false := hw1
      have ek1 : k1 = c1 := by
        rcases hfull with e | e
        · exact e
        · rw [hw1'] at e
          exact absurd e (by simp)
      have hw : w.abortLoading = false := by
        cases hq : w.abortLoading with
        | false => rfl
        | true =>
          have := g3 hq
          rw [show (Res.ok a w1 : Res σ D (α × SlowProgress)).state = w1 from rfl, hw1'] at this
          exact absurd this (by simp)
      refine ⟨hw, by omega, ?_⟩
      rw [eb, ea, ek1]
      by_cases hc2 : c2 = 0
      · subst hc2
        simp
      · have hc : c1 + c2 ≠ 0 := by omega
        simp only [hc2, hc, if_false, Nat.add_assoc]
  | exit e w1 =>
    rw [hm] at g1 g2 g3
    rw [bind_exit hm]
    refine ⟨k1, by omega, g1, g2, ?_⟩
    intro b w2 hb
    cases hb

/-- The loop over the ports of one set, of whose coefficients the device counts the samples
`count`: when the loop reaches its end it has read all of them. -/
theorem ends_readPorts (dev : USBDevice σ) (qt : QtNumeric D) (T : Nat)
    (hT : T * 100 < 2 ^ 64) (count : String → String → Nat) (numPorts : Int) (name : String)
    (ports : List Int) (set : CoefficientSet) (pr : SlowProgress)
    (hnum : ∀ i ∈ ports, ∀ coeff ∈ portCoeffNames numPorts i, ∀ s,
      qt.toInt (dev.Query (":COEFF:NUM? " ++ name ++ " " ++ coeff) s).1
        = (count name coeff : Int))
    (hpr : pr.readPoints
      + (ports.map (fun i => ((portCoeffNames numPorts i).map (count name)).sum)).sum ≤ T) :
    Ends T (ports.map (fun i => ((portCoeffNames numPorts i).map (count name)).sum)).sum pr
      (loadCoefficientSetsThreadSlow.readPorts dev qt T numPorts name ports set pr) := by
  induction ports generalizing set pr with
  | nil => exact ends_pure T pr set
  | cons i ports ih =>
    have hi := hnum i (List.mem_cons_self _ _)
    have hsum : ((portCoeffNames numPorts i).map (count name)).sum
        = count name ("P" ++ number i ++ "_OPEN") + (count name ("P" ++ number i ++ "_SHORT")
          + (count name ("P" ++ number i ++ "_LOAD")
            + ((intRange (i + 1) numPorts).map
                (fun j => count name ("P" ++ number i ++ number j ++ "_THROUGH"))).sum)) := by
      simp only [portCoeffNames, List.cons_append, List.nil_append, List.map_cons, List.sum_cons,
        List.map_map, Function.comp_def]
    rw [List.map_cons, List.sum_cons, hsum] at hpr ⊢
    simp only [Nat.add_assoc]
    unfold loadCoefficientSetsThreadSlow.readPorts
    refine Checks.ends (progresses_bind_checks
      (progresses_createCoefficient dev qt T hT name _ _
        (hi _ (mem_portCoeffNames_open numPorts i)) pr (by omega))
      (fun r1 k1 hk1 ha1 => progresses_bind_checks
        (progresses_createCoefficient dev qt T hT name _ _
          (hi _ (mem_portCoeffNames_short numPorts i)) r1.2 (by rw [ha1]; simp only; omega))
        (fun r2 k2 hk2 ha2 => progresses_bind_checks
          (progresses_createCoefficient dev qt T hT name _ _
            (hi _ (mem_portCoeffNames_load numPorts i)) r2.2
            (by rw [ha2, ha1]; simp only; omega))
          (fun r3 k3 hk3 ha3 => progresses_bind_checks
            (progresses_readThroughs dev qt T hT count name i (intRange (i + 1) numPorts) _ r3.2
              (fun j hj => hi _ (mem_portCoeffNames_through numPorts i j hj))
              (by rw [ha3, ha2, ha1]; simp only; omega))
            (fun r4 k4 hk4 ha4 => checks_ifAbort
              (ih r4.1 r4.2 (fun i' hi' => hnum i' (List.mem_cons_of_mem _ hi'))
                (by rw [ha4, ha3, ha2, ha1]; simp only; omega)))))))

end CalDevice
namespace CalDevice

open QString

variable {σ D : Type}

/-! ## The progress of the polling strategy: the thread -/

/-- The loop over the sets of the polling strategy, of whose coefficients the device counts the
samples `count`: it notifies the percentages of the samples that it reads, never divides by
zero, and has read all samples when it reaches its end. -/
theorem readSetsSlow_progress (dev : USBDevice σ) (qt : QtNumeric D) (T : Nat)
    (hT : T * 100 < 2 ^ 64) (count : String → String → Nat) (numPorts : Int)
    (names : List String) (pr : SlowProgress)
    (hnum : ∀ name ∈ names, ∀ i ∈ intRange 1 numPorts, ∀ coeff ∈ portCoeffNames numPorts i, ∀ s,
      qt.toInt (dev.Query (":COEFF:NUM? " ++ name ++ " " ++ coeff) s).1
        = (count name coeff : Int))
    (hpr : pr.readPoints + totalCount count numPorts names ≤ T) (w : CalDevice σ D) :
    ∃ k, k ≤ totalCount count numPorts names ∧
      (loadCoefficientSetsThreadSlow.readSets dev qt T numPorts names pr w).state.signals
        = w.signals ++ (notifications T pr.readPoints pr.lastPercentage k).map
            Signal.updateCoefficientsPercent ∧
      (loadCoefficientSetsThreadSlow.readSets dev qt T numPorts names pr w).exit?
        ≠ some (.crashed .divisionByZero) ∧
      ((loadCoefficientSetsThreadSlow.readSets dev qt T numPorts names pr w).exit? = none →
        k = totalCount count numPorts names) := by
  induction names generalizing pr w with
  | nil =>
    refine ⟨0, Nat.zero_le _, ?_, ?_, ?_⟩
    · simp [loadCoefficientSetsThreadSlow.readSets, pure_apply, Res.state, notifications]
    · simp [loadCoefficientSetsThreadSlow.readSets, pure_apply, Res.exit?]
    · intro _
      simp [totalCount]
  | cons name names ih =>
    have htc : totalCount count numPorts (name :: names)
        = ((intRange 1 numPorts).map (fun i =>
            ((portCoeffNames numPorts i).map (count name)).sum)).sum
          + totalCount count numPorts names := by
      simp only [totalCount, List.map_cons, List.sum_cons]
    rw [htc] at hpr ⊢
    unfold loadCoefficientSetsThreadSlow.readSets
    obtain ⟨k1, hk1, g1, g2, g3⟩ := ends_readPorts dev qt T hT count numPorts name
      (intRange 1 numPorts)
      { name := name, ports := numPorts, opens := [], shorts := [], loads := [], throughs := [] }
      pr (hnum name (List.mem_cons_self _ _)) (by omega) w
    cases hr : loadCoefficientSetsThreadSlow.readPorts dev qt T numPorts name
        (intRange 1 numPorts)
        { name := name, ports := numPorts, opens := [], shorts := [], loads := [],
          throughs := [] } pr w with
    | ok r w1 =>
      rw [hr] at g1 g2
      obtain ⟨ek1, er⟩ := g3 r w1 hr
      rw [bind_ok hr, bind_ok (show pushCoeffSet r.1 w1 = _ from rfl)]
      obtain ⟨k2, hk2, f1, f2, f3⟩ := ih r.2
        (fun n hn => hnum n (List.mem_cons_of_mem _ hn))
        (by rw [er]; simp only; omega) { w1 with coeffSets := w1.coeffSets ++ [r.1] }
      have hs1 : w1.signals = w.signals ++ (notifications T pr.readPoints pr.lastPercentage
          k1).map Signal.updateCoefficientsPercent := g1
      refine ⟨k1 + k2, by omega, ?_, f2, fun hnone => by rw [f3 hnone, ek1]⟩
      rw [f1, notifications_add, List.map_append, er, ek1]
      show w1.signals ++ _ = _
      rw [hs1, ek1, List.append_assoc]
    | exit e w1 =>
      rw [hr] at g1 g2
      rw [bind_exit hr]
      refine ⟨k1, by omega, g1, g2, fun hnone => ?_⟩
      simp [Res.exit?] at hnone

/-- The pass over one set that adds up `totalPoints`, with or without cancellation: it emits
no signal, ends by reaching its end or by `return;`, and when it reaches its end it has added
the counts of the device. -/
theorem totalPorts_general (dev : USBDevice σ) (qt : QtNumeric D)
    (count : String → String → Nat) (numPorts : Int) (name : String) (ports : List Int)
    (totalPoints : Nat) (w : CalDevice σ D)
    (hnum : ∀ i ∈ ports, ∀ coeff ∈ portCoeffNames numPorts i, ∀ s,
      qt.toInt (dev.Query (":COEFF:NUM? " ++ name ++ " " ++ coeff) s).1
        = (count name coeff : Int))
    (hlt : totalPoints < 2 ^ 64) :
    (loadCoefficientSetsThreadSlow.totalPorts dev qt numPorts name ports totalPoints
      w).state.signals = w.signals ∧
    ((loadCoefficientSetsThreadSlow.totalPorts dev qt numPorts name ports totalPoints w).exit?
        = none ∨
      (loadCoefficientSetsThreadSlow.totalPorts dev qt numPorts name ports totalPoints w).exit?
        = some .returned) ∧
    ∀ v w1, loadCoefficientSetsThreadSlow.totalPorts dev qt numPorts name ports totalPoints w
        = .ok v w1 →
      v = (totalPoints + (ports.map (fun i =>
        ((portCoeffNames numPorts i).map (count name)).sum)).sum) % 2 ^ 64 := by
  induction ports generalizing totalPoints w with
  | nil =>
    refine ⟨rfl, Or.inl rfl, ?_⟩
    intro v w1 h
    cases h
    simp only [List.map_nil, List.sum_nil, Nat.add_zero, Nat.mod_eq_of_lt hlt]
  | cons i ports ih =>
    have hi := hnum i (List.mem_cons_self _ _)
    unfold loadCoefficientSetsThreadSlow.totalPorts
    obtain ⟨b, w1, hb, hs1, -, -, -⟩ := readAbortLoading_flag w
    rw [bind_ok hb]
    cases b with
    | true =>
      refine ⟨hs1, Or.inr rfl, ?_⟩
      intro v w2 h
      simp [leave] at h
    | false =>
      simp only [Bool.false_eq_true, if_false]
      rw [bind_ok (show Query dev _ w1 = _ from rfl), bind_ok (show Query dev _ _ = _ from rfl),
        bind_ok (show Query dev _ _ = _ from rfl)]
      simp only
      rw [numCmd_eq, hi _ (mem_portCoeffNames_open numPorts i) w1.usb, addULong_natCast,
        numCmd_eq name (number i) "_SHORT", hi _ (mem_portCoeffNames_short numPorts i),
        addULong_natCast, numCmd_eq name (number i) "_LOAD",
        hi _ (mem_portCoeffNames_load numPorts i), addULong_natCast]
      simp only [← numCmd_eq]
      obtain ⟨w4, h4, hf4⟩ := totalThroughs_spec dev qt count name i (intRange (i + 1) numPorts)
        ((((totalPoints + count name ("P" ++ number i ++ "_OPEN")) % 2 ^ 64
          + count name ("P" ++ number i ++ "_SHORT")) % 2 ^ 64
          + count name ("P" ++ number i ++ "_LOAD")) % 2 ^ 64)
        { usb := (dev.Query (":COEFF:NUM? " ++ name ++ " P" ++ number i ++ "_LOAD")
            (dev.Query (":COEFF:NUM? " ++ name ++ " P" ++ number i ++ "_SHORT")
              (dev.Query (":COEFF:NUM? " ++ name ++ " P" ++ number i ++ "_OPEN") w1.usb).2).2).2,
          numPorts := w1.numPorts, coeffSets := w1.coeffSets, abortLoading := w1.abortLoading,
          heap := w1.heap,
          io := w1.io ++ [.query (":COEFF:NUM? " ++ name ++ " P" ++ number i ++ "_OPEN")]
            ++ [.query (":COEFF:NUM? " ++ name ++ " P" ++ number i ++ "_SHORT")]
            ++ [.query (":COEFF:NUM? " ++ name ++ " P" ++ number i ++ "_LOAD")],
          signals := w1.signals, abortRequest := w1.abortRequest }
        (fun j hj => hi _ (mem_portCoeffNames_through numPorts i j hj))
        (Nat.mod_lt _ (by norm_num))
      obtain ⟨g1, g2, g3⟩ := ih _ w4 (fun i' hi' => hnum i' (List.mem_cons_of_mem _ hi'))
        (Nat.mod_lt _ (by norm_num))
      rw [bind_ok h4]
      refine ⟨?_, g2, ?_⟩
      · rw [g1, hf4.2.2.2.2.1]
        exact hs1
      · intro v w5 h
        rw [g3 v w5 h]
        simp only [List.map_cons, List.sum_cons, portCoeffNames, List.cons_append,
          List.nil_append, List.map_map, Function.comp_def]
        omega

/-- The pass that adds up `totalPoints`, with or without cancellation. -/
theorem totalSets_general (dev : USBDevice σ) (qt : QtNumeric D)
    (count : String → String → Nat) (numPorts : Int) (names : List String)
    (totalPoints : Nat) (w : CalDevice σ D)
    (hnum : ∀ name ∈ names, ∀ i ∈ intRange 1 numPorts, ∀ coeff ∈ portCoeffNames numPorts i, ∀ s,
      qt.toInt (dev.Query (":COEFF:NUM? " ++ name ++ " " ++ coeff) s).1
        = (count name coeff : Int))
    (hlt : totalPoints < 2 ^ 64) :
    (loadCoefficientSetsThreadSlow.totalSets dev qt numPorts names totalPoints w).state.signals
      = w.signals ∧
    ((loadCoefficientSetsThreadSlow.totalSets dev qt numPorts names totalPoints w).exit? = none ∨
      (loadCoefficientSetsThreadSlow.totalSets dev qt numPorts names totalPoints w).exit?
        = some .returned) ∧
    ∀ v w1, loadCoefficientSetsThreadSlow.totalSets dev qt numPorts names totalPoints w
        = .ok v w1 →
      v = (totalPoints + totalCount count numPorts names) % 2 ^ 64 := by
  induction names generalizing totalPoints w with
  | nil =>
    refine ⟨rfl, Or.inl rfl, ?_⟩
    intro v w1 h
    cases h
    simp only [totalCount, List.map_nil, List.sum_nil, Nat.add_zero, Nat.mod_eq_of_lt hlt]
  | cons name names ih =>
    obtain ⟨g1, g2, g3⟩ := totalPorts_general dev qt count numPorts name (intRange 1 numPorts)
      totalPoints w (hnum name (List.mem_cons_self _ _)) hlt
    unfold loadCoefficientSetsThreadSlow.totalSets
    cases hr : loadCoefficientSetsThreadSlow.totalPorts dev qt numPorts name
        (intRange 1 numPorts) totalPoints w with
    | ok v1 w1 =>
      rw [hr] at g1
      have ev := g3 v1 w1 hr
      rw [bind_ok hr]
      obtain ⟨f1, f2, f3⟩ := ih v1 w1 (fun n hn => hnum n (List.mem_cons_of_mem _ hn))
        (by rw [ev]; exact Nat.mod_lt _ (by norm_num))
      refine ⟨f1.trans g1, f2, ?_⟩
      intro v w2 h
      rw [f3 v w2 h, ev]
      simp only [totalCount, List.map_cons, List.sum_cons]
      omega
    | exit e w1 =>
      rw [hr] at g1 g2
      rw [bind_exit hr]
      refine ⟨g1, g2, ?_⟩
      intro v w2 h
      cases h

end CalDevice
namespace CalDevice

open QString

variable {σ D : Type}

/-! ## The notifications of the polling strategy -/

/-- A polling load from a device that counts `count name coeff` samples for every coefficient
to retrieve, whatever the state of the channel: the thread never divides by zero; when the
validation fails it emits the completion signal with failure only; otherwise it notifies the
percentages of the samples that it reads, and then the completion when it reaches its end, with
all samples read. -/
theorem loadSlow_progress (dev : USBDevice σ) (qt : QtNumeric D) (fuel : Nat)
    (count : String → String → Nat) (names : List String) (w : CalDevice σ D) (T : Nat)
    (hT : T = totalCount count w.numPorts
      (requestedSets names (split (dev.Query ":COEFF:LIST?" w.usb).1 ',')))
    (hnum : ∀ name ∈ requestedSets names (split (dev.Query ":COEFF:LIST?" w.usb).1 ','),
      ∀ coeff ∈ loadCoefficientSetsThreadFast.coeffNames w.numPorts, ∀ s,
        qt.toInt (dev.Query (":COEFF:NUM? " ++ name ++ " " ++ coeff) s).1
          = (count name coeff : Int))
    (hsum : T * 100 < 2 ^ 64) :
    (loadCoefficientSets dev qt fuel names false w).exit? ≠ some (.crashed .divisionByZero) ∧
    ((startsWith (dev.Query ":COEFF:LIST?" w.usb).1 "FACTORY" = true ∧
        names.all (fun n => (split (dev.Query ":COEFF:LIST?" w.usb).1 ',').contains n) = true) →
      ∃ k, k ≤ T ∧
        (loadCoefficientSets dev qt fuel names false w).state.signals
          = w.signals ++ (notifications T 0 0 k).map Signal.updateCoefficientsPercent
            ++ doneSignal (loadCoefficientSets dev qt fuel names false w).exit? ∧
        ((loadCoefficientSets dev qt fuel names false w).exit? = none → k = T)) ∧
    (¬ (startsWith (dev.Query ":COEFF:LIST?" w.usb).1 "FACTORY" = true ∧
        names.all (fun n => (split (dev.Query ":COEFF:LIST?" w.usb).1 ',').contains n) = true) →
      (loadCoefficientSets dev qt fuel names false w).state.signals
        = w.signals ++ [.updateCoefficientsDone false]) := by
  have hnum2 : ∀ name ∈ requestedSets names (split (dev.Query ":COEFF:LIST?" w.usb).1 ','),
      ∀ i ∈ intRange 1 w.numPorts, ∀ coeff ∈ portCoeffNames w.numPorts i, ∀ s,
        qt.toInt (dev.Query (":COEFF:NUM? " ++ name ++ " " ++ coeff) s).1
          = (count name coeff : Int) :=
    fun name hn i hi coeff hc s => hnum name hn coeff (mem_coeffNames hi hc) s
  have e : loadCoefficientSets dev qt fuel names false w
      = if startsWith (dev.Query ":COEFF:LIST?" w.usb).1 "FACTORY" = true ∧
          names.all (fun n => (split (dev.Query ":COEFF:LIST?" w.usb).1 ',').contains n) = true
        then (do
          let totalPoints ← loadCoefficientSetsThreadSlow.totalSets dev qt w.numPorts
            (requestedSets names (split (dev.Query ":COEFF:LIST?" w.usb).1 ',')) 0
          loadCoefficientSetsThreadSlow.readSets dev qt totalPoints w.numPorts
            (requestedSets names (split (dev.Query ":COEFF:LIST?" w.usb).1 ','))
            { readPoints := 0, lastPercentage := 0 }
          emit (.updateCoefficientsDone true) : M σ D Unit)
          { w with
            usb := (dev.Query ":COEFF:LIST?" w.usb).2
            coeffSets := []
            abortLoading := false
            io := w.io ++ [.query ":COEFF:LIST?"] }
        else .exit .returned
          { w with
            usb := (dev.Query ":COEFF:LIST?" w.usb).2
            coeffSets := []
            abortLoading := false
            io := w.io ++ [.query ":COEFF:LIST?"]
            signals := w.signals ++ [.updateCoefficientsDone false] } := by
    unfold loadCoefficientSets
    simp only [Bool.false_eq_true, if_false]
    unfold loadCoefficientSetsThreadSlow
    rw [prologue_eq dev names { w with coeffSets := [], abortLoading := false }
      (fun coeffList numPorts => do
        let totalPoints ← loadCoefficientSetsThreadSlow.totalSets dev qt numPorts coeffList 0
        loadCoefficientSetsThreadSlow.readSets dev qt totalPoints numPorts coeffList
          { readPoints := 0, lastPercentage := 0 }
        emit (.updateCoefficientsDone true))]
  rw [e]
  by_cases hv : startsWith (dev.Query ":COEFF:LIST?" w.usb).1 "FACTORY" = true ∧
      names.all (fun n => (split (dev.Query ":COEFF:LIST?" w.usb).1 ',').contains n) = true
  · rw [if_pos hv]
    obtain ⟨g1, g2, g3⟩ := totalSets_general dev qt count w.numPorts
      (requestedSets names (split (dev.Query ":COEFF:LIST?" w.usb).1 ',')) 0
      { w with
        usb := (dev.Query ":COEFF:LIST?" w.usb).2
        coeffSets := []
        abortLoading := false
        io := w.io ++ [.query ":COEFF:LIST?"] } hnum2 (by norm_num)
    cases hr : loadCoefficientSetsThreadSlow.totalSets dev qt w.numPorts
        (requestedSets names (split (dev.Query ":COEFF:LIST?" w.usb).1 ',')) 0
        { w with
          usb := (dev.Query ":COEFF:LIST?" w.usb).2
          coeffSets := []
          abortLoading := false
          io := w.io ++ [.query ":COEFF:LIST?"] } with
    | ok v w1 =>
      rw [hr] at g1
      have hs1 : w1.signals = w.signals := g1
      have ev : v = T := by
        rw [g3 v w1 hr, Nat.zero_add, ← hT]
        exact Nat.mod_eq_of_lt (by omega)
      subst ev
      rw [bind_ok hr]
      obtain ⟨k, hk, f1, f2, f3⟩ := readSetsSlow_progress dev qt v hsum count w.numPorts
        (requestedSets names (split (dev.Query ":COEFF:LIST?" w.usb).1 ','))
        { readPoints := 0, lastPercentage := 0 } hnum2 (by simp only; omega) w1
      rw [← hT] at hk f3
      cases hr2 : loadCoefficientSetsThreadSlow.readSets dev qt v w.numPorts
          (requestedSets names (split (dev.Query ":COEFF:LIST?" w.usb).1 ','))
          { readPoints := 0, lastPercentage := 0 } w1 with
      | ok u w2 =>
        rw [hr2] at f1 f2 f3
        rw [bind_ok hr2]
        have hs2 : w2.signals = w1.signals ++ (notifications v 0 0 k).map
            Signal.updateCoefficientsPercent := f1
        refine ⟨by simp [emit, Res.exit?], fun _ => ⟨k, hk, ?_, fun _ => f3 rfl⟩,
          fun h => absurd hv h⟩
        simp [emit, Res.state, Res.exit?, doneSignal, hs2, hs1]
      | exit e2 w2 =>
        rw [hr2] at f1 f2 f3
        rw [bind_exit hr2]
        have hs2 : w2.signals = w1.signals ++ (notifications v 0 0 k).map
            Signal.updateCoefficientsPercent := f1
        refine ⟨f2, fun _ => ⟨k, hk, ?_, fun hnone => ?_⟩, fun h => absurd hv h⟩
        · simp [Res.state, Res.exit?, doneSignal, hs2, hs1]
        · simp [Res.exit?] at hnone
    | exit e1 w1 =>
      rw [hr] at g1 g2
      have hs1 : w1.signals = w.signals := g1
      rw [bind_exit hr]
      refine ⟨?_, fun _ => ⟨0, Nat.zero_le _, ?_, fun hnone => ?_⟩, fun h => absurd hv h⟩
      · rcases g2 with h | h
        · simp [Res.exit?] at h
        · simp only [Res.exit?] at h ⊢
          rw [h]
          simp
      · simp [Res.state, Res.exit?, doneSignal, notifications, hs1]
      · simp [Res.exit?] at hnone
  · rw [if_neg hv]
    exact ⟨by simp [Res.exit?], fun h => absurd h hv, fun _ => rfl⟩

end CalDevice
namespace CalDevice

open QString

variable {σ D : Type}

/-! ## Polling progress -/

/-- C24: polling progress. Suppose the load passes the validation and the device counts
`count set coeffId` samples for every coefficient to retrieve, whatever the state of the
channel, and let `T` be the total of these counts (with `100 * T` below `2 ^ 64`). Then the
progress notifications of the load are those of `notifications T 0 0 k` for the `k <= T` samples
that it reads: after each sample, the percentage `floor(100 * r / T)` of the `r` samples read so
far is notified exactly when it differs from the value notified last (0 at the start). Hence
the notified percentages are strictly increasing and lie in `1..100`; after them comes the
completion signal when the load reaches its end, and then all `T` samples were read and, when
`T > 0`, the last percentage is 100. (The load may be cancelled or stopped by a malformed
answer at any point; then `k` is the number of samples read until then.) -/
theorem polling_progress_notifications (dev : USBDevice σ) (qt : QtNumeric D) (fuel : Nat)
    (count : String → String → Nat) (names : List String) (w : CalDevice σ D) (T : Nat)
    (hT : T = totalCount count w.numPorts
      (requestedSets names (split (dev.Query ":COEFF:LIST?" w.usb).1 ',')))
    (hlist : startsWith (dev.Query ":COEFF:LIST?" w.usb).1 "FACTORY" = true)
    (hnames : ∀ n ∈ names, n ∈ split (dev.Query ":COEFF:LIST?" w.usb).1 ',')
    (hnum : ∀ name ∈ requestedSets names (split (dev.Query ":COEFF:LIST?" w.usb).1 ','),
      ∀ coeff ∈ loadCoefficientSetsThreadFast.coeffNames w.numPorts, ∀ s,
        qt.toInt (dev.Query (":COEFF:NUM? " ++ name ++ " " ++ coeff) s).1
          = (count name coeff : Int))
    (hsum : T * 100 < 2 ^ 64) :
    ∃ k, k ≤ T ∧
      (loadCoefficientSets dev qt fuel names false w).state.signals
        = w.signals ++ (notifications T 0 0 k).map Signal.updateCoefficientsPercent
          ++ doneSignal (loadCoefficientSets dev qt fuel names false w).exit? ∧
      (notifications T 0 0 k).Pairwise (· < ·) ∧
      (∀ p ∈ notifications T 0 0 k, 1 ≤ p ∧ p ≤ 100) ∧
      ((loadCoefficientSets dev qt fuel names false w).exit? = none →
        k = T ∧ (0 < T → (notifications T 0 0 k).getLast? = some 100)) := by
  have hall : names.all (fun n => (split (dev.Query ":COEFF:LIST?" w.usb).1 ',').contains n)
      = true := by
    simp only [List.all_eq_true]
    intro n hn
    simpa using hnames n hn
  obtain ⟨k, hk, h1, h2⟩ :=
    (loadSlow_progress dev qt fuel count names w T hT hnum hsum).2.1 ⟨hlist, hall⟩
  have hinc := notifications_increasing T k 0
  rw [percentOf_zero] at hinc
  refine ⟨k, hk, h1, hinc, notifications_range T k hk, fun hnone => ?_⟩
  have ek := h2 hnone
  subst ek
  exact ⟨rfl, fun hpos => notifications_getLast? k hpos⟩

/-- The scenario of the specification: the listing `FACTORY,USER1`, two ports, the request
`["FACTORY"]` and three samples in all; the percentages 33, 66 and 100 are notified. -/
theorem polling_progress_notifications_witness :
    (loadCoefficientSets exampleDevice wholeNumbers 8 ["FACTORY"] false
        (fresh [] 2 none : CalDevice (List String) Int)).state.signals
      = [.updateCoefficientsPercent 33, .updateCoefficientsPercent 66,
         .updateCoefficientsPercent 100, .updateCoefficientsDone true] ∧
    ∃ k, k ≤ 3 ∧
      (loadCoefficientSets exampleDevice wholeNumbers 8 ["FACTORY"] false
          (fresh [] 2 none : CalDevice (List String) Int)).state.signals
        = (fresh [] 2 none : CalDevice (List String) Int).signals
          ++ (notifications 3 0 0 k).map Signal.updateCoefficientsPercent
          ++ doneSignal (loadCoefficientSets exampleDevice wholeNumbers 8 ["FACTORY"] false
              (fresh [] 2 none : CalDevice (List String) Int)).exit? ∧
      (notifications 3 0 0 k).Pairwise (· < ·) ∧
      (∀ p ∈ notifications 3 0 0 k, 1 ≤ p ∧ p ≤ 100) ∧
      ((loadCoefficientSets exampleDevice wholeNumbers 8 ["FACTORY"] false
          (fresh [] 2 none : CalDevice (List String) Int)).exit? = none →
        k = 3 ∧ (0 < 3 → (notifications 3 0 0 k).getLast? = some 100)) :=
  ⟨by decide!,
    polling_progress_notifications exampleDevice wholeNumbers 8 exampleCount ["FACTORY"]
      (fresh [] 2 none) 3 (by decide!) (by decide) (by decide)
      (fun name hn coeff hc _ => exampleDevice_counts name hn coeff hc) (by decide)⟩

/-- C27: the progress computation of the polling strategy is safe. Suppose the device answers
every query `COEFF:NUM? <set> <coeffId>` for a coefficient to retrieve with the same number
`count set coeffId`, which is not negative, whenever it is asked (and the total `T` of these
numbers has `100 * T` below `2 ^ 64`). Then, whatever names are requested, whatever the other
answers are and whenever the load is cancelled, the thread never divides by zero, and every
percentage that it notifies lies in `1..100`: whenever `readPoints * 100 / totalPoints` is
computed, `0 < readPoints <= totalPoints`. -/
theorem polling_progress_is_safe (dev : USBDevice σ) (qt : QtNumeric D) (fuel : Nat)
    (count : String → String → Nat) (names : List String) (w : CalDevice σ D)
    (hnum : ∀ name ∈ requestedSets names (split (dev.Query ":COEFF:LIST?" w.usb).1 ','),
      ∀ coeff ∈ loadCoefficientSetsThreadFast.coeffNames w.numPorts, ∀ s,
        qt.toInt (dev.Query (":COEFF:NUM? " ++ name ++ " " ++ coeff) s).1
          = (count name coeff : Int))
    (hsum : totalCount count w.numPorts
      (requestedSets names (split (dev.Query ":COEFF:LIST?" w.usb).1 ',')) * 100 < 2 ^ 64) :
    (loadCoefficientSets dev qt fuel names false w).exit? ≠ some (.crashed .divisionByZero) ∧
    ∃ new, (loadCoefficientSets dev qt fuel names false w).state.signals = w.signals ++ new ∧
      ∀ p, Signal.updateCoefficientsPercent p ∈ new → 1 ≤ p ∧ p ≤ 100 := by
  obtain ⟨h1, h2, h3⟩ := loadSlow_progress dev qt fuel count names w _ rfl hnum hsum
  refine ⟨h1, ?_⟩
  by_cases hv : startsWith (dev.Query ":COEFF:LIST?" w.usb).1 "FACTORY" = true ∧
      names.all (fun n => (split (dev.Query ":COEFF:LIST?" w.usb).1 ',').contains n) = true
  · obtain ⟨k, hk, e, -⟩ := h2 hv
    refine ⟨_, by rw [e, List.append_assoc], ?_⟩
    intro p hp
    rcases List.mem_append.mp hp with hp | hp
    · obtain ⟨q, hq, e2⟩ := List.mem_map.mp hp
      have eq : q = p := by injection e2
      rw [← eq]
      exact notifications_range _ k hk q hq
    · unfold doneSignal at hp
      split at hp <;> simp at hp
  · refine ⟨_, h3 hv, ?_⟩
    intro p hp
    simp at hp

/-- The example device, with a cancellation that lands at the seventh read of the flag: the
thread neither divides by zero nor notifies a percentage outside `1..100`. -/
theorem polling_progress_is_safe_witness :
    (loadCoefficientSets exampleDevice wholeNumbers 8 ["FACTORY"] false
        (fresh [] 2 (some 6) : CalDevice (List String) Int)).exit?
      ≠ some (.crashed .divisionByZero) ∧
    ∃ new, (loadCoefficientSets exampleDevice wholeNumbers 8 ["FACTORY"] false
        (fresh [] 2 (some 6) : CalDevice (List String) Int)).state.signals
          = (fresh [] 2 (some 6) : CalDevice (List String) Int).signals ++ new ∧
      ∀ p, Signal.updateCoefficientsPercent p ∈ new → 1 ≤ p ∧ p ≤ 100 :=
  polling_progress_is_safe exampleDevice wholeNumbers 8 exampleCount ["FACTORY"]
    (fresh [] 2 (some 6))
    (fun name hn coeff hc _ => exampleDevice_counts name hn coeff hc) (by decide!)

end CalDevice
namespace CalDevice

open QString

variable {σ D : Type}

/-! ## The signals of a load, however it ends -/

theorem doneSignal_emit (w : CalDevice σ D) :
    ∃ ps : List Int,
      ((emit (.updateCoefficientsDone true) : M σ D Unit) w).state.signals
        = w.signals ++ ps.map Signal.updateCoefficientsPercent
          ++ doneSignal ((emit (.updateCoefficientsDone true) : M σ D Unit) w).exit? ∧
      (((emit (.updateCoefficientsDone true) : M σ D Unit) w).exit? = some .returned →
        ((emit (.updateCoefficientsDone true) : M σ D Unit) w).state.abortLoading = true) :=
  ⟨[], by simp [emit, Res.state, Res.exit?, doneSignal], fun h => by cases h⟩

/-- Code that emits progress signals only, followed by code that emits progress signals and
then, when it reaches its end, the completion signal with success. -/
theorem signals_bind_done {α : Type} {m : M σ D α} {f : α → M σ D Unit} (hm : Silent m)
    (hf : ∀ a w, ∃ ps : List Int,
      (f a w).state.signals
        = w.signals ++ ps.map Signal.updateCoefficientsPercent ++ doneSignal (f a w).exit? ∧
      ((f a w).exit? = some .returned → (f a w).state.abortLoading = true))
    (w : CalDevice σ D) :
    ∃ ps : List Int,
      ((m >>= f) w).state.signals
        = w.signals ++ ps.map Signal.updateCoefficientsPercent ++ doneSignal ((m >>= f) w).exit? ∧
      (((m >>= f) w).exit? = some .returned → ((m >>= f) w).state.abortLoading = true) := by
  obtain ⟨⟨ps, h1⟩, h2⟩ := hm w
  cases h : m w with
  | ok a w1 =>
    rw [bind_ok h]
    rw [h] at h1
    have e : w1.signals = w.signals ++ ps.map Signal.updateCoefficientsPercent := h1
    obtain ⟨qs, g1, g2⟩ := hf a w1
    exact ⟨ps ++ qs, by rw [g1, e]; simp only [List.map_append, List.append_assoc], g2⟩
  | exit e w1 =>
    rw [bind_exit h]
    rw [h] at h1 h2
    exact ⟨ps, by simpa [Res.state, Res.exit?, doneSignal] using h1, h2⟩

/-- The signals of a load by either strategy, however it ends. When the listing is accepted and
holds every requested name, the load emits progress signals and then, when it reaches its end
and only then, the completion signal with success; and it leaves by `return;` only after the
worker has seen the abort flag. Otherwise it emits the completion signal with failure, and
nothing else, and returns with an empty collection. -/
theorem loadCoefficientSets_signals_cases (dev : USBDevice σ) (qt : QtNumeric D) (fuel : Nat)
    (names : List String) (fast : Bool) (w : CalDevice σ D) :
    ((startsWith (dev.Query ":COEFF:LIST?" w.usb).1 "FACTORY" = true ∧
        ∀ n ∈ names, n ∈ split (dev.Query ":COEFF:LIST?" w.usb).1 ',') →
      ∃ ps : List Int,
        (loadCoefficientSets dev qt fuel names fast w).state.signals
          = w.signals ++ ps.map Signal.updateCoefficientsPercent
            ++ doneSignal (loadCoefficientSets dev qt fuel names fast w).exit? ∧
        ((loadCoefficientSets dev qt fuel names fast w).exit? = some .returned →
          (loadCoefficientSets dev qt fuel names fast w).state.abortLoading = true)) ∧
    (¬ (startsWith (dev.Query ":COEFF:LIST?" w.usb).1 "FACTORY" = true ∧
        ∀ n ∈ names, n ∈ split (dev.Query ":COEFF:LIST?" w.usb).1 ',') →
      (loadCoefficientSets dev qt fuel names fast w).exit? = some .returned ∧
      (loadCoefficientSets dev qt fuel names fast w).state.signals
        = w.signals ++ [.updateCoefficientsDone false] ∧
      (loadCoefficientSets dev qt fuel names fast w).state.abortLoading = false ∧
      (loadCoefficientSets dev qt fuel names fast w).state.coeffSets = []) := by
  have hiff : (startsWith (dev.Query ":COEFF:LIST?" w.usb).1 "FACTORY" = true ∧
        names.all (fun n => (split (dev.Query ":COEFF:LIST?" w.usb).1 ',').contains n) = true)
      ↔ (startsWith (dev.Query ":COEFF:LIST?" w.usb).1 "FACTORY" = true ∧
        ∀ n ∈ names, n ∈ split (dev.Query ":COEFF:LIST?" w.usb).1 ',') := by
    simp [List.all_eq_true]
  have key : ∀ rest : List String → Int → M σ D Unit,
      (∀ l n w0, ∃ ps : List Int,
        (rest l n w0).state.signals
          = w0.signals ++ ps.map Signal.updateCoefficientsPercent
            ++ doneSignal (rest l n w0).exit? ∧
        ((rest l n w0).exit? = some .returned → (rest l n w0).state.abortLoading = true)) →
      loadCoefficientSets dev qt fuel names fast w
        = (do
          let coeffList ← getCoefficientSetNames dev
          if coeffList.isEmpty then
            emit (.updateCoefficientsDone false)
            leave .returned
          else if names.length > 0 ∧ ¬ names.all (fun n => coeffList.contains n) then
            emit (.updateCoefficientsDone false)
            leave .returned
          else
            let coeffList := if names.length > 0 then names else coeffList
            let numPorts ← readNumPorts
            rest coeffList numPorts : M σ D Unit)
          { w with coeffSets := [], abortLoading := false } →
      ((startsWith (dev.Query ":COEFF:LIST?" w.usb).1 "FACTORY" = true ∧
          ∀ n ∈ names, n ∈ split (dev.Query ":COEFF:LIST?" w.usb).1 ',') →
        ∃ ps : List Int,
          (loadCoefficientSets dev qt fuel names fast w).state.signals
            = w.signals ++ ps.map Signal.updateCoefficientsPercent
              ++ doneSignal (loadCoefficientSets dev qt fuel names fast w).exit? ∧
          ((loadCoefficientSets dev qt fuel names fast w).exit? = some .returned →
            (loadCoefficientSets dev qt fuel names fast w).state.abortLoading = true)) ∧
      (¬ (startsWith (dev.Query ":COEFF:LIST?" w.usb).1 "FACTORY" = true ∧
          ∀ n ∈ names, n ∈ split (dev.Query ":COEFF:LIST?" w.usb).1 ',') →
        (loadCoefficientSets dev qt fuel names fast w).exit? = some .returned ∧
        (loadCoefficientSets dev qt fuel names fast w).state.signals
          = w.signals ++ [.updateCoefficientsDone false] ∧
        (loadCoefficientSets dev qt fuel names fast w).state.abortLoading = false ∧
        (loadCoefficientSets dev qt fuel names fast w).state.coeffSets = []) := by
    intro rest hrest e
    rw [e, prologue_eq]
    constructor
    · intro hv
      rw [if_pos (hiff.mpr hv)]
      exact hrest _ _ _
    · intro hv
      rw [if_neg (fun h => hv (hiff.mp h))]
      exact ⟨rfl, rfl, rfl, rfl⟩
  cases fast
  · exact key
      (fun coeffList numPorts => do
        let totalPoints ← loadCoefficientSetsThreadSlow.totalSets dev qt numPorts coeffList 0
        loadCoefficientSetsThreadSlow.readSets dev qt totalPoints numPorts coeffList
          { readPoints := 0, lastPercentage := 0 }
        emit (.updateCoefficientsDone true))
      (fun l n w0 => signals_bind_done (silent_totalSets _ _ _ _ _)
        (fun _ w1 => signals_bind_done (silent_readSetsSlow _ _ _ _ _ _)
          (fun _ w2 => doneSignal_emit w2) w1) w0)
      rfl
  · exact key
      (fun coeffList numPorts => do
        loadCoefficientSetsThreadFast.readSets dev qt fuel
          ((loadCoefficientSetsThreadFast.coeffNames numPorts).length * (names.length : Int))
          numPorts (loadCoefficientSetsThreadFast.coeffNames numPorts) coeffList 0
        emit (.updateCoefficientsDone true))
      (fun l n w0 => signals_bind_done (silent_readSetsFast _ _ _ _ _ _ _ _)
        (fun _ w1 => doneSignal_emit w1) w0)
      rfl

end CalDevice
namespace CalDevice

open QString

variable {σ D : Type}

/-! ## Device errors during a retrieval -/

theorem errorStream_length (cmd : String) : (errorStream cmd).length < 8 := by
  unfold errorStream
  split <;> decide

/-- A sample answer that the response refuses ends the sample loop of the polling strategy by
the exception of `AddDatapoint`, which nothing catches. -/
theorem readSamples_refused (dev : USBDevice σ) (qt : QtNumeric D) (totalPoints : Nat)
    (setName paramName : String) (n : Nat) (i : Int) (t : Touchstone D) (pr : SlowProgress)
    (w : CalDevice σ D) (hw : Calm w)
    (h : t.AddDatapoint (parseDatapoint qt (split
      (dev.Query (":COEFF:GET? " ++ setName ++ " " ++ paramName ++ " " ++ number i) w.usb).1 ','))
      = none) :
    loadCoefficientSetsThreadSlow.readSamples dev qt totalPoints setName paramName (n + 1) i t pr w
      = .exit (.crashed .uncaughtException)
          { w with
            usb := (dev.Query
              (":COEFF:GET? " ++ setName ++ " " ++ paramName ++ " " ++ number i) w.usb).2
            io := w.io
              ++ [.query (":COEFF:GET? " ++ setName ++ " " ++ paramName ++ " " ++ number i)] } := by
  unfold loadCoefficientSetsThreadSlow.readSamples
  rw [bind_ok (readAbortLoading_calm hw)]
  simp only [Bool.false_eq_true, if_false]
  rw [bind_ok (show Query dev _ w = _ from rfl)]
  simp only [h]
  rfl

end CalDevice
namespace CalDevice

open QString

variable {σ D : Type}

/-! ## The save thread runs to its end -/

theorem dirtyPointsAt_after_write (heap : List (CoefficientSet.Coefficient D)) (c : Ptr)
    (co : CoefficientSet.Coefficient D) (hc : heap[c]? = some co) (ok : Bool) (x : Ptr) :
    dirtyPointsAt (if co.modified = true ∧ ok = true then heap.set c { co with modified := false }
      else heap) x ≤ dirtyPointsAt heap x := by
  obtain ⟨-, a2, -, a4⟩ := heap_after_write heap c co hc ok
  by_cases hx : x = c
  · subst hx
    by_cases hP : co.modified = true ∧ ok = true
    · have hlt : x < heap.length := by
        by_contra hcon
        rw [List.getElem?_eq_none (Nat.le_of_not_lt hcon)] at hc
        exact absurd hc (by simp)
      rw [if_pos hP]
      unfold dirtyPointsAt
      rw [List.getElem?_set_self hlt]
      simp
    · rw [if_neg hP]
  · rw [dirtyPointsAt_of_getElem? (a2 x hx)]

/-- One pass of the save thread over slots whose addresses hold objects runs to its end, whether
or not slots share an object, and emits progress signals only. -/
theorem saveSlots_total (dev : USBDevice σ) (qt : QtNumeric D) (totalPoints : Nat)
    (slots : List (String × String × Ptr)) (success : Bool) (pr : SaveProgress)
    (w : CalDevice σ D)
    (hvalid : ∀ x ∈ slots, x.2.2 < w.heap.length)
    (htot : ∀ x ∈ slots, 0 < dirtyPointsAt w.heap x.2.2 → totalPoints ≠ 0) :
    ∃ r w1, saveSlots dev qt totalPoints slots success pr w = .ok r w1 ∧ SaveFrame w w1 := by
  induction slots generalizing success pr w with
  | nil => exact ⟨(success, pr), w, rfl, SaveFrame.same w⟩
  | cons slot rest ih =>
    obtain ⟨setName, paramName, c⟩ := slot
    have hlt : c < w.heap.length := hvalid (setName, paramName, c) (by simp)
    have hc : w.heap[c]? = some (w.heap.get ⟨c, hlt⟩) := List.getElem?_eq_getElem hlt
    generalize w.heap.get ⟨c, hlt⟩ = co at hc
    have hd : dirtyPointsAt w.heap c = if co.modified then co.t.points else 0 := by
      unfold dirtyPointsAt
      rw [hc]
    obtain ⟨pr1, w1, e, -, -, e3, e4⟩ :=
      createCoefficientSave_spec dev qt totalPoints setName paramName c pr w co hc
        (fun hm hp => htot (setName, paramName, c) (by simp) (by rw [hd, hm]; exact hp))
    obtain ⟨a1, -, -, -⟩ := heap_after_write w.heap c co hc
      ((sendUntilRejected dev
        (if co.modified then slotCommands qt setName paramName co.t else []) w.usb).1.all
          (fun x => x.2))
    obtain ⟨r, w2, e5, e6⟩ := ih
      (success && (sendUntilRejected dev
        (if co.modified then slotCommands qt setName paramName co.t else []) w.usb).1.all
          (fun x => x.2)) pr1 w1
      (fun x hx => by
        rw [e3, a1]
        exact hvalid x (by simp [hx]))
      (fun x hx h0 => by
        have hle := dirtyPointsAt_after_write w.heap c co hc
          ((sendUntilRejected dev
            (if co.modified then slotCommands qt setName paramName co.t else []) w.usb).1.all
              (fun x => x.2)) x.2.2
        rw [← e3] at hle
        exact htot x (by simp [hx]) (by omega))
    refine ⟨r, w2, ?_, e4.then e6⟩
    unfold saveSlots
    rw [bind_ok e]
    exact e5

/-- `saveCoefficientSets` on a collection whose sets have all their slots, at addresses that
hold objects, with fewer than `2 ^ 64` samples to send: it runs to its end, whether or not slots
share an object, and emits progress signals and then, once and as its last signal, the
completion signal. -/
theorem saveCoefficientSets_total (dev : USBDevice σ) (qt : QtNumeric D) (w : CalDevice σ D)
    (hslots : ∀ set ∈ w.coeffSets, HasAllSlots w.numPorts set)
    (hvalid : Valid w)
    (hsum : dirtyPoints w.heap w.coeffSets < 2 ^ 64) :
    ∃ (w1 : CalDevice σ D) (ps : List Int) (b : Bool),
      saveCoefficientSets dev qt w = .ok () w1 ∧
      w1.signals = w.signals ++ ps.map Signal.updateCoefficientsPercent
        ++ [.updateCoefficientsDone b] := by
  by_cases hm : hasModifiedCoefficients w = true
  · have e : saveCoefficientSets dev qt w = saveCoefficientSetsThread dev qt w := by
      unfold saveCoefficientSets
      simp [hm]
    rw [e]
    have hmem := mem_slots_of_mem_saveOrder w.coeffSets hslots
    obtain ⟨r, w1, e1, -, -, -, -, ps, e2⟩ :=
      saveSlots_total dev qt (dirtyPoints w.heap w.coeffSets) (saveOrder w.numPorts w.coeffSets)
        true { transferredPoints := 0, lastPercentage := 0 } w
        (fun x hx => by
          obtain ⟨set, hset, -, hc⟩ := hmem x hx
          exact hvalid set hset _ hc)
        (fun x hx h0 => by
          obtain ⟨set, hset, -, hc⟩ := hmem x hx
          have := dirtyPointsAt_le_dirtyPoints w.heap w.coeffSets set hset _ hc
          omega)
    unfold saveCoefficientSetsThread
    rw [bind_ok (show readCoeffSets w = .ok w.coeffSets w from rfl),
      bind_ok (totalSetsSave_spec w.coeffSets 0 w (by norm_num) hvalid),
      bind_ok (show readNumPorts w = .ok w.numPorts w from rfl),
      Nat.zero_add, Nat.mod_eq_of_lt hsum, saveSets_eq dev qt _ _ hslots, bind_ok e1]
    exact ⟨_, ps, r.1, rfl, by rw [← e2]⟩
  · have hm2 : hasModifiedCoefficients w = false := by simpa using hm
    have e : saveCoefficientSets dev qt w
        = .ok () { w with signals := w.signals ++ [.updateCoefficientsDone true] } := by
      unfold saveCoefficientSets
      simp [hm2, emit]
    exact ⟨_, [], true, e, by simp⟩

end CalDevice
namespace CalDevice

open QString

variable {σ D : Type}

/-! ## The completion signal on every path -/

/-- Without cancellation, a polling load from a device that answers the sample counts and
well-formed samples for every coefficient to retrieve runs to its end. -/
theorem loadSlow_completes (dev : USBDevice σ) (qt : QtNumeric D) (fuel : Nat)
    (count : String → String → Nat) (names : List String) (w : CalDevice σ D)
    (hno : w.abortRequest = none)
    (hlist : startsWith (dev.Query ":COEFF:LIST?" w.usb).1 "FACTORY" = true)
    (hnames : ∀ n ∈ names, n ∈ split (dev.Query ":COEFF:LIST?" w.usb).1 ',')
    (hnum : ∀ name ∈ requestedSets names (split (dev.Query ":COEFF:LIST?" w.usb).1 ','),
      ∀ coeff ∈ loadCoefficientSetsThreadFast.coeffNames w.numPorts, ∀ s,
        qt.toInt (dev.Query (":COEFF:NUM? " ++ name ++ " " ++ coeff) s).1
          = (count name coeff : Int))
    (hget : ∀ name ∈ requestedSets names (split (dev.Query ":COEFF:LIST?" w.usb).1 ','),
      ∀ coeff ∈ loadCoefficientSetsThreadFast.coeffNames w.numPorts, ∀ s, ∀ i : Int,
        0 ≤ i → i < count name coeff →
        (parseDatapoint qt (split (dev.Query
          (":COEFF:GET? " ++ name ++ " " ++ coeff ++ " " ++ number i) s).1 ',')).S.length
          = if endsWith coeff "THROUGH" then 4 else 1)
    (hsum : totalCount count w.numPorts
      (requestedSets names (split (dev.Query ":COEFF:LIST?" w.usb).1 ',')) < 2 ^ 64) :
    ∃ w1, loadCoefficientSets dev qt fuel names false w = .ok () w1 := by
  have hall : names.all (fun n => (split (dev.Query ":COEFF:LIST?" w.usb).1 ',').contains n)
      = true := by
    simp only [List.all_eq_true]
    intro n hn
    simpa using hnames n hn
  have hnonempty : (split (dev.Query ":COEFF:LIST?" w.usb).1 ',').isEmpty = false := by
    have := split_ne_nil (dev.Query ":COEFF:LIST?" w.usb).1 ','
    cases h : split (dev.Query ":COEFF:LIST?" w.usb).1 ',' with
    | nil => exact absurd h this
    | cons a l => rfl
  generalize hsets : requestedSets names (split (dev.Query ":COEFF:LIST?" w.usb).1 ',') = sets
    at hnum hget hsum ⊢
  have hcalm0 : Calm ({ w with usb := (dev.Query ":COEFF:LIST?" w.usb).2, coeffSets := [],
                               abortLoading := false, io := w.io ++ [.query ":COEFF:LIST?"] }
      : CalDevice σ D) :=
    ⟨rfl, hno⟩
  obtain ⟨w1, h1, hf1⟩ := totalSets_spec dev qt count w.numPorts sets 0 _
    (fun name hn i hi coeff hc s => hnum name hn coeff (mem_coeffNames hi hc) s)
    (by norm_num) hcalm0
  have htot : (0 + totalCount count w.numPorts sets) % 2 ^ 64 = totalCount count w.numPorts sets := by
    rw [Nat.zero_add, Nat.mod_eq_of_lt hsum]
  rw [htot] at h1
  have hc1 : Calm w1 := ⟨hf1.2.2.1.trans hcalm0.1, hf1.2.2.2.2.2.trans hcalm0.2⟩
  obtain ⟨w2, h2, -⟩ := readSetsSlow_spec dev qt count
    (totalCount count w.numPorts sets) w.numPorts sets { readPoints := 0, lastPercentage := 0 } w1
    (fun name hn i hi coeff hc =>
      ⟨hnum name hn coeff (mem_coeffNames hi hc), hget name hn coeff (mem_coeffNames hi hc), by
        have hle := count_le_totalCount count w.numPorts sets name hn i hi coeff hc
        omega⟩)
    hc1
  refine ⟨{ w2 with signals := w2.signals ++ [.updateCoefficientsDone true] }, ?_⟩
  unfold loadCoefficientSets
  simp only [Bool.false_eq_true, if_false]
  unfold loadCoefficientSetsThreadSlow
  rw [bind_ok (getCoefficientSetNames_apply dev _)]
  simp only [hlist, if_true, hnonempty, Bool.false_eq_true, if_false, hall,
    not_true_eq_false, and_false]
  rw [bind_ok (show readNumPorts _ = _ from rfl)]
  have e : (if names.length > 0 then names else split (dev.Query ":COEFF:LIST?" w.usb).1 ',')
      = sets := hsets
  simp only [e]
  rw [bind_ok h1, bind_ok h2]
  rfl

/-- C16, amended. (1) Every save of a collection whose sets have all their slots, at addresses
that hold objects (and with fewer than `2 ^ 64` samples to send), runs to its end and emits,
after progress signals, exactly one completion signal, as its last signal, with the overall
success flag; that is so on its fast path and at the end of its thread, whatever the device
acknowledges or rejects, and every collection that the program builds is such a collection
(`wellFormed_invariant`). (2) Every retrieval, by either strategy and however it ends, emits at
most one completion signal, and after it nothing. When the validation of the listing or of the
requested names fails, it emits the completion signal with failure, and nothing else, and
returns. Otherwise it emits progress signals and then the completion signal with success
exactly when it runs to its end; it leaves by `return;` only after the worker has seen the abort
flag, and then, as when a fault stops the thread, no completion signal is emitted. (3) Without
cancellation a streaming retrieval of a request that is not empty and passes the validation
runs to its end when the streams of the device end within `fuel` lines. (4) Without cancellation
a polling retrieval of a request that passes the validation runs to its end when the device
answers the sample counts and well-formed samples. -/
theorem completion_signal_unless_cancelled :
    (∀ (dev : USBDevice σ) (qt : QtNumeric D) (w : CalDevice σ D),
      (∀ set ∈ w.coeffSets, HasAllSlots w.numPorts set) → Valid w →
      dirtyPoints w.heap w.coeffSets < 2 ^ 64 →
      ∃ (w1 : CalDevice σ D) (ps : List Int) (b : Bool),
        saveCoefficientSets dev qt w = .ok () w1 ∧
        w1.signals = w.signals ++ ps.map Signal.updateCoefficientsPercent
          ++ [.updateCoefficientsDone b]) ∧
    (∀ (dev : USBDevice σ) (qt : QtNumeric D) (fuel : Nat) (names : List String) (fast : Bool)
      (w : CalDevice σ D),
      ((startsWith (dev.Query ":COEFF:LIST?" w.usb).1 "FACTORY" = true ∧
          ∀ n ∈ names, n ∈ split (dev.Query ":COEFF:LIST?" w.usb).1 ',') →
        ∃ ps : List Int,
          (loadCoefficientSets dev qt fuel names fast w).state.signals
            = w.signals ++ ps.map Signal.updateCoefficientsPercent
              ++ doneSignal (loadCoefficientSets dev qt fuel names fast w).exit? ∧
          ((loadCoefficientSets dev qt fuel names fast w).exit? = some .returned →
            (loadCoefficientSets dev qt fuel names fast w).state.abortLoading = true)) ∧
      (¬ (startsWith (dev.Query ":COEFF:LIST?" w.usb).1 "FACTORY" = true ∧
          ∀ n ∈ names, n ∈ split (dev.Query ":COEFF:LIST?" w.usb).1 ',') →
        (loadCoefficientSets dev qt fuel names fast w).exit? = some .returned ∧
        (loadCoefficientSets dev qt fuel names fast w).state.signals
          = w.signals ++ [.updateCoefficientsDone false] ∧
        (loadCoefficientSets dev qt fuel names fast w).state.abortLoading = false)) ∧
    (∀ (dev : USBDevice σ) (qt : QtNumeric D) (fuel : Nat) (names : List String)
      (w : CalDevice σ D),
      StreamsEnd dev qt fuel →
      startsWith (dev.Query ":COEFF:LIST?" w.usb).1 "FACTORY" = true →
      names ≠ [] → (∀ n ∈ names, n ∈ split (dev.Query ":COEFF:LIST?" w.usb).1 ',') →
      w.abortRequest = none →
      ∃ w1, loadCoefficientSets dev qt fuel names true w = .ok () w1) ∧
    (∀ (dev : USBDevice σ) (qt : QtNumeric D) (fuel : Nat) (count : String → String → Nat)
      (names : List String) (w : CalDevice σ D),
      w.abortRequest = none →
      startsWith (dev.Query ":COEFF:LIST?" w.usb).1 "FACTORY" = true →
      (∀ n ∈ names, n ∈ split (dev.Query ":COEFF:LIST?" w.usb).1 ',') →
      (∀ name ∈ requestedSets names (split (dev.Query ":COEFF:LIST?" w.usb).1 ','),
        ∀ coeff ∈ loadCoefficientSetsThreadFast.coeffNames w.numPorts, ∀ s,
          qt.toInt (dev.Query (":COEFF:NUM? " ++ name ++ " " ++ coeff) s).1
            = (count name coeff : Int)) →
      (∀ name ∈ requestedSets names (split (dev.Query ":COEFF:LIST?" w.usb).1 ','),
        ∀ coeff ∈ loadCoefficientSetsThreadFast.coeffNames w.numPorts, ∀ s, ∀ i : Int,
          0 ≤ i → i < count name coeff →
          (parseDatapoint qt (split (dev.Query
            (":COEFF:GET? " ++ name ++ " " ++ coeff ++ " " ++ number i) s).1 ',')).S.length
            = if endsWith coeff "THROUGH" then 4 else 1) →
      totalCount count w.numPorts
        (requestedSets names (split (dev.Query ":COEFF:LIST?" w.usb).1 ',')) < 2 ^ 64 →
      ∃ w1, loadCoefficientSets dev qt fuel names false w = .ok () w1) := by
  refine ⟨fun dev qt w h1 h2 h3 => saveCoefficientSets_total dev qt w h1 h2 h3, ?_, ?_, ?_⟩
  · intro dev qt fuel names fast w
    obtain ⟨g1, g2⟩ := loadCoefficientSets_signals_cases dev qt fuel names fast w
    exact ⟨g1, fun hv => ⟨(g2 hv).1, (g2 hv).2.1, (g2 hv).2.2.1⟩⟩
  · intro dev qt fuel names w hstream hlist hne hnames hno
    obtain ⟨w1, h1, -⟩ := loadFast_spec dev qt fuel hstream names w hlist hne hnames hno
    exact ⟨w1, h1⟩
  · intro dev qt fuel count names w hno hlist hnames hnum hget hsum
    exact loadSlow_completes dev qt fuel count names w hno hlist hnames hnum hget hsum

/-- A save of `dirtyDevice` to a device that rejects one command, a streaming retrieval from
`errorDevice` and a polling retrieval from `exampleDevice`: each runs to its end (and so emits
its completion signal). -/
theorem completion_signal_unless_cancelled_witness :
    (∃ (w1 : CalDevice (List String) Int) (ps : List Int) (b : Bool),
      saveCoefficientSets pickyDevice wholeNumbers dirtyDevice = .ok () w1 ∧
      w1.signals = dirtyDevice.signals ++ ps.map Signal.updateCoefficientsPercent
        ++ [.updateCoefficientsDone b]) ∧
    (∃ w1, loadCoefficientSets errorDevice wholeNumbers 8 ["FACTORY"] true
      (fresh [] 1 none : CalDevice (List String) Int) = .ok () w1) ∧
    (∃ w1, loadCoefficientSets exampleDevice wholeNumbers 8 ["FACTORY"] false
      (fresh [] 2 none : CalDevice (List String) Int) = .ok () w1) :=
  ⟨completion_signal_unless_cancelled.1 pickyDevice wholeNumbers dirtyDevice
      dirtyDevice_hasAllSlots dirtyDevice_valid (by decide!),
    completion_signal_unless_cancelled.2.2.1 errorDevice wholeNumbers 8 ["FACTORY"]
      (fresh [] 1 none) (streamsEnd_tableChannel _ _ _ _ _ errorStream_length)
      (by decide) (by decide) (by decide) rfl,
    completion_signal_unless_cancelled.2.2.2 exampleDevice wholeNumbers 8 exampleCount
      ["FACTORY"] (fresh [] 2 none) rfl (by decide) (by decide)
      (fun name hn coeff hc _ => exampleDevice_counts name hn coeff hc)
      (fun name hn coeff hc _ i h0 h1 =>
        exampleDevice_samples name hn coeff hc i ((mem_intRange _ _ _).mpr ⟨h0, by omega⟩))
      (by decide!)⟩

end CalDevice
namespace CalDevice

open QString

variable {σ D : Type}

/-! ## The samples in the slots after a load -/

theorem AddDatapoint_datapoints {t t1 : Touchstone D} {p : Touchstone.Datapoint D}
    (h : t.AddDatapoint p = some t1) : t1.datapoints = t.datapoints ++ [p] := by
  unfold Touchstone.AddDatapoint at h
  split at h
  · cases h
    rfl
  · cases h

/-- A read of the abort flag that gives `true` leaves the flag set. -/
theorem readAbortLoading_true {w w1 : CalDevice σ D} (h : readAbortLoading w = .ok true w1) :
    w1.abortLoading = true := by
  obtain ⟨b, w2, e, -, hb⟩ := readAbortLoading_cases w
  rw [e] at h
  cases h
  exact hb rfl

/-- The sample loop of the polling strategy, when the worker has not seen the abort flag by its
end: it appends the samples that the device delivers for the indices `i, i + 1, ...`. -/
theorem readSamples_samples (dev : USBDevice σ) (qt : QtNumeric D) (totalPoints : Nat)
    (setName paramName : String) (s0 : σ) (samples : List (Touchstone.Datapoint D))
    (hget : ∀ s, Reach dev s0 s → ∀ k : Nat, k < samples.length →
      samples[k]? = some (parseDatapoint qt (split
        (dev.Query (":COEFF:GET? " ++ setName ++ " " ++ paramName ++ " " ++ number (k : Int))
          s).1 ',')))
    (n i : Nat) (hn : i + n = samples.length) (t : Touchstone D) (pr : SlowProgress)
    (w w1 : CalDevice σ D) (r : Touchstone D × SlowProgress)
    (h : loadCoefficientSetsThreadSlow.readSamples dev qt totalPoints setName paramName n
      (i : Int) t pr w = .ok r w1)
    (hr : Reach dev s0 w.usb) (hflag : w1.abortLoading = false) :
    r.1.datapoints = t.datapoints ++ samples.drop i := by
  induction n generalizing i t pr w with
  | zero =>
    cases h
    rw [List.drop_of_length_le (by omega), List.append_nil]
  | succ n ih =>
    unfold loadCoefficientSetsThreadSlow.readSamples at h
    obtain ⟨b, w2, h1, h2⟩ := bind_eq_ok h
    cases b with
    | true =>
      cases h2
      have := readAbortLoading_true h1
      rw [hflag] at this
      exact absurd this (by simp)
    | false =>
      simp only [Bool.false_eq_true, if_false] at h2
      obtain ⟨-, -, hu2, -⟩ := readAbortLoading_false h1
      have hr2 : Reach dev s0 w2.usb := by
        rw [hu2]
        exact hr
      obtain ⟨pString, w3, h3, h4⟩ := bind_eq_ok h2
      cases h3
      have hk := hget w2.usb hr2 i (by omega)
      have hr3 : Reach dev s0 (dev.Query
          (":COEFF:GET? " ++ setName ++ " " ++ paramName ++ " " ++ number (i : Int)) w2.usb).2 :=
        Reach.query _ hr2
      have hdrop : samples.drop i
          = parseDatapoint qt (split (dev.Query
              (":COEFF:GET? " ++ setName ++ " " ++ paramName ++ " " ++ number (i : Int))
                w2.usb).1 ',') :: samples.drop (i + 1) := by
        have hlt : i < samples.length := by omega
        rw [List.getElem?_eq_getElem hlt] at hk
        rw [List.drop_eq_getElem_cons hlt, Option.some.inj hk]
      cases hadd : t.AddDatapoint (parseDatapoint qt (split (dev.Query
          (":COEFF:GET? " ++ setName ++ " " ++ paramName ++ " " ++ number (i : Int))
            w2.usb).1 ',')) with
      | none =>
        rw [hadd] at h4
        cases h4
      | some t1 =>
        rw [hadd] at h4
        simp only at h4
        have e1 := AddDatapoint_datapoints hadd
        have hcast : ((i : Int) + 1) = ((i + 1 : Nat) : Int) := by push_cast; rfl
        rw [hcast] at h4
        split at h4
        · cases h4
        · split at h4
          · obtain ⟨u, w4, h5, h6⟩ := bind_eq_ok h4
            cases h5
            have := ih (i + 1) (by omega) _ _ _ h6 hr3
            rw [this, e1, hdrop, List.append_assoc]
            rfl
          · have := ih (i + 1) (by omega) _ _ _ h4 hr3
            rw [this, e1, hdrop, List.append_assoc]
            rfl

/-- The lambda of the polling strategy, when the worker has not seen the abort flag by its end:
the object that it returns holds the samples that the device delivers. -/
theorem createCoefficientSlow_samples (dev : USBDevice σ) (qt : QtNumeric D) (fuel : Nat)
    (totalPoints : Nat) (setName paramName : String) (pr : SlowProgress) (s0 : σ)
    (samples : List (Touchstone.Datapoint D))
    (hdel : Delivers dev qt fuel false s0 setName paramName samples)
    (w w1 : CalDevice σ D) (r : Ptr × SlowProgress)
    (h : loadCoefficientSetsThreadSlow.createCoefficient dev qt totalPoints setName paramName pr w
      = .ok r w1) (hr : Reach dev s0 w.usb) (hflag : w1.abortLoading = false) :
    HoldsSamples w1.heap r.1 paramName samples := by
  have hget : ∀ s, Reach dev s0 s → ∀ k : Nat, k < samples.length →
      samples[k]? = some (parseDatapoint qt (split
        (dev.Query (":COEFF:GET? " ++ setName ++ " " ++ paramName ++ " " ++ number (k : Int))
          s).1 ',')) := by
    intro s hs
    have := hdel s hs
    simp only [Bool.false_eq_true, if_false] at this
    exact this.2
  have hnum : qt.toInt (dev.Query (":COEFF:NUM? " ++ setName ++ " " ++ paramName) w.usb).1
      = (samples.length : Int) := by
    have := hdel w.usb hr
    simp only [Bool.false_eq_true, if_false] at this
    exact this.1
  unfold loadCoefficientSetsThreadSlow.createCoefficient at h
  obtain ⟨n, w2, h1, h2⟩ := bind_eq_ok h
  cases h1
  obtain ⟨rs, w3, h3, h4⟩ := bind_eq_ok h2
  cases h4
  rw [hnum, Int.toNat_ofNat] at h3
  have hd := readSamples_samples dev qt totalPoints setName paramName s0 samples hget
    samples.length 0 (by omega) _ _ _ _ _ h3 (Reach.query _ hr) hflag
  obtain ⟨e1, e2⟩ := readSamples_tag _ _ _ _ _ _ _ _ _ _ _ _ h3
  unfold HoldsSamples
  show (w3.heap ++ _)[w3.heap.length]? = _
  rw [List.getElem?_append_right (le_refl _), Nat.sub_self, List.getElem?_cons_zero]
  congr 2
  cases hrs : rs.1 with
  | mk ports datapoints filename =>
    rw [hrs] at hd e2
    simp only [Touchstone.setFilename]
    have hdp : datapoints = samples := by
      have hd2 : datapoints
          = (if endsWith paramName "THROUGH" then Touchstone.new 2 else Touchstone.new 1
              : Touchstone D).datapoints ++ List.drop 0 samples := hd
      rw [hd2, List.drop_zero]
      split <;> rfl
    have hp : ports = if endsWith paramName "THROUGH" then 2 else 1 := by
      have e3 : ports
          = (if endsWith paramName "THROUGH" then Touchstone.new 2 else Touchstone.new 1
              : Touchstone D).ports := e2
      rw [e3]
      split <;> rfl
    rw [hdp, hp]

/-- The lambda of the streaming strategy: the object that it returns holds the samples that the
device delivers. -/
theorem createCoefficientFast_samples (dev : USBDevice σ) (qt : QtNumeric D) (fuel : Nat)
    (setName paramName : String) (s0 : σ) (samples : List (Touchstone.Datapoint D))
    (hdel : Delivers dev qt fuel true s0 setName paramName samples)
    (w w1 : CalDevice σ D) (c : Ptr)
    (h : loadCoefficientSetsThreadFast.createCoefficient dev qt fuel setName paramName w
      = .ok c w1) (hr : Reach dev s0 w.usb) :
    HoldsSamples w1.heap c paramName samples := by
  have hs := hdel w.usb hr
  simp only [if_true] at hs
  rw [createCoefficientFast_eq] at h
  by_cases hany : (received dev fuel (dev.send (":COEFF:GET? " ++ setName ++ " " ++ paramName)
      w.usb)).any (endsRetrieval qt (if endsWith paramName "THROUGH" then 2 else 1)) = true
  · rw [if_pos hany] at h
    cases h
    unfold HoldsSamples
    show (w.heap ++ _)[w.heap.length]? = _
    rw [List.getElem?_append_right (le_refl _), Nat.sub_self, List.getElem?_cons_zero, hs]
  · rw [if_neg hany] at h
    cases h

/-- An object retrieved for an identifier holds the samples that the device delivers for it. -/
theorem Retrieved.holds {dev : USBDevice σ} {qt : QtNumeric D} {fuel : Nat} {fast : Bool}
    {s0 : σ} {setName paramName : String} {heap : List (CoefficientSet.Coefficient D)} {c : Ptr}
    (hr : Retrieved dev qt fuel fast s0 setName paramName heap c)
    {samples : List (Touchstone.Datapoint D)}
    (hdel : Delivers dev qt fuel fast s0 setName paramName samples) :
    HoldsSamples heap c paramName samples := by
  obtain ⟨co, hc, hcall⟩ := hr
  cases fast with
  | true =>
    simp only [if_true] at hcall
    obtain ⟨w, w1, hw, h, hc1⟩ := hcall
    have := createCoefficientFast_samples dev qt fuel setName paramName s0 samples hdel w w1 c h hw
    unfold HoldsSamples at this ⊢
    rw [hc, ← hc1, this]
  | false =>
    simp only [Bool.false_eq_true, if_false] at hcall
    obtain ⟨tp, pr, pr1, w, w1, hw, h, hflag, hc1⟩ := hcall
    have := createCoefficientSlow_samples dev qt fuel tp setName paramName pr s0 samples hdel
      w w1 (c, pr1) h hw hflag
    unfold HoldsSamples at this ⊢
    rw [hc, ← hc1, this]

/-- The names of the sets of the collection after a load are among the names to retrieve. -/
theorem name_mem_requestedSets (dev : USBDevice σ) (qt : QtNumeric D) (fuel : Nat)
    (names : List String) (fast : Bool) (w : CalDevice σ D) (set : CoefficientSet)
    (hset : set ∈ (loadCoefficientSets dev qt fuel names fast w).state.coeffSets) :
    set.name ∈ requestedSets names (split (dev.Query ":COEFF:LIST?" w.usb).1 ',') := by
  have hN : NamesOK (requestedSets names (split (dev.Query ":COEFF:LIST?" w.usb).1 ','))
      (loadCoefficientSets dev qt fuel names fast w) := by
    unfold loadCoefficientSets
    cases fast
    · exact namesOK_slow dev qt names { w with coeffSets := [], abortLoading := false } rfl
    · exact namesOK_fast dev qt fuel names { w with coeffSets := [], abortLoading := false } rfl
  exact hN.1.subset (List.mem_map_of_mem (fun s => s.name) hset)

theorem readSetsSlow_all (dev : USBDevice σ) (qt : QtNumeric D) (totalPoints : Nat)
    (numPorts : Int) (names : List String) (pr : SlowProgress) (w w1 : CalDevice σ D)
    (h : loadCoefficientSetsThreadSlow.readSets dev qt totalPoints numPorts names pr w
      = .ok () w1) :
    w1.coeffSets.map (fun s => s.name) = w.coeffSets.map (fun s => s.name) ++ names := by
  induction names generalizing pr w with
  | nil =>
    cases h
    simp
  | cons name names ih =>
    unfold loadCoefficientSetsThreadSlow.readSets at h
    obtain ⟨r, w2, h1, h2⟩ := bind_eq_ok h
    obtain ⟨u, w3, h3, h4⟩ := bind_eq_ok h2
    cases h3
    have hin := (inner_readPorts dev qt totalPoints numPorts name (intRange 1 numPorts)
      { name := name, ports := numPorts, opens := [], shorts := [], loads := [],
        throughs := [] } pr w).1
    rw [h1] at hin
    have hname := readPorts_name _ _ _ _ _ _ _ _ _ _ _ h1
    rw [ih _ _ h4]
    show (w2.coeffSets ++ [r.1]).map _ ++ _ = _
    rw [show w2.coeffSets = w.coeffSets from hin, List.map_append, List.map_singleton, hname]
    simp

theorem readSetsFast_all (dev : USBDevice σ) (qt : QtNumeric D) (fuel : Nat)
    (total_coeffs : Int) (numPorts : Int) (coeffNames : List String) (names : List String)
    (read_coeffs : Int) (w w1 : CalDevice σ D)
    (h : loadCoefficientSetsThreadFast.readSets dev qt fuel total_coeffs numPorts coeffNames names
      read_coeffs w = .ok () w1) :
    w1.coeffSets.map (fun s => s.name) = w.coeffSets.map (fun s => s.name) ++ names := by
  induction names generalizing read_coeffs w with
  | nil =>
    cases h
    simp
  | cons name names ih =>
    unfold loadCoefficientSetsThreadFast.readSets at h
    obtain ⟨r, w2, h1, h2⟩ := bind_eq_ok h
    obtain ⟨u, w3, h3, h4⟩ := bind_eq_ok h2
    cases h3
    have hin := (inner_readCoeffs dev qt fuel total_coeffs name coeffNames
      { name := name, ports := numPorts, opens := [], shorts := [], loads := [],
        throughs := [] } read_coeffs w).1
    rw [h1] at hin
    have hname := readCoeffs_name _ _ _ _ _ _ _ _ _ _ _ h1
    rw [ih _ _ h4]
    show (w2.coeffSets ++ [r.1]).map _ ++ _ = _
    rw [show w2.coeffSets = w.coeffSets from hin, List.map_append, List.map_singleton, hname]
    simp

/-- A load that reaches its end has retained a set for every name to retrieve, in order. -/
theorem names_of_completed (dev : USBDevice σ) (qt : QtNumeric D) (fuel : Nat)
    (names : List String) (fast : Bool) (w : CalDevice σ D)
    (h : (loadCoefficientSets dev qt fuel names fast w).exit? = none) :
    (loadCoefficientSets dev qt fuel names fast w).state.coeffSets.map (fun s => s.name)
      = requestedSets names (split (dev.Query ":COEFF:LIST?" w.usb).1 ',') := by
  have key : ∀ rest : List String → Int → M σ D Unit,
      (∀ l n w0 w1, rest l n w0 = .ok () w1 →
        w1.coeffSets.map (fun s => s.name) = w0.coeffSets.map (fun s => s.name) ++ l) →
      loadCoefficientSets dev qt fuel names fast w
        = (do
          let coeffList ← getCoefficientSetNames dev
          if coeffList.isEmpty then
            emit (.updateCoefficientsDone false)
            leave .returned
          else if names.length > 0 ∧ ¬ names.all (fun n => coeffList.contains n) then
            emit (.updateCoefficientsDone false)
            leave .returned
          else
            let coeffList := if names.length > 0 then names else coeffList
            let numPorts ← readNumPorts
            rest coeffList numPorts : M σ D Unit)
          { w with coeffSets := [], abortLoading := false } →
      (loadCoefficientSets dev qt fuel names fast w).state.coeffSets.map (fun s => s.name)
        = requestedSets names (split (dev.Query ":COEFF:LIST?" w.usb).1 ',') := by
    intro rest hrest e
    rw [e, prologue_eq] at h ⊢
    split at h
    · rename_i hv
      rw [if_pos hv]
      cases hr : rest (requestedSets names (split (dev.Query ":COEFF:LIST?" w.usb).1 ','))
          w.numPorts
          { w with
            coeffSets := []
            abortLoading := false
            usb := (dev.Query ":COEFF:LIST?" w.usb).2
            io := w.io ++ [.query ":COEFF:LIST?"] } with
      | ok u w1 =>
        have := hrest _ _ _ _ hr
        simpa using this
      | exit e1 w1 =>
        have h2 : (rest (requestedSets names (split (dev.Query ":COEFF:LIST?" w.usb).1 ','))
            w.numPorts
            { w with
              coeffSets := []
              abortLoading := false
              usb := (dev.Query ":COEFF:LIST?" w.usb).2
              io := w.io ++ [.query ":COEFF:LIST?"] }).exit? = none := h
        rw [hr] at h2
        cases h2
    · cases h
  cases fast
  · refine key
      (fun coeffList numPorts => do
        let totalPoints ← loadCoefficientSetsThreadSlow.totalSets dev qt numPorts coeffList 0
        loadCoefficientSetsThreadSlow.readSets dev qt totalPoints numPorts coeffList
          { readPoints := 0, lastPercentage := 0 }
        emit (.updateCoefficientsDone true)) ?_ rfl
    intro l n w0 w1 h1
    obtain ⟨tp, w2, h2, h3⟩ := bind_eq_ok h1
    obtain ⟨u, w3, h4, h5⟩ := bind_eq_ok h3
    cases h5
    have hin := (inner_totalSets dev qt n l 0 w0).1
    rw [h2] at hin
    rw [← show w2.coeffSets = w0.coeffSets from hin]
    exact readSetsSlow_all _ _ _ _ _ _ w2 w3 h4
  · refine key
      (fun coeffList numPorts => do
        loadCoefficientSetsThreadFast.readSets dev qt fuel
          ((loadCoefficientSetsThreadFast.coeffNames numPorts).length * (names.length : Int))
          numPorts (loadCoefficientSetsThreadFast.coeffNames numPorts) coeffList 0
        emit (.updateCoefficientsDone true)) ?_ rfl
    intro l n w0 w1 h1
    obtain ⟨u, w3, h4, h5⟩ := bind_eq_ok h1
    cases h5
    exact readSetsFast_all _ _ _ _ _ _ _ _ w0 w3 h4

/-- C19: slot correspondence. Suppose the device delivers, whenever it is asked during the
retrieval, the samples `samples set X` for the identifier `X` of the set `set`, for every set
to retrieve and every identifier of a coefficient (`Delivers`: to the polling strategy the
count and the sample lines, to the streaming strategy the lines of the stream). Then a
completed retrieval by either strategy has retained a set for every name to retrieve, in order;
and after a retrieval, however it ends and in particular when it is completed, every set
of the collection has the port count `N` of the device and, for every port `i` in `1..N`,
`opens[i-1]`, `shorts[i-1]` and `loads[i-1]` hold the samples delivered for the identifiers
`P<i>_OPEN`, `P<i>_SHORT` and `P<i>_LOAD` of the set, and for every pair `i < j <= N`,
`getThrough(i, j)` holds the samples delivered for `P<i><j>_THROUGH`: the object in the slot is
the response with exactly these samples, in their order, with the file name `LibreCAL/X`, with
one port, or two for a through, and it is not modified. So the order in which the throughs are
appended coincides with the triangular index. -/
theorem load_fills_corresponding_slots (dev : USBDevice σ) (qt : QtNumeric D) (fuel : Nat)
    (names : List String) (fast : Bool) (w : CalDevice σ D)
    (samples : String → String → List (Touchstone.Datapoint D))
    (hdev : ∀ name ∈ requestedSets names (split (dev.Query ":COEFF:LIST?" w.usb).1 ','),
      ∀ coeff ∈ loadCoefficientSetsThreadFast.coeffNames w.numPorts,
        Delivers dev qt fuel fast w.usb name coeff (samples name coeff)) :
    ((loadCoefficientSets dev qt fuel names fast w).exit? = none →
      (loadCoefficientSets dev qt fuel names fast w).state.coeffSets.map (fun s => s.name)
        = requestedSets names (split (dev.Query ":COEFF:LIST?" w.usb).1 ',')) ∧
    ∀ set ∈ (loadCoefficientSets dev qt fuel names fast w).state.coeffSets,
      set.ports = w.numPorts ∧
      (∀ i : Int, 1 ≤ i → i ≤ w.numPorts →
        (∃ c, set.opens[(i - 1).toNat]? = some c ∧
          HoldsSamples (loadCoefficientSets dev qt fuel names fast w).state.heap c
            ("P" ++ number i ++ "_OPEN") (samples set.name ("P" ++ number i ++ "_OPEN"))) ∧
        (∃ c, set.shorts[(i - 1).toNat]? = some c ∧
          HoldsSamples (loadCoefficientSets dev qt fuel names fast w).state.heap c
            ("P" ++ number i ++ "_SHORT") (samples set.name ("P" ++ number i ++ "_SHORT"))) ∧
        (∃ c, set.loads[(i - 1).toNat]? = some c ∧
          HoldsSamples (loadCoefficientSets dev qt fuel names fast w).state.heap c
            ("P" ++ number i ++ "_LOAD") (samples set.name ("P" ++ number i ++ "_LOAD")))) ∧
      (∀ i j : Int, 1 ≤ i → i < j → j ≤ w.numPorts →
        ∃ c, set.getThrough i j = .ok (some c) ∧
          HoldsSamples (loadCoefficientSets dev qt fuel names fast w).state.heap c
            ("P" ++ number i ++ number j ++ "_THROUGH")
            (samples set.name ("P" ++ number i ++ number j ++ "_THROUGH"))) := by
  refine ⟨names_of_completed dev qt fuel names fast w, ?_⟩
  intro set hset
  have ht := (loadCoefficientSets_filled dev qt fuel names fast w).2 set hset
  have hname := name_mem_requestedSets dev qt fuel names fast w set hset
  refine ⟨ht.1, fun i h1 h2 => ⟨?_, ?_, ?_⟩, fun i j hi hij hj => ?_⟩
  · obtain ⟨c, hc, hr⟩ := slot_of_filled _ _ _ _ ht.2.1 i h1 h2
    exact ⟨c, hc, hr.holds (hdev _ hname _ (mem_coeffNames ((mem_intRange _ _ _).mpr ⟨h1, h2⟩)
      (mem_portCoeffNames_open _ _)))⟩
  · obtain ⟨c, hc, hr⟩ := slot_of_filled _ _ _ _ ht.2.2.1 i h1 h2
    exact ⟨c, hc, hr.holds (hdev _ hname _ (mem_coeffNames ((mem_intRange _ _ _).mpr ⟨h1, h2⟩)
      (mem_portCoeffNames_short _ _)))⟩
  · obtain ⟨c, hc, hr⟩ := slot_of_filled _ _ _ _ ht.2.2.2.1 i h1 h2
    exact ⟨c, hc, hr.holds (hdev _ hname _ (mem_coeffNames ((mem_intRange _ _ _).mpr ⟨h1, h2⟩)
      (mem_portCoeffNames_load _ _)))⟩
  · obtain ⟨c, hc, hr⟩ := through_of_filled ht i j hi hij hj
    exact ⟨c, hc, hr.holds (hdev _ hname _
      (mem_coeffNames ((mem_intRange _ _ _).mpr ⟨hi, by omega⟩)
        (mem_portCoeffNames_through _ _ _ ((mem_intRange _ _ _).mpr ⟨by omega, hj⟩))))⟩

theorem exampleDevice_polled :
    ∀ name ∈ requestedSets ["FACTORY"] (split (exampleAnswer ":COEFF:LIST?") ','),
      ∀ coeff ∈ loadCoefficientSetsThreadFast.coeffNames 2,
        decimalInt (exampleAnswer (":COEFF:NUM? " ++ name ++ " " ++ coeff))
          = ((examplePolled name coeff).length : Int) ∧
        ∀ k ∈ List.range (examplePolled name coeff).length,
          (examplePolled name coeff)[k]? = some (parseDatapoint wholeNumbers (split
            (exampleAnswer (":COEFF:GET? " ++ name ++ " " ++ coeff ++ " " ++ number (k : Int)))
              ',')) := by
  decide!

theorem exampleDevice_streamed :
    ∀ name ∈ requestedSets ["FACTORY"] (split (exampleAnswer ":COEFF:LIST?") ','),
      ∀ coeff ∈ loadCoefficientSetsThreadFast.coeffNames 2,
        samplesOfLines wholeNumbers (linesBeforeEnd exampleDevice wholeNumbers 8
          (if endsWith coeff "THROUGH" then 2 else 1) ["START", "1 5 -7", "END"])
          = exampleStreamed name coeff := by
  decide!

/-- The example device with two ports. To the polling strategy it delivers three samples for
the open of port 1 of `FACTORY` and none for any other coefficient; to the streaming strategy
one sample for every coefficient of one port. After the load of `FACTORY` by either strategy
the slots hold these samples; the seven objects are created in the order of the retrieval. -/
theorem load_fills_corresponding_slots_witness :
    (∀ name ∈ requestedSets ["FACTORY"] (split (exampleDevice.Query ":COEFF:LIST?"
          (fresh [] 2 none : CalDevice (List String) Int).usb).1 ','),
      ∀ coeff ∈ loadCoefficientSetsThreadFast.coeffNames
          (fresh [] 2 none : CalDevice (List String) Int).numPorts,
        Delivers exampleDevice wholeNumbers 8 false
          (fresh [] 2 none : CalDevice (List String) Int).usb name coeff
          (examplePolled name coeff)) ∧
    (((loadCoefficientSets exampleDevice wholeNumbers 8 ["FACTORY"] false
        (fresh [] 2 none)).exit? = none →
      (loadCoefficientSets exampleDevice wholeNumbers 8 ["FACTORY"] false
        (fresh [] 2 none)).state.coeffSets.map (fun s => s.name)
        = requestedSets ["FACTORY"] (split (exampleDevice.Query ":COEFF:LIST?"
            (fresh [] 2 none : CalDevice (List String) Int).usb).1 ',')) ∧
    ∀ set ∈ (loadCoefficientSets exampleDevice wholeNumbers 8 ["FACTORY"] false
        (fresh [] 2 none)).state.coeffSets,
      set.ports = (fresh [] 2 none : CalDevice (List String) Int).numPorts ∧
      (∀ i : Int, 1 ≤ i → i ≤ (fresh [] 2 none : CalDevice (List String) Int).numPorts →
        (∃ c, set.opens[(i - 1).toNat]? = some c ∧
          HoldsSamples (loadCoefficientSets exampleDevice wholeNumbers 8 ["FACTORY"] false
              (fresh [] 2 none)).state.heap c
            ("P" ++ number i ++ "_OPEN") (examplePolled set.name ("P" ++ number i ++ "_OPEN"))) ∧
        (∃ c, set.shorts[(i - 1).toNat]? = some c ∧
          HoldsSamples (loadCoefficientSets exampleDevice wholeNumbers 8 ["FACTORY"] false
              (fresh [] 2 none)).state.heap c
            ("P" ++ number i ++ "_SHORT") (examplePolled set.name ("P" ++ number i ++ "_SHORT"))) ∧
        (∃ c, set.loads[(i - 1).toNat]? = some c ∧
          HoldsSamples (loadCoefficientSets exampleDevice wholeNumbers 8 ["FACTORY"] false
              (fresh [] 2 none)).state.heap c
            ("P" ++ number i ++ "_LOAD") (examplePolled set.name ("P" ++ number i ++ "_LOAD")))) ∧
      (∀ i j : Int, 1 ≤ i → i < j →
        j ≤ (fresh [] 2 none : CalDevice (List String) Int).numPorts →
        ∃ c, set.getThrough i j = .ok (some c) ∧
          HoldsSamples (loadCoefficientSets exampleDevice wholeNumbers 8 ["FACTORY"] false
              (fresh [] 2 none)).state.heap c
            ("P" ++ number i ++ number j ++ "_THROUGH")
            (examplePolled set.name ("P" ++ number i ++ number j ++ "_THROUGH")))) ∧
    (∀ name ∈ requestedSets ["FACTORY"] (split (exampleDevice.Query ":COEFF:LIST?"
          (fresh [] 2 none : CalDevice (List String) Int).usb).1 ','),
      ∀ coeff ∈ loadCoefficientSetsThreadFast.coeffNames
          (fresh [] 2 none : CalDevice (List String) Int).numPorts,
        Delivers exampleDevice wholeNumbers 8 true
          (fresh [] 2 none : CalDevice (List String) Int).usb name coeff
          (exampleStreamed name coeff)) ∧
    (((loadCoefficientSets exampleDevice wholeNumbers 8 ["FACTORY"] true
        (fresh [] 2 none)).exit? = none →
      (loadCoefficientSets exampleDevice wholeNumbers 8 ["FACTORY"] true
        (fresh [] 2 none)).state.coeffSets.map (fun s => s.name)
        = requestedSets ["FACTORY"] (split (exampleDevice.Query ":COEFF:LIST?"
            (fresh [] 2 none : CalDevice (List String) Int).usb).1 ',')) ∧
    ∀ set ∈ (loadCoefficientSets exampleDevice wholeNumbers 8 ["FACTORY"] true
        (fresh [] 2 none)).state.coeffSets,
      set.ports = (fresh [] 2 none : CalDevice (List String) Int).numPorts ∧
      (∀ i : Int, 1 ≤ i → i ≤ (fresh [] 2 none : CalDevice (List String) Int).numPorts →
        (∃ c, set.opens[(i - 1).toNat]? = some c ∧
          HoldsSamples (loadCoefficientSets exampleDevice wholeNumbers 8 ["FACTORY"] true
              (fresh [] 2 none)).state.heap c
            ("P" ++ number i ++ "_OPEN") (exampleStreamed set.name ("P" ++ number i ++ "_OPEN"))) ∧
        (∃ c, set.shorts[(i - 1).toNat]? = some c ∧
          HoldsSamples (loadCoefficientSets exampleDevice wholeNumbers 8 ["FACTORY"] true
              (fresh [] 2 none)).state.heap c
            ("P" ++ number i ++ "_SHORT") (exampleStreamed set.name ("P" ++ number i ++ "_SHORT"))) ∧
        (∃ c, set.loads[(i - 1).toNat]? = some c ∧
          HoldsSamples (loadCoefficientSets exampleDevice wholeNumbers 8 ["FACTORY"] true
              (fresh [] 2 none)).state.heap c
            ("P" ++ number i ++ "_LOAD") (exampleStreamed set.name ("P" ++ number i ++ "_LOAD")))) ∧
      (∀ i j : Int, 1 ≤ i → i < j →
        j ≤ (fresh [] 2 none : CalDevice (List String) Int).numPorts →
        ∃ c, set.getThrough i j = .ok (some c) ∧
          HoldsSamples (loadCoefficientSets exampleDevice wholeNumbers 8 ["FACTORY"] true
              (fresh [] 2 none)).state.heap c
            ("P" ++ number i ++ number j ++ "_THROUGH")
            (exampleStreamed set.name ("P" ++ number i ++ number j ++ "_THROUGH")))) ∧
    (∀ fast : Bool,
      (loadCoefficientSets exampleDevice wholeNumbers 8 ["FACTORY"] fast
          (fresh [] 2 none)).exit? = none ∧
      (loadCoefficientSets exampleDevice wholeNumbers 8 ["FACTORY"] fast
          (fresh [] 2 none)).state.coeffSets
        = [{ name := "FACTORY", ports := 2, opens := [0, 4], shorts := [1, 5], loads := [2, 6],
             throughs := [3] }] ∧
      (loadCoefficientSets exampleDevice wholeNumbers 8 ["FACTORY"] fast
          (fresh [] 2 none)).state.heap.map (fun co => (co.t.filename, co.t.points))
        = [("LibreCAL/P1_OPEN", if fast then 1 else 3),
           ("LibreCAL/P1_SHORT", if fast then 1 else 0),
           ("LibreCAL/P1_LOAD", if fast then 1 else 0), ("LibreCAL/P12_THROUGH", 0),
           ("LibreCAL/P2_OPEN", if fast then 1 else 0),
           ("LibreCAL/P2_SHORT", if fast then 1 else 0),
           ("LibreCAL/P2_LOAD", if fast then 1 else 0)]) := by
  have hp : ∀ name ∈ requestedSets ["FACTORY"] (split (exampleDevice.Query ":COEFF:LIST?"
        (fresh [] 2 none : CalDevice (List String) Int).usb).1 ','),
      ∀ coeff ∈ loadCoefficientSetsThreadFast.coeffNames
          (fresh [] 2 none : CalDevice (List String) Int).numPorts,
        Delivers exampleDevice wholeNumbers 8 false
          (fresh [] 2 none : CalDevice (List String) Int).usb name coeff
          (examplePolled name coeff) := by
    intro name hn coeff hc s _
    simp only [Bool.false_eq_true, if_false]
    exact ⟨(exampleDevice_polled name hn coeff hc).1,
      fun k hk => (exampleDevice_polled name hn coeff hc).2 k (List.mem_range.mpr hk)⟩
  have hs : ∀ name ∈ requestedSets ["FACTORY"] (split (exampleDevice.Query ":COEFF:LIST?"
        (fresh [] 2 none : CalDevice (List String) Int).usb).1 ','),
      ∀ coeff ∈ loadCoefficientSetsThreadFast.coeffNames
          (fresh [] 2 none : CalDevice (List String) Int).numPorts,
        Delivers exampleDevice wholeNumbers 8 true
          (fresh [] 2 none : CalDevice (List String) Int).usb name coeff
          (exampleStreamed name coeff) := by
    intro name hn coeff hc s _
    simp only [if_true]
    exact exampleDevice_streamed name hn coeff hc
  exact ⟨hp,
    load_fills_corresponding_slots exampleDevice wholeNumbers 8 ["FACTORY"] false
      (fresh [] 2 none) examplePolled hp,
    hs,
    load_fills_corresponding_slots exampleDevice wholeNumbers 8 ["FACTORY"] true
      (fresh [] 2 none) exampleStreamed hs,
    by decide!⟩

end CalDevice
namespace CalDevice

open QString

variable {σ D : Type}

/-! ## What a device that stores what it is sent holds after a save -/

theorem startsWith_append (p x : String) : startsWith (p ++ x) p = true := by
  unfold startsWith
  rw [String.data_append]
  exact List.isPrefixOf_iff_prefix.mpr (List.prefix_append _ _)

theorem textAfter_append (p x : String) : textAfter p.data.length (p ++ x) = x := by
  unfold textAfter
  rw [String.data_append, List.drop_left]

theorem storedLines_cons (k : String) (v : List String) (cs : List (String × List String))
    (key : String) :
    storedLines ((k, v) :: cs) key = if k = key then v else storedLines cs key := by
  unfold storedLines
  rw [List.find?_cons]
  by_cases h : k = key
  · simp [h]
  · have hb : (k == key) = false := by simpa using h
    simp only [hb, if_neg h]

theorem storeCommand_create (key : String) (s : Store) :
    storeCommand (":COEFF:CREATE " ++ key) s
      = (true, { coeffs := (key, []) :: s.coeffs, current := some key, out := s.out }) := by
  unfold storeCommand
  rw [if_pos (startsWith_append _ _)]
  have e : textAfter 14 (":COEFF:CREATE " ++ key) = key := textAfter_append ":COEFF:CREATE " key
  rw [e]

theorem storeCommand_add (line key : String) (s : Store) (h : s.current = some key) :
    storeCommand (":COEFF:ADD " ++ line) s
      = (true, { coeffs := (key, storedLines s.coeffs key ++ [line]) :: s.coeffs
                 current := some key
                 out := s.out }) := by
  unfold storeCommand
  have h1 : startsWith (":COEFF:ADD " ++ line) ":COEFF:CREATE " = false := by
    unfold startsWith
    rw [String.data_append]
    rfl
  have e : textAfter 11 (":COEFF:ADD " ++ line) = line := textAfter_append ":COEFF:ADD " line
  rw [h1, if_neg (by simp), if_pos (startsWith_append _ _), e, h]

theorem storeCommand_fin (s : Store) :
    storeCommand ":COEFF:FIN" s
      = (s.current.isSome, { coeffs := s.coeffs, current := none, out := s.out }) := by
  unfold storeCommand
  have h1 : startsWith ":COEFF:FIN" ":COEFF:CREATE " = false := by decide
  have h2 : startsWith ":COEFF:FIN" ":COEFF:ADD " = false := by decide
  rw [h1, h2, if_neg (by simp), if_neg (by simp), if_pos rfl]

theorem storeCommand_del (key : String) (s : Store) :
    storeCommand (":COEFF:DEL " ++ key) s
      = (true, { coeffs := (key, []) :: s.coeffs, current := s.current, out := s.out }) := by
  unfold storeCommand
  have h1 : startsWith (":COEFF:DEL " ++ key) ":COEFF:CREATE " = false := by
    unfold startsWith
    rw [String.data_append]
    rfl
  have h2 : startsWith (":COEFF:DEL " ++ key) ":COEFF:ADD " = false := by
    unfold startsWith
    rw [String.data_append]
    rfl
  have h3 : ":COEFF:DEL " ++ key ≠ ":COEFF:FIN" := by
    intro h
    have := congrArg (fun t => startsWith t ":COEFF:DEL ") h
    simp only [startsWith_append] at this
    exact absurd this (by decide)
  have e : textAfter 11 (":COEFF:DEL " ++ key) = key := textAfter_append ":COEFF:DEL " key
  rw [h1, h2, if_neg (by simp), if_neg (by simp), if_neg h3, if_pos (startsWith_append _ _), e]

theorem joinFields_singleton (sep : Char) (a : String) : joinFields sep [a] = a := by
  apply String.ext
  simp [joinFields, List.intercalate]

theorem joinFields_cons_cons (a b : String) (rest : List String) :
    joinFields ' ' (a :: b :: rest) = a ++ " " ++ joinFields ' ' (b :: rest) := by
  apply String.ext
  simp [joinFields, List.intercalate, List.intersperse, String.data_append]

theorem joinFields_snoc (fields : List String) (a : String) (hne : fields ≠ []) :
    joinFields ' ' (fields ++ [a]) = joinFields ' ' fields ++ " " ++ a := by
  induction fields with
  | nil => exact absurd rfl hne
  | cons f fs ih =>
    cases fs with
    | nil =>
      rw [List.singleton_append, joinFields_cons_cons, joinFields_singleton,
        joinFields_singleton]
    | cons g gs =>
      rw [List.cons_append, List.cons_append, joinFields_cons_cons, joinFields_cons_cons,
        ← List.cons_append, ih (by simp)]
      simp only [String.append_assoc]

theorem addCommand_fold (qt : QtNumeric D) (l : List (D × D)) (pre : String)
    (fields : List String) (hne : fields ≠ []) :
    l.foldl (fun cmd s => cmd ++ " " ++ qt.numberDouble s.1 ++ " " ++ qt.numberDouble s.2)
        (pre ++ joinFields ' ' fields)
      = pre ++ joinFields ' '
          (fields ++ l.flatMap (fun s => [qt.numberDouble s.1, qt.numberDouble s.2])) := by
  induction l generalizing fields with
  | nil => simp
  | cons s l ih =>
    rw [List.foldl_cons, List.flatMap_cons]
    have e : pre ++ joinFields ' ' fields ++ " " ++ qt.numberDouble s.1 ++ " "
          ++ qt.numberDouble s.2
        = pre ++ joinFields ' ' (fields ++ [qt.numberDouble s.1, qt.numberDouble s.2]) := by
      have e2 : fields ++ [qt.numberDouble s.1, qt.numberDouble s.2]
          = (fields ++ [qt.numberDouble s.1]) ++ [qt.numberDouble s.2] := by simp
      rw [e2, joinFields_snoc _ _ (by simp), joinFields_snoc _ _ hne]
      simp only [String.append_assoc]
    rw [e, ih _ (by simp)]
    simp

/-- The command that the save thread sends for a sample is `:COEFF:ADD` followed by the fields
of the sample, separated by blanks. -/
theorem addCommand_eq (qt : QtNumeric D) (p : Touchstone.Datapoint D) :
    saveCoefficientSetsThread.addCommand qt p = ":COEFF:ADD " ++ addLine qt p := by
  unfold saveCoefficientSetsThread.addCommand addLine addFields
  have := addCommand_fold qt (swapMiddle p.S) ":COEFF:ADD "
    [qt.numberDouble (qt.overGiga p.frequency)] (by simp)
  rw [joinFields_singleton] at this
  exact this

theorem swapMiddle_map {α β : Type} (g : α → β) (l : List α) :
    swapMiddle (l.map g) = (swapMiddle l).map g := by
  rcases l with _ | ⟨a, _ | ⟨b, _ | ⟨c, _ | ⟨d, _ | ⟨e, r⟩⟩⟩⟩⟩ <;> rfl

theorem swapMiddle_swapMiddle {α : Type} (l : List α) : swapMiddle (swapMiddle l) = l := by
  rcases l with _ | ⟨a, _ | ⟨b, _ | ⟨c, _ | ⟨d, _ | ⟨e, r⟩⟩⟩⟩⟩ <;> rfl

/-- The ADD commands of the samples `points`, taken by a device that is writing the coefficient
`key`: their lines are appended to the lines of `key`, and the lines of every other coefficient
stay. -/
theorem storeOf_adds (qt : QtNumeric D) (key : String)
    (points : List (Touchstone.Datapoint D)) (s : Store) (h : s.current = some key) :
    ((points.map (saveCoefficientSetsThread.addCommand qt)).foldl
        (fun s cmd => (storeCommand cmd s).2) s).current = some key ∧
    storedLines ((points.map (saveCoefficientSetsThread.addCommand qt)).foldl
        (fun s cmd => (storeCommand cmd s).2) s).coeffs key
      = storedLines s.coeffs key ++ points.map (addLine qt) ∧
    ∀ key1, key1 ≠ key →
      storedLines ((points.map (saveCoefficientSetsThread.addCommand qt)).foldl
        (fun s cmd => (storeCommand cmd s).2) s).coeffs key1 = storedLines s.coeffs key1 := by
  induction points generalizing s with
  | nil => simp [h]
  | cons p ps ih =>
    rw [List.map_cons, List.foldl_cons, addCommand_eq, storeCommand_add _ key s h]
    obtain ⟨h1, h2, h3⟩ := ih
      { coeffs := (key, storedLines s.coeffs key ++ [addLine qt p]) :: s.coeffs
        current := some key
        out := s.out } rfl
    refine ⟨h1, ?_, ?_⟩
    · rw [h2, storedLines_cons, if_pos rfl]
      simp
    · intro key1 hk
      rw [h3 key1 hk, storedLines_cons, if_neg (Ne.symm hk)]

/-- The commands of one slot, taken by a device that stores what it is sent: afterwards the
device holds for the coefficient the lines of the samples, and for every other coefficient what
it held before. -/
theorem storeOf_slotCommands (qt : QtNumeric D) (setName paramName : String) (t : Touchstone D)
    (s : Store) :
    storedLines ((slotCommands qt setName paramName t).foldl
        (fun s cmd => (storeCommand cmd s).2) s).coeffs (setName ++ " " ++ paramName)
      = t.datapoints.map (addLine qt) ∧
    ∀ key1, key1 ≠ setName ++ " " ++ paramName →
      storedLines ((slotCommands qt setName paramName t).foldl
        (fun s cmd => (storeCommand cmd s).2) s).coeffs key1 = storedLines s.coeffs key1 := by
  unfold slotCommands
  by_cases hp : t.points > 0
  · rw [if_pos hp, List.foldl_append, List.foldl_append]
    have ec : ":COEFF:CREATE " ++ setName ++ " " ++ paramName
        = ":COEFF:CREATE " ++ (setName ++ " " ++ paramName) := by
      simp only [String.append_assoc]
    simp only [List.foldl_cons, List.foldl_nil, ec, storeCommand_create, storeCommand_fin]
    obtain ⟨-, h2, h3⟩ := storeOf_adds qt (setName ++ " " ++ paramName) t.datapoints
      { coeffs := (setName ++ " " ++ paramName, []) :: s.coeffs
        current := some (setName ++ " " ++ paramName)
        out := s.out } rfl
    refine ⟨?_, ?_⟩
    · rw [h2, storedLines_cons, if_pos rfl, List.nil_append]
    · intro key1 hk
      rw [h3 key1 hk, storedLines_cons, if_neg (Ne.symm hk)]
  · rw [if_neg hp]
    have ec : ":COEFF:DEL " ++ setName ++ " " ++ paramName
        = ":COEFF:DEL " ++ (setName ++ " " ++ paramName) := by
      simp only [String.append_assoc]
    have hd : t.datapoints = [] := by
      unfold Touchstone.points at hp
      exact List.length_eq_zero.mp (by omega)
    simp only [List.foldl_cons, List.foldl_nil, ec, storeCommand_del]
    refine ⟨?_, ?_⟩
    · rw [storedLines_cons, if_pos rfl, hd]
      rfl
    · intro key1 hk
      rw [storedLines_cons, if_neg (Ne.symm hk)]

/-- The writes of the slots `slots`, taken by a device that stores what it is sent, leave the
lines of a coefficient that is not among the slots. -/
theorem storeOf_others (qt : QtNumeric D) (heap : List (CoefficientSet.Coefficient D))
    (slots : List (String × String × Ptr)) (s : Store) (key : String)
    (hk : key ∉ slots.map (fun x => x.1 ++ " " ++ x.2.1)) :
    storedLines ((slotWrites qt heap slots).flatten.foldl
        (fun s cmd => (storeCommand cmd s).2) s).coeffs key = storedLines s.coeffs key := by
  induction slots generalizing s with
  | nil => rfl
  | cons x rest ih =>
    have hx : key ≠ x.1 ++ " " ++ x.2.1 := fun e => hk (by simp [e])
    have hrest : key ∉ rest.map (fun x => x.1 ++ " " ++ x.2.1) := fun e => hk (by simp [e])
    unfold slotWrites
    rw [List.map_cons, List.flatten_cons, List.foldl_append]
    have := ih ((match heap[x.2.2]? with
      | some co => if co.modified then slotCommands qt x.1 x.2.1 co.t else []
      | none => []).foldl (fun s cmd => (storeCommand cmd s).2) s) hrest
    unfold slotWrites at this
    rw [this]
    cases hc : heap[x.2.2]? with
    | none => rfl
    | some co =>
      simp only
      by_cases hm : co.modified = true
      · rw [if_pos hm]
        exact (storeOf_slotCommands qt x.1 x.2.1 co.t s).2 key hx
      · rw [if_neg hm]
        rfl

/-- The writes of the slots `slots`, whose coefficients have pairwise distinct names, taken by
a device that stores what it is sent: afterwards the device holds, for every slot that was
dirty, the lines of the samples of the slot. -/
theorem storeOf_slotWrites (qt : QtNumeric D) (heap : List (CoefficientSet.Coefficient D))
    (slots : List (String × String × Ptr)) (s : Store)
    (hkeys : (slots.map (fun x => x.1 ++ " " ++ x.2.1)).Nodup)
    (x : String × String × Ptr) (hx : x ∈ slots) (co : CoefficientSet.Coefficient D)
    (hc : heap[x.2.2]? = some co) (hm : co.modified = true) :
    storedLines ((slotWrites qt heap slots).flatten.foldl
        (fun s cmd => (storeCommand cmd s).2) s).coeffs (x.1 ++ " " ++ x.2.1)
      = co.t.datapoints.map (addLine qt) := by
  induction slots generalizing s with
  | nil => simp at hx
  | cons y rest ih =>
    rw [List.map_cons, List.nodup_cons] at hkeys
    have e : (slotWrites qt heap (y :: rest)).flatten
        = (match heap[y.2.2]? with
            | some co => if co.modified then slotCommands qt y.1 y.2.1 co.t else []
            | none => []) ++ (slotWrites qt heap rest).flatten := by
      unfold slotWrites
      rw [List.map_cons, List.flatten_cons]
    rw [e, List.foldl_append]
    by_cases hmem : x ∈ rest
    · exact ih _ hkeys.2 hmem
    · have hxy : x = y := by
        rcases List.mem_cons.mp hx with h | h
        · exact h
        · exact absurd h hmem
      subst hxy
      rw [storeOf_others qt heap rest _ _ hkeys.1, hc]
      simp only [hm, if_true]
      exact (storeOf_slotCommands qt x.1 x.2.1 co.t s).1

end CalDevice
namespace CalDevice

open QString

variable {σ D : Type}

/-! ## The round trip of a sample through its text -/

/-- The sample parsed from the fields of its command is the sample as it comes back from its
text. -/
theorem parse_addFields (qt : QtNumeric D) (p : Touchstone.Datapoint D) :
    parseDatapoint qt (addFields qt p) = throughText qt p := by
  have e : addFields qt p
      = qt.numberDouble (qt.overGiga p.frequency) ::
          ((swapMiddle p.S).map (fun s => (qt.numberDouble s.1, qt.numberDouble s.2))).flatMap
            (fun x => [x.1, x.2]) := by
    unfold addFields
    rw [List.flatMap_map]
  rw [e, parseDatapoint_of_pairs, List.map_map, swapMiddle_map, swapMiddle_swapMiddle]
  rfl

theorem parse_addLine (qt : QtNumeric D) (p : Touchstone.Datapoint D)
    (h : ∀ f ∈ addFields qt p, ' ' ∉ f.data) :
    parseDatapoint qt (split (addLine qt p) ' ') = throughText qt p := by
  unfold addLine
  rw [split_joinFields ' ' _ (by simp [addFields]) h, parse_addFields]

theorem length_throughText (qt : QtNumeric D) (p : Touchstone.Datapoint D) :
    (throughText qt p).S.length = p.S.length := by
  simp [throughText]

/-- The data lines of samples whose text can be read back do not end a retrieval. -/
theorem addLine_not_end (qt : QtNumeric D) (ports : Nat) (p : Touchstone.Datapoint D)
    (h : TextOK qt ports p) : endsRetrieval qt ports (some (addLine qt p)) = false := by
  obtain ⟨h1, h2, h3, h4, h5⟩ := h
  simp [endsRetrieval, fitsResponse, h3, h4, h5, parse_addLine qt p h2, length_throughText, h1]

theorem samplesOfLines_addLines (qt : QtNumeric D) (ports : Nat)
    (samples : List (Touchstone.Datapoint D)) (h : ∀ p ∈ samples, TextOK qt ports p) :
    (((samples.map (addLine qt)).filter (fun line => !skipsLine line)).map
      (fun line => parseDatapoint qt (split line ' '))) = samples.map (throughText qt) := by
  induction samples with
  | nil => rfl
  | cons p ps ih =>
    have hp := h p (by simp)
    rw [List.map_cons, List.filter_cons_of_pos (by simp [hp.2.2.2.1]), List.map_cons,
      List.map_cons, ih (fun q hq => h q (by simp [hq])), parse_addLine qt p hp.2.1]

/-- A device that gives back the lines of the samples `samples` delivers to a load these
samples as they come back from their text. -/
theorem givesBack_delivers (dev : USBDevice σ) (qt : QtNumeric D) (fuel : Nat) (fast : Bool)
    (s0 : σ) (setName paramName : String) (samples : List (Touchstone.Datapoint D))
    (hg : GivesBack dev qt fuel fast s0 setName paramName (samples.map (addLine qt)))
    (ht : ∀ p ∈ samples, TextOK qt (if endsWith paramName "THROUGH" then 2 else 1) p) :
    Delivers dev qt fuel fast s0 setName paramName (samples.map (throughText qt)) := by
  intro s hs
  have h := hg s hs
  cases fast with
  | false =>
    simp only [Bool.false_eq_true, if_false] at h ⊢
    obtain ⟨h1, h2⟩ := h
    refine ⟨?_, ?_⟩
    · rw [h1]
      simp
    · intro k hk
      have hk2 : k < samples.length := by simpa using hk
      have h3 := h2 k (by simpa using hk2)
      rw [List.getElem?_map, List.getElem?_eq_getElem hk2] at h3 ⊢
      simp only [Option.map_some'] at h3 ⊢
      have h4 := Option.some.inj h3
      have hp := ht samples[k] (List.getElem_mem _)
      have h5 := parse_addLine qt samples[k] hp.2.1
      rw [h4] at h5
      rw [h5]
  | true =>
    simp only [if_true] at h ⊢
    have hsplit := List.take_append_drop ((samples.map (addLine qt)).length + 2)
      (received dev fuel (dev.send (":COEFF:GET? " ++ setName ++ " " ++ paramName) s))
    rw [h] at hsplit
    unfold linesBeforeEnd
    rw [← hsplit]
    have e1 : (some "START" :: (samples.map (addLine qt)).map some ++ [some "END"])
          ++ List.drop ((samples.map (addLine qt)).length + 2)
            (received dev fuel (dev.send (":COEFF:GET? " ++ setName ++ " " ++ paramName) s))
        = (some "START" :: (samples.map (addLine qt)).map some)
          ++ (some "END" :: List.drop ((samples.map (addLine qt)).length + 2)
            (received dev fuel (dev.send (":COEFF:GET? " ++ setName ++ " " ++ paramName) s))) := by
      simp
    have hstart : ∀ ports : Nat, endsRetrieval qt ports (some "START") = false := by
      intro ports
      have a1 : startsWith "START" "ERROR" = false := by decide
      have a2 : skipsLine "START" = true := by decide
      simp [endsRetrieval, a1, a2]
    have hend : ∀ ports : Nat, endsRetrieval qt ports (some "END") = true := by
      intro ports
      have a1 : startsWith "END" "ERROR" = false := by decide
      have a2 : skipsLine "END" = false := by decide
      have a3 : startsWith "END" "END" = true := by decide
      simp [endsRetrieval, a1, a2, a3]
    rw [e1, List.takeWhile_append_of_pos, List.takeWhile_cons_of_neg (by simp [hend]),
      List.append_nil]
    · unfold samplesOfLines
      have e2 : (some "START" :: (samples.map (addLine qt)).map some).filterMap id
          = "START" :: samples.map (addLine qt) := by
        simp [List.filterMap_map]
      rw [e2, List.filter_cons_of_neg (by decide)]
      exact samplesOfLines_addLines qt _ samples ht
    · intro r hr
      rcases List.mem_cons.mp hr with rfl | hr
      · simp [hstart]
      · obtain ⟨line, hl, rfl⟩ := List.mem_map.mp hr
        obtain ⟨p, hp, rfl⟩ := List.mem_map.mp hl
        simp [addLine_not_end qt _ p (ht p hp)]

/-! ## The commands of a save that reports success -/

theorem issued_of_all_acknowledged (writes : List (List String))
    (entries : List (List (String × Bool)))
    (h : List.Forall₂ WrittenUntilRejected writes entries)
    (hall : entries.all (fun l => l.all (fun x => x.2)) = true) :
    entries.flatten.map (fun x => x.1) = writes.flatten := by
  induction h with
  | nil => rfl
  | cons h1 _ ih =>
    rw [List.all_cons, Bool.and_eq_true] at hall
    rw [List.flatten_cons, List.map_append, List.flatten_cons, ih hall.2, h1.2.2.2 hall.1]

theorem commandsOf_append (a b : List ChannelOp) :
    commandsOf (a ++ b) = commandsOf a ++ commandsOf b := by
  unfold commandsOf
  rw [List.filterMap_append]

theorem commandsOf_cmds (l : List (String × Bool)) :
    commandsOf (l.map (fun x => ChannelOp.cmd x.1)) = l.map (fun x => x.1) := by
  unfold commandsOf
  induction l with
  | nil => rfl
  | cons x xs ih => simp [List.filterMap_cons, ih]

/-- A save that ends with the completion signal of success has run to its end, has left the
collection in place and has issued, after the commands issued before it, the commands of every
dirty slot. -/
theorem commands_of_saved (dev : USBDevice σ) (qt : QtNumeric D) (w : CalDevice σ D)
    (hslots : ∀ set ∈ w.coeffSets, HasAllSlots w.numPorts set)
    (hvalid : Valid w)
    (hdistinct : ((saveOrder w.numPorts w.coeffSets).map (fun x => x.2.2)).Nodup)
    (hsum : dirtyPoints w.heap w.coeffSets < 2 ^ 64)
    (hsuccess : (saveCoefficientSets dev qt w).state.signals.getLast?
      = some (.updateCoefficientsDone true)) :
    ∃ w1, saveCoefficientSets dev qt w = .ok () w1 ∧ w1.coeffSets = w.coeffSets ∧
      w1.numPorts = w.numPorts ∧
      commandsOf w1.io = commandsOf w.io
        ++ (slotWrites qt w.heap (saveOrder w.numPorts w.coeffSets)).flatten := by
  obtain ⟨w1, e, -, eio, ⟨ps, esig⟩, -, -, -, -, enp, ecs⟩ :=
    saveCoefficientSets_spec dev qt w hslots hvalid hdistinct hsum
  rw [e] at hsuccess
  have hsig : w1.signals.getLast? = some (.updateCoefficientsDone true) := hsuccess
  rw [esig, List.getLast?_append, List.getLast?_singleton] at hsig
  have hall : (writeAll dev (slotWrites qt w.heap (saveOrder w.numPorts w.coeffSets)) w.usb).1.all
      (fun l => l.all (fun x => x.2)) = true := by
    simpa using hsig
  refine ⟨w1, e, ecs, enp, ?_⟩
  rw [eio, commandsOf_append, commandsOf_cmds,
    issued_of_all_acknowledged _ _ (writeAll_written dev _ _) hall]

theorem mem_saveOrder {N : Int} {sets : List CoefficientSet} {old : CoefficientSet}
    (hold : old ∈ sets) {i : Int} (hi : i ∈ intRange 1 N) {x : String × Ptr}
    (hx : x ∈ savePortOrder N old i) : (old.name, x.1, x.2) ∈ saveOrder N sets :=
  List.mem_flatMap.mpr ⟨old, hold,
    List.mem_map.mpr ⟨x, List.mem_flatMap.mpr ⟨i, hi, hx⟩, rfl⟩⟩

/-- After a save that reports success, a device that stores what it is sent holds, for every
slot that was dirty, the lines of the samples of the slot. -/
theorem storedLines_of_saved (qt : QtNumeric D) (w w1 : CalDevice σ D)
    (hkeys : ((saveOrder w.numPorts w.coeffSets).map (fun x => x.1 ++ " " ++ x.2.1)).Nodup)
    (hio : commandsOf w1.io = commandsOf w.io
        ++ (slotWrites qt w.heap (saveOrder w.numPorts w.coeffSets)).flatten)
    (x : String × String × Ptr) (hx : x ∈ saveOrder w.numPorts w.coeffSets)
    (co : CoefficientSet.Coefficient D) (hc : w.heap[x.2.2]? = some co)
    (hm : co.modified = true) :
    storedLines (storeOf (commandsOf w1.io)).coeffs (x.1 ++ " " ++ x.2.1)
      = co.t.datapoints.map (addLine qt) := by
  unfold storeOf
  rw [hio, List.foldl_append, storeOf_slotWrites qt w.heap _ _ hkeys x hx co hc hm]

theorem savePortOrder_names (N : Int) (set : CoefficientSet) (i : Int) :
    (savePortOrder N set i).map (fun x => x.1) = portCoeffNames N i := by
  unfold savePortOrder portCoeffNames
  simp [Function.comp_def]

theorem requestedSets_of_ne_nil {names : List String} (hne : names ≠ [])
    (listing : List String) : requestedSets names listing = names := by
  unfold requestedSets
  rw [if_pos (List.length_pos.mpr hne)]

/-- A device that gives back lines for a coefficient ends its stream within `fuel` lines. -/
theorem ends_of_givesBack (dev : USBDevice σ) (qt : QtNumeric D) (fuel : Nat) (s0 : σ)
    (setName paramName : String) (lines : List String)
    (hg : GivesBack dev qt fuel true s0 setName paramName lines) (ports : Nat) (s : σ)
    (hs : Reach dev s0 s) :
    (received dev fuel (dev.send (":COEFF:GET? " ++ setName ++ " " ++ paramName) s)).any
      (endsRetrieval qt ports) = true := by
  have h := hg s hs
  simp only [if_true] at h
  have hmem : some "END" ∈ (received dev fuel
      (dev.send (":COEFF:GET? " ++ setName ++ " " ++ paramName) s)) := by
    apply List.mem_of_mem_take (n := lines.length + 2)
    rw [h]
    simp
  refine List.any_eq_true.mpr ⟨_, hmem, ?_⟩
  have a1 : startsWith "END" "ERROR" = false := by decide
  have a2 : skipsLine "END" = false := by decide
  have a3 : startsWith "END" "END" = true := by decide
  simp [endsRetrieval, a1, a2, a3]

/-- A device that gives back lines that fit the coefficient answers the polling strategy with
the count of the lines and with samples that the response takes. -/
theorem polled_of_givesBack (dev : USBDevice σ) (qt : QtNumeric D) (fuel : Nat) (s0 : σ)
    (setName paramName : String) (lines : List String)
    (hg : GivesBack dev qt fuel false s0 setName paramName lines)
    (hfit : ∀ line ∈ lines,
      fitsResponse qt (if endsWith paramName "THROUGH" then 2 else 1) line = true)
    (s : σ) (hs : Reach dev s0 s) :
    qt.toInt (dev.Query (":COEFF:NUM? " ++ setName ++ " " ++ paramName) s).1
        = (lines.length : Int) ∧
    ∀ i : Int, 0 ≤ i → i < lines.length →
      (parseDatapoint qt (split (dev.Query
        (":COEFF:GET? " ++ setName ++ " " ++ paramName ++ " " ++ number i) s).1 ',')).S.length
        = if endsWith paramName "THROUGH" then 4 else 1 := by
  have h := hg s hs
  simp only [Bool.false_eq_true, if_false] at h
  refine ⟨h.1, ?_⟩
  intro i h0 h1
  have hk : i.toNat < lines.length := by omega
  have h2 := h.2 i.toNat hk
  have ei : ((i.toNat : Nat) : Int) = i := Int.toNat_of_nonneg h0
  rw [ei, List.getElem?_eq_getElem hk] at h2
  simp only [Option.map_some'] at h2
  have hf := hfit lines[i.toNat] (List.getElem_mem _)
  unfold fitsResponse at hf
  rw [Option.some.inj h2] at hf
  have hf2 := of_decide_eq_true hf
  rw [hf2]
  split <;> rfl

end CalDevice
namespace CalDevice

open QString

variable {σ D : Type}

/-! ## A load on the states that it reaches -/

theorem lowers_bind {dev : USBDevice σ} {s0 : σ} {α β : Type}
    {m1 : M { s : σ // Reach dev s0 s } D α} {m : M σ D α}
    {f1 : α → M { s : σ // Reach dev s0 s } D β} {f : α → M σ D β}
    (hm : Lowers m1 m) (hf : ∀ a, Lowers (f1 a) (f a)) : Lowers (m1 >>= f1) (m >>= f) := by
  intro w
  have h := hm w
  cases h1 : m1 w with
  | ok a w1 =>
    rw [h1] at h
    rw [bind_ok h1, bind_ok h.symm]
    exact hf a w1
  | exit e w1 =>
    rw [h1] at h
    rw [bind_exit h1, bind_exit h.symm]
    rfl

theorem lowers_pure {dev : USBDevice σ} {s0 : σ} {α : Type} (a : α) :
    Lowers (pure a : M { s : σ // Reach dev s0 s } D α) (pure a : M σ D α) := fun _ => rfl

theorem lowers_leave {dev : USBDevice σ} {s0 : σ} {α : Type} (e : Exit) :
    Lowers (leave e : M { s : σ // Reach dev s0 s } D α) (leave e : M σ D α) := fun _ => rfl

theorem lowers_emit {dev : USBDevice σ} {s0 : σ} (s : Signal) :
    Lowers (emit s : M { s : σ // Reach dev s0 s } D Unit) (emit s : M σ D Unit) := fun _ => rfl

theorem lowers_Query (dev : USBDevice σ) (s0 : σ) (cmd : String) :
    Lowers (Query (reachDevice dev s0) cmd : M { s : σ // Reach dev s0 s } D String)
      (Query dev cmd : M σ D String) := fun _ => rfl

theorem lowers_readNumPorts {dev : USBDevice σ} {s0 : σ} :
    Lowers (readNumPorts : M { s : σ // Reach dev s0 s } D Int) (readNumPorts : M σ D Int) :=
  fun _ => rfl

theorem lowers_alloc {dev : USBDevice σ} {s0 : σ} (c : CoefficientSet.Coefficient D) :
    Lowers (alloc c : M { s : σ // Reach dev s0 s } D Ptr) (alloc c : M σ D Ptr) := fun _ => rfl

theorem lowers_pushCoeffSet {dev : USBDevice σ} {s0 : σ} (set : CoefficientSet) :
    Lowers (pushCoeffSet set : M { s : σ // Reach dev s0 s } D Unit)
      (pushCoeffSet set : M σ D Unit) := fun _ => rfl

theorem lowers_readAbortLoading {dev : USBDevice σ} {s0 : σ} :
    Lowers (readAbortLoading : M { s : σ // Reach dev s0 s } D Bool)
      (readAbortLoading : M σ D Bool) := by
  intro w
  unfold readAbortLoading
  show Res.forget (if w.abortLoading = true then _ else _)
    = if w.abortLoading = true then _ else _
  split
  · rfl
  · show Res.forget (match w.abortRequest with
        | none => _
        | some 0 => _
        | some (k + 1) => _) = match w.abortRequest with
        | none => _
        | some 0 => _
        | some (k + 1) => _
    split <;> rfl

theorem lowers_ite {dev : USBDevice σ} {s0 : σ} {α : Type} {c : Prop} [Decidable c]
    {x1 y1 : M { s : σ // Reach dev s0 s } D α} {x y : M σ D α}
    (hx : Lowers x1 x) (hy : Lowers y1 y) :
    Lowers (if c then x1 else y1) (if c then x else y) := by
  split
  · exact hx
  · exact hy

theorem lowers_readSamples (dev : USBDevice σ) (s0 : σ) (qt : QtNumeric D) (totalPoints : Nat)
    (setName paramName : String) (n : Nat) (i : Int) (t : Touchstone D) (pr : SlowProgress) :
    Lowers
      (loadCoefficientSetsThreadSlow.readSamples (reachDevice dev s0) qt totalPoints setName
        paramName n i t pr)
      (loadCoefficientSetsThreadSlow.readSamples dev qt totalPoints setName paramName n i t
        pr) := by
  induction n generalizing i t pr with
  | zero => exact lowers_pure _
  | succ n ih =>
    unfold loadCoefficientSetsThreadSlow.readSamples
    refine lowers_bind lowers_readAbortLoading (fun b => lowers_ite (lowers_pure _) ?_)
    refine lowers_bind (lowers_Query _ _ _) (fun pString => ?_)
    cases t.AddDatapoint (parseDatapoint qt (split pString ',')) with
    | none => exact lowers_leave _
    | some t1 =>
      exact lowers_ite (lowers_leave _)
        (lowers_ite (lowers_bind (lowers_emit _) (fun _ => ih _ _ _)) (ih _ _ _))

theorem lowers_createCoefficientSlow (dev : USBDevice σ) (s0 : σ) (qt : QtNumeric D)
    (totalPoints : Nat) (setName paramName : String) (pr : SlowProgress) :
    Lowers
      (loadCoefficientSetsThreadSlow.createCoefficient (reachDevice dev s0) qt totalPoints
        setName paramName pr)
      (loadCoefficientSetsThreadSlow.createCoefficient dev qt totalPoints setName paramName
        pr) := by
  unfold loadCoefficientSetsThreadSlow.createCoefficient
  exact lowers_bind (lowers_Query _ _ _) (fun _ =>
    lowers_bind (lowers_readSamples _ _ _ _ _ _ _ _ _ _) (fun _ =>
      lowers_bind (lowers_alloc _) (fun _ => lowers_pure _)))

theorem lowers_readThroughs (dev : USBDevice σ) (s0 : σ) (qt : QtNumeric D) (totalPoints : Nat)
    (name : String) (i : Int) (js : List Int) (set : CoefficientSet) (pr : SlowProgress) :
    Lowers
      (loadCoefficientSetsThreadSlow.readThroughs (reachDevice dev s0) qt totalPoints name i js
        set pr)
      (loadCoefficientSetsThreadSlow.readThroughs dev qt totalPoints name i js set pr) := by
  induction js generalizing set pr with
  | nil => exact lowers_pure _
  | cons j js ih =>
    unfold loadCoefficientSetsThreadSlow.readThroughs
    exact lowers_bind (lowers_createCoefficientSlow _ _ _ _ _ _ _) (fun _ => ih _ _)

theorem lowers_readPorts (dev : USBDevice σ) (s0 : σ) (qt : QtNumeric D) (totalPoints : Nat)
    (numPorts : Int) (name : String) (ports : List Int) (set : CoefficientSet)
    (pr : SlowProgress) :
    Lowers
      (loadCoefficientSetsThreadSlow.readPorts (reachDevice dev s0) qt totalPoints numPorts name
        ports set pr)
      (loadCoefficientSetsThreadSlow.readPorts dev qt totalPoints numPorts name ports set
        pr) := by
  induction ports generalizing set pr with
  | nil => exact lowers_pure _
  | cons i ports ih =>
    unfold loadCoefficientSetsThreadSlow.readPorts
    exact lowers_bind (lowers_createCoefficientSlow _ _ _ _ _ _ _) (fun _ =>
      lowers_bind (lowers_createCoefficientSlow _ _ _ _ _ _ _) (fun _ =>
        lowers_bind (lowers_createCoefficientSlow _ _ _ _ _ _ _) (fun _ =>
          lowers_bind (lowers_readThroughs _ _ _ _ _ _ _ _ _) (fun _ =>
            lowers_bind lowers_readAbortLoading (fun _ =>
              lowers_ite (lowers_leave _) (ih _ _))))))

theorem lowers_readSetsSlow (dev : USBDevice σ) (s0 : σ) (qt : QtNumeric D) (totalPoints : Nat)
    (numPorts : Int) (names : List String) (pr : SlowProgress) :
    Lowers
      (loadCoefficientSetsThreadSlow.readSets (reachDevice dev s0) qt totalPoints numPorts names
        pr)
      (loadCoefficientSetsThreadSlow.readSets dev qt totalPoints numPorts names pr) := by
  induction names generalizing pr with
  | nil => exact lowers_pure _
  | cons name names ih =>
    unfold loadCoefficientSetsThreadSlow.readSets
    exact lowers_bind (lowers_readPorts _ _ _ _ _ _ _ _ _) (fun _ =>
      lowers_bind (lowers_pushCoeffSet _) (fun _ => ih _))

theorem lowers_totalThroughs (dev : USBDevice σ) (s0 : σ) (qt : QtNumeric D) (name : String)
    (i : Int) (js : List Int) (totalPoints : Nat) :
    Lowers
      (loadCoefficientSetsThreadSlow.totalThroughs (reachDevice dev s0) qt name i js totalPoints)
      (loadCoefficientSetsThreadSlow.totalThroughs dev qt name i js totalPoints) := by
  induction js generalizing totalPoints with
  | nil => exact lowers_pure _
  | cons j js ih =>
    unfold loadCoefficientSetsThreadSlow.totalThroughs
    exact lowers_bind (lowers_Query _ _ _) (fun _ => ih _)

theorem lowers_totalPorts (dev : USBDevice σ) (s0 : σ) (qt : QtNumeric D) (numPorts : Int)
    (name : String) (ports : List Int) (totalPoints : Nat) :
    Lowers
      (loadCoefficientSetsThreadSlow.totalPorts (reachDevice dev s0) qt numPorts name ports
        totalPoints)
      (loadCoefficientSetsThreadSlow.totalPorts dev qt numPorts name ports totalPoints) := by
  induction ports generalizing totalPoints with
  | nil => exact lowers_pure _
  | cons i ports ih =>
    unfold loadCoefficientSetsThreadSlow.totalPorts
    exact lowers_bind lowers_readAbortLoading (fun _ => lowers_ite (lowers_leave _)
      (lowers_bind (lowers_Query _ _ _) (fun _ => lowers_bind (lowers_Query _ _ _) (fun _ =>
        lowers_bind (lowers_Query _ _ _) (fun _ =>
          lowers_bind (lowers_totalThroughs _ _ _ _ _ _ _) (fun _ => ih _))))))

theorem lowers_totalSets (dev : USBDevice σ) (s0 : σ) (qt : QtNumeric D) (numPorts : Int)
    (names : List String) (totalPoints : Nat) :
    Lowers
      (loadCoefficientSetsThreadSlow.totalSets (reachDevice dev s0) qt numPorts names totalPoints)
      (loadCoefficientSetsThreadSlow.totalSets dev qt numPorts names totalPoints) := by
  induction names generalizing totalPoints with
  | nil => exact lowers_pure _
  | cons name names ih =>
    unfold loadCoefficientSetsThreadSlow.totalSets
    exact lowers_bind (lowers_totalPorts _ _ _ _ _ _ _) (fun _ => ih _)

theorem lowers_getCoefficientSetNames (dev : USBDevice σ) (s0 : σ) :
    Lowers (getCoefficientSetNames (reachDevice dev s0)
        : M { s : σ // Reach dev s0 s } D (List String))
      (getCoefficientSetNames dev : M σ D (List String)) := by
  unfold getCoefficientSetNames
  exact lowers_bind (lowers_Query _ _ _) (fun _ => lowers_ite (lowers_pure _) (lowers_pure _))

theorem lowers_loadSlow (dev : USBDevice σ) (s0 : σ) (qt : QtNumeric D) (names : List String) :
    Lowers (loadCoefficientSetsThreadSlow (reachDevice dev s0) qt names)
      (loadCoefficientSetsThreadSlow dev qt names) := by
  unfold loadCoefficientSetsThreadSlow
  exact lowers_bind (lowers_getCoefficientSetNames _ _) (fun _ =>
    lowers_ite (lowers_bind (lowers_emit _) (fun _ => lowers_leave _))
      (lowers_ite (lowers_bind (lowers_emit _) (fun _ => lowers_leave _))
        (lowers_bind lowers_readNumPorts (fun _ =>
          lowers_bind (lowers_totalSets _ _ _ _ _ _) (fun _ =>
            lowers_bind (lowers_readSetsSlow _ _ _ _ _ _ _) (fun _ => lowers_emit _))))))

/-- Without cancellation, a polling load runs to its end when the device, in the states of the
channel that the load reaches, answers the sample counts and well-formed samples for every
coefficient to retrieve. -/
theorem loadSlow_completes_from (dev : USBDevice σ) (qt : QtNumeric D) (fuel : Nat)
    (count : String → String → Nat) (names : List String) (w : CalDevice σ D)
    (hno : w.abortRequest = none)
    (hlist : startsWith (dev.Query ":COEFF:LIST?" w.usb).1 "FACTORY" = true)
    (hnames : ∀ n ∈ names, n ∈ split (dev.Query ":COEFF:LIST?" w.usb).1 ',')
    (hnum : ∀ name ∈ requestedSets names (split (dev.Query ":COEFF:LIST?" w.usb).1 ','),
      ∀ coeff ∈ loadCoefficientSetsThreadFast.coeffNames w.numPorts, ∀ s, Reach dev w.usb s →
        qt.toInt (dev.Query (":COEFF:NUM? " ++ name ++ " " ++ coeff) s).1
          = (count name coeff : Int))
    (hget : ∀ name ∈ requestedSets names (split (dev.Query ":COEFF:LIST?" w.usb).1 ','),
      ∀ coeff ∈ loadCoefficientSetsThreadFast.coeffNames w.numPorts, ∀ s, Reach dev w.usb s →
        ∀ i : Int, 0 ≤ i → i < count name coeff →
        (parseDatapoint qt (split (dev.Query
          (":COEFF:GET? " ++ name ++ " " ++ coeff ++ " " ++ number i) s).1 ',')).S.length
          = if endsWith coeff "THROUGH" then 4 else 1)
    (hsum : totalCount count w.numPorts
      (requestedSets names (split (dev.Query ":COEFF:LIST?" w.usb).1 ',')) < 2 ^ 64) :
    ∃ w1, loadCoefficientSets dev qt fuel names false w = .ok () w1 := by
  obtain ⟨w1, h⟩ := loadSlow_completes (reachDevice dev w.usb) qt fuel count names
    { usb := ⟨w.usb, Reach.refl⟩, numPorts := w.numPorts, coeffSets := w.coeffSets,
      abortLoading := w.abortLoading, heap := w.heap, io := w.io, signals := w.signals,
      abortRequest := w.abortRequest }
    hno hlist hnames (fun name hn coeff hc s => hnum name hn coeff hc s.1 s.2)
    (fun name hn coeff hc s => hget name hn coeff hc s.1 s.2) hsum
  have hl := lowers_loadSlow dev w.usb qt names
    { usb := ⟨w.usb, Reach.refl⟩, numPorts := w.numPorts, coeffSets := [],
      abortLoading := false, heap := w.heap, io := w.io, signals := w.signals,
      abortRequest := w.abortRequest }
  have h2 : loadCoefficientSetsThreadSlow (reachDevice dev w.usb) qt names
      { usb := ⟨w.usb, Reach.refl⟩, numPorts := w.numPorts, coeffSets := [],
        abortLoading := false, heap := w.heap, io := w.io, signals := w.signals,
        abortRequest := w.abortRequest } = .ok () w1 := h
  rw [h2] at hl
  exact ⟨forget w1, hl.symm⟩

/-! ## A streaming load whose streams end -/

theorem createCoefficientFast_ends (dev : USBDevice σ) (qt : QtNumeric D) (fuel : Nat)
    (setName paramName : String) (w : CalDevice σ D)
    (hend : (received dev fuel (dev.send (":COEFF:GET? " ++ setName ++ " " ++ paramName)
      w.usb)).any (endsRetrieval qt (if endsWith paramName "THROUGH" then 2 else 1)) = true) :
    ∃ c w1, loadCoefficientSetsThreadFast.createCoefficient dev qt fuel setName paramName w
        = .ok c w1 ∧
      w1.abortLoading = w.abortLoading ∧ w1.abortRequest = w.abortRequest := by
  rw [createCoefficientFast_eq, if_pos hend]
  exact ⟨_, _, rfl, rfl, rfl⟩

theorem readCoeffs_ends (dev : USBDevice σ) (qt : QtNumeric D) (fuel : Nat) (s0 : σ)
    (total_coeffs : Int) (name : String) (coeffs : List String)
    (hends : ∀ coeff ∈ coeffs, ∀ s, Reach dev s0 s →
      (received dev fuel (dev.send (":COEFF:GET? " ++ name ++ " " ++ coeff) s)).any
        (endsRetrieval qt (if endsWith coeff "THROUGH" then 2 else 1)) = true)
    (set : CoefficientSet) (read_coeffs : Int) (w : CalDevice σ D)
    (hcalm : Calm w) (hr : Reach dev s0 w.usb) (htotal : coeffs = [] ∨ total_coeffs ≠ 0) :
    ∃ r w1, loadCoefficientSetsThreadFast.readCoeffs dev qt fuel total_coeffs name coeffs set
        read_coeffs w = .ok r w1 ∧ Calm w1 ∧ Reach dev s0 w1.usb := by
  induction coeffs generalizing set read_coeffs w with
  | nil => exact ⟨(set, read_coeffs), w, rfl, hcalm, hr⟩
  | cons coeff coeffs ih =>
    have ht : total_coeffs ≠ 0 := by
      rcases htotal with h | h
      · exact absurd h (by simp)
      · exact h
    obtain ⟨c, w1, hc, ha1, hr1⟩ :=
      createCoefficientFast_ends dev qt fuel name coeff w (hends coeff (by simp) w.usb hr)
    have hcalm1 : Calm w1 := ⟨ha1.trans hcalm.1, hr1.trans hcalm.2⟩
    have hreach1 : Reach dev s0 w1.usb := by
      have := walks_createCoefficientFast dev qt fuel name coeff s0 w hr
      rw [hc] at this
      exact this
    obtain ⟨r, w2, hrest, hcalm2, hreach2⟩ :=
      ih (fun x hx => hends x (by simp [hx]))
        (loadCoefficientSetsThreadFast.store set coeff c) (read_coeffs + 1)
        { w1 with signals := w1.signals ++
          [.updateCoefficientsPercent (((read_coeffs + 1) * 100).tdiv total_coeffs)] }
        hcalm1 hreach1 (Or.inr ht)
    refine ⟨r, w2, ?_, hcalm2, hreach2⟩
    unfold loadCoefficientSetsThreadFast.readCoeffs
    rw [bind_ok hc, bind_ok (readAbortLoading_calm hcalm1)]
    simp only [Bool.false_eq_true, if_false, ht]
    rw [bind_ok (show emit _ w1 = _ from rfl)]
    exact hrest

theorem readSetsFast_ends (dev : USBDevice σ) (qt : QtNumeric D) (fuel : Nat) (s0 : σ)
    (total_coeffs : Int) (numPorts : Int) (coeffNames : List String)
    (htotal : coeffNames = [] ∨ total_coeffs ≠ 0) (names : List String)
    (hends : ∀ name ∈ names, ∀ coeff ∈ coeffNames, ∀ s, Reach dev s0 s →
      (received dev fuel (dev.send (":COEFF:GET? " ++ name ++ " " ++ coeff) s)).any
        (endsRetrieval qt (if endsWith coeff "THROUGH" then 2 else 1)) = true)
    (read_coeffs : Int) (w : CalDevice σ D) (hcalm : Calm w) (hr : Reach dev s0 w.usb) :
    ∃ w1, loadCoefficientSetsThreadFast.readSets dev qt fuel total_coeffs numPorts coeffNames
        names read_coeffs w = .ok () w1 := by
  induction names generalizing read_coeffs w with
  | nil => exact ⟨w, rfl⟩
  | cons name names ih =>
    obtain ⟨r, w1, h1, hcalm1, hreach1⟩ :=
      readCoeffs_ends dev qt fuel s0 total_coeffs name coeffNames (hends name (by simp))
        { name := name, ports := numPorts, opens := [], shorts := [], loads := [], throughs := [] }
        read_coeffs w hcalm hr htotal
    obtain ⟨w2, hrest⟩ :=
      ih (fun x hx => hends x (by simp [hx])) r.2
        { w1 with coeffSets := w1.coeffSets ++ [r.1] } hcalm1 hreach1
    refine ⟨w2, ?_⟩
    unfold loadCoefficientSetsThreadFast.readSets
    rw [bind_ok h1, bind_ok (show pushCoeffSet r.1 w1 = _ from rfl)]
    exact hrest

/-- Without cancellation, a streaming load of requested names that the listing contains runs to
its end when, in the states of the channel that the load reaches, the stream of every
coefficient to retrieve ends within `fuel` lines. -/
theorem loadFast_completes_from (dev : USBDevice σ) (qt : QtNumeric D) (fuel : Nat)
    (names : List String) (w : CalDevice σ D)
    (hlist : startsWith (dev.Query ":COEFF:LIST?" w.usb).1 "FACTORY" = true)
    (hne : names ≠ []) (hnames : ∀ n ∈ names, n ∈ split (dev.Query ":COEFF:LIST?" w.usb).1 ',')
    (hno : w.abortRequest = none)
    (hends : ∀ name ∈ names, ∀ coeff ∈ loadCoefficientSetsThreadFast.coeffNames w.numPorts,
      ∀ s, Reach dev w.usb s →
        (received dev fuel (dev.send (":COEFF:GET? " ++ name ++ " " ++ coeff) s)).any
          (endsRetrieval qt (if endsWith coeff "THROUGH" then 2 else 1)) = true) :
    ∃ w1, loadCoefficientSets dev qt fuel names true w = .ok () w1 := by
  have hlen : names.length > 0 := List.length_pos.mpr hne
  have hall : names.all (fun n => (split (dev.Query ":COEFF:LIST?" w.usb).1 ',').contains n)
      = true := by
    simp only [List.all_eq_true]
    intro n hn
    simpa using hnames n hn
  have hnonempty : (split (dev.Query ":COEFF:LIST?" w.usb).1 ',').isEmpty = false := by
    have := split_ne_nil (dev.Query ":COEFF:LIST?" w.usb).1 ','
    cases h : split (dev.Query ":COEFF:LIST?" w.usb).1 ',' with
    | nil => exact absurd h this
    | cons a l => rfl
  have htotal : loadCoefficientSetsThreadFast.coeffNames w.numPorts = [] ∨
      ((loadCoefficientSetsThreadFast.coeffNames w.numPorts).length : Int) * (names.length : Int)
        ≠ 0 := by
    cases h : loadCoefficientSetsThreadFast.coeffNames w.numPorts with
    | nil => exact Or.inl rfl
    | cons a l =>
      right
      have h1 : (0 : Int) < (names.length : Int) := by exact_mod_cast hlen
      have h2 : (0 : Int) < ((a :: l).length : Int) := by
        rw [List.length_cons]
        omega
      exact (mul_pos h2 h1).ne'
  obtain ⟨w1, hsets⟩ := readSetsFast_ends dev qt fuel w.usb
    (((loadCoefficientSetsThreadFast.coeffNames w.numPorts).length : Int) * (names.length : Int))
    w.numPorts (loadCoefficientSetsThreadFast.coeffNames w.numPorts) htotal names hends 0
    { w with usb := (dev.Query ":COEFF:LIST?" w.usb).2, coeffSets := [], abortLoading := false,
             io := w.io ++ [.query ":COEFF:LIST?"] }
    ⟨rfl, hno⟩ (Reach.query _ Reach.refl)
  refine ⟨{ w1 with signals := w1.signals ++ [.updateCoefficientsDone true] }, ?_⟩
  unfold loadCoefficientSets
  simp only [if_true]
  unfold loadCoefficientSetsThreadFast
  rw [bind_ok (getCoefficientSetNames_apply dev _)]
  simp only [hlist, if_true, hnonempty, Bool.false_eq_true, if_false, hlen, hall,
    not_true_eq_false, and_false]
  rw [bind_ok (show readNumPorts _ = _ from rfl)]
  simp only
  rw [bind_ok hsets]
  rfl

end CalDevice
namespace CalDevice

open QString

variable {σ D : Type}

/-! ## The round trip: a save, then a load -/

/-- A set that `addCoefficientSet` made does not survive the round trip either: its slots of
one kind are one object. Client code replaces the response and sets the dirty flag through
`opens[0]` and `shorts[0]`, so that both opens and both shorts hold one sample and are dirty.
The save to a storing device writes the open and the short of port 1, which clears the flags
that the slots of port 2 share, issues no command for the open and the short of port 2, and
reports success. The load then yields no sample for the open of port 2, whose slot held one
sample before the save. -/
theorem shared_slot_is_not_written_back :
    (editNewSet (fresh { coeffs := [], current := none, out := [] } 2 none
        : CalDevice Store Int)).state.coeffSets
      = [{ name := "USER1", ports := 2, opens := [2, 2], shorts := [1, 1], loads := [0, 0],
           throughs := [3] }] ∧
    (editNewSet (fresh { coeffs := [], current := none, out := [] } 2 none
        : CalDevice Store Int)).state.heap.map (fun co => (co.modified, co.t.datapoints))
      = [(false, []), (true, [{ frequency := 2000000000, S := [(6, -8)] }]),
         (true, [{ frequency := 1000000000, S := [(5, -7)] }]), (false, [])] ∧
    ∀ fast : Bool,
      ((editNewSet >>= fun _ =>
          saveThenLoad (storingDevice "FACTORY,USER1") wholeNumbers 100 ["USER1"] fast)
        (fresh { coeffs := [], current := none, out := [] } 2 none)).exit? = none ∧
      commandsOf ((editNewSet >>= fun _ =>
          saveThenLoad (storingDevice "FACTORY,USER1") wholeNumbers 100 ["USER1"] fast)
        (fresh { coeffs := [], current := none, out := [] } 2 none)).state.io
        = [":COEFF:CREATE USER1 P1_OPEN", ":COEFF:ADD 1 5 -7", ":COEFF:FIN",
           ":COEFF:CREATE USER1 P1_SHORT", ":COEFF:ADD 2 6 -8", ":COEFF:FIN"] ∧
      ((editNewSet >>= fun _ =>
          saveThenLoad (storingDevice "FACTORY,USER1") wholeNumbers 100 ["USER1"] fast)
        (fresh { coeffs := [], current := none, out := [] } 2 none)).state.signals.filter
          (fun s => s == .updateCoefficientsDone true || s == .updateCoefficientsDone false)
        = [.updateCoefficientsDone true, .updateCoefficientsDone true] ∧
      ((editNewSet >>= fun _ =>
          saveThenLoad (storingDevice "FACTORY,USER1") wholeNumbers 100 ["USER1"] fast)
        (fresh { coeffs := [], current := none, out := [] } 2 none)).state.coeffSets
        = [{ name := "USER1", ports := 2, opens := [4, 8], shorts := [5, 9], loads := [6, 10],
             throughs := [7] }] ∧
      (((editNewSet >>= fun _ =>
          saveThenLoad (storingDevice "FACTORY,USER1") wholeNumbers 100 ["USER1"] fast)
        (fresh { coeffs := [], current := none, out := [] } 2 none)).state.heap.drop 4).map
          (fun co => (co.t.filename, co.t.datapoints))
        = [("LibreCAL/P1_OPEN", [{ frequency := 1000000000, S := [(5, -7)] }]),
           ("LibreCAL/P1_SHORT", [{ frequency := 2000000000, S := [(6, -8)] }]),
           ("LibreCAL/P1_LOAD", []), ("LibreCAL/P12_THROUGH", []),
           ("LibreCAL/P2_OPEN", []), ("LibreCAL/P2_SHORT", []), ("LibreCAL/P2_LOAD", [])] := by
  decide!

end CalDevice
namespace CalDevice

open QString

variable {σ D : Type}

/-! ## The storing device gives back what it holds -/

/-- A load does not change what the storing device holds. -/
theorem reach_storing {listing : String} {s0 s : Store}
    (h : Reach (storingDevice listing) s0 s) : s.coeffs = s0.coeffs := by
  induction h with
  | refl => rfl
  | query cmd _ ih => exact ih
  | send cmd _ ih => exact ih
  | @receive s1 _ ih =>
    rw [← ih]
    unfold storingDevice
    dsimp only
    split <;> rfl

/-- The lines that the storing device sends are the lines of its stream, then timeouts. -/
theorem received_storing (listing : String) (n : Nat) (s : Store) :
    received (storingDevice listing) n s = (List.range n).map (fun k => s.out[k]?) := by
  induction n generalizing s with
  | zero => rfl
  | succ n ih =>
    rw [List.range_succ_eq_map, List.map_cons, List.map_map]
    unfold received
    cases ho : s.out with
    | nil =>
      have e : (storingDevice listing).receive s = (none, s) := by
        unfold storingDevice
        simp only [ho]
      rw [e, ih, ho]
      simp [Function.comp_def]
    | cons line lines =>
      have e : (storingDevice listing).receive s
          = (some line, { coeffs := s.coeffs, current := s.current, out := lines }) := by
        unfold storingDevice
        simp only [ho]
      rw [e, ih]
      simp

/-- The storing device gives back the lines `lines` whenever a load asks, when it does so in
the state in which the load starts. -/
theorem storing_givesBack (listing : String) (qt : QtNumeric D) (fuel : Nat) (fast : Bool)
    (s0 : Store) (setName paramName : String) (lines : List String)
    (h : if fast then
        ((List.range fuel).map (fun k =>
            (storingStream s0.coeffs (":COEFF:GET? " ++ setName ++ " " ++ paramName))[k]?)).take
            (lines.length + 2)
          = some "START" :: lines.map some ++ [some "END"]
      else
        qt.toInt (storingAnswer listing s0.coeffs (":COEFF:NUM? " ++ setName ++ " " ++ paramName))
          = (lines.length : Int) ∧
        ∀ k : Nat, k < lines.length →
          lines[k]?.map (fun line => split line ' ')
            = some (split (storingAnswer listing s0.coeffs
                (":COEFF:GET? " ++ setName ++ " " ++ paramName ++ " " ++ number (k : Int))) ',')) :
    GivesBack (storingDevice listing) qt fuel fast s0 setName paramName lines := by
  intro s hs
  have hc := reach_storing hs
  cases fast with
  | false =>
    simp only [Bool.false_eq_true, if_false] at h ⊢
    have e : ∀ cmd, ((storingDevice listing).Query cmd s).1
        = storingAnswer listing s0.coeffs cmd := by
      intro cmd
      rw [← hc]
      rfl
    simp only [e]
    exact h
  | true =>
    simp only [if_true] at h ⊢
    rw [received_storing]
    have e : ((storingDevice listing).send (":COEFF:GET? " ++ setName ++ " " ++ paramName) s).out
        = storingStream s0.coeffs (":COEFF:GET? " ++ setName ++ " " ++ paramName) := by
      rw [← hc]
      rfl
    rw [e]
    exact h

theorem measuredDevice_saveOrder :
    saveOrder (measuredDevice 1234500000).numPorts (measuredDevice 1234500000).coeffSets
      = [("USER1", "P1_OPEN", 0), ("USER1", "P1_SHORT", 1), ("USER1", "P1_LOAD", 2),
         ("USER1", "P12_THROUGH", 3), ("USER1", "P2_OPEN", 4), ("USER1", "P2_SHORT", 5),
         ("USER1", "P2_LOAD", 6)] := by
  decide!

/-- After the save of `measuredDevice`, the storing device gives back what the commands of the
save stored, to either strategy, and the stored lines fit their coefficients. -/
theorem measuredDevice_stored :
    ∀ fast : Bool,
      ∀ name ∈ requestedSets ["USER1"]
          (split ((storingDevice "FACTORY,USER1").Query ":COEFF:LIST?"
            (saveCoefficientSets (storingDevice "FACTORY,USER1") qtDoubles
              (measuredDevice 1234500000)).state.usb).1 ','),
      ∀ coeff ∈ loadCoefficientSetsThreadFast.coeffNames
          (saveCoefficientSets (storingDevice "FACTORY,USER1") qtDoubles
            (measuredDevice 1234500000)).state.numPorts,
        (if fast then
          ((List.range 100).map (fun k =>
              (storingStream (saveCoefficientSets (storingDevice "FACTORY,USER1") qtDoubles
                  (measuredDevice 1234500000)).state.usb.coeffs
                (":COEFF:GET? " ++ name ++ " " ++ coeff))[k]?)).take
              ((storedLines (storeOf (commandsOf (saveCoefficientSets
                (storingDevice "FACTORY,USER1") qtDoubles
                (measuredDevice 1234500000)).state.io)).coeffs (name ++ " " ++ coeff)).length + 2)
            = some "START" :: (storedLines (storeOf (commandsOf (saveCoefficientSets
                (storingDevice "FACTORY,USER1") qtDoubles
                (measuredDevice 1234500000)).state.io)).coeffs (name ++ " " ++ coeff)).map some
              ++ [some "END"]
        else
          qtDoubles.toInt (storingAnswer "FACTORY,USER1"
              (saveCoefficientSets (storingDevice "FACTORY,USER1") qtDoubles
                (measuredDevice 1234500000)).state.usb.coeffs
              (":COEFF:NUM? " ++ name ++ " " ++ coeff))
            = ((storedLines (storeOf (commandsOf (saveCoefficientSets
                (storingDevice "FACTORY,USER1") qtDoubles
                (measuredDevice 1234500000)).state.io)).coeffs (name ++ " " ++ coeff)).length
                : Int) ∧
          ∀ k : Nat, k < (storedLines (storeOf (commandsOf (saveCoefficientSets
                (storingDevice "FACTORY,USER1") qtDoubles
                (measuredDevice 1234500000)).state.io)).coeffs (name ++ " " ++ coeff)).length →
            (storedLines (storeOf (commandsOf (saveCoefficientSets
                (storingDevice "FACTORY,USER1") qtDoubles
                (measuredDevice 1234500000)).state.io)).coeffs (name ++ " " ++ coeff))[k]?.map
                (fun line => split line ' ')
              = some (split (storingAnswer "FACTORY,USER1"
                  (saveCoefficientSets (storingDevice "FACTORY,USER1") qtDoubles
                    (measuredDevice 1234500000)).state.usb.coeffs
                  (":COEFF:GET? " ++ name ++ " " ++ coeff ++ " " ++ number (k : Int))) ',')) ∧
        ∀ line ∈ storedLines (storeOf (commandsOf (saveCoefficientSets
            (storingDevice "FACTORY,USER1") qtDoubles
            (measuredDevice 1234500000)).state.io)).coeffs (name ++ " " ++ coeff),
          fitsResponse qtDoubles (if endsWith coeff "THROUGH" then 2 else 1) line = true := by
  decide!

/-- The collection that the client code `measure` leaves is the set that the load built, with
all its slots at distinct addresses that hold objects. -/
theorem measuredDevice_loaded :
    (measure 1234500000 (fresh { coeffs := [], current := none, out := [] } 2 none)).exit?
      = none ∧
    (measuredDevice 1234500000).coeffSets = [loadedUser1] ∧
    (measuredDevice 1234500000).numPorts = 2 ∧
    (measuredDevice 1234500000).heap.length = 7 := by
  decide!

theorem measuredDevice_hasAllSlots :
    ∀ set ∈ (measuredDevice 1234500000).coeffSets,
      HasAllSlots (measuredDevice 1234500000).numPorts set := by
  rw [measuredDevice_loaded.2.1, measuredDevice_loaded.2.2.1]
  intro set hset
  have e : set = loadedUser1 := by simpa using hset
  subst e
  exact ⟨rfl, rfl, rfl, rfl, by decide⟩

theorem measuredDevice_valid : Valid (measuredDevice 1234500000) := by
  intro set hset
  rw [measuredDevice_loaded.2.1] at hset
  have e : set = loadedUser1 := by simpa using hset
  subst e
  intro c hc
  have h : c ∈ [0, 4, 1, 5, 2, 6, 3] := hc
  rw [measuredDevice_loaded.2.2.2]
  simp only [List.mem_cons, List.mem_singleton, List.not_mem_nil, or_false] at h
  rcases h with rfl | rfl | rfl | rfl | rfl | rfl | rfl <;> decide

/-- The text of every dirty sample of `measuredDevice` at 1234500000 Hz can be read back. -/
theorem measuredDevice_textOK :
    ∀ x ∈ saveOrder (measuredDevice 1234500000).numPorts (measuredDevice 1234500000).coeffSets,
      ∀ co, (measuredDevice 1234500000).heap[x.2.2]? = some co → co.modified = true →
        ∀ p ∈ co.t.datapoints,
          TextOK qtDoubles (if endsWith x.2.1 "THROUGH" then 2 else 1) p := by
  have h : ∀ x ∈ saveOrder (measuredDevice 1234500000).numPorts
      (measuredDevice 1234500000).coeffSets,
      ∀ co ∈ ((measuredDevice 1234500000).heap[x.2.2]?).toList,
        ∀ p ∈ co.t.datapoints,
          TextOK qtDoubles (if endsWith x.2.1 "THROUGH" then 2 else 1) p := by
    decide!
  intro x hx co hco _
  exact h x hx co (by rw [hco]; simp)

/-- After the save of `measuredDevice` the storing device stores what it was sent, as a load of
the set `USER1` with either strategy sees it. -/
theorem measuredDevice_stores (fast : Bool) :
    Stores (storingDevice "FACTORY,USER1") qtDoubles 100 ["USER1"] fast
      (saveCoefficientSets (storingDevice "FACTORY,USER1") qtDoubles
        (measuredDevice 1234500000)).state := by
  refine ⟨by decide!, by decide!, ?_, by decide!⟩
  intro name hn coeff hc
  exact ⟨storing_givesBack _ _ _ _ _ _ _ _ (measuredDevice_stored fast name hn coeff hc).1,
    (measuredDevice_stored fast name hn coeff hc).2⟩

/-- What the slots of port 1 and the through of a set hold when they hold what was written from
`measuredDevice` at 1234500000 Hz: the samples that were written. -/
theorem measuredDevice_read_back (heap : List (CoefficientSet.Coefficient ℚ))
    (set : CoefficientSet)
    (h : (∀ i : Int, 1 ≤ i → i ≤ (measuredDevice 1234500000).numPorts →
        (∃ c, set.opens[(i - 1).toNat]? = some c ∧
          ReadBack qtDoubles (measuredDevice 1234500000).heap heap
            (loadedUser1.opens.getD (i - 1).toNat 0) c ("P" ++ number i ++ "_OPEN")) ∧
        (∃ c, set.shorts[(i - 1).toNat]? = some c ∧
          ReadBack qtDoubles (measuredDevice 1234500000).heap heap
            (loadedUser1.shorts.getD (i - 1).toNat 0) c ("P" ++ number i ++ "_SHORT")) ∧
        (∃ c, set.loads[(i - 1).toNat]? = some c ∧
          ReadBack qtDoubles (measuredDevice 1234500000).heap heap
            (loadedUser1.loads.getD (i - 1).toNat 0) c ("P" ++ number i ++ "_LOAD"))) ∧
      (∀ i j : Int, 1 ≤ i → i < j → j ≤ (measuredDevice 1234500000).numPorts →
        ∃ c, set.getThrough i j = .ok (some c) ∧
          ReadBack qtDoubles (measuredDevice 1234500000).heap heap
            (loadedUser1.throughAt i j) c ("P" ++ number i ++ number j ++ "_THROUGH"))) :
    (∃ c, set.opens[0]? = some c ∧
      HoldsSamples heap c "P1_OPEN" [{ frequency := 1234500000, S := [(1 / 2, -1 / 4)] }]) ∧
    (∃ c, set.getThrough 1 2 = .ok (some c) ∧
      HoldsSamples heap c "P12_THROUGH"
        [{ frequency := 1000000000, S := [(1, 2), (3, 4), (5, 6), (7, 8)] },
         { frequency := 2500000000,
           S := [(-1, 0), (1 / 8, 100), (0, 1 / 1000), (12345, -3 / 2)] }]) := by
  obtain ⟨h6, h7⟩ := h
  refine ⟨?_, ?_⟩
  · obtain ⟨⟨c, hc, hr⟩, -, -⟩ := h6 1 (by decide) (by decide!)
    refine ⟨c, hc, ?_⟩
    have hco : (measuredDevice 1234500000).heap[loadedUser1.opens.getD ((1 : Int) - 1).toNat 0]?
        = some { t := { ports := 1, filename := "",
                        datapoints := [{ frequency := 1234500000, S := [(1 / 2, -1 / 4)] }] },
                 modified := true } := by decide!
    have h := hr _ hco rfl
    have e1 : "P" ++ number 1 ++ "_OPEN" = "P1_OPEN" := by decide
    rw [e1] at h
    unfold HoldsSamples at h ⊢
    rw [h]
    decide!
  · obtain ⟨c, hc, hr⟩ := h7 1 2 (by decide) (by decide) (by decide!)
    refine ⟨c, hc, ?_⟩
    have hco : (measuredDevice 1234500000).heap[loadedUser1.throughAt 1 2]?
        = some { t := { ports := 2, filename := "",
                        datapoints :=
                          [{ frequency := 1000000000, S := [(1, 2), (3, 4), (5, 6), (7, 8)] },
                           { frequency := 2500000000,
                             S := [(-1, 0), (1 / 8, 100), (0, 1 / 1000), (12345, -3 / 2)] }] },
                 modified := true } := by decide!
    have h := hr _ hco rfl
    have e1 : "P" ++ number 1 ++ number 2 ++ "_THROUGH" = "P12_THROUGH" := by decide
    rw [e1] at h
    unfold HoldsSamples at h ⊢
    rw [h]
    decide!

theorem name_of_only_set {sets : List CoefficientSet} {name : String}
    (h : sets.map (fun s => s.name) = [name]) {set : CoefficientSet} (hset : set ∈ sets) :
    set.name = name := by
  have hmem : set.name ∈ sets.map (fun s => s.name) := List.mem_map_of_mem (fun s => s.name) hset
  rw [h] at hmem
  exact List.mem_singleton.mp hmem

end CalDevice
namespace CalDevice

open QString

variable {σ D : Type}

/-! ## Slots that hold distinct objects -/

/-- A walk over the ports that takes three slots and a row of slots of each port in turn visits
the slots that the four vectors hold one after the other. -/
theorem interleaved_perm (is : List Int) (a b c : Int → Ptr) (t : Int → List Ptr) :
    (is.flatMap (fun i => [a i, b i, c i] ++ t i)).Perm
      (is.map a ++ is.map b ++ is.map c ++ is.flatMap t) := by
  induction is with
  | nil => simp
  | cons i is ih =>
    rw [List.perm_iff_count]
    intro x
    have h := ih.count_eq x
    simp only [List.flatMap_cons, List.map_cons, List.count_append, List.count_cons,
      List.count_nil] at h ⊢
    omega

theorem map_getD_intRange (v : List Ptr) (N : Int) (h : (v.length : Int) = N) :
    (intRange 1 N).map (fun i => v.getD (i - 1).toNat 0) = v := by
  apply List.ext_getElem?
  intro k
  rw [List.getElem?_map]
  by_cases hk : k < v.length
  · rw [intRange_getElem? 1 N k (by omega)]
    simp only [Option.map_some']
    have e : ((1 : Int) + (k : Int) - 1).toNat = k := by omega
    rw [e, List.getD_eq_getElem v 0 hk, List.getElem?_eq_getElem hk]
  · rw [List.getElem?_eq_none (by rw [intRange_length]; omega),
      List.getElem?_eq_none (by omega)]
    rfl

/-- The rows `a .. N` of the through slots, taken pair by pair at the triangular index, are the
vector of the through slots from the offset of row `a` on. -/
theorem throughRows_eq_drop (N : Int) (v : List Ptr) (f : Int → Int → Ptr)
    (hf : ∀ i j, 1 ≤ i → i < j → j ≤ N →
      v[(rowOffset N i + (j - i - 1)).toNat]? = some (f i j))
    (hlen : (v.length : Int) = rowOffset N (N + 1)) (n : Nat) (a : Int) (ha : 1 ≤ a)
    (hn : a + n = N + 1) :
    (intRange a N).flatMap (fun i => (intRange (i + 1) N).map (f i))
      = v.drop (rowOffset N a).toNat := by
  induction n generalizing a with
  | zero =>
    have e : a = N + 1 := by omega
    subst e
    have : intRange (N + 1) N = [] := by
      apply List.eq_nil_of_length_eq_zero
      rw [intRange_length]
      omega
    rw [this, List.flatMap_nil, List.drop_eq_nil_of_le (by omega)]
  | succ n ih =>
    have hs := rowOffset_succ N a ha
    have h0 := rowOffset_nonneg N a ha (by omega)
    rw [intRange_cons a N (by omega), List.flatMap_cons,
      ih (a + 1) (by omega) (by push_cast at hn ⊢; omega)]
    have hlen2 : ((intRange (a + 1) N).map (f a)).length = (N - a).toNat := by
      rw [List.length_map, intRange_length]
      congr 1
      ring
    apply List.ext_getElem?
    intro k
    by_cases hk : k < (N - a).toNat
    · rw [List.getElem?_append_left (by rw [hlen2]; exact hk), List.getElem?_map,
        intRange_getElem? _ _ _ (by omega), List.getElem?_drop]
      simp only [Option.map_some']
      have := hf a (a + 1 + k) ha (by omega) (by omega)
      rw [← this]
      congr 1
      omega
    · rw [List.getElem?_append_right (by rw [hlen2]; omega), hlen2, List.getElem?_drop,
        List.getElem?_drop]
      congr 1
      omega

/-- In a collection whose sets have all their slots, the save thread visits every slot of every
set once: the addresses in the order of its traversal are, up to their order, the addresses that
the vectors of the sets hold. -/
theorem saveOrder_perm_slots (N : Int) (sets : List CoefficientSet)
    (h : ∀ set ∈ sets, HasAllSlots N set) :
    ((saveOrder N sets).map (fun x => x.2.2)).Perm (sets.flatMap CoefficientSet.slots) := by
  induction sets with
  | nil => simp [saveOrder]
  | cons set sets ih =>
    have hs := h set (by simp)
    have hN : 0 ≤ N := by
      have := hs.2.1
      omega
    have e : saveOrder N (set :: sets)
        = ((intRange 1 N).flatMap (savePortOrder N set)).map (fun x => (set.name, x.1, x.2))
          ++ saveOrder N sets := by
      simp [saveOrder]
    rw [e, List.map_append, List.flatMap_cons]
    refine List.Perm.append ?_ (ih (fun s hs => h s (by simp [hs])))
    have e2 : (((intRange 1 N).flatMap (savePortOrder N set)).map
          (fun x => (set.name, x.1, x.2))).map (fun x => x.2.2)
        = (intRange 1 N).flatMap (fun i =>
            [set.opens.getD (i - 1).toNat 0, set.shorts.getD (i - 1).toNat 0,
              set.loads.getD (i - 1).toNat 0]
            ++ (intRange (i + 1) N).map (set.throughAt i)) := by
      rw [List.map_map, List.map_flatMap]
      congr 1
      funext i
      simp [savePortOrder, Function.comp_def]
    rw [e2]
    refine (interleaved_perm _ _ _ _ _).trans ?_
    rw [map_getD_intRange _ _ hs.2.1, map_getD_intRange _ _ hs.2.2.1,
      map_getD_intRange _ _ hs.2.2.2.1,
      throughRows_eq_drop N set.throughs set.throughAt
        (fun i j hi hij hj => (getThrough_of_hasAllSlots hs i j hi hij hj).2)
        (by rw [hs.2.2.2.2, rowOffset_last N hN]) N.toNat 1 le_rfl (by omega),
      rowOffset_one]
    exact List.Perm.refl _

/-- In a collection whose sets have all their slots, the slots that the save thread visits are
at distinct addresses exactly when no two slots of the collection hold the same address. -/
theorem saveOrder_nodup_iff (N : Int) (sets : List CoefficientSet)
    (h : ∀ set ∈ sets, HasAllSlots N set) :
    ((saveOrder N sets).map (fun x => x.2.2)).Nodup
      ↔ (sets.flatMap CoefficientSet.slots).Nodup :=
  (saveOrder_perm_slots N sets h).nodup_iff

end CalDevice
namespace CalDevice

open QString

variable {σ D : Type}

/-! ## A load fills the slots with distinct objects -/

theorem distinct_of_le {cs : List Ptr} {n n1 : Nat} (h : Distinct cs n) (hn : n ≤ n1) :
    Distinct cs n1 :=
  ⟨h.1, fun c hc => lt_of_lt_of_le (h.2 c hc) hn⟩

/-- An address that is not below the size of the heap is new among the addresses stored. -/
theorem distinct_insert {l1 l2 : List Ptr} {c n n1 : Nat} (h : Distinct (l1 ++ l2) n)
    (h1 : n ≤ c) (h2 : c < n1) : Distinct (l1 ++ c :: l2) n1 := by
  have hn : n ≤ n1 := le_of_lt (lt_of_le_of_lt h1 h2)
  refine ⟨?_, ?_⟩
  · rw [List.nodup_middle, List.nodup_cons]
    exact ⟨fun hc => absurd (h.2 c hc) (not_lt.mpr h1), h.1⟩
  · intro x hx
    rw [List.mem_append, List.mem_cons] at hx
    rcases hx with hx | hx | hx
    · exact lt_of_lt_of_le (h.2 x (List.mem_append_left _ hx)) hn
    · rw [hx]
      exact h2
    · exact lt_of_lt_of_le (h.2 x (List.mem_append_right _ hx)) hn

theorem distinct_store_open {base : List Ptr} {set : CoefficientSet} {c n n1 : Nat}
    (h : Distinct (base ++ set.slots) n) (h1 : n ≤ c) (h2 : c < n1) :
    Distinct (base ++ ({ set with opens := set.opens ++ [c] } : CoefficientSet).slots) n1 := by
  have e : base ++ ({ set with opens := set.opens ++ [c] } : CoefficientSet).slots
      = (base ++ set.opens) ++ c :: (set.shorts ++ set.loads ++ set.throughs) := by
    simp [CoefficientSet.slots, List.append_assoc]
  rw [e]
  refine distinct_insert ?_ h1 h2
  simpa [CoefficientSet.slots, List.append_assoc] using h

theorem distinct_store_short {base : List Ptr} {set : CoefficientSet} {c n n1 : Nat}
    (h : Distinct (base ++ set.slots) n) (h1 : n ≤ c) (h2 : c < n1) :
    Distinct (base ++ ({ set with shorts := set.shorts ++ [c] } : CoefficientSet).slots) n1 := by
  have e : base ++ ({ set with shorts := set.shorts ++ [c] } : CoefficientSet).slots
      = (base ++ set.opens ++ set.shorts) ++ c :: (set.loads ++ set.throughs) := by
    simp [CoefficientSet.slots, List.append_assoc]
  rw [e]
  refine distinct_insert ?_ h1 h2
  simpa [CoefficientSet.slots, List.append_assoc] using h

theorem distinct_store_load {base : List Ptr} {set : CoefficientSet} {c n n1 : Nat}
    (h : Distinct (base ++ set.slots) n) (h1 : n ≤ c) (h2 : c < n1) :
    Distinct (base ++ ({ set with loads := set.loads ++ [c] } : CoefficientSet).slots) n1 := by
  have e : base ++ ({ set with loads := set.loads ++ [c] } : CoefficientSet).slots
      = (base ++ set.opens ++ set.shorts ++ set.loads) ++ c :: set.throughs := by
    simp [CoefficientSet.slots, List.append_assoc]
  rw [e]
  refine distinct_insert ?_ h1 h2
  simpa [CoefficientSet.slots, List.append_assoc] using h

theorem distinct_store_through {base : List Ptr} {set : CoefficientSet} {c n n1 : Nat}
    (h : Distinct (base ++ set.slots) n) (h1 : n ≤ c) (h2 : c < n1) :
    Distinct (base ++ ({ set with throughs := set.throughs ++ [c] } : CoefficientSet).slots)
      n1 := by
  have e : base ++ ({ set with throughs := set.throughs ++ [c] } : CoefficientSet).slots
      = (base ++ set.opens ++ set.shorts ++ set.loads ++ set.throughs) ++ c :: [] := by
    simp [CoefficientSet.slots, List.append_assoc]
  rw [e]
  refine distinct_insert ?_ h1 h2
  simpa [CoefficientSet.slots, List.append_assoc] using h

/-- The lambda of the polling strategy returns the address of a new object. -/
theorem createCoefficientSlow_fresh (dev : USBDevice σ) (qt : QtNumeric D) (totalPoints : Nat)
    (setName paramName : String) (pr : SlowProgress) (w w1 : CalDevice σ D)
    (r : Ptr × SlowProgress)
    (h : loadCoefficientSetsThreadSlow.createCoefficient dev qt totalPoints setName paramName pr w
      = .ok r w1) :
    w.heap.length ≤ r.1 ∧ r.1 < w1.heap.length := by
  unfold loadCoefficientSetsThreadSlow.createCoefficient at h
  obtain ⟨n, w2, h1, h2⟩ := bind_eq_ok h
  obtain ⟨rs, w3, h3, h4⟩ := bind_eq_ok h2
  have p1 := (inner_Query dev (":COEFF:NUM? " ++ setName ++ " " ++ paramName)
    (D := D) w).2
  rw [h1] at p1
  have p2 := (inner_readSamples dev qt totalPoints setName paramName (qt.toInt n).toNat 0
    (if endsWith paramName "THROUGH" then Touchstone.new 2 else Touchstone.new 1) pr w2).2
  rw [h3] at p2
  have hle : w.heap.length ≤ w3.heap.length := (List.IsPrefix.trans p1 p2).length_le
  cases h4
  exact ⟨hle, by simp [List.length_append]⟩

/-- The lambda of the streaming strategy returns the address of a new object. -/
theorem createCoefficientFast_fresh (dev : USBDevice σ) (qt : QtNumeric D) (fuel : Nat)
    (setName paramName : String) (w w1 : CalDevice σ D) (c : Ptr)
    (h : loadCoefficientSetsThreadFast.createCoefficient dev qt fuel setName paramName w
      = .ok c w1) :
    w.heap.length ≤ c ∧ c < w1.heap.length := by
  unfold loadCoefficientSetsThreadFast.createCoefficient at h
  obtain ⟨u, w2, h1, h2⟩ := bind_eq_ok h
  obtain ⟨t, w3, h3, h4⟩ := bind_eq_ok h2
  have p1 := (inner_send dev (":COEFF:GET? " ++ setName ++ " " ++ paramName) (D := D) w).2
  rw [h1] at p1
  have p2 := (inner_receiveLines dev qt fuel
    ((if endsWith paramName "THROUGH" then Touchstone.new 2 else Touchstone.new 1).setFilename
      ("LibreCAL/" ++ paramName)) w2).2
  rw [h3] at p2
  have hle : w.heap.length ≤ w3.heap.length := (List.IsPrefix.trans p1 p2).length_le
  cases h4
  exact ⟨hle, by simp [List.length_append]⟩

theorem readThroughs_distinct (dev : USBDevice σ) (qt : QtNumeric D) (totalPoints : Nat)
    (name : String) (i : Int) (js : List Int) (set : CoefficientSet) (pr : SlowProgress)
    (w w1 : CalDevice σ D) (r : CoefficientSet × SlowProgress)
    (h : loadCoefficientSetsThreadSlow.readThroughs dev qt totalPoints name i js set pr w
      = .ok r w1) (base : List Ptr) (hd : Distinct (base ++ set.slots) w.heap.length) :
    Distinct (base ++ r.1.slots) w1.heap.length := by
  induction js generalizing set pr w with
  | nil =>
    cases h
    exact hd
  | cons j js ih =>
    unfold loadCoefficientSetsThreadSlow.readThroughs at h
    obtain ⟨r1, w2, h1, h2⟩ := bind_eq_ok h
    obtain ⟨a1, a2⟩ := createCoefficientSlow_fresh _ _ _ _ _ _ _ _ _ h1
    exact ih _ _ _ h2 (distinct_store_through hd a1 a2)

theorem readPorts_distinct (dev : USBDevice σ) (qt : QtNumeric D) (totalPoints : Nat)
    (numPorts : Int) (name : String) (ports : List Int) (set : CoefficientSet)
    (pr : SlowProgress) (w w1 : CalDevice σ D) (r : CoefficientSet × SlowProgress)
    (h : loadCoefficientSetsThreadSlow.readPorts dev qt totalPoints numPorts name ports set pr w
      = .ok r w1) (base : List Ptr) (hd : Distinct (base ++ set.slots) w.heap.length) :
    Distinct (base ++ r.1.slots) w1.heap.length := by
  induction ports generalizing set pr w with
  | nil =>
    cases h
    exact hd
  | cons i ports ih =>
    unfold loadCoefficientSetsThreadSlow.readPorts at h
    obtain ⟨r1, w2, h1, h2⟩ := bind_eq_ok h
    obtain ⟨r2, w3, h3, h4⟩ := bind_eq_ok h2
    obtain ⟨r3, w4, h5, h6⟩ := bind_eq_ok h4
    obtain ⟨r4, w5, h7, h8⟩ := bind_eq_ok h6
    obtain ⟨b, w6, h9, h10⟩ := bind_eq_ok h8
    cases b with
    | true => cases h10
    | false =>
      simp only [Bool.false_eq_true, if_false] at h10
      obtain ⟨-, -, -, hh6⟩ := readAbortLoading_false h9
      obtain ⟨a1, a2⟩ := createCoefficientSlow_fresh _ _ _ _ _ _ _ _ _ h1
      obtain ⟨b1, b2⟩ := createCoefficientSlow_fresh _ _ _ _ _ _ _ _ _ h3
      obtain ⟨c1, c2⟩ := createCoefficientSlow_fresh _ _ _ _ _ _ _ _ _ h5
      have d4 := readThroughs_distinct _ _ _ _ _ _ _ _ _ _ _ h7 base
        (distinct_store_load (distinct_store_short (distinct_store_open hd a1 a2) b1 b2) c1 c2)
      rw [← hh6] at d4
      exact ih _ _ _ h10 d4

/-- The loop over the sets of the polling strategy, however it ends, keeps the slots of the
collection at distinct addresses that hold objects. -/
theorem readSetsSlow_distinct (dev : USBDevice σ) (qt : QtNumeric D) (totalPoints : Nat)
    (numPorts : Int) (names : List String) (pr : SlowProgress) (w : CalDevice σ D)
    (hw : SlotsDistinct w) :
    SlotsDistinct
      (loadCoefficientSetsThreadSlow.readSets dev qt totalPoints numPorts names pr w).state := by
  induction names generalizing pr w with
  | nil => exact hw
  | cons name names ih =>
    unfold loadCoefficientSetsThreadSlow.readSets
    have hin := inner_readPorts dev qt totalPoints numPorts name (intRange 1 numPorts)
      { name := name, ports := numPorts, opens := [], shorts := [], loads := [],
        throughs := [] } pr w
    cases h : loadCoefficientSetsThreadSlow.readPorts dev qt totalPoints numPorts name
        (intRange 1 numPorts)
        { name := name, ports := numPorts, opens := [], shorts := [], loads := [],
          throughs := [] } pr w with
    | ok r w1 =>
      rw [h] at hin
      rw [bind_ok h, bind_ok (show pushCoeffSet r.1 w1 = _ from rfl)]
      apply ih
      have hd := readPorts_distinct _ _ _ _ _ _ _ _ _ _ _ h
        (w.coeffSets.flatMap CoefficientSet.slots)
        (by simpa [CoefficientSet.slots] using hw)
      show Distinct ((w1.coeffSets ++ [r.1]).flatMap CoefficientSet.slots) w1.heap.length
      rw [show w1.coeffSets = w.coeffSets from hin.1, List.flatMap_append]
      simpa using hd
    | exit e w1 =>
      rw [h] at hin
      rw [bind_exit h]
      show Distinct (w1.coeffSets.flatMap CoefficientSet.slots) w1.heap.length
      rw [show w1.coeffSets = w.coeffSets from hin.1]
      exact distinct_of_le hw (List.IsPrefix.length_le hin.2)

theorem readCoeffs_distinct (dev : USBDevice σ) (qt : QtNumeric D) (fuel : Nat)
    (total_coeffs : Int) (name : String) (coeffs : List String) (set : CoefficientSet)
    (read_coeffs : Int) (w w1 : CalDevice σ D) (r : CoefficientSet × Int)
    (h : loadCoefficientSetsThreadFast.readCoeffs dev qt fuel total_coeffs name coeffs set
      read_coeffs w = .ok r w1) (base : List Ptr)
    (hd : Distinct (base ++ set.slots) w.heap.length) :
    Distinct (base ++ r.1.slots) w1.heap.length := by
  induction coeffs generalizing set read_coeffs w with
  | nil =>
    cases h
    exact hd
  | cons coeff coeffs ih =>
    unfold loadCoefficientSetsThreadFast.readCoeffs at h
    obtain ⟨c, w2, h1, h2⟩ := bind_eq_ok h
    obtain ⟨b, w3, h3, h4⟩ := bind_eq_ok h2
    obtain ⟨a1, a2⟩ := createCoefficientFast_fresh _ _ _ _ _ _ _ _ h1
    cases b with
    | true => cases h4
    | false =>
      simp only [Bool.false_eq_true, if_false] at h4
      obtain ⟨-, -, -, hh3⟩ := readAbortLoading_false h3
      split at h4
      · cases h4
      · obtain ⟨u, w4, h5, h6⟩ := bind_eq_ok h4
        cases h5
        refine ih _ _ _ h6 ?_
        show Distinct (base ++ (loadCoefficientSetsThreadFast.store set coeff c).slots)
          w3.heap.length
        rw [hh3]
        unfold loadCoefficientSetsThreadFast.store
        split
        · exact distinct_store_open hd a1 a2
        · split
          · exact distinct_store_short hd a1 a2
          · split
            · exact distinct_store_load hd a1 a2
            · split
              · exact distinct_store_through hd a1 a2
              · exact distinct_of_le hd (le_of_lt (lt_of_le_of_lt a1 a2))

/-- The loop over the sets of the streaming strategy, however it ends, keeps the slots of the
collection at distinct addresses that hold objects. -/
theorem readSetsFast_distinct (dev : USBDevice σ) (qt : QtNumeric D) (fuel : Nat)
    (total_coeffs : Int) (numPorts : Int) (coeffNames names : List String) (read_coeffs : Int)
    (w : CalDevice σ D) (hw : SlotsDistinct w) :
    SlotsDistinct
      (loadCoefficientSetsThreadFast.readSets dev qt fuel total_coeffs numPorts coeffNames names
        read_coeffs w).state := by
  induction names generalizing read_coeffs w with
  | nil => exact hw
  | cons name names ih =>
    unfold loadCoefficientSetsThreadFast.readSets
    have hin := inner_readCoeffs dev qt fuel total_coeffs name coeffNames
      { name := name, ports := numPorts, opens := [], shorts := [], loads := [],
        throughs := [] } read_coeffs w
    cases h : loadCoefficientSetsThreadFast.readCoeffs dev qt fuel total_coeffs name coeffNames
        { name := name, ports := numPorts, opens := [], shorts := [], loads := [],
          throughs := [] } read_coeffs w with
    | ok r w1 =>
      rw [h] at hin
      rw [bind_ok h, bind_ok (show pushCoeffSet r.1 w1 = _ from rfl)]
      apply ih
      have hd := readCoeffs_distinct _ _ _ _ _ _ _ _ _ _ _ h
        (w.coeffSets.flatMap CoefficientSet.slots)
        (by simpa [CoefficientSet.slots] using hw)
      show Distinct ((w1.coeffSets ++ [r.1]).flatMap CoefficientSet.slots) w1.heap.length
      rw [show w1.coeffSets = w.coeffSets from hin.1, List.flatMap_append]
      simpa using hd
    | exit e w1 =>
      rw [h] at hin
      rw [bind_exit h]
      show Distinct (w1.coeffSets.flatMap CoefficientSet.slots) w1.heap.length
      rw [show w1.coeffSets = w.coeffSets from hin.1]
      exact distinct_of_le hw (List.IsPrefix.length_le hin.2)

theorem distinct_of_inner {α : Type} {m : M σ D α} (hin : Inner m) (w : CalDevice σ D)
    (hw : SlotsDistinct w) : SlotsDistinct (m w).state := by
  show Distinct ((m w).state.coeffSets.flatMap CoefficientSet.slots) (m w).state.heap.length
  rw [(hin w).1]
  exact distinct_of_le hw (List.IsPrefix.length_le (hin w).2)

theorem distinct_bind {α β : Type} {m : M σ D α} {f : α → M σ D β}
    (hm : ∀ w, SlotsDistinct w → SlotsDistinct (m w).state)
    (hf : ∀ a w, SlotsDistinct w → SlotsDistinct (f a w).state)
    (w : CalDevice σ D) (hw : SlotsDistinct w) : SlotsDistinct ((m >>= f) w).state := by
  have h1 := hm w hw
  cases h : m w with
  | ok a w1 =>
    rw [bind_ok h]
    rw [h] at h1
    exact hf a w1 h1
  | exit e w1 =>
    rw [bind_exit h]
    rw [h] at h1
    exact h1

theorem distinct_of_rest (dev : USBDevice σ) (names : List String) (w : CalDevice σ D)
    (rest : List String → Int → M σ D Unit) (hw : SlotsDistinct w)
    (hrest : ∀ l w1, SlotsDistinct w1 → SlotsDistinct (rest l w.numPorts w1).state) :
    SlotsDistinct ((do
        let coeffList ← getCoefficientSetNames dev
        if coeffList.isEmpty then
          emit (.updateCoefficientsDone false)
          leave .returned
        else if names.length > 0 ∧ ¬ names.all (fun n => coeffList.contains n) then
          emit (.updateCoefficientsDone false)
          leave .returned
        else
          let coeffList := if names.length > 0 then names else coeffList
          let numPorts ← readNumPorts
          rest coeffList numPorts : M σ D Unit) w).state := by
  have hq : SlotsDistinct
      ({ w with usb := (dev.Query ":COEFF:LIST?" w.usb).2, io := w.io ++ [.query ":COEFF:LIST?"] }
        : CalDevice σ D) := hw
  have hq2 : SlotsDistinct
      ({ w with
          usb := (dev.Query ":COEFF:LIST?" w.usb).2
          io := w.io ++ [.query ":COEFF:LIST?"]
          signals := w.signals ++ [.updateCoefficientsDone false] } : CalDevice σ D) := hw
  rw [bind_ok (getCoefficientSetNames_apply dev w)]
  by_cases hs : startsWith (dev.Query ":COEFF:LIST?" w.usb).1 "FACTORY" = true
  · simp only [hs, if_true]
    split
    · exact hq2
    · split
      · exact hq2
      · rw [bind_apply]
        exact hrest _ _ hq
  · simp only [hs, Bool.false_eq_true, if_false, List.isEmpty_nil, if_true]
    exact hq2

/-- However a load ends, no two slots of the collection hold the same address, and every slot
holds the address of an object: each call of the lambda `createCoefficient` creates a new
object. -/
theorem loadCoefficientSets_distinct (dev : USBDevice σ) (qt : QtNumeric D) (fuel : Nat)
    (names : List String) (fast : Bool) (w : CalDevice σ D) :
    SlotsDistinct (loadCoefficientSets dev qt fuel names fast w).state := by
  have h0 : SlotsDistinct ({ w with coeffSets := [], abortLoading := false } : CalDevice σ D) :=
    ⟨List.nodup_nil, fun c hc => absurd hc (List.not_mem_nil _)⟩
  unfold loadCoefficientSets
  cases fast
  · simp only [Bool.false_eq_true, if_false]
    unfold loadCoefficientSetsThreadSlow
    refine distinct_of_rest dev names { w with coeffSets := [], abortLoading := false }
      (fun coeffList numPorts => do
        let totalPoints ← loadCoefficientSetsThreadSlow.totalSets dev qt numPorts coeffList 0
        loadCoefficientSetsThreadSlow.readSets dev qt totalPoints numPorts coeffList
          { readPoints := 0, lastPercentage := 0 }
        emit (.updateCoefficientsDone true)) h0 ?_
    intro l w1 hw1
    refine distinct_bind (fun w2 => distinct_of_inner (inner_totalSets _ _ _ _ _) w2)
      (fun tp => distinct_bind (fun w2 h2 => readSetsSlow_distinct _ _ _ _ _ _ w2 h2)
        (fun _ w2 => distinct_of_inner (inner_emit _) w2)) w1 hw1
  · simp only [if_true]
    unfold loadCoefficientSetsThreadFast
    refine distinct_of_rest dev names { w with coeffSets := [], abortLoading := false }
      (fun coeffList numPorts => do
        loadCoefficientSetsThreadFast.readSets dev qt fuel
          ((loadCoefficientSetsThreadFast.coeffNames numPorts).length * (names.length : Int))
          numPorts (loadCoefficientSetsThreadFast.coeffNames numPorts) coeffList 0
        emit (.updateCoefficientsDone true)) h0 ?_
    intro l w1 hw1
    exact distinct_bind (fun w2 h2 => readSetsFast_distinct _ _ _ _ _ _ _ _ w2 h2)
      (fun _ w2 => distinct_of_inner (inner_emit _) w2) w1 hw1

end CalDevice
namespace CalDevice

open QString

variable {σ D : Type}

/-! ## The port count during a load -/

theorem samePorts_bind {α β : Type} {m : M σ D α} {f : α → M σ D β} (hm : SamePorts m)
    (hf : ∀ a, SamePorts (f a)) : SamePorts (m >>= f) := by
  intro w
  have h1 := hm w
  cases h : m w with
  | ok a w1 =>
    rw [bind_ok h]
    rw [h] at h1
    exact (hf a w1).trans h1
  | exit e w1 =>
    rw [bind_exit h]
    rw [h] at h1
    exact h1

theorem samePorts_pure {α : Type} (a : α) : SamePorts (pure a : M σ D α) := fun _ => rfl

theorem samePorts_leave {α : Type} (e : Exit) : SamePorts (leave e : M σ D α) := fun _ => rfl

theorem samePorts_emit (s : Signal) : SamePorts (emit s : M σ D Unit) := fun _ => rfl

theorem samePorts_Query (dev : USBDevice σ) (cmd : String) :
    SamePorts (Query dev cmd : M σ D String) := fun _ => rfl

theorem samePorts_send (dev : USBDevice σ) (cmd : String) :
    SamePorts (send dev cmd : M σ D Unit) := fun _ => rfl

theorem samePorts_receive (dev : USBDevice σ) :
    SamePorts (receive dev : M σ D (Option String)) := fun _ => rfl

theorem samePorts_readNumPorts : SamePorts (readNumPorts : M σ D Int) := fun _ => rfl

theorem samePorts_alloc (c : CoefficientSet.Coefficient D) :
    SamePorts (alloc c : M σ D Ptr) := fun _ => rfl

theorem samePorts_pushCoeffSet (set : CoefficientSet) :
    SamePorts (pushCoeffSet set : M σ D Unit) := fun _ => rfl

theorem samePorts_readAbortLoading : SamePorts (readAbortLoading : M σ D Bool) := by
  intro w
  unfold readAbortLoading
  split
  · rfl
  · split <;> rfl

theorem samePorts_ite {α : Type} {c : Prop} [Decidable c] {x y : M σ D α} (hx : SamePorts x)
    (hy : SamePorts y) : SamePorts (if c then x else y) := by
  split
  · exact hx
  · exact hy

theorem samePorts_readSamples (dev : USBDevice σ) (qt : QtNumeric D) (totalPoints : Nat)
    (setName paramName : String) (n : Nat) (i : Int) (t : Touchstone D) (pr : SlowProgress) :
    SamePorts (loadCoefficientSetsThreadSlow.readSamples dev qt totalPoints setName paramName n i
      t pr) := by
  induction n generalizing i t pr with
  | zero => exact samePorts_pure _
  | succ n ih =>
    unfold loadCoefficientSetsThreadSlow.readSamples
    refine samePorts_bind samePorts_readAbortLoading
      (fun b => samePorts_ite (samePorts_pure _) ?_)
    refine samePorts_bind (samePorts_Query _ _) (fun pString => ?_)
    cases t.AddDatapoint (parseDatapoint qt (split pString ',')) with
    | none => exact samePorts_leave _
    | some t1 =>
      exact samePorts_ite (samePorts_leave _)
        (samePorts_ite (samePorts_bind (samePorts_emit _) (fun _ => ih _ _ _)) (ih _ _ _))

theorem samePorts_createCoefficientSlow (dev : USBDevice σ) (qt : QtNumeric D)
    (totalPoints : Nat) (setName paramName : String) (pr : SlowProgress) :
    SamePorts (loadCoefficientSetsThreadSlow.createCoefficient dev qt totalPoints setName
      paramName pr) := by
  unfold loadCoefficientSetsThreadSlow.createCoefficient
  exact samePorts_bind (samePorts_Query _ _) (fun _ =>
    samePorts_bind (samePorts_readSamples _ _ _ _ _ _ _ _ _) (fun _ =>
      samePorts_bind (samePorts_alloc _) (fun _ => samePorts_pure _)))

theorem samePorts_readThroughs (dev : USBDevice σ) (qt : QtNumeric D) (totalPoints : Nat)
    (name : String) (i : Int) (js : List Int) (set : CoefficientSet) (pr : SlowProgress) :
    SamePorts (loadCoefficientSetsThreadSlow.readThroughs dev qt totalPoints name i js set
      pr) := by
  induction js generalizing set pr with
  | nil => exact samePorts_pure _
  | cons j js ih =>
    unfold loadCoefficientSetsThreadSlow.readThroughs
    exact samePorts_bind (samePorts_createCoefficientSlow _ _ _ _ _ _) (fun _ => ih _ _)

theorem samePorts_readPorts (dev : USBDevice σ) (qt : QtNumeric D) (totalPoints : Nat)
    (numPorts : Int) (name : String) (ports : List Int) (set : CoefficientSet)
    (pr : SlowProgress) :
    SamePorts (loadCoefficientSetsThreadSlow.readPorts dev qt totalPoints numPorts name ports set
      pr) := by
  induction ports generalizing set pr with
  | nil => exact samePorts_pure _
  | cons i ports ih =>
    unfold loadCoefficientSetsThreadSlow.readPorts
    exact samePorts_bind (samePorts_createCoefficientSlow _ _ _ _ _ _) (fun _ =>
      samePorts_bind (samePorts_createCoefficientSlow _ _ _ _ _ _) (fun _ =>
        samePorts_bind (samePorts_createCoefficientSlow _ _ _ _ _ _) (fun _ =>
          samePorts_bind (samePorts_readThroughs _ _ _ _ _ _ _ _) (fun _ =>
            samePorts_bind samePorts_readAbortLoading (fun _ =>
              samePorts_ite (samePorts_leave _) (ih _ _))))))

theorem samePorts_readSetsSlow (dev : USBDevice σ) (qt : QtNumeric D) (totalPoints : Nat)
    (numPorts : Int) (names : List String) (pr : SlowProgress) :
    SamePorts (loadCoefficientSetsThreadSlow.readSets dev qt totalPoints numPorts names pr) := by
  induction names generalizing pr with
  | nil => exact samePorts_pure _
  | cons name names ih =>
    unfold loadCoefficientSetsThreadSlow.readSets
    exact samePorts_bind (samePorts_readPorts _ _ _ _ _ _ _ _) (fun _ =>
      samePorts_bind (samePorts_pushCoeffSet _) (fun _ => ih _))

theorem samePorts_totalThroughs (dev : USBDevice σ) (qt : QtNumeric D) (name : String) (i : Int)
    (js : List Int) (totalPoints : Nat) :
    SamePorts (loadCoefficientSetsThreadSlow.totalThroughs dev qt name i js totalPoints) := by
  induction js generalizing totalPoints with
  | nil => exact samePorts_pure _
  | cons j js ih =>
    unfold loadCoefficientSetsThreadSlow.totalThroughs
    exact samePorts_bind (samePorts_Query _ _) (fun _ => ih _)

theorem samePorts_totalPorts (dev : USBDevice σ) (qt : QtNumeric D) (numPorts : Int)
    (name : String) (ports : List Int) (totalPoints : Nat) :
    SamePorts (loadCoefficientSetsThreadSlow.totalPorts dev qt numPorts name ports
      totalPoints) := by
  induction ports generalizing totalPoints with
  | nil => exact samePorts_pure _
  | cons i ports ih =>
    unfold loadCoefficientSetsThreadSlow.totalPorts
    exact samePorts_bind samePorts_readAbortLoading (fun _ => samePorts_ite (samePorts_leave _)
      (samePorts_bind (samePorts_Query _ _) (fun _ => samePorts_bind (samePorts_Query _ _)
        (fun _ => samePorts_bind (samePorts_Query _ _) (fun _ =>
          samePorts_bind (samePorts_totalThroughs _ _ _ _ _ _) (fun _ => ih _))))))

theorem samePorts_totalSets (dev : USBDevice σ) (qt : QtNumeric D) (numPorts : Int)
    (names : List String) (totalPoints : Nat) :
    SamePorts (loadCoefficientSetsThreadSlow.totalSets dev qt numPorts names totalPoints) := by
  induction names generalizing totalPoints with
  | nil => exact samePorts_pure _
  | cons name names ih =>
    unfold loadCoefficientSetsThreadSlow.totalSets
    exact samePorts_bind (samePorts_totalPorts _ _ _ _ _ _) (fun _ => ih _)

theorem samePorts_getCoefficientSetNames (dev : USBDevice σ) :
    SamePorts (getCoefficientSetNames dev : M σ D (List String)) := by
  unfold getCoefficientSetNames
  exact samePorts_bind (samePorts_Query _ _) (fun _ =>
    samePorts_ite (samePorts_pure _) (samePorts_pure _))

theorem samePorts_loadCoefficientSetsThreadSlow (dev : USBDevice σ) (qt : QtNumeric D)
    (names : List String) : SamePorts (loadCoefficientSetsThreadSlow dev qt names) := by
  unfold loadCoefficientSetsThreadSlow
  refine samePorts_bind (samePorts_getCoefficientSetNames dev) (fun coeffList => ?_)
  refine samePorts_ite (samePorts_bind (samePorts_emit _) (fun _ => samePorts_leave _))
    (samePorts_ite (samePorts_bind (samePorts_emit _) (fun _ => samePorts_leave _)) ?_)
  refine samePorts_bind samePorts_readNumPorts (fun numPorts => ?_)
  refine samePorts_bind (samePorts_totalSets _ _ _ _ _) (fun totalPoints => ?_)
  exact samePorts_bind (samePorts_readSetsSlow _ _ _ _ _ _) (fun _ => samePorts_emit _)

theorem samePorts_receiveLines (dev : USBDevice σ) (qt : QtNumeric D) (fuel : Nat)
    (t : Touchstone D) :
    SamePorts (loadCoefficientSetsThreadFast.receiveLines dev qt fuel t) := by
  induction fuel generalizing t with
  | zero => exact samePorts_leave _
  | succ fuel ih =>
    unfold loadCoefficientSetsThreadFast.receiveLines
    refine samePorts_bind (samePorts_receive _) (fun r => ?_)
    cases r with
    | none => exact samePorts_pure _
    | some line =>
      refine samePorts_ite (samePorts_pure _)
        (samePorts_ite (ih _) (samePorts_ite (samePorts_pure _) ?_))
      cases t.AddDatapoint (parseDatapoint qt (split line ' ')) with
      | none => exact samePorts_pure _
      | some t1 => exact ih _

theorem samePorts_createCoefficientFast (dev : USBDevice σ) (qt : QtNumeric D) (fuel : Nat)
    (setName paramName : String) :
    SamePorts (loadCoefficientSetsThreadFast.createCoefficient dev qt fuel setName
      paramName) := by
  unfold loadCoefficientSetsThreadFast.createCoefficient
  exact samePorts_bind (samePorts_send _ _) (fun _ =>
    samePorts_bind (samePorts_receiveLines _ _ _ _) (fun _ => samePorts_alloc _))

theorem samePorts_readCoeffs (dev : USBDevice σ) (qt : QtNumeric D) (fuel : Nat)
    (total_coeffs : Int) (name : String) (coeffs : List String) (set : CoefficientSet)
    (read_coeffs : Int) :
    SamePorts (loadCoefficientSetsThreadFast.readCoeffs dev qt fuel total_coeffs name coeffs set
      read_coeffs) := by
  induction coeffs generalizing set read_coeffs with
  | nil => exact samePorts_pure _
  | cons coeff coeffs ih =>
    unfold loadCoefficientSetsThreadFast.readCoeffs
    exact samePorts_bind (samePorts_createCoefficientFast _ _ _ _ _) (fun _ =>
      samePorts_bind samePorts_readAbortLoading (fun _ => samePorts_ite (samePorts_leave _)
        (samePorts_ite (samePorts_leave _)
          (samePorts_bind (samePorts_emit _) (fun _ => ih _ _)))))

theorem samePorts_readSetsFast (dev : USBDevice σ) (qt : QtNumeric D) (fuel : Nat)
    (total_coeffs : Int) (numPorts : Int) (coeffNames : List String) (names : List String)
    (read_coeffs : Int) :
    SamePorts (loadCoefficientSetsThreadFast.readSets dev qt fuel total_coeffs numPorts
      coeffNames names read_coeffs) := by
  induction names generalizing read_coeffs with
  | nil => exact samePorts_pure _
  | cons name names ih =>
    unfold loadCoefficientSetsThreadFast.readSets
    exact samePorts_bind (samePorts_readCoeffs _ _ _ _ _ _ _ _) (fun _ =>
      samePorts_bind (samePorts_pushCoeffSet _) (fun _ => ih _))

theorem samePorts_loadCoefficientSetsThreadFast (dev : USBDevice σ) (qt : QtNumeric D)
    (fuel : Nat) (names : List String) :
    SamePorts (loadCoefficientSetsThreadFast dev qt fuel names) := by
  unfold loadCoefficientSetsThreadFast
  refine samePorts_bind (samePorts_getCoefficientSetNames dev) (fun coeffList => ?_)
  refine samePorts_ite (samePorts_bind (samePorts_emit _) (fun _ => samePorts_leave _))
    (samePorts_ite (samePorts_bind (samePorts_emit _) (fun _ => samePorts_leave _)) ?_)
  refine samePorts_bind samePorts_readNumPorts (fun numPorts => ?_)
  exact samePorts_bind (samePorts_readSetsFast _ _ _ _ _ _ _ _) (fun _ => samePorts_emit _)

/-- A load leaves the port count as it is. -/
theorem samePorts_loadCoefficientSets (dev : USBDevice σ) (qt : QtNumeric D) (fuel : Nat)
    (names : List String) (fast : Bool) :
    SamePorts (loadCoefficientSets dev qt fuel names fast) := by
  intro w
  unfold loadCoefficientSets
  cases fast
  · simp only [Bool.false_eq_true, if_false]
    exact samePorts_loadCoefficientSetsThreadSlow dev qt names _
  · simp only [if_true]
    exact samePorts_loadCoefficientSetsThreadFast dev qt fuel names _

/-- Client code that replaces the response of a slot or sets its flag leaves the collection, the
port count and the addresses of the objects as they are. -/
theorem edit_keeps_slots (c : Ptr) (t : Touchstone D) (b : Bool) (w : CalDevice σ D) :
    ((setResponse c t w).state.coeffSets = w.coeffSets ∧
      (setResponse c t w).state.numPorts = w.numPorts ∧
      (setResponse c t w).state.heap.length = w.heap.length) ∧
    ((setModified c b w).state.coeffSets = w.coeffSets ∧
      (setModified c b w).state.numPorts = w.numPorts ∧
      (setModified c b w).state.heap.length = w.heap.length) := by
  unfold setResponse setModified
  constructor
  · cases w.heap[c]? with
    | none => exact ⟨rfl, rfl, rfl⟩
    | some co => exact ⟨rfl, rfl, by simp [Res.state]⟩
  · cases w.heap[c]? with
    | none => exact ⟨rfl, rfl, rfl⟩
    | some co => exact ⟨rfl, rfl, by simp [Res.state]⟩

/-- The state that a load leaves, however the load ends: the port count is as before, every set
of the collection has all its slots, every slot holds the address of an object, and no two slots
hold the same address, so that the slots that the save thread visits are at distinct addresses.
Only `addCoefficientSet` makes a set whose slots share an object. -/
theorem loaded_slots_are_distinct (dev : USBDevice σ) (qt : QtNumeric D) (fuel : Nat)
    (names : List String) (fast : Bool) (w : CalDevice σ D) (hN : 0 ≤ w.numPorts) :
    (loadCoefficientSets dev qt fuel names fast w).state.numPorts = w.numPorts ∧
    (∀ set ∈ (loadCoefficientSets dev qt fuel names fast w).state.coeffSets,
      HasAllSlots (loadCoefficientSets dev qt fuel names fast w).state.numPorts set) ∧
    Valid (loadCoefficientSets dev qt fuel names fast w).state ∧
    ((loadCoefficientSets dev qt fuel names fast w).state.coeffSets.flatMap
      CoefficientSet.slots).Nodup ∧
    ((saveOrder (loadCoefficientSets dev qt fuel names fast w).state.numPorts
      (loadCoefficientSets dev qt fuel names fast w).state.coeffSets).map
        (fun x => x.2.2)).Nodup := by
  have hp := samePorts_loadCoefficientSets dev qt fuel names fast w
  have hd := loadCoefficientSets_distinct dev qt fuel names fast w
  have hs : ∀ set ∈ (loadCoefficientSets dev qt fuel names fast w).state.coeffSets,
      HasAllSlots (loadCoefficientSets dev qt fuel names fast w).state.numPorts set := by
    intro set hset
    rw [hp]
    exact ((loadCoefficientSets_filled dev qt fuel names fast w).2 set hset).hasAllSlots hN
  refine ⟨hp, hs, ?_, hd.1, (saveOrder_nodup_iff _ _ hs).mpr hd.1⟩
  intro set hset c hc
  exact hd.2 c (List.mem_flatMap.mpr ⟨set, hset, hc⟩)

end CalDevice
namespace CalDevice

open QString

variable {σ D : Type}

/-! ## The invariant of the collection -/

theorem sameSize_bind {α β : Type} {m : M σ D α} {f : α → M σ D β} (hm : SameSize m)
    (hf : ∀ a, SameSize (f a)) : SameSize (m >>= f) := by
  intro w
  have h1 := hm w
  cases h : m w with
  | ok a w1 =>
    rw [bind_ok h]
    rw [h] at h1
    exact (hf a w1).trans h1
  | exit e w1 =>
    rw [bind_exit h]
    rw [h] at h1
    exact h1

theorem sameSize_pure {α : Type} (a : α) : SameSize (pure a : M σ D α) := fun _ => rfl

theorem sameSize_leave {α : Type} (e : Exit) : SameSize (leave e : M σ D α) := fun _ => rfl

theorem sameSize_emit (s : Signal) : SameSize (emit s : M σ D Unit) := fun _ => rfl

theorem sameSize_Cmd (dev : USBDevice σ) (cmd : String) :
    SameSize (Cmd dev cmd : M σ D Bool) := fun _ => rfl

theorem sameSize_readNumPorts : SameSize (readNumPorts : M σ D Int) := fun _ => rfl

theorem sameSize_readCoeffSets : SameSize (readCoeffSets : M σ D (List CoefficientSet)) :=
  fun _ => rfl

theorem sameSize_deref (c : Ptr) :
    SameSize (deref c : M σ D (CoefficientSet.Coefficient D)) := by
  intro w
  unfold deref
  split <;> rfl

theorem sameSize_setModified (c : Ptr) (b : Bool) :
    SameSize (setModified c b : M σ D Unit) := by
  intro w
  unfold setModified
  split
  · simp [Res.state]
  · rfl

theorem sameSize_setResponse (c : Ptr) (t : Touchstone D) :
    SameSize (setResponse c t : M σ D Unit) := by
  intro w
  unfold setResponse
  split
  · simp [Res.state]
  · rfl

theorem sameSize_vectorAt (v : List Ptr) (i : Int) : SameSize (vectorAt v i : M σ D Ptr) := by
  intro w
  unfold vectorAt
  split
  · split <;> rfl
  · rfl

theorem sameSize_ite {α : Type} {c : Prop} [Decidable c] {x y : M σ D α} (hx : SameSize x)
    (hy : SameSize y) : SameSize (if c then x else y) := by
  split
  · exact hx
  · exact hy

theorem sameSize_addPoints (dev : USBDevice σ) (qt : QtNumeric D) (totalPoints : Nat)
    (points : List (Touchstone.Datapoint D)) (pr : SaveProgress) :
    SameSize (saveCoefficientSetsThread.addPoints dev qt totalPoints points pr) := by
  induction points generalizing pr with
  | nil => exact sameSize_pure _
  | cons point points ih =>
    unfold saveCoefficientSetsThread.addPoints
    exact sameSize_bind (sameSize_Cmd _ _) (fun _ => sameSize_ite (sameSize_pure _)
      (sameSize_ite (sameSize_leave _)
        (sameSize_ite (sameSize_bind (sameSize_emit _) (fun _ => ih _)) (ih _))))

theorem sameSize_createCoefficientSave (dev : USBDevice σ) (qt : QtNumeric D)
    (totalPoints : Nat) (setName paramName : String) (c : Ptr) (pr : SaveProgress) :
    SameSize (saveCoefficientSetsThread.createCoefficient dev qt totalPoints setName paramName c
      pr) := by
  unfold saveCoefficientSetsThread.createCoefficient
  exact sameSize_bind (sameSize_deref _) (fun _ => sameSize_ite (sameSize_pure _) (sameSize_ite
    (sameSize_bind (sameSize_Cmd _ _) (fun _ => sameSize_ite (sameSize_pure _)
      (sameSize_bind (sameSize_addPoints _ _ _ _ _) (fun _ => sameSize_ite (sameSize_pure _)
        (sameSize_bind (sameSize_Cmd _ _) (fun _ => sameSize_ite (sameSize_pure _)
          (sameSize_bind (sameSize_setModified _ _) (fun _ => sameSize_pure _))))))))
    (sameSize_bind (sameSize_Cmd _ _) (fun _ => sameSize_ite (sameSize_pure _)
      (sameSize_bind (sameSize_setModified _ _) (fun _ => sameSize_pure _))))))

theorem sameSize_saveThroughs (dev : USBDevice σ) (qt : QtNumeric D) (totalPoints : Nat)
    (set : CoefficientSet) (i : Int) (js : List Int) (success : Bool) (pr : SaveProgress) :
    SameSize (saveCoefficientSetsThread.saveThroughs dev qt totalPoints set i js success
      pr) := by
  induction js generalizing success pr with
  | nil => exact sameSize_pure _
  | cons j js ih =>
    unfold saveCoefficientSetsThread.saveThroughs
    split
    · exact sameSize_leave _
    · exact sameSize_leave _
    · exact sameSize_bind (sameSize_createCoefficientSave _ _ _ _ _ _ _) (fun _ => ih _ _)

theorem sameSize_savePorts (dev : USBDevice σ) (qt : QtNumeric D) (totalPoints : Nat)
    (numPorts : Int) (set : CoefficientSet) (is : List Int) (success : Bool)
    (pr : SaveProgress) :
    SameSize (saveCoefficientSetsThread.savePorts dev qt totalPoints numPorts set is success
      pr) := by
  induction is generalizing success pr with
  | nil => exact sameSize_pure _
  | cons i is ih =>
    unfold saveCoefficientSetsThread.savePorts
    exact sameSize_bind (sameSize_vectorAt _ _) (fun _ =>
      sameSize_bind (sameSize_createCoefficientSave _ _ _ _ _ _ _) (fun _ =>
      sameSize_bind (sameSize_vectorAt _ _) (fun _ =>
      sameSize_bind (sameSize_createCoefficientSave _ _ _ _ _ _ _) (fun _ =>
      sameSize_bind (sameSize_vectorAt _ _) (fun _ =>
      sameSize_bind (sameSize_createCoefficientSave _ _ _ _ _ _ _) (fun _ =>
      sameSize_bind (sameSize_saveThroughs _ _ _ _ _ _ _ _) (fun _ => ih _ _)))))))

theorem sameSize_saveSets (dev : USBDevice σ) (qt : QtNumeric D) (totalPoints : Nat)
    (numPorts : Int) (sets : List CoefficientSet) (success : Bool) (pr : SaveProgress) :
    SameSize (saveCoefficientSetsThread.saveSets dev qt totalPoints numPorts sets success
      pr) := by
  induction sets generalizing success pr with
  | nil => exact sameSize_pure _
  | cons set sets ih =>
    unfold saveCoefficientSetsThread.saveSets
    exact sameSize_bind (sameSize_savePorts _ _ _ _ _ _ _ _) (fun _ => ih _ _)

theorem sameSize_totalOf (cs : List Ptr) (totalPoints : Nat) :
    SameSize (saveCoefficientSetsThread.totalOf cs totalPoints : M σ D Nat) := by
  induction cs generalizing totalPoints with
  | nil => exact sameSize_pure _
  | cons c cs ih =>
    unfold saveCoefficientSetsThread.totalOf
    exact sameSize_bind (sameSize_deref _) (fun _ => sameSize_ite (ih _) (ih _))

theorem sameSize_totalSetsSave (sets : List CoefficientSet) (totalPoints : Nat) :
    SameSize (saveCoefficientSetsThread.totalSets sets totalPoints : M σ D Nat) := by
  induction sets generalizing totalPoints with
  | nil => exact sameSize_pure _
  | cons set sets ih =>
    unfold saveCoefficientSetsThread.totalSets
    exact sameSize_bind (sameSize_totalOf _ _) (fun _ => sameSize_bind (sameSize_totalOf _ _)
      (fun _ => sameSize_bind (sameSize_totalOf _ _) (fun _ =>
        sameSize_bind (sameSize_totalOf _ _) (fun _ => ih _))))

/-- A save creates no object, however it ends. -/
theorem sameSize_saveCoefficientSets (dev : USBDevice σ) (qt : QtNumeric D) :
    SameSize (saveCoefficientSets dev qt) := by
  intro w
  unfold saveCoefficientSets
  split
  · rfl
  · unfold saveCoefficientSetsThread
    exact sameSize_bind sameSize_readCoeffSets (fun _ =>
      sameSize_bind (sameSize_totalSetsSave _ _) (fun _ =>
        sameSize_bind sameSize_readNumPorts (fun _ =>
          sameSize_bind (sameSize_saveSets _ _ _ _ _ _ _) (fun _ => sameSize_emit _)))) w

/-- Code that leaves the collection and the port count as they are and creates no object keeps
the invariant of the collection and the distinctness of the slots. -/
theorem wellFormed_of_keeps {α : Type} {m : M σ D α} (hk : Keeps m) (hs : SameSize m)
    (w : CalDevice σ D) :
    (WellFormed w → WellFormed (m w).state) ∧ (SlotsDistinct w → SlotsDistinct (m w).state) := by
  obtain ⟨e1, e2⟩ := hk w
  have e3 := hs w
  constructor
  · intro h
    unfold WellFormed Valid at h ⊢
    rw [e1, e2, e3]
    exact h
  · intro h
    unfold SlotsDistinct at h ⊢
    rw [e1, e3]
    exact h

theorem keeps_setResponse (c : Ptr) (t : Touchstone D) :
    Keeps (setResponse c t : M σ D Unit) := by
  intro w
  unfold setResponse
  split <;> exact ⟨rfl, rfl⟩

/-- The invariant of the collection holds in every state that the program builds. It holds of a
`CalDevice` with an empty collection; a load, however it ends, establishes it from any state
with a port count that is not negative, and leaves no two slots with the same address;
`addCoefficientSet` keeps it (and makes slots that share an object); an edit of client code
through a slot (`c->t = t`, `c->modified = b`) and a save keep it and keep the slots
distinct. -/
theorem wellFormed_invariant :
    (∀ (usb : σ) (N : Int) (req : Option Nat), 0 ≤ N →
      WellFormed (fresh usb N req : CalDevice σ D) ∧
      SlotsDistinct (fresh usb N req : CalDevice σ D)) ∧
    (∀ (dev : USBDevice σ) (qt : QtNumeric D) (fuel : Nat) (names : List String) (fast : Bool)
      (w : CalDevice σ D), 0 ≤ w.numPorts →
      WellFormed (loadCoefficientSets dev qt fuel names fast w).state ∧
      SlotsDistinct (loadCoefficientSets dev qt fuel names fast w).state) ∧
    (∀ (init : CoefficientSet.Coefficient D) (name : String) (w : CalDevice σ D),
      WellFormed w → WellFormed ((addCoefficientSet init name : M σ D Unit) w).state) ∧
    (∀ (c : Ptr) (t : Touchstone D) (w : CalDevice σ D),
      (WellFormed w → WellFormed (setResponse c t w).state) ∧
      (SlotsDistinct w → SlotsDistinct (setResponse c t w).state)) ∧
    (∀ (c : Ptr) (b : Bool) (w : CalDevice σ D),
      (WellFormed w → WellFormed (setModified c b w).state) ∧
      (SlotsDistinct w → SlotsDistinct (setModified c b w).state)) ∧
    (∀ (dev : USBDevice σ) (qt : QtNumeric D) (w : CalDevice σ D),
      (WellFormed w → WellFormed (saveCoefficientSets dev qt w).state) ∧
      (SlotsDistinct w → SlotsDistinct (saveCoefficientSets dev qt w).state)) := by
  refine ⟨?_, ?_, ?_, ?_, ?_, ?_⟩
  · intro usb N req hN
    exact ⟨⟨hN, fun set hset => absurd hset (List.not_mem_nil _),
        fun set hset => absurd hset (List.not_mem_nil _)⟩,
      ⟨List.nodup_nil, fun c hc => absurd hc (List.not_mem_nil _)⟩⟩
  · intro dev qt fuel names fast w hN
    obtain ⟨h1, h2, h3, -, -⟩ := loaded_slots_are_distinct dev qt fuel names fast w hN
    exact ⟨⟨by rw [h1]; exact hN, h2, h3⟩, loadCoefficientSets_distinct dev qt fuel names fast w⟩
  · intro init name w ⟨hN, hs, hv⟩
    have hprod : 0 ≤ w.numPorts * (w.numPorts - 1) := by
      rcases Int.lt_or_le 0 w.numPorts with h | h
      · exact mul_nonneg hN (by omega)
      · have : w.numPorts = 0 := by omega
        rw [this]
        norm_num
    have htdiv : (w.numPorts * (w.numPorts - 1)).tdiv 2 = w.numPorts * (w.numPorts - 1) / 2 :=
      Int.tdiv_eq_ediv hprod (by norm_num)
    have hdiv : 0 ≤ w.numPorts * (w.numPorts - 1) / 2 := Int.ediv_nonneg hprod (by norm_num)
    obtain ⟨w1, set, e, e1, -, e3, e4⟩ := addCoefficientSet_spec init name w hN
    have e5 := addCoefficientSet_eq init name w hN (by rw [htdiv]; exact hdiv)
    rw [e] at e5
    rw [e]
    show WellFormed w1
    refine ⟨by rw [e4]; exact hN, ?_, ?_⟩
    · intro s hs1
      rw [e4]
      rw [e1] at hs1
      rcases List.mem_append.mp hs1 with h | h
      · exact hs s h
      · have : s = set := by simpa using h
        rw [this]
        exact e3
    · injection e5 with _ e6
      rw [e6]
      intro s hs1 c hc
      have hs2 : s ∈ w.coeffSets ++
          [{ name := name, ports := w.numPorts,
             opens := List.replicate w.numPorts.toNat (w.heap.length + 2),
             shorts := List.replicate w.numPorts.toNat (w.heap.length + 1),
             loads := List.replicate w.numPorts.toNat w.heap.length,
             throughs := List.replicate ((w.numPorts * (w.numPorts - 1)).tdiv 2).toNat
               (w.heap.length + 3) }] := hs1
      show c < (w.heap ++ [init] ++ [init] ++ [init] ++ [init]).length
      simp only [List.length_append, List.length_singleton]
      rcases List.mem_append.mp hs2 with h | h
      · exact Nat.lt_of_lt_of_le (hv s h c hc) (by omega)
      · have hs3 : s = _ := List.mem_singleton.mp h
        rw [hs3] at hc
        unfold CoefficientSet.slots at hc
        simp only [List.mem_append, List.mem_replicate] at hc
        rcases hc with ((⟨-, h⟩ | ⟨-, h⟩) | ⟨-, h⟩) | ⟨-, h⟩
        · rw [h]
          exact (by omega : w.heap.length + 2 < w.heap.length + 1 + 1 + 1 + 1)
        · rw [h]
          exact (by omega : w.heap.length + 1 < w.heap.length + 1 + 1 + 1 + 1)
        · rw [h]
          exact (by omega : w.heap.length < w.heap.length + 1 + 1 + 1 + 1)
        · rw [h]
          exact (by omega : w.heap.length + 3 < w.heap.length + 1 + 1 + 1 + 1)
  · intro c t w
    exact wellFormed_of_keeps (keeps_setResponse c t) (sameSize_setResponse c t) w
  · intro c b w
    exact wellFormed_of_keeps (keeps_setModified c b) (sameSize_setModified c b) w
  · intro dev qt w
    exact wellFormed_of_keeps (keeps_saveCoefficientSets dev qt) (sameSize_saveCoefficientSets dev qt)
      w

end CalDevice
namespace CalDevice

open QString

variable {σ D : Type}

/-- Two sets of one name do not survive the round trip: the device keeps what it stores under
the name of the set and the identifier of the coefficient. Client code loads `USER1` twice in
one request and makes the open of port 1 of either set dirty, with different samples
(`editSameName`). The save writes both slots under the name `USER1 P1_OPEN`, the second write
replaces the first, and reports success. The load of `USER1` then yields the sample of the
second set; the sample written for the first set is lost. -/
theorem same_name_sets_overwrite_each_other :
    (editSameName (fresh { coeffs := [], current := none, out := [] } 2 none)).state.coeffSets
      = [{ name := "USER1", ports := 2, opens := [0, 4], shorts := [1, 5], loads := [2, 6],
           throughs := [3] },
         { name := "USER1", ports := 2, opens := [7, 11], shorts := [8, 12], loads := [9, 13],
           throughs := [10] }] ∧
    ∀ fast : Bool,
      ((editSameName >>= fun _ =>
          saveThenLoad (storingDevice "FACTORY,USER1") wholeNumbers 100 ["USER1"] fast)
        (fresh { coeffs := [], current := none, out := [] } 2 none)).exit? = none ∧
      commandsOf ((editSameName >>= fun _ =>
          saveThenLoad (storingDevice "FACTORY,USER1") wholeNumbers 100 ["USER1"] fast)
        (fresh { coeffs := [], current := none, out := [] } 2 none)).state.io
        = [":COEFF:CREATE USER1 P1_OPEN", ":COEFF:ADD 1 5 -7", ":COEFF:FIN",
           ":COEFF:CREATE USER1 P1_OPEN", ":COEFF:ADD 2 6 -8", ":COEFF:FIN"] ∧
      ((editSameName >>= fun _ =>
          saveThenLoad (storingDevice "FACTORY,USER1") wholeNumbers 100 ["USER1"] fast)
        (fresh { coeffs := [], current := none, out := [] } 2 none)).state.signals.filter
          (fun s => s == .updateCoefficientsDone true || s == .updateCoefficientsDone false)
        = [.updateCoefficientsDone true, .updateCoefficientsDone true,
           .updateCoefficientsDone true] ∧
      ((editSameName >>= fun _ =>
          saveThenLoad (storingDevice "FACTORY,USER1") wholeNumbers 100 ["USER1"] fast)
        (fresh { coeffs := [], current := none, out := [] } 2 none)).state.coeffSets
        = [{ name := "USER1", ports := 2, opens := [14, 18], shorts := [15, 19],
             loads := [16, 20], throughs := [17] }] ∧
      ((editSameName >>= fun _ =>
          saveThenLoad (storingDevice "FACTORY,USER1") wholeNumbers 100 ["USER1"] fast)
        (fresh { coeffs := [], current := none, out := [] } 2 none)).state.heap[14]?.map
          (fun co => (co.t.filename, co.t.datapoints))
        = some ("LibreCAL/P1_OPEN", [{ frequency := 2000000000, S := [(6, -8)] }]) := by
  decide!

end CalDevice
